import Mathlib

/-!
# Xosera ANSI/VT100 terminal driver (`xosera_ansiterm_m68k.c`)

A shallow embedding of the terminal driver: the session record
`xansiterm_data`, the adapter registers the driver talks to, and every
function of the driver as a Lean function over both.

Machine integers are natural numbers reduced modulo `2^16` (`uint16_t`) or
`2^8` (`uint8_t`) at every store.  A byte handed to the driver is a natural
number below 256; the target's plain `char` is signed, so an ordering test on
a `char` goes through `schar`.

The only loop of the driver whose end depends on the session record is the
`do ... while` of `xansi_clear` (its 16-bit counter wraps when the end address
is `0xFFFF`); every function that can reach it returns an `Option`, `none`
standing for a call that never returns.  The two waits of `xansi_reset` on the
scanline register end on any display that keeps scanning and are kept as one
read of the register.
-/

namespace Xansi

/-! ## Machine arithmetic -/

/-- Truncation to `uint16_t`. -/
def u16 (n : Nat) : Nat := n % 65536

/-- Truncation to `uint8_t`. -/
def u8 (n : Nat) : Nat := n % 256

/-- The `uint16_t` value of `a - b`. -/
def sub16 (a b : Nat) : Nat := (a + (65536 - b % 65536)) % 65536

/-- The `uint8_t` value of `a - b`. -/
def sub8 (a b : Nat) : Nat := (a + (256 - b % 256)) % 256

/-- The value of a byte read as the target's (signed) plain `char`. -/
def schar (c : Nat) : Int := if c % 256 < 128 then (c % 256 : Nat) else ((c % 256 : Nat) : Int) - 256

/-- The `uint8_t` value of `f & ~m`. -/
def bic8 (f m : Nat) : Nat := f &&& (0xFF ^^^ m)

/-! ## Constants of the driver -/

def DEFAULT_COLOR : Nat := 0x02
def MAX_CSI_PARMS : Nat := 16

def TFLAG_NEWLINE : Nat := 1
def TFLAG_NO_AUTOWRAP : Nat := 2
def TFLAG_HIDE_CURSOR : Nat := 4
def TFLAG_UNUSED : Nat := 8
def TFLAG_ATTRIB_BRIGHT : Nat := 16
def TFLAG_ATTRIB_DIM : Nat := 32
def TFLAG_ATTRIB_REVERSE : Nat := 64
def TFLAG_ATTRIB_PASSTHRU : Nat := 128

def TSTATE_NORMAL : Nat := 0
def TSTATE_ILLEGAL : Nat := 1
def TSTATE_ESC : Nat := 2
def TSTATE_CSI : Nat := 3

/-- The table `ansi_to_vga_color` of `xansi_process_csi`. -/
def ansi_to_vga_color : List Nat := [0, 4, 2, 6, 1, 5, 3, 7]

/-- The table `def_colors16` of `set_default_colors`. -/
def def_colors16 : List Nat :=
  [0x0000, 0x000a, 0x00a0, 0x00aa, 0x0a00, 0x0a0a, 0x0a50, 0x0aaa,
   0x0555, 0x055f, 0x05f5, 0x05ff, 0x0f55, 0x0f5f, 0x0ff5, 0x0fff]

/-! ## The adapter

The register numbers and what a read or write of each register does are taken
from the register table of `rtl/sim/xosera_sim.cpp` (`BusInterface`):
`XM_DATA` reads the VRAM word at `XM_RD_ADDR` and adds `XM_RD_INCR`, writes the
VRAM word at `XM_WR_ADDR` and adds `XM_WR_INCR`; `XM_RW_DATA` reads and writes
at `XM_RW_ADDR` and adds `XM_RW_INCR`; `XM_XR_DATA` reads and writes the XR
register at `XM_XR_ADDR`, which is incremented on a write. -/

def XR_SCANLINE : Nat := 0x08
def XR_VID_HSIZE : Nat := 0x0D
def XR_VID_VSIZE : Nat := 0x0E
def XR_PA_GFX_CTRL : Nat := 0x10
def XR_COLOR_MEM : Nat := 0x8000

/-- The adapter as the driver sees it: video memory, the XR register space
and the main registers used by the driver. -/
structure Xosera where
  vram : Nat → Nat
  xr : Nat → Nat
  xr_addr : Nat
  rd_incr : Nat
  rd_addr : Nat
  wr_incr : Nat
  wr_addr : Nat
  rw_incr : Nat
  rw_addr : Nat
  data_hi : Nat
  vid_hsize : Nat
  vid_vsize : Nat
  scanline : Nat
  timer : Nat

/-- The main registers the driver accesses. -/
inductive XM where
  | XR_ADDR | XR_DATA | RD_INCR | RD_ADDR | WR_INCR | WR_ADDR | DATA
  | TIMER | RW_INCR | RW_ADDR | RW_DATA
deriving DecidableEq, Repr

/-- Store of one word in video memory. -/
def vram_store (hw : Xosera) (a w : Nat) : Xosera :=
  { hw with vram := fun i => if i = a then w else hw.vram i }

/-- Store of one word in the XR space; the read-only registers are kept in
fields of their own and are not affected. -/
def xr_store (hw : Xosera) (a w : Nat) : Xosera :=
  { hw with xr := fun i => if i = a then w else hw.xr i }

/-- Read of one word of the XR space. -/
def xr_load (hw : Xosera) (a : Nat) : Nat :=
  if a = XR_VID_HSIZE then hw.vid_hsize
  else if a = XR_VID_VSIZE then hw.vid_vsize
  else if a = XR_SCANLINE then hw.scanline
  else hw.xr a

/-- Word write to a main register: `xm_setw(reg, v)`. -/
def xm_setw (r : XM) (v : Nat) (hw : Xosera) : Xosera :=
  match r with
  | .XR_ADDR => { hw with xr_addr := u16 v }
  | .XR_DATA => { xr_store hw hw.xr_addr (u16 v) with xr_addr := u16 (hw.xr_addr + 1) }
  | .RD_INCR => { hw with rd_incr := u16 v }
  | .RD_ADDR => { hw with rd_addr := u16 v }
  | .WR_INCR => { hw with wr_incr := u16 v }
  | .WR_ADDR => { hw with wr_addr := u16 v }
  | .DATA =>
    { vram_store hw hw.wr_addr (u16 v) with
      wr_addr := u16 (hw.wr_addr + hw.wr_incr), data_hi := u16 v / 256 }
  | .TIMER => hw
  | .RW_INCR => { hw with rw_incr := u16 v }
  | .RW_ADDR => { hw with rw_addr := u16 v }
  | .RW_DATA =>
    { vram_store hw hw.rw_addr (u16 v) with rw_addr := u16 (hw.rw_addr + hw.rw_incr) }

/-- Write of the high byte of `XM_DATA`: `xm_setbh(DATA, b)`; the byte is held
until the low byte is written. -/
def xm_setbh_DATA (b : Nat) (hw : Xosera) : Xosera :=
  { hw with data_hi := u8 b }

/-- Write of the low byte of `XM_DATA`: `xm_setbl(DATA, b)`; stores the word
made of the held high byte and `b` at `XM_WR_ADDR` and adds `XM_WR_INCR`. -/
def xm_setbl_DATA (b : Nat) (hw : Xosera) : Xosera :=
  { vram_store hw hw.wr_addr (hw.data_hi * 256 + u8 b) with
    wr_addr := u16 (hw.wr_addr + hw.wr_incr) }

/-- Word read of a main register: `xm_getw(reg)`, with the adapter after the
read. -/
def xm_getw (r : XM) (hw : Xosera) : Nat × Xosera :=
  match r with
  | .XR_ADDR => (hw.xr_addr, hw)
  | .XR_DATA => (xr_load hw hw.xr_addr, hw)
  | .RD_INCR => (hw.rd_incr, hw)
  | .RD_ADDR => (hw.rd_addr, hw)
  | .WR_INCR => (hw.wr_incr, hw)
  | .WR_ADDR => (hw.wr_addr, hw)
  | .DATA => (hw.vram hw.rd_addr, { hw with rd_addr := u16 (hw.rd_addr + hw.rd_incr) })
  | .TIMER => (hw.timer, hw)
  | .RW_INCR => (hw.rw_incr, hw)
  | .RW_ADDR => (hw.rw_addr, hw)
  | .RW_DATA => (hw.vram hw.rw_addr, { hw with rw_addr := u16 (hw.rw_addr + hw.rw_incr) })

/-- The word copy `xm_setw(DATA, xm_getw(DATA))`. -/
def copy_word (hw : Xosera) : Xosera :=
  let r := xm_getw .DATA hw
  xm_setw .DATA r.1 r.2

/-- The long copy `xm_setl(DATA, xm_getl(DATA))`: two words are read through
`XM_DATA`/`XM_DATA_2`, then both are written. -/
def copy_long (hw : Xosera) : Xosera :=
  let r1 := xm_getw .DATA hw
  let r2 := xm_getw .DATA r1.2
  xm_setw .DATA r2.1 (xm_setw .DATA r1.1 r2.2)

/-- Read of an XR register: `xreg_getw(reg)`. -/
def xreg_getw (reg : Nat) (hw : Xosera) : Nat × Xosera :=
  xm_getw .XR_DATA (xm_setw .XR_ADDR reg hw)

/-- Write of an XR register or XR memory word: `xreg_setw(reg, v)`,
`xmem_setw(addr, v)`. -/
def xreg_setw (reg v : Nat) (hw : Xosera) : Xosera :=
  xm_setw .XR_DATA v (xm_setw .XR_ADDR reg hw)

/-- Modelled from the spec: `xosera_init(config)` is not part of the sources;
the spec gives it as the full mode switch of the adapter between the 640-wide
(`config = 0`) and the 848-wide (`config = 1`) resolution. -/
def xosera_init (config : Nat) (hw : Xosera) : Xosera :=
  { hw with vid_hsize := if config = 0 then 640 else 848 }

/-! ## The session record -/

/-- The record `xansiterm_data`. -/
structure xansiterm_data where
  cur_addr : Nat
  vram_base : Nat
  vram_size : Nat
  vram_end : Nat
  line_len : Nat
  height : Nat
  cursor_save : Nat
  cols : Nat
  rows : Nat
  x : Nat
  y : Nat
  save_x : Nat
  save_y : Nat
  gfx_ctrl : Nat
  tile_ctrl : List Nat
  csi_parms : List Nat
  num_parms : Nat
  intermediate_char : Nat
  cur_font : Nat
  def_color : Nat
  cur_color : Nat
  state : Nat
  flags : Nat
  color : Nat
  lcf : Bool
  save_lcf : Bool
  cursor_drawn : Bool
deriving DecidableEq, Repr

/-- The terminal: the session record together with the adapter it drives. -/
structure Term where
  td : xansiterm_data
  hw : Xosera

/-- Element `i` of a parameter or preset array. -/
def arr_get (a : List Nat) (i : Nat) : Nat := a.getD i 0

/-- Store into element `i` of a parameter or preset array. -/
def arr_set (a : List Nat) (i v : Nat) : List Nat := a.set i v

/-! ## Drawing, clearing, scrolling -/

/-- The function `xansi_calc_addr`. -/
def xansi_calc_addr (td : xansiterm_data) (x y : Nat) : Nat :=
  u16 (td.vram_base + u16 (y * td.cols) + x)

/-- The function `xansi_calc_cur_addr`. -/
def xansi_calc_cur_addr (t : Term) : Term :=
  { t with td := { t.td with cur_addr := xansi_calc_addr t.td t.td.x t.td.y } }

/-- The first loop of `xansi_do_scroll`: four long copies while `i >= 8`.
The counter falls by 8 on every pass, so `fuel = i` passes are never used up. -/
def scroll_loop8 : Nat → Nat → Xosera → Nat × Xosera
  | 0, i, hw => (i, hw)
  | fuel + 1, i, hw =>
    if i ≥ 8 then
      scroll_loop8 fuel (i - 8) (copy_long (copy_long (copy_long (copy_long hw))))
    else (i, hw)

/-- The second loop of `xansi_do_scroll`: one long copy while `i >= 2`. -/
def scroll_loop2 : Nat → Nat → Xosera → Nat × Xosera
  | 0, i, hw => (i, hw)
  | fuel + 1, i, hw =>
    if i ≥ 2 then scroll_loop2 fuel (i - 2) (copy_long hw) else (i, hw)

/-- The loop `for (i = 0; i < n; i++) xm_setbl(DATA, ' ')`. -/
def blank_loop : Nat → Xosera → Xosera
  | 0, hw => hw
  | n + 1, hw => blank_loop n (xm_setbl_DATA 0x20 hw)

/-- The function `xansi_do_scroll`. -/
def xansi_do_scroll (t : Term) : Term :=
  let i0 := sub16 t.td.vram_size t.td.cols
  let r8 := scroll_loop8 i0 i0 t.hw
  let r2 := scroll_loop2 r8.1 r8.1 r8.2
  let hw3 := if r2.1 ≠ 0 then copy_word r2.2 else r2.2
  let hw4 := xm_setbh_DATA t.td.color hw3
  { t with hw := blank_loop t.td.cols hw4 }

/-- The function `xansi_scroll_up`. -/
def xansi_scroll_up (t : Term) : Term :=
  let hw1 := xm_setw .WR_INCR 1 t.hw
  let hw2 := xm_setw .RD_INCR 1 hw1
  let hw3 := xm_setw .WR_ADDR t.td.vram_base hw2
  let hw4 := xm_setw .RD_ADDR (t.td.vram_base + t.td.cols) hw3
  xansi_do_scroll { t with hw := hw4 }

/-- The function `xansi_scroll_down`. -/
def xansi_scroll_down (t : Term) : Term :=
  let hw1 := xm_setw .WR_INCR 0xFFFF t.hw
  let hw2 := xm_setw .RD_INCR 0xFFFF hw1
  let hw3 := xm_setw .WR_ADDR (sub16 t.td.vram_end 1) hw2
  let hw4 := xm_setw .RD_ADDR (sub16 (sub16 t.td.vram_end 1) t.td.cols) hw3
  xansi_do_scroll { t with hw := hw4 }

/-- The function `xansi_check_lcf`. -/
def xansi_check_lcf (t : Term) : Term :=
  if t.td.lcf then
    let t1 : Term := { t with td := { t.td with lcf := false } }
    if sub16 t1.td.cur_addr t1.td.vram_base ≥ t1.td.vram_size then
      xansi_scroll_up
        { t1 with td := { t1.td with
            cur_addr := u16 (t1.td.vram_base + sub16 t1.td.vram_size t1.td.cols) } }
    else t1
  else t

/-- The function `xansi_drawchar`. -/
def xansi_drawchar (t : Term) (cdata : Nat) : Term :=
  let t1 := xansi_check_lcf t
  let hw1 := xm_setw .WR_ADDR t1.td.cur_addr t1.hw
  let hw2 := xm_setbh_DATA t1.td.color hw1
  let hw3 := xm_setbl_DATA cdata hw2
  let td1 : xansiterm_data :=
    { t1.td with cur_addr := u16 (t1.td.cur_addr + 1), x := u16 (t1.td.x + 1) }
  if td1.x ≥ td1.cols then
    if td1.flags &&& TFLAG_NO_AUTOWRAP ≠ 0 then
      { td := { td1 with cur_addr := sub16 td1.cur_addr 1, x := sub16 td1.cols 1 }, hw := hw3 }
    else
      let td2 : xansiterm_data := { td1 with x := 0, y := u16 (td1.y + 1) }
      let td3 : xansiterm_data := if td2.y ≥ td2.rows then { td2 with y := sub16 td2.rows 1 } else td2
      { td := { td3 with lcf := true }, hw := hw3 }
  else { td := td1, hw := hw3 }

/-- The `do ... while (++start <= end)` loop of `xansi_clear`; `none` when the
passes allowed by `fuel` are used up. -/
def clear_loop : Nat → Nat → Nat → Xosera → Option Xosera
  | 0, _, _, _ => none
  | fuel + 1, start, e, hw =>
    let hw1 := xm_setbl_DATA 0x20 hw
    let start1 := u16 (start + 1)
    if start1 ≤ e then clear_loop fuel start1 e hw1 else some hw1

/-- The function `xansi_clear`.  The loop counter has 65536 values, so a run
of the loop that has not ended after 65536 passes never ends (`none`). -/
def xansi_clear (t : Term) (start e : Nat) : Option Term :=
  let s := if start > e then e else start
  let e1 := if start > e then start else e
  let hw1 := xm_setw .WR_INCR 1 t.hw
  let hw2 := xm_setw .WR_ADDR s hw1
  let hw3 := xm_setbh_DATA t.td.color hw2
  (clear_loop 65536 s e1 hw3).map fun hw4 => { t with hw := hw4 }

/-- The function `xansi_draw_cursor`. -/
def xansi_draw_cursor (t : Term) : Term :=
  if !t.td.cursor_drawn then
    let hw1 := xm_setw .RW_INCR 0 t.hw
    let hw2 := xm_setw .RW_ADDR t.td.cur_addr hw1
    let r := xm_getw .RW_DATA hw2
    let data := r.1
    let c0 := u16 ((t.td.color &&& 0x0f) <<< 12) ||| u16 ((t.td.color &&& 0xf0) <<< 4)
    let c1 := if u16 ((c0 ^^^ data) &&& 0x0f00) = 0 then c0 ^^^ 0x0800 else c0
    let c2 := if u16 ((c1 ^^^ data) &&& 0xf000) = 0 then c1 ^^^ 0x8000 else c1
    { td := { t.td with cursor_drawn := true, cursor_save := u16 data },
      hw := xm_setw .RW_DATA (u16 (c2 ||| u16 (data &&& 0x00ff))) r.2 }
  else t

/-- The function `xansi_erase_cursor`. -/
def xansi_erase_cursor (t : Term) : Term :=
  if t.td.cursor_drawn then
    let hw1 := xm_setw .WR_ADDR t.td.cur_addr t.hw
    { td := { t.td with cursor_drawn := false }, hw := xm_setw .DATA t.td.cursor_save hw1 }
  else t

/-! ## Reset, bell, clear screen -/

/-- The loop of `set_default_colors`: one `XR_DATA` write per table entry. -/
def set_colors_loop : List Nat → Xosera → Xosera
  | [], hw => hw
  | c :: cs, hw => set_colors_loop cs (xm_setw .XR_DATA c hw)

/-- The function `set_default_colors`. -/
def set_default_colors (hw : Xosera) : Xosera :=
  set_colors_loop def_colors16 (xm_setw .XR_ADDR XR_COLOR_MEM hw)

/-- The function `xansi_reset`.  The two loops that wait on the `SCANLINE`
register for the start of vertical blank are kept as one read of the register
(the display is taken to keep scanning). -/
def xansi_reset (t : Term) : Option Term :=
  let td := t.td
  let gfx_ctrl_val := td.gfx_ctrl
  let bitmap : Bool := gfx_ctrl_val &&& 0x40 ≠ 0
  let bpp := (gfx_ctrl_val >>> 4) &&& 0x3
  let h_rpt := ((gfx_ctrl_val >>> 2) &&& 0x3) + 1
  let v_rpt := (gfx_ctrl_val &&& 0x3) + 1
  let tile_ctrl_val := arr_get td.tile_ctrl td.cur_font
  let tile_w := u16 ((if !bitmap ∨ bpp < 2 then 8 else if bpp = 2 then 4 else 1) * h_rpt)
  let tile_h := u16 ((if bitmap then 1 else (tile_ctrl_val &&& 0xf) + 1) * v_rpt)
  let rv := xreg_getw XR_VID_VSIZE t.hw
  let rows := u16 ((rv.1 + tile_h - 1) / tile_h)
  let rh := if td.line_len = 0 then xreg_getw XR_VID_HSIZE rv.2 else (0, rv.2)
  let cols := if td.line_len = 0 then u16 ((rh.1 + tile_w - 1) / tile_w) else td.line_len
  let prev_end := td.vram_end
  let td1 : xansiterm_data :=
    { td with
      vram_size := u16 (cols * rows), vram_end := u16 (td.vram_base + u16 (cols * rows)),
      cols := cols, rows := rows, cur_color := td.def_color, color := td.def_color }
  let td2 : xansiterm_data := if td1.x ≥ cols then { td1 with x := sub16 cols 1 } else td1
  let td3 : xansiterm_data := if td2.y ≥ rows then { td2 with y := sub16 rows 1 } else td2
  let hw1 := (xreg_getw XR_SCANLINE rh.2).2
  let hw2 := xreg_setw XR_PA_GFX_CTRL gfx_ctrl_val hw1
  let hw3 := xm_setw .XR_DATA tile_ctrl_val hw2
  let hw4 := xm_setw .XR_DATA td3.vram_base hw3
  let hw5 := xm_setw .XR_DATA cols hw4
  let hw6 := xm_setw .XR_DATA 0 hw5
  let hw7 := set_default_colors hw6
  let t1 : Term := { td := td3, hw := hw7 }
  (if prev_end < td3.vram_end then xansi_clear t1 prev_end td3.vram_end else some t1).map
    xansi_calc_cur_addr

/-- The inner loop of `xansi_visualbell`: the colour nibbles of `n` successive
cells are swapped. -/
def bell_loop : Nat → Xosera → Xosera
  | 0, hw => hw
  | n + 1, hw =>
    let r := xm_getw .DATA hw
    let data := r.1
    bell_loop n
      (xm_setw .DATA
        (u16 ((data &&& 0xf000) >>> 4) ||| u16 ((data &&& 0x0f00) <<< 4) ||| u16 (data &&& 0xff))
        r.2)

/-- One pass of the outer loop of `xansi_visualbell`. -/
def bell_pass (t : Term) (hw : Xosera) : Xosera :=
  bell_loop t.td.vram_end (xm_setw .WR_ADDR t.td.vram_base (xm_setw .RD_ADDR t.td.vram_base hw))

/-- The function `xansi_visualbell`. -/
def xansi_visualbell (t : Term) (invert : Bool) : Term :=
  let hw1 := xm_setw .WR_INCR 1 (xm_setw .RD_INCR 1 t.hw)
  let hw2 := bell_pass t hw1
  { t with hw := if invert then hw2 else bell_pass t hw2 }

/-- The function `xansi_cls`. -/
def xansi_cls (t : Term) : Option Term :=
  (xansi_clear t t.td.vram_base t.td.vram_end).map fun t1 =>
    { t1 with td := { t1.td with cur_addr := t1.td.vram_base, x := 0, y := 0, lcf := false } }

/-! ## Control characters -/

/-- The end of `xansi_processchar`, after the `switch`: scroll up when the row
has passed the bottom edge, then clear the deferred-wrap flag. -/
def processchar_finish (t : Term) : Term :=
  let t1 : Term :=
    if t.td.y ≥ t.td.rows then
      xansi_scroll_up
        { t with td := { t.td with
            cur_addr := sub16 t.td.cur_addr t.td.cols, y := sub16 t.td.y 1 } }
    else t
  { t1 with td := { t1.td with lcf := false } }

/-- The function `xansi_processchar`. -/
def xansi_processchar (t : Term) (cdata : Nat) : Option Term :=
  let td := t.td
  if u8 cdata ≥ 0x20 ∨ td.flags &&& TFLAG_ATTRIB_PASSTHRU ≠ 0 then
    some (xansi_drawchar t cdata)
  else if cdata = 0x07 then
    some (xansi_visualbell t false)
  else if cdata = 0x08 then
    some (processchar_finish
      (if td.x > 0 then
        { t with td := { td with x := sub16 td.x 1, cur_addr := sub16 td.cur_addr 1 } }
      else t))
  else if cdata = 0x09 then
    let nx := u16 ((td.x &&& 0xFFF8) + 8)
    some (processchar_finish
      (if sub16 td.cols nx ≥ 8 then
        { t with td := { td with cur_addr := u16 (td.cur_addr + sub16 nx td.x), x := nx } }
      else
        { t with td := { td with
            cur_addr := u16 (sub16 td.cur_addr td.x + td.cols), x := 0, y := u16 (td.y + 1) } }))
  else if cdata = 0x0A then
    let td1 : xansiterm_data :=
      { td with cur_addr := u16 (td.cur_addr + td.cols), y := u16 (td.y + 1) }
    some (processchar_finish
      (if td1.flags &&& TFLAG_NEWLINE ≠ 0 then
        { t with td := { td1 with cur_addr := sub16 td1.cur_addr td1.x, x := 0 } }
      else { t with td := td1 }))
  else if cdata = 0x0B then
    let td1 : xansiterm_data :=
      { td with cur_addr := sub16 td.cur_addr td.cols, y := sub16 td.y 1 }
    some (processchar_finish
      (if td1.y ≥ td1.rows then
        xansi_scroll_down
          { t with td := { td1 with
              cur_addr := u16 (td1.cur_addr + td1.cols), y := u16 (td1.y + 1) } }
      else { t with td := td1 }))
  else if cdata = 0x0C then
    (xansi_cls t).map processchar_finish
  else if cdata = 0x0D then
    some (processchar_finish
      { t with td := { td with cur_addr := sub16 td.cur_addr td.x, x := 0 } })
  else some t

/-! ## Escape sequences -/

/-- The function `xansi_begin_csi_or_esc`. -/
def xansi_begin_csi_or_esc (t : Term) (c : Nat) : Term :=
  { t with td := { t.td with
      state := if c = 0x1b then TSTATE_ESC else TSTATE_CSI,
      intermediate_char := 0, num_parms := 0,
      csi_parms := List.replicate MAX_CSI_PARMS 0 } }

/-- The function `xansi_process_esc`. -/
def xansi_process_esc (t0 : Term) (cdata : Nat) : Option Term :=
  let t : Term := { t0 with td := { t0.td with state := TSTATE_NORMAL } }
  let td := t.td
  if cdata = 0x9b ∨ cdata = 0x5B then
    some (xansi_begin_csi_or_esc t cdata)
  else if cdata = 0x63 then
    (xansi_reset { t with td := { td with flags := 0 } }).bind xansi_cls
  else if cdata = 0x37 then
    some { t with td := { td with save_x := td.x, save_y := td.y, save_lcf := td.lcf } }
  else if cdata = 0x38 then
    some (xansi_calc_cur_addr
      { t with td := { td with x := td.save_x, y := td.save_y, lcf := td.save_lcf } })
  else if cdata = 0x28 ∨ cdata = 0x29 ∨ cdata = 0x2A ∨ cdata = 0x2B then
    xansi_reset { t with td := { td with cur_font := u8 (cdata &&& 0x03) } }
  else if cdata = 0x44 then
    let save_flags := td.flags
    (xansi_processchar { t with td := { td with flags := bic8 td.flags TFLAG_NEWLINE } } 0x0A).map
      fun t1 => xansi_calc_cur_addr { t1 with td := { t1.td with flags := save_flags } }
  else if cdata = 0x4D then
    (xansi_processchar t 0x0B).map xansi_calc_cur_addr
  else if cdata = 0x45 then
    let td1 : xansiterm_data := { td with y := u16 (td.y + 1), x := 0, lcf := false }
    some (xansi_calc_cur_addr
      (if td1.y ≥ td1.cols then
        xansi_scroll_up { t with td := { td1 with y := sub16 td1.cols 1 } }
      else { t with td := td1 }))
  else if cdata = 0x7f then
    some (xansi_calc_cur_addr { t with td := { td with state := TSTATE_ESC } })
  else some t

/-! ## Completed CSI sequences -/

/-- The `uint8_t` colour with its two nibbles exchanged. -/
def swap_nibbles (c : Nat) : Nat :=
  u8 ((c &&& 0xf0) >>> 4) ||| u8 ((c &&& 0x0f) <<< 4)

/-- The end of the body of the SGR loop: the effective colour is computed
from the selected colour and the attribute flags. -/
def sgr_effective (td : xansiterm_data) : xansiterm_data :=
  let c0 := if td.flags &&& TFLAG_ATTRIB_REVERSE ≠ 0 then swap_nibbles td.cur_color else td.cur_color
  let c1 := if td.flags &&& TFLAG_ATTRIB_DIM ≠ 0 then bic8 c0 0x08 else c0
  let c2 := if td.flags &&& TFLAG_ATTRIB_BRIGHT ≠ 0 then u8 (c1 ||| 0x08) else c1
  { td with color := c2 }

/-- The `case 68` of the SGR `switch` (rosco_m68k commands), entered with loop
index `i`; the commands that are found good act on the session record or the
colour memory. -/
def sgr_rosco (t : Term) (i : Nat) : Term :=
  let td := t.td
  if i + 3 < td.num_parms then
    let rosco_cmd := arr_get td.csi_parms (i + 1)
    let n := arr_get td.csi_parms (i + 2)
    let parm0 := arr_get td.csi_parms (i + 3)
    let i3 := i + 3
    if rosco_cmd = 0 then
      if n < 3 then
        if n = 0 then { t with td := { td with vram_base := parm0 } }
        else if n = 1 then { t with td := { td with line_len := parm0 } }
        else if n = 2 then { t with td := { td with height := parm0 } }
        else t
      else t
    else if rosco_cmd = 10 then
      if n < 256 ∧ i3 + 2 < td.num_parms then
        let rgb := u16 ((parm0 &&& 0xf0) <<< 4) ||| u16 (arr_get td.csi_parms (i3 + 1) &&& 0xf0) |||
          u16 ((arr_get td.csi_parms (i3 + 2) &&& 0xf0) >>> 4)
        { t with hw := xreg_setw (XR_COLOR_MEM + n) rgb t.hw }
      else t
    else if rosco_cmd = 12 then
      if n < 4 then { t with td := { td with tile_ctrl := arr_set td.tile_ctrl n parm0 } } else t
    else if rosco_cmd = 20 then
      if n = XR_PA_GFX_CTRL then { t with td := { td with gfx_ctrl := parm0 } } else t
    else t
  else t

/-- The body of the SGR loop for loop index `i`: the terminal after the body
and the value of `i` the body leaves (the loop then increments it). -/
def sgr_step (t : Term) (i : Nat) : Term × Nat :=
  let td := t.td
  let parm_code := arr_get td.csi_parms i
  let col0 := u8 (parm_code % 10)
  let special : Bool := parm_code = 38 ∨ parm_code = 48
  let col1 :=
    if special then
      if i + 2 ≥ td.num_parms ∨ arr_get td.csi_parms (i + 1) ≠ 5 then col0
      else u8 (arr_get td.csi_parms (i + 2) &&& 0xf)
    else col0
  let i1 := if special then td.num_parms else i
  let ranged : Bool :=
    ((parm_code ≥ 30 ∧ parm_code ≤ 39) ∨ (parm_code ≥ 40 ∧ parm_code ≤ 49) ∨
      (parm_code ≥ 90 ∧ parm_code ≤ 97) ∨ (parm_code ≥ 100 ∧ parm_code ≤ 107)) ∧ col1 < 8
  let col2 := if ranged then arr_get ansi_to_vga_color col1 else col1
  let col3 := if ranged ∧ parm_code ≥ 90 then u8 (col2 + 8) else col2
  let parm := if ranged ∧ parm_code ≥ 90 then (if parm_code < 100 then 30 else 40) else parm_code
  let r : Term × Nat :=
    if parm = 0 then
      ({ t with td := { td with
          flags := bic8 td.flags
            (TFLAG_ATTRIB_BRIGHT ||| TFLAG_ATTRIB_DIM ||| TFLAG_ATTRIB_REVERSE |||
              TFLAG_ATTRIB_PASSTHRU),
          cur_color := td.def_color } }, i1)
    else if parm = 1 then
      ({ t with td := { td with
          flags := bic8 td.flags TFLAG_ATTRIB_DIM ||| TFLAG_ATTRIB_BRIGHT } }, i1)
    else if parm = 2 then
      ({ t with td := { td with
          flags := bic8 td.flags TFLAG_ATTRIB_BRIGHT ||| TFLAG_ATTRIB_DIM } }, i1)
    else if parm = 7 then
      ({ t with td := { td with flags := td.flags ||| TFLAG_ATTRIB_REVERSE } }, i1)
    else if parm = 8 then
      ({ t with td := { td with flags := td.flags ||| TFLAG_ATTRIB_PASSTHRU } }, i1)
    else if parm = 39 then
      ({ t with td := { td with
          cur_color := u8 (td.cur_color &&& 0xf0) ||| (td.def_color &&& 0xf) } }, i1)
    else if parm ≥ 30 ∧ parm ≤ 37 then
      ({ t with td := { td with cur_color := u8 (td.cur_color &&& 0xf0) ||| col3 } }, i1)
    else if parm = 38 then
      ({ t with td := { td with
          def_color := u8 (td.def_color &&& 0xf0) ||| col3,
          cur_color := u8 (td.cur_color &&& 0xf0) ||| col3 } }, i1)
    else if parm = 49 then
      ({ t with td := { td with
          cur_color := u8 (td.cur_color &&& 0x0f) ||| u8 ((td.def_color >>> 4) <<< 4) } }, i1)
    else if parm ≥ 40 ∧ parm ≤ 47 then
      ({ t with td := { td with
          cur_color := u8 (td.cur_color &&& 0x0f) ||| u8 (col3 <<< 4) } }, i1)
    else if parm = 48 then
      ({ t with td := { td with
          def_color := u8 (td.def_color &&& 0x0f) ||| u8 (col3 <<< 4),
          cur_color := u8 (td.cur_color &&& 0x0f) ||| u8 (col3 <<< 4) } }, i1)
    else if parm = 68 then
      (sgr_rosco t i1, td.num_parms)
    else (t, i1)
  ({ r.1 with td := sgr_effective r.1.td }, r.2)

/-- The SGR loop `for (i = ...; i < td->num_parms; i++)`.  The index grows on
every pass, so `fuel = num_parms` passes are never used up. -/
def sgr_loop : Nat → Nat → Term → Term
  | 0, _, t => t
  | fuel + 1, i, t =>
    if i < t.td.num_parms then
      let r := sgr_step t i
      sgr_loop fuel (u16 (r.2 + 1)) r.1
    else t

/-- The `case 'm'` of `xansi_process_csi`. -/
def xansi_sgr (t : Term) : Term :=
  let t1 : Term := if t.td.num_parms = 0 then { t with td := { t.td with num_parms := 1 } } else t
  sgr_loop t1.td.num_parms 0 t1

/-- The `case 'h'`/`case 'l'` of `xansi_process_csi`. -/
def xansi_mode (t : Term) (cdata num : Nat) : Option Term :=
  let td := t.td
  if td.intermediate_char = 0x3F then
    if num = 3 then
      let res := if cdata = 0x68 then 848 else 640
      let r := xreg_getw XR_VID_HSIZE t.hw
      if r.1 ≠ res then
        let config := if res = 640 then 0 else 1
        (xansi_reset { t with hw := xosera_init config r.2 }).bind xansi_cls
      else some { t with hw := r.2 }
    else if num = 5 then
      some (xansi_visualbell
        { t with td := { td with
            def_color := swap_nibbles td.def_color,
            color := swap_nibbles td.color,
            cur_color := swap_nibbles td.cur_color } } true)
    else if num = 7 then
      let t1 := xansi_check_lcf t
      if cdata = 0x6C then
        some { t1 with td := { t1.td with flags := t1.td.flags ||| TFLAG_NO_AUTOWRAP } }
      else
        some { t1 with td := { t1.td with flags := bic8 t1.td.flags TFLAG_NO_AUTOWRAP } }
    else if num = 25 then
      if cdata = 0x6C then
        some { t with td := { td with flags := td.flags ||| TFLAG_HIDE_CURSOR } }
      else
        some { t with td := { td with flags := bic8 td.flags TFLAG_HIDE_CURSOR } }
    else some t
  else if num = 20 then
    if cdata = 0x6C then
      some { t with td := { td with flags := bic8 td.flags TFLAG_NEWLINE } }
    else
      some { t with td := { td with flags := td.flags ||| TFLAG_NEWLINE } }
  else some t

/-- The function `xansi_process_csi`. -/
def xansi_process_csi (t0 : Term) (cdata : Nat) : Option Term :=
  let t : Term := { t0 with td := { t0.td with state := TSTATE_NORMAL } }
  let td := t.td
  let num_z := arr_get td.csi_parms 0
  let num := if num_z ≠ 0 then num_z else 1
  let r : Option Term :=
    if cdata = 0x41 then
      let y1 := sub16 td.y num
      some { t with td := { td with y := if y1 ≥ td.rows then 0 else y1 } }
    else if cdata = 0x42 then
      let y1 := u16 (td.y + num)
      some { t with td := { td with y := if y1 ≥ td.rows then sub16 td.rows 1 else y1 } }
    else if cdata = 0x43 then
      let x1 := u16 (td.x + num)
      some { t with td := { td with x := if x1 ≥ td.cols then sub16 td.cols 1 else x1 } }
    else if cdata = 0x44 then
      let x1 := sub16 td.x num
      some { t with td := { td with x := if x1 ≥ td.cols then 0 else x1 } }
    else if cdata = 0x48 ∨ cdata = 0x66 then
      let y1 :=
        if td.num_parms > 0 ∧ arr_get td.csi_parms 0 < td.rows then
          sub16 (arr_get td.csi_parms 0) 1
        else 0
      let x1 :=
        if td.num_parms > 1 ∧ arr_get td.csi_parms 1 < td.cols then
          sub16 (arr_get td.csi_parms 1) 1
        else 0
      some { t with td := { td with x := x1, y := y1, lcf := false } }
    else if cdata = 0x68 ∨ cdata = 0x6C then
      xansi_mode t cdata num
    else if cdata = 0x73 then
      some { t with td := { td with save_x := td.x, save_y := td.y, save_lcf := td.lcf } }
    else if cdata = 0x75 then
      some { t with td := { td with x := td.save_x, y := td.save_y, lcf := td.save_lcf } }
    else if cdata = 0x4A then
      if num_z = 0 then xansi_clear t (xansi_calc_addr td 0 td.y) td.vram_end
      else if num_z = 1 then
        xansi_clear t td.vram_base (xansi_calc_addr td (sub16 td.cols 1) td.y)
      else if num_z = 2 then xansi_clear t td.vram_base td.vram_end
      else some t
    else if cdata = 0x4B then
      if num_z = 0 then
        xansi_clear t td.cur_addr (xansi_calc_addr td (sub16 td.cols 1) td.y)
      else if num_z = 1 then xansi_clear t (xansi_calc_addr td 0 td.y) td.cur_addr
      else if num_z = 2 then
        xansi_clear t (xansi_calc_addr td 0 td.y) (xansi_calc_addr td (sub16 td.cols 1) td.y)
      else some t
    else if cdata = 0x6D then
      some (xansi_sgr t)
    else some t
  r.map xansi_calc_cur_addr

/-! ## CSI parameter parsing and the dispatcher -/

/-- The function `xansi_parse_csi`. -/
def xansi_parse_csi (t : Term) (cdata : Nat) : Option Term :=
  let td := t.td
  let cclass := u8 (cdata &&& 0xf0)
  if schar cdata ≤ 0x20 ∨ cdata = 0x7f then some t
  else if cclass = 0x20 then
    some { t with td := { td with intermediate_char := cdata } }
  else if cclass = 0x30 then
    let d := sub8 cdata 0x30
    if d ≤ 9 then
      let n := if td.num_parms = 0 then 1 else td.num_parms
      let v := u16 (arr_get td.csi_parms (n - 1) * 10)
      let v1 := if u16 (v + d) < v then 65535 else u16 (v + d)
      some { t with td := { td with num_parms := n, csi_parms := arr_set td.csi_parms (n - 1) v1 } }
    else if cdata = 0x3B then
      let n := u8 (td.num_parms + 1)
      some { t with td := { td with
          num_parms := n,
          state := if n ≥ MAX_CSI_PARMS then TSTATE_ILLEGAL else td.state } }
    else if td.intermediate_char ≠ 0 ∨ cdata = 0x3A then
      some { t with td := { td with state := TSTATE_ILLEGAL } }
    else some { t with td := { td with intermediate_char := cdata } }
  else if cclass ≥ 0x40 then xansi_process_csi t cdata
  else some { t with td := { td with state := TSTATE_ILLEGAL } }

/-- The function `xansiterm_putchar`. -/
def xansiterm_putchar (t0 : Term) (cdata : Nat) : Option Term :=
  let t := xansi_erase_cursor t0
  let td := t.td
  if cdata &&& 0x7f = 0x1b then
    if td.state ≥ TSTATE_ESC ∧ td.flags &&& TFLAG_ATTRIB_PASSTHRU ≠ 0 then
      xansi_processchar { t with td := { td with state := TSTATE_NORMAL } } cdata
    else some (xansi_begin_csi_or_esc t cdata)
  else if td.state = TSTATE_NORMAL then xansi_processchar t cdata
  else if cdata = 0x18 ∨ cdata = 0x1A then
    some { t with td := { td with state := TSTATE_NORMAL } }
  else if td.state = TSTATE_ESC then xansi_process_esc t cdata
  else if td.state = TSTATE_CSI then xansi_parse_csi t cdata
  else if td.state = TSTATE_ILLEGAL then
    if schar cdata ≥ 0x40 then some { t with td := { td with state := TSTATE_NORMAL } }
    else some t
  else some t

/-- Modelled from the spec: the macro `MAKE_GFX_CTRL(colbase, blank, bpp, bm, hx, vx)`
of the adapter header, which is not part of the sources; the fields are laid
out as `xansi_reset` reads them back (bitmap bit `0x40`, depth in bits 4-5,
repeats in bits 2-3 and 0-1). -/
def MAKE_GFX_CTRL (colbase blank bpp bm hx vx : Nat) : Nat :=
  u16 (((colbase &&& 0xFF) <<< 8) ||| ((blank &&& 1) <<< 7) ||| ((bm &&& 1) <<< 6) |||
    ((bpp &&& 3) <<< 4) ||| ((hx &&& 3) <<< 2) ||| (vx &&& 3))

/-- Modelled from the spec: the macro `MAKE_TILE_CTRL(tilebase, vram, tileheight)`
of the adapter header, which is not part of the sources; the tile height minus
one is held in the low four bits, where `xansi_reset` reads it back. -/
def MAKE_TILE_CTRL (tilebase vram tileheight : Nat) : Nat :=
  u16 ((tilebase &&& 0xFC00) ||| ((vram &&& 1) <<< 8) ||| (sub16 tileheight 1 &&& 0xF))

/-- The session record after `memset(td, 0, sizeof(*td))`. -/
def zero_data : xansiterm_data :=
  { cur_addr := 0, vram_base := 0, vram_size := 0, vram_end := 0, line_len := 0, height := 0,
    cursor_save := 0, cols := 0, rows := 0, x := 0, y := 0, save_x := 0, save_y := 0,
    gfx_ctrl := 0, tile_ctrl := [0, 0, 0, 0], csi_parms := List.replicate MAX_CSI_PARMS 0,
    num_parms := 0, intermediate_char := 0, cur_font := 0, def_color := 0, cur_color := 0,
    state := 0, flags := 0, color := 0, lcf := false, save_lcf := false,
    cursor_drawn := false }

/-- The function `xansiterm_init`, on the adapter `hw`. -/
def xansiterm_init (hw : Xosera) : Option Term :=
  xansi_reset
    { td := { zero_data with
        gfx_ctrl := MAKE_GFX_CTRL 0x00 0 0 0 0 0,
        tile_ctrl := [MAKE_TILE_CTRL 0x0000 0 16, MAKE_TILE_CTRL 0x0800 0 8,
          MAKE_TILE_CTRL 0x0C00 0 8, MAKE_TILE_CTRL 0x0000 0 16],
        def_color := DEFAULT_COLOR },
      hw := hw }

/-- The function `xansiterm_putchar` called on each byte of a list in turn. -/
def feed : Term → List Nat → Option Term
  | t, [] => some t
  | t, c :: cs => (xansiterm_putchar t c).bind fun t1 => feed t1 cs

/-! ## Vocabulary of the statements -/

/-- An adapter out of reset: video memory and registers all zero, in the
display mode of the given size. -/
def adapter (hsize vsize : Nat) : Xosera :=
  { vram := fun _ => 0, xr := fun _ => 0, xr_addr := 0, rd_incr := 0, rd_addr := 0, wr_incr := 0,
    wr_addr := 0, rw_incr := 0, rw_addr := 0, data_hi := 0, vid_hsize := hsize,
    vid_vsize := vsize, scanline := 0, timer := 0 }

/-- A terminal in NORMAL state on an 80 by 30 grid at video address 0, cursor
at home, dark green on black: the session record as `xansiterm_init` leaves it
in the 640 by 480 mode, over blank video memory. -/
def demo_term : Term :=
  { td := { zero_data with
      cols := 80, rows := 30, vram_size := 2400, vram_end := 2400,
      tile_ctrl := [0x000F, 0x0807, 0x0C07, 0x000F],
      def_color := 2, cur_color := 2, color := 2 },
    hw := adapter 640 480 }

/-- The terminal `demo_term` with the cursor at column 0 of the bottom row. -/
def demo_bottom : Term :=
  { demo_term with td := { demo_term.td with y := 29, cur_addr := 2320 } }

/-- The terminal after `xansiterm_init` on `hw` followed by the given bytes. -/
def boot (hw : Xosera) (bytes : List Nat) : Option Term :=
  (xansiterm_init hw).bind fun t => feed t bytes

/-- A terminal reached from `xansiterm_init` (with `cols > 0` and `rows > 0`)
by feeding some byte sequence to `xansiterm_putchar`. -/
def Reachable (t : Term) : Prop :=
  ∃ hw t0 bytes, xansiterm_init hw = some t0 ∧ 0 < t0.td.cols ∧ 0 < t0.td.rows ∧
    feed t0 bytes = some t

/-- The byte `ESC` or the 8-bit `CSI` starts a sequence in this state: the
dispatcher prints it as a glyph instead when a sequence is in progress and
the passthrough flag is set. -/
def starts_sequence (td : xansiterm_data) : Prop :=
  ¬ (td.state ≥ TSTATE_ESC ∧ td.flags &&& TFLAG_ATTRIB_PASSTHRU ≠ 0)

instance (td : xansiterm_data) : Decidable (starts_sequence td) := by
  unfold starts_sequence; infer_instance

/-- The session record with the parser fields of another one: what is left
unchanged by input that only moves the parser. -/
def with_parsing (td p : xansiterm_data) : xansiterm_data :=
  { td with state := p.state, num_parms := p.num_parms, csi_parms := p.csi_parms,
            intermediate_char := p.intermediate_char }

/-- The session record with the cursor and input-cursor fields of another
one: what is left unchanged by drawing and by the control characters. -/
def with_cursor (td c : xansiterm_data) : xansiterm_data :=
  { td with cur_addr := c.cur_addr, x := c.x, y := c.y, lcf := c.lcf,
            cursor_drawn := c.cursor_drawn }

/-- The session record with the cursor, parser and input-cursor fields of
another one: what is left unchanged by input that only moves the cursor. -/
def with_motion (td m : xansiterm_data) : xansiterm_data :=
  { td with cur_addr := m.cur_addr, x := m.x, y := m.y, lcf := m.lcf, state := m.state,
            num_parms := m.num_parms, csi_parms := m.csi_parms,
            intermediate_char := m.intermediate_char, cursor_drawn := m.cursor_drawn }

/-- A printable byte, `0x20..0x7E`. -/
def printable (b : Nat) : Prop := 0x20 ≤ b ∧ b ≤ 0x7E

instance (b : Nat) : Decidable (printable b) := by unfold printable; infer_instance

/-- A decimal digit byte, `'0'..'9'`. -/
def is_digit (b : Nat) : Prop := 0x30 ≤ b ∧ b ≤ 0x39

instance (b : Nat) : Decidable (is_digit b) := by unfold is_digit; infer_instance

/-- The unbounded decimal value of a string of digit bytes. -/
def decimal_value (ds : List Nat) : Nat := ds.foldl (fun v d => v * 10 + (d - 0x30)) 0

/-- Digit strings written one after the other with `;` between them. -/
def sep_values : List (List Nat) → List Nat
  | [] => []
  | [v] => v
  | v :: w :: vs => v ++ 0x3B :: sep_values (w :: vs)

/-- One cursor-motion input: a printable byte, one of the control bytes BS,
TAB, LF, VT, CR, or a CSI sequence with parameter bytes and a final byte. -/
inductive Motion where
  | print (b : Nat)
  | ctrl (b : Nat)
  | csi (params : List Nat) (final : Nat)
deriving DecidableEq, Repr

/-- The bytes of a cursor-motion input. -/
def Motion.bytes : Motion → List Nat
  | .print b => [b]
  | .ctrl b => [b]
  | .csi ps f => 0x1B :: 0x5B :: (ps ++ [f])

/-- A well-formed cursor-motion input: the byte is printable, the control byte
is BS, TAB, LF, VT or CR, the CSI sequence has digits and `;` as parameters
and one of `A B C D H f` as final byte. -/
def Motion.ok : Motion → Prop
  | .print b => printable b
  | .ctrl b => b = 0x08 ∨ b = 0x09 ∨ b = 0x0A ∨ b = 0x0B ∨ b = 0x0D
  | .csi ps f => (∀ p ∈ ps, is_digit p ∨ p = 0x3B) ∧
      (f = 0x41 ∨ f = 0x42 ∨ f = 0x43 ∨ f = 0x44 ∨ f = 0x48 ∨ f = 0x66)

instance (m : Motion) : Decidable m.ok := by
  cases m <;> unfold Motion.ok <;> infer_instance

/-- The bytes of a sequence of cursor-motion inputs. -/
def motion_bytes : List Motion → List Nat
  | [] => []
  | m :: ms => m.bytes ++ motion_bytes ms

/-- The naive copy: `n` cells moved one at a time through `XM_DATA`. -/
def copy_words : Nat → Xosera → Xosera
  | 0, hw => hw
  | n + 1, hw => copy_words n (copy_word hw)

/-- The read address runs `c` cells ahead of the write address (modulo the
address space) and both advance by the same increment. -/
def lag (c : Nat) (hw : Xosera) : Prop :=
  hw.rd_incr = hw.wr_incr ∧ hw.rd_addr = u16 (hw.wr_addr + c)

/-- The effective colour of a session record is the one computed from its
selected colour and its flags. -/
def settled (td : xansiterm_data) : Prop := td.color = (sgr_effective td).color

/-- The session record with the attribute fields and the vendor presets of
another one: what is left unchanged by the SGR command. -/
def with_sgr (td s : xansiterm_data) : xansiterm_data :=
  { td with flags := s.flags, cur_color := s.cur_color, def_color := s.def_color,
            color := s.color, vram_base := s.vram_base, line_len := s.line_len,
            height := s.height, tile_ctrl := s.tile_ctrl, gfx_ctrl := s.gfx_ctrl }

/-- The 80 by 30 terminal in CSI state with the parameters `1;31` parsed: the
state in which the final byte of `CSI 1;31 m` arrives. -/
def demo_sgr : Term :=
  { demo_term with td := { demo_term.td with
      state := TSTATE_CSI, num_parms := 2,
      csi_parms := arr_set (arr_set demo_term.td.csi_parms 0 1) 1 31 } }

/-- The terminal `demo_term` after `CSI !`: the parser in CSI state with the
intermediate char `!` stored. -/
def demo_intermediate : Term :=
  { demo_term with td := { demo_term.td with
      state := TSTATE_CSI, intermediate_char := 0x21 } }

/-- The terminal `demo_term` after `CSI 8 m` and `CSI`: the parser in CSI
state with the passthrough flag set. -/
def demo_passthru : Term :=
  { demo_term with td := { demo_term.td with
      state := TSTATE_CSI, flags := TFLAG_ATTRIB_PASSTHRU } }

/-- The naive scroll up, from the words of the specification: the registers
are set up as `xansi_scroll_up` sets them, `vram_size - cols` cells are copied
one at a time, then `cols` blanks are written in the effective colour. -/
def scroll_up_naive (t : Term) : Term :=
  let hw1 := xm_setw .WR_INCR 1 t.hw
  let hw2 := xm_setw .RD_INCR 1 hw1
  let hw3 := xm_setw .WR_ADDR t.td.vram_base hw2
  let hw4 := xm_setw .RD_ADDR (t.td.vram_base + t.td.cols) hw3
  let hw5 := copy_words (t.td.vram_size - t.td.cols) hw4
  { t with hw := blank_loop t.td.cols (xm_setbh_DATA t.td.color hw5) }

/-- The terminal `demo_term` with autowrap off and the cursor in the last
column of row 0. -/
def demo_nowrap : Term :=
  { demo_term with td := { demo_term.td with
      flags := TFLAG_NO_AUTOWRAP, x := 79, cur_addr := 79 } }

/-- The terminal `demo_term` with the letter A, dark green on black, in every
cell of the grid. -/
def demo_text : Term :=
  { demo_term with hw := { demo_term.hw with vram := fun a => if a < 2400 then 0x0241 else 0 } }

/-- The word the loop of `xansi_visualbell` writes back for the word `data` it
has read. -/
def bell_word (data : Nat) : Nat :=
  u16 (u16 ((data &&& 0xf000) >>> 4) ||| u16 ((data &&& 0x0f00) <<< 4) ||| u16 (data &&& 0xff))

/-- The parameter storage is within bounds: `csi_parms` has its
`MAX_CSI_PARMS` slots, `num_parms` is at most that, and below it while a CSI
sequence is being parsed. -/
def parms_in_bounds (td : xansiterm_data) : Prop :=
  td.csi_parms.length = MAX_CSI_PARMS ∧ td.num_parms ≤ MAX_CSI_PARMS ∧
    (td.state = TSTATE_CSI → td.num_parms < MAX_CSI_PARMS)

/-- The parser state and the parameter storage of `b` are those of `a`. -/
def same_parms (a b : xansiterm_data) : Prop :=
  b.state = a.state ∧ b.num_parms = a.num_parms ∧ b.csi_parms = a.csi_parms

/-- The index of `csi_parms` that `xansi_parse_csi` itself reads and then
writes for the byte `cdata`: the slot of the parameter in progress when the
byte is a digit, none for any other byte (a final byte is handed on to
`xansi_process_csi`). -/
def parse_csi_index (t : Term) (cdata : Nat) : Option Nat :=
  let td := t.td
  let cclass := u8 (cdata &&& 0xf0)
  if schar cdata ≤ 0x20 ∨ cdata = 0x7f then none
  else if cclass = 0x20 then none
  else if cclass = 0x30 then
    let d := sub8 cdata 0x30
    if d ≤ 9 then
      let n := if td.num_parms = 0 then 1 else td.num_parms
      some (n - 1)
    else none
  else none

/-- The reads of `csi_parms` in the `case 68` of the SGR `switch`, entered with
loop index `i`, in the order of the source; all of them are look-ahead reads
(marked `true`). -/
def sgr_rosco_reads (t : Term) (i : Nat) : List (Nat × Bool) :=
  let td := t.td
  if i + 3 < td.num_parms then
    let rosco_cmd := arr_get td.csi_parms (i + 1)
    let n := arr_get td.csi_parms (i + 2)
    let i3 := i + 3
    [(i + 1, true), (i + 2, true), (i + 3, true)] ++
      (if rosco_cmd = 10 then
        if n < 256 ∧ i3 + 2 < td.num_parms then [(i3 + 1, true), (i3 + 2, true)] else []
      else [])
  else []

/-- The reads of `csi_parms` in the body of the SGR loop for loop index `i`, in
the order of the source: the read of `csi_parms[i]` (marked `false`), then the
look-ahead reads (marked `true`) of the forms `38;5;n` and `48;5;n` and of the
`case 68`. -/
def sgr_step_reads (t : Term) (i : Nat) : List (Nat × Bool) :=
  let td := t.td
  let parm_code := arr_get td.csi_parms i
  let col0 := u8 (parm_code % 10)
  let special : Bool := parm_code = 38 ∨ parm_code = 48
  let look : List (Nat × Bool) :=
    if special then
      if i + 2 ≥ td.num_parms then []
      else if arr_get td.csi_parms (i + 1) ≠ 5 then [(i + 1, true)]
      else [(i + 1, true), (i + 2, true)]
    else []
  let col1 :=
    if special then
      if i + 2 ≥ td.num_parms ∨ arr_get td.csi_parms (i + 1) ≠ 5 then col0
      else u8 (arr_get td.csi_parms (i + 2) &&& 0xf)
    else col0
  let i1 := if special then td.num_parms else i
  let ranged : Bool :=
    ((parm_code ≥ 30 ∧ parm_code ≤ 39) ∨ (parm_code ≥ 40 ∧ parm_code ≤ 49) ∨
      (parm_code ≥ 90 ∧ parm_code ≤ 97) ∨ (parm_code ≥ 100 ∧ parm_code ≤ 107)) ∧ col1 < 8
  let parm := if ranged ∧ parm_code ≥ 90 then (if parm_code < 100 then 30 else 40) else parm_code
  (i, false) :: (look ++ (if parm = 68 then sgr_rosco_reads t i1 else []))

/-- The reads of `csi_parms` in the SGR loop, pass by pass as `sgr_loop` runs. -/
def sgr_loop_reads : Nat → Nat → Term → List (Nat × Bool)
  | 0, _, _ => []
  | fuel + 1, i, t =>
    if i < t.td.num_parms then
      let r := sgr_step t i
      sgr_step_reads t i ++ sgr_loop_reads fuel (u16 (r.2 + 1)) r.1
    else []

/-- The reads of `csi_parms` in the `case 'm'` of `xansi_process_csi`. -/
def xansi_sgr_reads (t : Term) : List (Nat × Bool) :=
  let t1 : Term := if t.td.num_parms = 0 then { t with td := { t.td with num_parms := 1 } } else t
  sgr_loop_reads t1.td.num_parms 0 t1

/-- The terminal after `xansiterm_init` in the 640 by 480 mode and the bytes
`ESC [ 1 ; 3 8 ; 5 ; 9`: a CSI sequence with four parameters in progress. -/
def demo_parsing : Term :=
  (boot (adapter 640 480) [0x1B, 0x5B, 0x31, 0x3B, 0x33, 0x38, 0x3B, 0x35, 0x3B, 0x39]).getD
    demo_term

/-- The effective colour `T(c, flags)` of a selected colour `c`, from the
words of the specification and with arithmetic only: `c` is a byte that holds
two 4-bit palette indices; the two nibbles are exchanged if reverse is set,
then bit 3 (the value 8) is cleared if dim is set, then bit 3 is set if bright
is set. -/
def effective_colour_spec (c : Nat) (reverse dim bright : Bool) : Nat :=
  let c0 := if reverse then (c % 16) * 16 + c / 16 % 16 else c
  let c1 := if dim ∧ c0 / 8 % 2 = 1 then c0 - 8 else c0
  if bright ∧ c1 / 8 % 2 = 0 then c1 + 8 else c1

/-- The 80 by 30 terminal in CSI state with the parameters `7;31` parsed: the
state in which the final byte of `CSI 7;31 m` arrives. -/
def demo_reverse : Term :=
  { demo_term with td := { demo_term.td with
      state := TSTATE_CSI, num_parms := 2,
      csi_parms := arr_set (arr_set demo_term.td.csi_parms 0 7) 1 31 } }

/-! ## Evaluation helpers -/

set_option maxRecDepth 100000

theorem of_map_eq_some {α β : Type} (o : Option α) (f : α → β) (v : β)
    (h : o.map f = some v) : ∃ a, o = some a ∧ f a = v := by
  cases o with
  | none => simp at h
  | some a => exact ⟨a, rfl, by simpa using h⟩

theorem boot_reachable (hw : Xosera) (bytes : List Nat) (t : Term) (c r : Nat)
    (hc : 0 < c) (hr : 0 < r)
    (h0 : (xansiterm_init hw).map (fun t => (t.td.cols, t.td.rows)) = some (c, r))
    (h : boot hw bytes = some t) : Reachable t := by
  unfold boot at h
  cases hi : xansiterm_init hw with
  | none => simp [hi] at h
  | some t0 =>
    simp only [hi, Option.map_some', Option.some.injEq, Prod.mk.injEq] at h0
    simp only [hi, Option.some_bind] at h
    exact ⟨hw, t0, bytes, hi, by omega, by omega, h⟩

theorem feed_append (t : Term) (xs ys : List Nat) :
    feed t (xs ++ ys) = (feed t xs).bind fun t1 => feed t1 ys := by
  induction xs generalizing t with
  | nil => simp [feed]
  | cons x xs ih =>
    simp only [List.cons_append, feed]
    cases h : xansiterm_putchar t x with
    | none => simp
    | some t1 => simp [ih]

theorem boot_split (hw : Xosera) (p q : List Nat) (t1 : Term)
    (h : boot hw (p ++ q) = some t1) : ∃ t, boot hw p = some t ∧ feed t q = some t1 := by
  unfold boot at h ⊢
  cases hi : xansiterm_init hw with
  | none => simp [hi] at h
  | some t0 =>
    simp only [hi, Option.some_bind, feed_append] at h ⊢
    cases hp : feed t0 p with
    | none => simp [hp] at h
    | some t => exact ⟨t, rfl, by simpa [hp] using h⟩

/-! ## Bytes -/

theorem esc_test : ∀ b, b < 256 → (b &&& 0x7f = 0x1b ↔ (b = 0x1b ∨ b = 0x9b)) := by decide!

theorem printable_not_esc (b : Nat) (h : printable b) : ¬ (b &&& 0x7f = 0x1b) := by
  unfold printable at h
  rw [esc_test b (by omega)]; omega

theorem u8_of_lt (b : Nat) (h : b < 256) : u8 b = b := by unfold u8; omega

theorem u16_of_lt (b : Nat) (h : b < 65536) : u16 b = b := by unfold u16; omega

/-! ## The input cursor -/

theorem erase_cursor_td (t : Term) :
    (xansi_erase_cursor t).td = { t.td with cursor_drawn := false } := by
  rcases t with ⟨td, hw⟩
  cases td
  unfold xansi_erase_cursor
  split <;> simp_all

theorem erase_cursor_of_not_drawn (t : Term) (h : t.td.cursor_drawn = false) :
    xansi_erase_cursor t = t := by
  unfold xansi_erase_cursor; simp [h]

theorem erase_cursor_vram (t : Term) (a : Nat) (h : a ≠ u16 t.td.cur_addr) :
    (xansi_erase_cursor t).hw.vram a = t.hw.vram a := by
  unfold xansi_erase_cursor
  split
  · simp [xm_setw, vram_store, h]
  · rfl

/-! ## Printable bytes -/

theorem putchar_printable (t : Term) (b : Nat) (hs : t.td.state = TSTATE_NORMAL)
    (hb : printable b) :
    xansiterm_putchar t b = some (xansi_drawchar (xansi_erase_cursor t) b) := by
  have h1 := printable_not_esc b hb
  unfold printable at hb
  have h2 : u8 b ≥ 0x20 := by unfold u8; omega
  unfold xansiterm_putchar
  simp only [h1, if_false, erase_cursor_td, hs, if_true, xansi_processchar, h2, true_or]

/-- The session record of `demo_term` is the one `xansiterm_init` leaves on the
640 by 480 adapter. -/
theorem init_record :
    (xansiterm_init (adapter 640 480)).map (fun t => t.td) = some demo_term.td := by
  decide!

/-- The adapter after one cell is drawn at `addr` in colour `color`. -/
theorem draw_hw_vram (hw : Xosera) (addr color b : Nat) :
    (xm_setbl_DATA b (xm_setbh_DATA color (xm_setw .WR_ADDR addr hw))).vram =
      fun a => if a = u16 addr then u8 color * 256 + u8 b else hw.vram a := by
  simp [xm_setbl_DATA, xm_setbh_DATA, xm_setw, vram_store]

theorem drawchar_plain (t : Term) (b : Nat) (hl : t.td.lcf = false)
    (hx : t.td.x + 1 < t.td.cols) (hc : t.td.cols ≤ 65536) :
    xansi_drawchar t b =
      { td := { t.td with cur_addr := u16 (t.td.cur_addr + 1), x := t.td.x + 1 },
        hw := xm_setbl_DATA b (xm_setbh_DATA t.td.color (xm_setw .WR_ADDR t.td.cur_addr t.hw)) } := by
  have h1 : u16 (t.td.x + 1) = t.td.x + 1 := by unfold u16; omega
  have h2 : ¬ (t.td.x + 1 ≥ t.td.cols) := by omega
  simp [xansi_drawchar, xansi_check_lcf, hl, h1, h2]

/-- One printable byte that does not reach the last column: the cell under
the cursor is written, the cursor moves right by one. -/
theorem putchar_printable_plain (t : Term) (b : Nat) (hs : t.td.state = TSTATE_NORMAL)
    (hb : printable b) (hl : t.td.lcf = false) (hx : t.td.x + 1 < t.td.cols)
    (hc : t.td.cols ≤ 65536) :
    ∃ t1, xansiterm_putchar t b = some t1 ∧
      t1.td = { t.td with cur_addr := u16 (t.td.cur_addr + 1), x := t.td.x + 1,
                          cursor_drawn := false } ∧
      t1.hw.vram = fun a => if a = u16 t.td.cur_addr then u8 t.td.color * 256 + b
                            else t.hw.vram a := by
  refine ⟨_, putchar_printable t b hs hb, ?_, ?_⟩
  · rw [drawchar_plain _ _ (by simp [erase_cursor_td, hl]) (by simpa [erase_cursor_td] using hx)
      (by simpa [erase_cursor_td] using hc)]
    simp [erase_cursor_td]
  · rw [drawchar_plain _ _ (by simp [erase_cursor_td, hl]) (by simpa [erase_cursor_td] using hx)
      (by simpa [erase_cursor_td] using hc)]
    simp only [draw_hw_vram, erase_cursor_td]
    funext a
    have hb8 : u8 b = b := u8_of_lt b (by unfold printable at hb; omega)
    by_cases ha : a = u16 t.td.cur_addr
    · simp [ha, hb8]
    · simp [ha, erase_cursor_vram t a ha]

/-- A run of printable bytes that stays left of the last column. -/
theorem print_run (bs : List Nat) : ∀ (t : Term), (∀ b ∈ bs, printable b) →
    t.td.state = TSTATE_NORMAL → t.td.lcf = false → t.td.x + bs.length < t.td.cols →
    t.td.cols ≤ 65536 → t.td.cur_addr < 65536 →
    ∃ t1, feed t bs = some t1 ∧
      t1.td = { t.td with cur_addr := u16 (t.td.cur_addr + bs.length),
                          x := t.td.x + bs.length,
                          cursor_drawn := t.td.cursor_drawn && bs.isEmpty } ∧
      (∀ i (h : i < bs.length),
        t1.hw.vram (u16 (t.td.cur_addr + i)) = u8 t.td.color * 256 + bs.get ⟨i, h⟩) ∧
      (∀ a, (∀ i, i < bs.length → a ≠ u16 (t.td.cur_addr + i)) → t1.hw.vram a = t.hw.vram a) := by
  induction bs with
  | nil =>
    intro t _ _ _ _ _ hca
    refine ⟨t, rfl, ?_, ?_, ?_⟩
    · rcases t with ⟨td, hw⟩
      cases td
      simp only [List.length_nil, Nat.add_zero, List.isEmpty_nil, Bool.and_true]
      simp only at hca
      rw [u16_of_lt _ hca]
    · intro i h; simp at h
    · intro a _; rfl
  | cons b bs ih =>
    intro t hb hs hl hx hc hca
    simp only [List.length_cons] at hx
    obtain ⟨t1, h1, htd1, hv1⟩ := putchar_printable_plain t b hs (hb b (by simp)) hl (by omega) hc
    have hcur1 : t1.td.cur_addr = u16 (t.td.cur_addr + 1) := by rw [htd1]
    have hx1 : t1.td.x = t.td.x + 1 := by rw [htd1]
    have hcols1 : t1.td.cols = t.td.cols := by rw [htd1]
    have hcol1 : t1.td.color = t.td.color := by rw [htd1]
    obtain ⟨t2, h2, htd2, hv2, hf2⟩ := ih t1 (fun c hc' => hb c (by simp [hc']))
      (by rw [htd1]; exact hs) (by rw [htd1]; exact hl) (by rw [hx1, hcols1]; omega)
      (by rw [hcols1]; exact hc) (by rw [hcur1]; unfold u16; omega)
    refine ⟨t2, by simp [feed, h1, h2], ?_, ?_, ?_⟩
    · rw [htd2, htd1]
      simp only [List.length_cons, List.isEmpty_cons, Bool.and_false, Bool.false_and]
      have e1 : u16 (u16 (t.td.cur_addr + 1) + bs.length) = u16 (t.td.cur_addr + (bs.length + 1)) := by
        unfold u16; omega
      have e2 : t.td.x + 1 + bs.length = t.td.x + (bs.length + 1) := by omega
      simp [e1, e2]
    · intro i h
      have hlen : bs.length + 1 ≤ 65536 := by omega
      cases i with
      | zero =>
        rw [hf2, hv1]
        · simp
        · intro j hj
          rw [hcur1]
          simp only [u16]
          omega
      | succ i =>
        have hi : i < bs.length := by simpa using h
        have := hv2 i hi
        rw [hcur1, hcol1] at this
        simp only [List.get_cons_succ]
        have e : u16 (t.td.cur_addr + (i + 1)) = u16 (u16 (t.td.cur_addr + 1) + i) := by
          unfold u16; omega
        rw [e]
        exact this
    · intro a ha
      rw [hf2, hv1]
      · have := ha 0 (by simp)
        simp at this
        simp [this]
      · intro j hj
        have := ha (j + 1) (by simpa using hj)
        rw [hcur1]
        intro h
        apply this
        rw [h]
        unfold u16
        omega

/-! ## Introducers -/

theorem putchar_esc (t : Term) (h : starts_sequence t.td) :
    xansiterm_putchar t 0x1B = some (xansi_begin_csi_or_esc (xansi_erase_cursor t) 0x1B) := by
  unfold starts_sequence at h
  unfold xansiterm_putchar
  have e : (0x1B : Nat) &&& 0x7f = 0x1b := by decide
  simp only [e, if_true, erase_cursor_td]
  rw [if_neg h]

theorem putchar_esc_bracket (t : Term) (h : t.td.state = TSTATE_ESC)
    (hd : t.td.cursor_drawn = false) :
    xansiterm_putchar t 0x5B = some (xansi_begin_csi_or_esc
      { t with td := { t.td with state := TSTATE_NORMAL } } 0x5B) := by
  have e : ¬ ((0x5B : Nat) &&& 0x7f = 0x1b) := by decide
  have h' : t.td.state = 2 := h
  unfold xansiterm_putchar
  rw [erase_cursor_of_not_drawn t hd]
  simp [e, h', TSTATE_ESC, TSTATE_NORMAL, xansi_process_esc]

/-- The terminal at the start of the parameters of a CSI sequence. -/
theorem feed_csi (t : Term) (rest : List Nat) (h : starts_sequence t.td) :
    feed t (0x1B :: 0x5B :: rest) =
      feed { td := { t.td with cursor_drawn := false, state := TSTATE_CSI,
                               intermediate_char := 0, num_parms := 0,
                               csi_parms := List.replicate MAX_CSI_PARMS 0 },
             hw := (xansi_erase_cursor t).hw } rest := by
  simp only [feed, putchar_esc t h, Option.some_bind]
  rw [putchar_esc_bracket _ (by simp [xansi_begin_csi_or_esc])
    (by simp [xansi_begin_csi_or_esc, erase_cursor_td])]
  simp [xansi_begin_csi_or_esc, erase_cursor_td]

/-- The terminal after `ESC` has started an escape sequence. -/
theorem feed_esc (t : Term) (rest : List Nat) (h : starts_sequence t.td) :
    feed t (0x1B :: rest) =
      feed { td := { t.td with cursor_drawn := false, state := TSTATE_ESC,
                               intermediate_char := 0, num_parms := 0,
                               csi_parms := List.replicate MAX_CSI_PARMS 0 },
             hw := (xansi_erase_cursor t).hw } rest := by
  simp only [feed, putchar_esc t h, Option.some_bind]
  simp [xansi_begin_csi_or_esc, erase_cursor_td]

/-! ## Parameter bytes -/

theorem digit_class : ∀ b, b < 256 → is_digit b →
    (¬ b &&& 0x7f = 0x1b) ∧ ¬ schar b ≤ 0x20 ∧ b ≠ 0x7f ∧ u8 (b &&& 0xf0) = 0x30 ∧
      sub8 b 0x30 = b - 0x30 ∧ b ≠ 0x18 ∧ b ≠ 0x1A := by
  unfold is_digit; decide!

theorem semicolon_class :
    (¬ (0x3B : Nat) &&& 0x7f = 0x1b) ∧ ¬ schar 0x3B ≤ 0x20 ∧ u8 (0x3B &&& 0xf0) = 0x30 ∧
      sub8 0x3B 0x30 = 11 := by decide

/-- A digit in CSI state: the current parameter takes the digit. -/
theorem putchar_digit (t : Term) (b : Nat) (hs : t.td.state = TSTATE_CSI)
    (hd : t.td.cursor_drawn = false) (hb : is_digit b) :
    xansiterm_putchar t b = some { t with td := { t.td with
      num_parms := if t.td.num_parms = 0 then 1 else t.td.num_parms,
      csi_parms := arr_set t.td.csi_parms ((if t.td.num_parms = 0 then 1 else t.td.num_parms) - 1)
        (if u16 (u16 (arr_get t.td.csi_parms
              ((if t.td.num_parms = 0 then 1 else t.td.num_parms) - 1) * 10) + (b - 0x30)) <
            u16 (arr_get t.td.csi_parms ((if t.td.num_parms = 0 then 1 else t.td.num_parms) - 1) * 10)
          then 65535
          else u16 (u16 (arr_get t.td.csi_parms
              ((if t.td.num_parms = 0 then 1 else t.td.num_parms) - 1) * 10) + (b - 0x30))) } } := by
  have hb' : b < 256 := by unfold is_digit at hb; omega
  obtain ⟨h1, h2, h3, h4, h5, h6, h7⟩ := digit_class b hb' hb
  have h8 : b - 0x30 ≤ 9 := by unfold is_digit at hb; omega
  have hs' : t.td.state = 3 := hs
  unfold xansiterm_putchar
  rw [erase_cursor_of_not_drawn t hd]
  simp only [h1, if_false, hs', h6, h7, or_self]
  simp only [TSTATE_CSI, TSTATE_NORMAL, TSTATE_ESC, if_true]
  unfold xansi_parse_csi
  simp [h2, h3, h4, h5, h8, hs']

/-- A `;` in CSI state: the parameter count grows by one, and the sequence
turns illegal when the count reaches 16. -/
theorem putchar_semicolon (t : Term) (hs : t.td.state = TSTATE_CSI)
    (hd : t.td.cursor_drawn = false) :
    xansiterm_putchar t 0x3B = some { t with td := { t.td with
      num_parms := u8 (t.td.num_parms + 1),
      state := if u8 (t.td.num_parms + 1) ≥ MAX_CSI_PARMS then TSTATE_ILLEGAL else TSTATE_CSI } } := by
  obtain ⟨h1, h2, h3, h4⟩ := semicolon_class
  have hs' : t.td.state = 3 := hs
  unfold xansiterm_putchar
  rw [erase_cursor_of_not_drawn t hd]
  simp only [h1, if_false, hs']
  simp only [TSTATE_CSI, TSTATE_NORMAL, TSTATE_ESC, if_true]
  unfold xansi_parse_csi
  simp [h2, h3, h4, hs', TSTATE_CSI]

/-- A byte below `0x40` that is none of ESC, CAN, SUB is swallowed in ILLEGAL
state. -/
theorem putchar_illegal_skip (t : Term) (b : Nat) (hs : t.td.state = TSTATE_ILLEGAL)
    (hd : t.td.cursor_drawn = false) (hb : b < 0x40) (h1 : b ≠ 0x1B) (h2 : b ≠ 0x18)
    (h3 : b ≠ 0x1A) : xansiterm_putchar t b = some t := by
  have e1 : ¬ b &&& 0x7f = 0x1b := by
    rw [esc_test b (by omega)]; omega
  have e2 : ¬ schar b ≥ 0x40 := by
    unfold schar
    split <;> omega
  have hs' : t.td.state = 1 := hs
  unfold xansiterm_putchar
  rw [erase_cursor_of_not_drawn t hd]
  simp [e1, hs', TSTATE_ILLEGAL, TSTATE_NORMAL, TSTATE_ESC, TSTATE_CSI, h2, h3, e2]

theorem with_parsing_trans (a b c : xansiterm_data) :
    with_parsing (with_parsing a b) c = with_parsing a c := rfl

theorem digit_step (t : Term) (b : Nat) (hs : t.td.state = TSTATE_CSI)
    (hd : t.td.cursor_drawn = false) (hb : is_digit b) :
    ∃ t1, xansiterm_putchar t b = some t1 ∧ t1.hw = t.hw ∧ t1.td = with_parsing t.td t1.td ∧
      t1.td.state = TSTATE_CSI ∧ t1.td.cursor_drawn = false ∧
      t1.td.num_parms = (if t.td.num_parms = 0 then 1 else t.td.num_parms) :=
  ⟨_, putchar_digit t b hs hd hb, rfl, rfl, hs, hd, rfl⟩

theorem semicolon_step (t : Term) (hs : t.td.state = TSTATE_CSI)
    (hd : t.td.cursor_drawn = false) :
    ∃ t1, xansiterm_putchar t 0x3B = some t1 ∧ t1.hw = t.hw ∧ t1.td = with_parsing t.td t1.td ∧
      t1.td.cursor_drawn = false ∧ t1.td.num_parms = u8 (t.td.num_parms + 1) ∧
      t1.td.state = (if u8 (t.td.num_parms + 1) ≥ MAX_CSI_PARMS then TSTATE_ILLEGAL
                     else TSTATE_CSI) :=
  ⟨_, putchar_semicolon t hs hd, rfl, rfl, hd, rfl, rfl⟩

/-- Parameter bytes (digits and `;`) fed in CSI or ILLEGAL state move only the
parser; the sequence is ILLEGAL at the latest when the count of parameters
reaches 16. -/
theorem params_run (bs : List Nat) : ∀ t : Term,
    (∀ b ∈ bs, is_digit b ∨ b = 0x3B) → t.td.cursor_drawn = false →
    ((t.td.state = TSTATE_CSI ∧ t.td.num_parms < 16) ∨ t.td.state = TSTATE_ILLEGAL) →
    ∃ t1, feed t bs = some t1 ∧ t1.hw = t.hw ∧ t1.td = with_parsing t.td t1.td ∧
      t1.td.cursor_drawn = false ∧
      ((t1.td.state = TSTATE_CSI ∧ t1.td.num_parms < 16 ∧ t.td.state = TSTATE_CSI ∧
          t.td.num_parms + bs.count 0x3B ≤ t1.td.num_parms) ∨
        t1.td.state = TSTATE_ILLEGAL) := by
  induction bs with
  | nil =>
    intro t _ hd hst
    refine ⟨t, rfl, rfl, rfl, hd, ?_⟩
    rcases hst with ⟨h1, h2⟩ | h
    · left; exact ⟨h1, h2, h1, by simp⟩
    · right; exact h
  | cons b bs ih =>
    intro t hb hd hst
    have hbs : ∀ c ∈ bs, is_digit c ∨ c = 0x3B := fun c hc => hb c (by simp [hc])
    rcases hst with ⟨hs, hn⟩ | hs
    · rcases hb b (by simp) with hdig | hsemi
      · -- a digit
        have hne : b ≠ 0x3B := by unfold is_digit at hdig; omega
        obtain ⟨t0, hstep, hhw0, htd0, hs0, hd0, hn0⟩ := digit_step t b hs hd hdig
        obtain ⟨t1, h1, hhw, htd, hd1, hres⟩ := ih t0 hbs hd0
          (Or.inl ⟨hs0, by rw [hn0]; split <;> omega⟩)
        refine ⟨t1, by simp [feed, hstep, h1], by rw [hhw, hhw0], ?_, hd1, ?_⟩
        · rw [htd, htd0]; rfl
        · rcases hres with ⟨r1, r2, _, r4⟩ | r
          · left
            refine ⟨r1, r2, hs, ?_⟩
            rw [hn0] at r4
            rw [List.count_cons_of_ne (Ne.symm hne)]
            split at r4 <;> omega
          · right; exact r
      · -- a semicolon
        subst hsemi
        obtain ⟨t0, hstep, hhw0, htd0, hd0, hn0, hs0⟩ := semicolon_step t hs hd
        have hu : u8 (t.td.num_parms + 1) = t.td.num_parms + 1 := by unfold u8; omega
        rw [hu] at hn0 hs0
        by_cases hfull : t.td.num_parms + 1 ≥ 16
        · have hs0' : t0.td.state = TSTATE_ILLEGAL := by
            rw [hs0]; simp [MAX_CSI_PARMS, hfull]
          obtain ⟨t1, h1, hhw, htd, hd1, hres⟩ := ih t0 hbs hd0 (Or.inr hs0')
          refine ⟨t1, by simp [feed, hstep, h1], by rw [hhw, hhw0], by rw [htd, htd0]; rfl,
            hd1, ?_⟩
          rcases hres with ⟨_, _, r3, _⟩ | r
          · rw [hs0'] at r3; simp [TSTATE_ILLEGAL, TSTATE_CSI] at r3
          · right; exact r
        · have hs0' : t0.td.state = TSTATE_CSI := by
            rw [hs0]; simp [MAX_CSI_PARMS, hfull]
          obtain ⟨t1, h1, hhw, htd, hd1, hres⟩ := ih t0 hbs hd0
            (Or.inl ⟨hs0', by rw [hn0]; omega⟩)
          refine ⟨t1, by simp [feed, hstep, h1], by rw [hhw, hhw0], by rw [htd, htd0]; rfl,
            hd1, ?_⟩
          rcases hres with ⟨r1, r2, _, r4⟩ | r
          · left
            refine ⟨r1, r2, hs, ?_⟩
            rw [hn0] at r4
            simp only [List.count_cons_self]
            omega
          · right; exact r
    · -- already ILLEGAL: the byte is skipped
      have hb40 : b < 0x40 ∧ b ≠ 0x1B ∧ b ≠ 0x18 ∧ b ≠ 0x1A := by
        rcases hb b (by simp) with h | h
        · unfold is_digit at h; omega
        · omega
      have hstep := putchar_illegal_skip t b hs hd hb40.1 hb40.2.1 hb40.2.2.1 hb40.2.2.2
      obtain ⟨t1, h1, hhw, htd, hd1, hres⟩ := ih t hbs hd (Or.inr hs)
      refine ⟨t1, by simp [feed, hstep, h1], hhw, htd, hd1, ?_⟩
      rcases hres with ⟨_, _, r3, _⟩ | r
      · rw [hs] at r3; simp [TSTATE_ILLEGAL, TSTATE_CSI] at r3
      · right; exact r

/-- In ILLEGAL state a run of bytes below `0x40`, none of them ESC, CAN or SUB,
changes nothing. -/
theorem illegal_run (bs : List Nat) (t : Term) (hs : t.td.state = TSTATE_ILLEGAL)
    (hd : t.td.cursor_drawn = false)
    (hb : ∀ b ∈ bs, b < 0x40 ∧ b ≠ 0x1B ∧ b ≠ 0x18 ∧ b ≠ 0x1A) : feed t bs = some t := by
  induction bs with
  | nil => rfl
  | cons b bs ih =>
    have h := hb b (by simp)
    simp [feed, putchar_illegal_skip t b hs hd h.1 h.2.1 h.2.2.1 h.2.2.2,
      ih (fun c hc => hb c (by simp [hc]))]

theorem sep_values_digits_or_semicolon (vals : List (List Nat))
    (hv : ∀ v ∈ vals, ∀ d ∈ v, is_digit d) : ∀ b ∈ sep_values vals, is_digit b ∨ b = 0x3B := by
  induction vals with
  | nil => intro b hb; simp [sep_values] at hb
  | cons v vs ih =>
    cases vs with
    | nil =>
      intro b hb
      simp only [sep_values] at hb
      exact Or.inl (hv v (by simp) b hb)
    | cons w ws =>
      intro b hb
      simp only [sep_values, List.mem_append, List.mem_cons] at hb
      rcases hb with h | h | h
      · exact Or.inl (hv v (by simp) b h)
      · exact Or.inr h
      · exact ih (fun u hu => hv u (by simp [hu])) b h

theorem sep_values_count (vals : List (List Nat)) (hv : ∀ v ∈ vals, ∀ d ∈ v, is_digit d) :
    (sep_values vals).count 0x3B = vals.length - 1 := by
  induction vals with
  | nil => simp [sep_values]
  | cons v vs ih =>
    have hvc : v.count 0x3B = 0 := by
      rw [List.count_eq_zero]
      intro h
      have := hv v (by simp) _ h
      unfold is_digit at this
      omega
    cases vs with
    | nil => simp [sep_values, hvc]
    | cons w ws =>
      have := ih (fun u hu => hv u (by simp [hu]))
      simp only [sep_values, List.count_append, List.count_cons_self, hvc, List.length_cons] at this ⊢
      omega

/-- C9: feeding CSI followed by 17 `;`-separated decimal values leaves the
parser in state ILLEGAL before any final byte is seen, and every further byte
below `0x40` other than ESC, CAN and SUB is swallowed: after the whole
sequence the state is still ILLEGAL and `x`, `y`, `lcf`, `cur_addr`, the
flags, the three colours and video memory are what they were (video memory
apart from the input cursor, which every `xansiterm_putchar` takes off the
screen first).  The introducer is fed in a state in which it starts a
sequence. -/
theorem C9_seventeen_parameters_swallowed (t : Term) (vals : List (List Nat)) (rest : List Nat)
    (hstart : starts_sequence t.td) (hlen : vals.length = 17)
    (hv : ∀ v ∈ vals, ∀ d ∈ v, is_digit d)
    (hrest : ∀ b ∈ rest, b < 0x40 ∧ b ≠ 0x1B ∧ b ≠ 0x18 ∧ b ≠ 0x1A) :
    (∃ t1, feed t (0x1B :: 0x5B :: sep_values vals) = some t1 ∧
      t1.td.state = TSTATE_ILLEGAL) ∧
    ∃ t2, feed t (0x1B :: 0x5B :: (sep_values vals ++ rest)) = some t2 ∧
      t2.td.state = TSTATE_ILLEGAL ∧
      t2.td.x = t.td.x ∧ t2.td.y = t.td.y ∧ t2.td.lcf = t.td.lcf ∧
      t2.td.cur_addr = t.td.cur_addr ∧ t2.td.flags = t.td.flags ∧
      t2.td.def_color = t.td.def_color ∧ t2.td.cur_color = t.td.cur_color ∧
      t2.td.color = t.td.color ∧
      t2.hw.vram = (xansi_erase_cursor t).hw.vram ∧
      (t.td.cursor_drawn = false → t2.hw.vram = t.hw.vram) := by
  have hcount := sep_values_count vals hv
  rw [hlen] at hcount
  obtain ⟨t1, h1, hhw1, htd1, hd1, hres⟩ :=
    params_run (sep_values vals)
      { td := { t.td with cursor_drawn := false, state := TSTATE_CSI, intermediate_char := 0,
                          num_parms := 0, csi_parms := List.replicate MAX_CSI_PARMS 0 },
        hw := (xansi_erase_cursor t).hw }
      (sep_values_digits_or_semicolon vals hv) rfl (Or.inl ⟨rfl, Nat.zero_lt_succ 15⟩)
  have hill : t1.td.state = TSTATE_ILLEGAL := by
    rcases hres with ⟨_, r2, _, r4⟩ | r
    · rw [hcount] at r4
      simp only at r4
      omega
    · exact r
  have h2 := illegal_run rest t1 hill hd1 hrest
  refine ⟨⟨t1, by rw [feed_csi t _ hstart, h1], hill⟩, t1, ?_, hill, ?_⟩
  · rw [feed_csi t _ hstart, feed_append, h1]
    exact h2
  · have hx := congrArg xansiterm_data.x htd1
    have hy := congrArg xansiterm_data.y htd1
    have hl := congrArg xansiterm_data.lcf htd1
    have ha := congrArg xansiterm_data.cur_addr htd1
    have hf := congrArg xansiterm_data.flags htd1
    have hdc := congrArg xansiterm_data.def_color htd1
    have hcc := congrArg xansiterm_data.cur_color htd1
    have hc := congrArg xansiterm_data.color htd1
    refine ⟨hx, hy, hl, ha, hf, hdc, hcc, hc, by rw [hhw1], ?_⟩
    intro hnd
    rw [hhw1, erase_cursor_of_not_drawn t hnd]

/-- C9 at a concrete input: seventeen values `1;1;...;1` and then `2;` on the
80 by 30 terminal. -/
theorem C9_seventeen_parameters_swallowed_witness :
    starts_sequence demo_term.td ∧ (List.replicate 17 [0x31]).length = 17 ∧
    (∀ v ∈ List.replicate 17 [0x31], ∀ d ∈ v, is_digit d) ∧
    (∀ b ∈ [0x32, 0x3B], b < 0x40 ∧ b ≠ 0x1B ∧ b ≠ 0x18 ∧ b ≠ 0x1A) ∧
    ((∃ t1, feed demo_term (0x1B :: 0x5B :: sep_values (List.replicate 17 [0x31])) = some t1 ∧
      t1.td.state = TSTATE_ILLEGAL) ∧
    ∃ t2, feed demo_term (0x1B :: 0x5B :: (sep_values (List.replicate 17 [0x31]) ++ [0x32, 0x3B]))
        = some t2 ∧
      t2.td.state = TSTATE_ILLEGAL ∧
      t2.td.x = demo_term.td.x ∧ t2.td.y = demo_term.td.y ∧ t2.td.lcf = demo_term.td.lcf ∧
      t2.td.cur_addr = demo_term.td.cur_addr ∧ t2.td.flags = demo_term.td.flags ∧
      t2.td.def_color = demo_term.td.def_color ∧ t2.td.cur_color = demo_term.td.cur_color ∧
      t2.td.color = demo_term.td.color ∧
      t2.hw.vram = (xansi_erase_cursor demo_term).hw.vram ∧
      (demo_term.td.cursor_drawn = false → t2.hw.vram = demo_term.hw.vram)) :=
  ⟨by decide, by decide, by decide, by decide,
    C9_seventeen_parameters_swallowed demo_term (List.replicate 17 [0x31]) [0x32, 0x3B]
      (by decide) (by decide) (by decide) (by decide)⟩

/-- C9, the counterexample: on the 640 by 480 adapter, after `CSI 8 m`
(passthrough on) and a first `CSI` the parser is in state CSI at column 0;
`CSI` and the seventeen values `1;1;...;1` fed now are drawn as 35 glyphs: the
parser ends in NORMAL state, not ILLEGAL, and the cursor is at column 35. -/
theorem C9_sequence_is_printed_in_passthrough :
    ∃ t t1, Reachable t ∧ t.td.state = TSTATE_CSI ∧ t.td.x = 0 ∧
      feed t (0x1B :: 0x5B :: sep_values (List.replicate 17 [0x31])) = some t1 ∧
      t1.td.state = TSTATE_NORMAL ∧ t1.td.x = 35 := by
  obtain ⟨t1, ht1, hv1⟩ := of_map_eq_some
    (boot (adapter 640 480)
      ([0x1B, 0x5B, 0x38, 0x6D, 0x1B, 0x5B] ++
        (0x1B :: 0x5B :: sep_values (List.replicate 17 [0x31]))))
    (fun t => (t.td.state, t.td.x)) (0, 35) (by decide!)
  obtain ⟨t, ht, hfeed⟩ := boot_split _ _ _ t1 ht1
  obtain ⟨t', ht', hv⟩ := of_map_eq_some
    (boot (adapter 640 480) [0x1B, 0x5B, 0x38, 0x6D, 0x1B, 0x5B])
    (fun t => (t.td.state, t.td.x)) (3, 0) (by decide!)
  rw [ht] at ht'
  cases ht'
  simp only [Prod.mk.injEq] at hv hv1
  exact ⟨t, t1, boot_reachable _ _ t 80 30 (by decide) (by decide) (by decide!) ht,
    hv.1, hv.2, hfeed, hv1.1, hv1.2⟩

/-- C1, the failing input: on the 640 by 480 adapter (80 by 30 grid), after
`CSI 99 B` (cursor to the bottom row), 80 letters (the bottom row is filled,
the wrap is deferred) and CR, the deferred-wrap flag is clear while `cur_addr`
is 2400, one row past `vram_base + y*cols + x = 2320`. -/
theorem C1_cursor_address_after_cr_on_full_bottom_row :
    ∃ t, Reachable t ∧
      boot (adapter 640 480)
        ([0x1B, 0x5B, 0x39, 0x39, 0x42] ++ List.replicate 80 0x41 ++ [0x0D]) = some t ∧
      0 < t.td.cols ∧ 0 < t.td.rows ∧ t.td.lcf = false ∧ t.td.cur_addr = 2400 ∧
      u16 (t.td.vram_base + t.td.y * t.td.cols + t.td.x) = 2320 := by
  obtain ⟨t, ht, hv⟩ := of_map_eq_some
    (boot (adapter 640 480) ([0x1B, 0x5B, 0x39, 0x39, 0x42] ++ List.replicate 80 0x41 ++ [0x0D]))
    (fun t => (t.td.cols, t.td.rows, t.td.lcf, t.td.cur_addr,
      u16 (t.td.vram_base + t.td.y * t.td.cols + t.td.x)))
    (80, 30, false, 2400, 2320) (by decide!)
  simp only [Prod.mk.injEq] at hv
  obtain ⟨h1, h2, h3, h4, h5⟩ := hv
  exact ⟨t, boot_reachable _ _ t 80 30 (by decide) (by decide) (by decide!) ht, ht,
    by omega, by omega, h3, h4, h5⟩

/-- C2, the failing inputs: on the 640 by 480 adapter (80 by 30 grid),
`CSI 0 H` leaves the cursor row at 65535, and `CSI 99 B` followed by `ESC E`
(next line, on the bottom row) leaves it at 30: in both reachable states
`y < rows` fails. -/
theorem C2_cursor_row_leaves_the_grid :
    (∃ t, Reachable t ∧ boot (adapter 640 480) [0x1B, 0x5B, 0x30, 0x48] = some t ∧
      t.td.rows = 30 ∧ t.td.y = 65535) ∧
    (∃ t, Reachable t ∧
      boot (adapter 640 480) [0x1B, 0x5B, 0x39, 0x39, 0x42, 0x1B, 0x45] = some t ∧
      t.td.rows = 30 ∧ t.td.y = 30) := by
  constructor
  · obtain ⟨t, ht, hv⟩ := of_map_eq_some
      (boot (adapter 640 480) [0x1B, 0x5B, 0x30, 0x48])
      (fun t => (t.td.rows, t.td.y)) (30, 65535) (by decide!)
    simp only [Prod.mk.injEq] at hv
    exact ⟨t, boot_reachable _ _ t 80 30 (by decide) (by decide) (by decide!) ht, ht, hv.1, hv.2⟩
  · obtain ⟨t, ht, hv⟩ := of_map_eq_some
      (boot (adapter 640 480) [0x1B, 0x5B, 0x39, 0x39, 0x42, 0x1B, 0x45])
      (fun t => (t.td.rows, t.td.y)) (30, 30) (by decide!)
    simp only [Prod.mk.injEq] at hv
    exact ⟨t, boot_reachable _ _ t 80 30 (by decide) (by decide) (by decide!) ht, ht, hv.1, hv.2⟩

/-- C10, the failing input: after `CSI` the digits 9,9,9,9,9 leave 34463 in
parameter slot 0, not `min 99999 65535 = 65535`: the multiplication by ten
wraps before the saturation test on the addition is made. -/
theorem C10_digits_99999_wrap :
    (boot (adapter 640 480) [0x1B, 0x5B, 0x39, 0x39, 0x39, 0x39, 0x39]).map
        (fun t => (t.td.state, t.td.num_parms, arr_get t.td.csi_parms 0)) =
      some (TSTATE_CSI, 1, 34463) ∧
    min (decimal_value [0x39, 0x39, 0x39, 0x39, 0x39]) 65535 = 65535 := by
  decide!

/-- C3: a sequence of `n < cols` printable bytes, fed in NORMAL state with the
cursor at column 0 of row `y`, `lcf` false and `cur_addr` consistent with
`(0, y)`, ends with `x = n`, `y` and `lcf` as they were, the `i`-th byte in the
low byte and the effective colour in the high byte of the cell at
`vram_base + y*cols + i` for every `i < n`, and every other cell of video
memory as it was. -/
theorem C3_printable_run (t : Term) (bs : List Nat)
    (hb : ∀ b ∈ bs, printable b) (hn : bs.length < t.td.cols)
    (hs : t.td.state = TSTATE_NORMAL) (hx : t.td.x = 0) (hl : t.td.lcf = false)
    (ha : t.td.cur_addr = xansi_calc_addr t.td 0 t.td.y)
    (hcols : t.td.cols < 65536) (hcolor : t.td.color < 256) :
    ∃ t1, feed t bs = some t1 ∧ t1.td.x = bs.length ∧ t1.td.y = t.td.y ∧ t1.td.lcf = false ∧
      (∀ i (h : i < bs.length),
        t1.hw.vram (u16 (t.td.vram_base + t.td.y * t.td.cols + i)) =
          t.td.color * 256 + bs.get ⟨i, h⟩) ∧
      (∀ a, (∀ i, i < bs.length → a ≠ u16 (t.td.vram_base + t.td.y * t.td.cols + i)) →
        t1.hw.vram a = t.hw.vram a) := by
  have hca : t.td.cur_addr < 65536 := by
    rw [ha]; unfold xansi_calc_addr u16; omega
  have haddr : ∀ i, u16 (t.td.cur_addr + i) = u16 (t.td.vram_base + t.td.y * t.td.cols + i) := by
    intro i
    rw [ha]; unfold xansi_calc_addr u16; omega
  obtain ⟨t1, h1, htd, hv, hf⟩ := print_run bs t hb hs hl (by omega) (by omega) hca
  refine ⟨t1, h1, ?_, ?_, ?_, ?_, ?_⟩
  · rw [htd]; simp [hx]
  · rw [htd]
  · rw [htd]; exact hl
  · intro i h
    rw [← haddr i, hv i h, u8_of_lt _ hcolor]
  · intro a hne
    exact hf a (fun i hi => by rw [haddr i]; exact hne i hi)

/-- C3 at a concrete input: the two bytes `Hi` on the 80 by 30 terminal. -/
theorem C3_printable_run_witness :
    (∀ b ∈ [0x48, 0x69], printable b) ∧ [0x48, 0x69].length < demo_term.td.cols ∧
    demo_term.td.state = TSTATE_NORMAL ∧ demo_term.td.x = 0 ∧ demo_term.td.lcf = false ∧
    demo_term.td.cur_addr = xansi_calc_addr demo_term.td 0 demo_term.td.y ∧
    demo_term.td.cols < 65536 ∧ demo_term.td.color < 256 ∧
    ∃ t1, feed demo_term [0x48, 0x69] = some t1 ∧ t1.td.x = [0x48, 0x69].length ∧
      t1.td.y = demo_term.td.y ∧ t1.td.lcf = false ∧
      (∀ i (h : i < [0x48, 0x69].length),
        t1.hw.vram (u16 (demo_term.td.vram_base + demo_term.td.y * demo_term.td.cols + i)) =
          demo_term.td.color * 256 + [0x48, 0x69].get ⟨i, h⟩) ∧
      (∀ a, (∀ i, i < [0x48, 0x69].length →
          a ≠ u16 (demo_term.td.vram_base + demo_term.td.y * demo_term.td.cols + i)) →
        t1.hw.vram a = demo_term.hw.vram a) :=
  ⟨by decide, by decide, by decide, by decide, by decide, by decide, by decide, by decide,
    C3_printable_run demo_term [0x48, 0x69] (by decide) (by decide) (by decide) (by decide)
      (by decide) (by decide) (by decide) (by decide)⟩

/-! ## Control characters in NORMAL state -/

theorem ctrl_not_esc (b : Nat) (hb : b < 0x20) (hne : b ≠ 0x1B) : ¬ (b &&& 0x7f = 0x1b) := by
  rw [esc_test b (by omega)]; omega

/-- A control byte other than ESC, in NORMAL state with passthrough off, goes
to the `switch` of `xansi_processchar`. -/
theorem putchar_ctrl (t : Term) (b : Nat) (hs : t.td.state = TSTATE_NORMAL) (hb : b < 0x20)
    (hne : b ≠ 0x1B) : xansiterm_putchar t b = xansi_processchar (xansi_erase_cursor t) b := by
  have h1 := ctrl_not_esc b hb hne
  unfold xansiterm_putchar
  simp only [h1, if_false, erase_cursor_td, hs, if_true]

theorem processchar_finish_in_grid (t : Term) (h : t.td.y < t.td.rows) :
    processchar_finish t = { t with td := { t.td with lcf := false } } := by
  unfold processchar_finish
  have : ¬ (t.td.y ≥ t.td.rows) := by omega
  simp [this]

theorem processchar_cr (t : Term) (hp : t.td.flags &&& TFLAG_ATTRIB_PASSTHRU = 0) :
    xansi_processchar t 0x0D = some (processchar_finish
      { t with td := { t.td with cur_addr := sub16 t.td.cur_addr t.td.x, x := 0 } }) := by
  unfold xansi_processchar
  have : ¬ (u8 0x0D ≥ 0x20) := by decide
  simp [this, hp]

theorem processchar_lf (t : Term) (hp : t.td.flags &&& TFLAG_ATTRIB_PASSTHRU = 0) :
    xansi_processchar t 0x0A = some (processchar_finish
      (if t.td.flags &&& TFLAG_NEWLINE ≠ 0 then
        { t with td := { t.td with
            cur_addr := sub16 (u16 (t.td.cur_addr + t.td.cols)) t.td.x, y := u16 (t.td.y + 1),
            x := 0 } }
      else
        { t with td := { t.td with
            cur_addr := u16 (t.td.cur_addr + t.td.cols), y := u16 (t.td.y + 1) } })) := by
  unfold xansi_processchar
  have : ¬ (u8 0x0A ≥ 0x20) := by decide
  simp only [this, hp, ne_eq, not_true_eq_false, or_self, if_false]
  simp

/-- CR in NORMAL state with passthrough off and the cursor inside the grid. -/
theorem putchar_cr (t : Term) (hs : t.td.state = TSTATE_NORMAL)
    (hp : t.td.flags &&& TFLAG_ATTRIB_PASSTHRU = 0) (hy : t.td.y < t.td.rows) :
    xansiterm_putchar t 0x0D = some
      { td := { t.td with cur_addr := sub16 t.td.cur_addr t.td.x, x := 0, lcf := false,
                          cursor_drawn := false },
        hw := (xansi_erase_cursor t).hw } := by
  rw [putchar_ctrl t 0x0D hs (by decide) (by decide),
    processchar_cr _ (by rw [erase_cursor_td]; exact hp),
    processchar_finish_in_grid _ (by simpa [erase_cursor_td] using hy)]
  simp [erase_cursor_td]

/-- LF in NORMAL state with passthrough off and the cursor above the bottom
row. -/
theorem putchar_lf (t : Term) (hs : t.td.state = TSTATE_NORMAL)
    (hp : t.td.flags &&& TFLAG_ATTRIB_PASSTHRU = 0) (hy : t.td.y + 1 < t.td.rows)
    (hr : t.td.rows ≤ 65536) :
    xansiterm_putchar t 0x0A = some
      { td := { t.td with
          cur_addr := if t.td.flags &&& TFLAG_NEWLINE ≠ 0
            then sub16 (u16 (t.td.cur_addr + t.td.cols)) t.td.x
            else u16 (t.td.cur_addr + t.td.cols),
          x := if t.td.flags &&& TFLAG_NEWLINE ≠ 0 then 0 else t.td.x,
          y := t.td.y + 1, lcf := false, cursor_drawn := false },
        hw := (xansi_erase_cursor t).hw } := by
  have hy1 : u16 (t.td.y + 1) = t.td.y + 1 := by unfold u16; omega
  rw [putchar_ctrl t 0x0A hs (by decide) (by decide),
    processchar_lf _ (by rw [erase_cursor_td]; exact hp)]
  simp only [erase_cursor_td, hy1]
  by_cases hn : t.td.flags &&& TFLAG_NEWLINE = 0
  · simp only [hn, ne_eq, not_true_eq_false, if_false]
    rw [processchar_finish_in_grid _ (by simpa using hy)]
  · simp only [hn, ne_eq, not_false_eq_true, if_true]
    rw [processchar_finish_in_grid _ (by simpa using hy)]

theorem calc_addr_next_row (td : xansiterm_data) (x y : Nat) :
    u16 (xansi_calc_addr td x y + td.cols) = xansi_calc_addr td x (y + 1) := by
  have e : (y + 1) * td.cols = y * td.cols + td.cols := by ring
  unfold xansi_calc_addr u16
  rw [e]
  omega

theorem calc_addr_column_zero (td : xansiterm_data) (x y : Nat) :
    sub16 (xansi_calc_addr td x y) x = xansi_calc_addr td 0 y := by
  unfold xansi_calc_addr u16 sub16
  omega

/-- C5, as amended: in NORMAL state with passthrough off, the cursor at
`(x, y)` with `y < rows - 1` and `cur_addr` consistent with `(x, y)`: CR then
LF leaves the cursor at column 0 of row `y + 1`; LF alone with the newline
flag clear leaves `x` as it was and moves to row `y + 1`; in both cases
`cur_addr` is `vram_base + y'*cols + x'` for the new position and video memory
is what it was (apart from the input cursor being taken off the screen). -/
theorem C5_cr_lf (t : Term) (hs : t.td.state = TSTATE_NORMAL)
    (hp : t.td.flags &&& TFLAG_ATTRIB_PASSTHRU = 0) (hy : t.td.y + 1 < t.td.rows)
    (hr : t.td.rows < 65536) (ha : t.td.cur_addr = xansi_calc_addr t.td t.td.x t.td.y) :
    (∃ t2, feed t [0x0D, 0x0A] = some t2 ∧ t2.td.x = 0 ∧ t2.td.y = t.td.y + 1 ∧
      t2.td.cur_addr = u16 (t2.td.vram_base + t2.td.y * t2.td.cols + t2.td.x) ∧
      t2.hw.vram = (xansi_erase_cursor t).hw.vram ∧
      (t.td.cursor_drawn = false → t2.hw.vram = t.hw.vram)) ∧
    (t.td.flags &&& TFLAG_NEWLINE = 0 →
      ∃ t1, feed t [0x0A] = some t1 ∧ t1.td.x = t.td.x ∧ t1.td.y = t.td.y + 1 ∧
        t1.td.cur_addr = u16 (t1.td.vram_base + t1.td.y * t1.td.cols + t1.td.x) ∧
        t1.hw.vram = (xansi_erase_cursor t).hw.vram ∧
        (t.td.cursor_drawn = false → t1.hw.vram = t.hw.vram)) := by
  have hplain : ∀ x y, xansi_calc_addr t.td x y = u16 (t.td.vram_base + y * t.td.cols + x) := by
    intro x y; unfold xansi_calc_addr u16; omega
  constructor
  · obtain ⟨T1, hT1, h1⟩ : ∃ T, T = _ ∧ xansiterm_putchar t 0x0D = some T :=
      ⟨_, rfl, putchar_cr t hs hp (by omega)⟩
    have hd1 : T1.td.cursor_drawn = false := by rw [hT1]
    obtain ⟨T2, hT2, h2⟩ : ∃ T, T = _ ∧ xansiterm_putchar T1 0x0A = some T :=
      ⟨_, rfl, putchar_lf T1 (by rw [hT1]; exact hs) (by rw [hT1]; exact hp)
        (by rw [hT1]; exact hy) (by rw [hT1]; exact Nat.le_of_lt hr)⟩
    rw [erase_cursor_of_not_drawn T1 hd1] at hT2
    have hx1 : T1.td.x = 0 := by rw [hT1]
    have hc1 : T1.td.cur_addr = xansi_calc_addr t.td 0 t.td.y := by
      rw [hT1]; simp only; rw [ha, calc_addr_column_zero]
    have hcols1 : T1.td.cols = t.td.cols := by rw [hT1]
    have hy1 : T1.td.y = t.td.y := by rw [hT1]
    have hb1 : T1.td.vram_base = t.td.vram_base := by rw [hT1]
    have hw1 : T1.hw = (xansi_erase_cursor t).hw := by rw [hT1]
    have e0 : ∀ v, sub16 (u16 v) 0 = u16 v := by intro v; unfold sub16 u16; omega
    have hx2 : T2.td.x = 0 := by
      rw [hT2]; simp only [hx1]; split <;> rfl
    have hy2 : T2.td.y = t.td.y + 1 := by rw [hT2]; simp only [hy1]
    have hc2 : T2.td.cur_addr = xansi_calc_addr t.td 0 (t.td.y + 1) := by
      rw [hT2]; simp only [hx1, hc1, hcols1, e0]
      split <;> exact calc_addr_next_row t.td 0 t.td.y
    have hcols2 : T2.td.cols = t.td.cols := by rw [hT2]; exact hcols1
    have hb2 : T2.td.vram_base = t.td.vram_base := by rw [hT2]; exact hb1
    have hw2 : T2.hw = (xansi_erase_cursor t).hw := by rw [hT2]; exact hw1
    refine ⟨T2, by simp only [feed, h1, Option.some_bind, h2], hx2, hy2, ?_, by rw [hw2], ?_⟩
    · rw [hc2, hx2, hy2, hcols2, hb2, hplain]
    · intro hnd
      rw [hw2, erase_cursor_of_not_drawn t hnd]
  · intro hn
    obtain ⟨T1, hT1, h1⟩ : ∃ T, T = _ ∧ xansiterm_putchar t 0x0A = some T :=
      ⟨_, rfl, putchar_lf t hs hp hy (by omega)⟩
    simp only [hn, ne_eq, not_true_eq_false, if_false] at hT1
    have hx1 : T1.td.x = t.td.x := by rw [hT1]
    have hy1 : T1.td.y = t.td.y + 1 := by rw [hT1]
    have hc1 : T1.td.cur_addr = xansi_calc_addr t.td t.td.x (t.td.y + 1) := by
      rw [hT1]; simp only; rw [ha, calc_addr_next_row]
    have hcols1 : T1.td.cols = t.td.cols := by rw [hT1]
    have hb1 : T1.td.vram_base = t.td.vram_base := by rw [hT1]
    have hw1 : T1.hw = (xansi_erase_cursor t).hw := by rw [hT1]
    refine ⟨T1, by simp only [feed, h1, Option.some_bind], hx1, hy1, ?_, by rw [hw1], ?_⟩
    · rw [hc1, hx1, hy1, hcols1, hb1, hplain]
    · intro hnd
      rw [hw1, erase_cursor_of_not_drawn t hnd]

/-- C5 at a concrete input: the 80 by 30 terminal, cursor at home. -/
theorem C5_cr_lf_witness :
    demo_term.td.state = TSTATE_NORMAL ∧
    demo_term.td.flags &&& TFLAG_ATTRIB_PASSTHRU = 0 ∧ demo_term.td.y + 1 < demo_term.td.rows ∧
    demo_term.td.rows < 65536 ∧
    demo_term.td.cur_addr = xansi_calc_addr demo_term.td demo_term.td.x demo_term.td.y ∧
    ((∃ t2, feed demo_term [0x0D, 0x0A] = some t2 ∧ t2.td.x = 0 ∧
      t2.td.y = demo_term.td.y + 1 ∧
      t2.td.cur_addr = u16 (t2.td.vram_base + t2.td.y * t2.td.cols + t2.td.x) ∧
      t2.hw.vram = (xansi_erase_cursor demo_term).hw.vram ∧
      (demo_term.td.cursor_drawn = false → t2.hw.vram = demo_term.hw.vram)) ∧
    (demo_term.td.flags &&& TFLAG_NEWLINE = 0 →
      ∃ t1, feed demo_term [0x0A] = some t1 ∧ t1.td.x = demo_term.td.x ∧
        t1.td.y = demo_term.td.y + 1 ∧
        t1.td.cur_addr = u16 (t1.td.vram_base + t1.td.y * t1.td.cols + t1.td.x) ∧
        t1.hw.vram = (xansi_erase_cursor demo_term).hw.vram ∧
        (demo_term.td.cursor_drawn = false → t1.hw.vram = demo_term.hw.vram))) :=
  ⟨by decide, by decide, by decide, by decide, by decide,
    C5_cr_lf demo_term (by decide) (by decide) (by decide) (by decide) (by decide)⟩

/-- C5, the counterexample: on the 640 by 480 adapter, after `CSI 99 B`, 80
letters, CR and VT the terminal is in NORMAL state with passthrough and
newline mode off and the cursor at `(0, 28)`, above the bottom row 29, but
`cur_addr` is one row ahead; LF then leaves `cur_addr` at 2400 while
`vram_base + y*cols + x` is 2320. -/
theorem C5_lf_keeps_a_stale_cursor_address :
    ∃ t t1, Reachable t ∧ t.td.state = TSTATE_NORMAL ∧
      t.td.flags &&& TFLAG_ATTRIB_PASSTHRU = 0 ∧ t.td.flags &&& TFLAG_NEWLINE = 0 ∧
      t.td.y + 1 < t.td.rows ∧ feed t [0x0A] = some t1 ∧
      t1.td.x = t.td.x ∧ t1.td.y = t.td.y + 1 ∧ t1.td.cur_addr = 2400 ∧
      u16 (t1.td.vram_base + t1.td.y * t1.td.cols + t1.td.x) = 2320 := by
  obtain ⟨t1, ht1, hv1⟩ := of_map_eq_some
    (boot (adapter 640 480)
      (([0x1B, 0x5B, 0x39, 0x39, 0x42] ++ List.replicate 80 0x41 ++ [0x0D, 0x0B]) ++ [0x0A]))
    (fun t => (t.td.x, t.td.y, t.td.cur_addr,
      u16 (t.td.vram_base + t.td.y * t.td.cols + t.td.x)))
    (0, 29, 2400, 2320) (by decide!)
  obtain ⟨t, ht, hfeed⟩ := boot_split _ _ _ t1 ht1
  obtain ⟨t', ht', hv⟩ := of_map_eq_some
    (boot (adapter 640 480)
      ([0x1B, 0x5B, 0x39, 0x39, 0x42] ++ List.replicate 80 0x41 ++ [0x0D, 0x0B]))
    (fun t => (t.td.state, t.td.flags, t.td.x, t.td.y, t.td.rows))
    (0, 0, 0, 28, 30) (by decide!)
  rw [ht] at ht'
  cases ht'
  simp only [Prod.mk.injEq] at hv hv1
  obtain ⟨a1, a2, a3, a4, a5⟩ := hv
  obtain ⟨b1, b2, b3, b4⟩ := hv1
  refine ⟨t, t1, boot_reachable _ _ t 80 30 (by decide) (by decide) (by decide!) ht,
    a1, ?_, ?_, by omega, hfeed, by omega, by omega, b3, b4⟩
  · rw [a2]; decide
  · rw [a2]; decide

/-! ## Frames of cursor motion -/

theorem with_motion_trans (a b c : xansiterm_data) :
    with_motion (with_motion a b) c = with_motion a c := rfl

theorem with_motion_self (a : xansiterm_data) : with_motion a a = a := rfl

theorem with_motion_of_eq {a b c : xansiterm_data} (h1 : b = with_motion a b)
    (h2 : c = with_motion b c) : c = with_motion a c := by
  rw [h2, h1]; rfl

theorem with_motion_of_parsing {a b : xansiterm_data} (h : b = with_parsing a b) :
    b = with_motion a b := by
  rw [h]; rfl

theorem with_cursor_of_eq {a b c : xansiterm_data} (h1 : b = with_cursor a b)
    (h2 : c = with_cursor b c) : c = with_cursor a c := by
  rw [h2, h1]; rfl

theorem with_motion_of_cursor {a b : xansiterm_data} (h : b = with_cursor a b) :
    b = with_motion a b := by
  rw [h]; rfl

theorem scroll_up_td (t : Term) : (xansi_scroll_up t).td = t.td := rfl

theorem scroll_down_td (t : Term) : (xansi_scroll_down t).td = t.td := rfl

theorem check_lcf_frame (t : Term) :
    (xansi_check_lcf t).td = with_cursor t.td (xansi_check_lcf t).td := by
  unfold xansi_check_lcf
  split
  · dsimp only
    split
    · rw [scroll_up_td]; rfl
    · rfl
  · rfl

theorem drawchar_frame (t : Term) (b : Nat) :
    (xansi_drawchar t b).td = with_cursor t.td (xansi_drawchar t b).td := by
  have h := check_lcf_frame t
  unfold xansi_drawchar
  dsimp only
  split
  · split
    · dsimp only; rw [h]; rfl
    · dsimp only
      split <;> (dsimp only; rw [h]; rfl)
  · dsimp only; rw [h]; rfl

theorem processchar_finish_frame (t : Term) :
    (processchar_finish t).td = with_cursor t.td (processchar_finish t).td := by
  unfold processchar_finish
  dsimp only
  split
  · rw [scroll_up_td]; rfl
  · rfl

/-- The control bytes BS, TAB, LF, VT and CR, and any byte that is drawn,
return and change only the cursor fields of the session record. -/
theorem processchar_motion (t : Term) (b : Nat)
    (hb : printable b ∨ b = 0x08 ∨ b = 0x09 ∨ b = 0x0A ∨ b = 0x0B ∨ b = 0x0D) :
    ∃ t1, xansi_processchar t b = some t1 ∧ t1.td = with_cursor t.td t1.td := by
  unfold xansi_processchar
  simp only
  split
  · exact ⟨_, rfl, drawchar_frame t b⟩
  · rename_i hnd
    rcases hb with h | h | h | h | h | h
    · exfalso
      apply hnd
      left
      unfold printable at h
      unfold u8
      omega
    all_goals
      subst h
      simp only [Nat.reduceEqDiff, if_false, if_true]
      refine ⟨_, rfl, ?_⟩
      refine with_cursor_of_eq ?_ (processchar_finish_frame _)
      first
        | rfl
        | (split <;> rfl)

/-! ## Final bytes -/

theorem final_class : ∀ b, b < 256 → (0x40 ≤ b ∧ b ≤ 0x7E) →
    (¬ b &&& 0x7f = 0x1b) ∧ ¬ schar b ≤ 0x20 ∧ b ≠ 0x7f ∧ u8 (b &&& 0xf0) ≠ 0x20 ∧
      u8 (b &&& 0xf0) ≠ 0x30 ∧ u8 (b &&& 0xf0) ≥ 0x40 ∧ schar b ≥ 0x40 := by
  decide!

/-- A final byte `0x40..0x7E` in CSI state completes the sequence. -/
theorem putchar_csi_final (t : Term) (f : Nat) (hs : t.td.state = TSTATE_CSI)
    (hd : t.td.cursor_drawn = false) (h1 : 0x40 ≤ f) (h2 : f ≤ 0x7E) :
    xansiterm_putchar t f = xansi_process_csi t f := by
  obtain ⟨c1, c2, c3, c4, c5, c6, _⟩ := final_class f (by omega) ⟨h1, h2⟩
  have hs' : t.td.state = 3 := hs
  have n1 : f ≠ 0x18 := by omega
  have n2 : f ≠ 0x1A := by omega
  unfold xansiterm_putchar
  rw [erase_cursor_of_not_drawn t hd]
  simp only [c1, if_false, hs', n1, n2, or_self]
  simp only [TSTATE_CSI, TSTATE_NORMAL, TSTATE_ESC, if_true]
  unfold xansi_parse_csi
  simp [c2, c3, c4, c5, c6]

/-- A final byte `0x40..0x7E` in ILLEGAL state ends the skipping. -/
theorem putchar_illegal_final (t : Term) (f : Nat) (hs : t.td.state = TSTATE_ILLEGAL)
    (hd : t.td.cursor_drawn = false) (h1 : 0x40 ≤ f) (h2 : f ≤ 0x7E) :
    xansiterm_putchar t f = some { t with td := { t.td with state := TSTATE_NORMAL } } := by
  obtain ⟨c1, _, _, _, _, _, c7⟩ := final_class f (by omega) ⟨h1, h2⟩
  have hs' : t.td.state = 1 := hs
  have n1 : f ≠ 0x18 := by omega
  have n2 : f ≠ 0x1A := by omega
  unfold xansiterm_putchar
  rw [erase_cursor_of_not_drawn t hd]
  simp [c1, hs', TSTATE_ILLEGAL, TSTATE_NORMAL, TSTATE_ESC, TSTATE_CSI, n1, n2, c7]

/-- The cursor-motion commands `A B C D H f` return, leave the parser in
NORMAL state and change only the cursor fields. -/
theorem process_csi_motion (t : Term) (f : Nat)
    (hf : f = 0x41 ∨ f = 0x42 ∨ f = 0x43 ∨ f = 0x44 ∨ f = 0x48 ∨ f = 0x66) :
    ∃ t1, xansi_process_csi t f = some t1 ∧ t1.td = with_motion t.td t1.td ∧
      t1.td.state = TSTATE_NORMAL ∧ t1.hw = t.hw := by
  unfold xansi_process_csi
  rcases hf with h | h | h | h | h | h <;> subst h <;>
    simp only [Nat.reduceEqDiff, if_false, if_true, or_true, true_or, Option.map_some'] <;>
    exact ⟨_, rfl, rfl, rfl, rfl⟩

theorem starts_sequence_of_normal (td : xansiterm_data) (h : td.state = TSTATE_NORMAL) :
    starts_sequence td := by
  unfold starts_sequence
  rw [h]
  intro h'
  exact absurd h'.1 (by decide)

theorem erase_cursor_frame (t : Term) :
    (xansi_erase_cursor t).td = with_cursor t.td (xansi_erase_cursor t).td := by
  rw [erase_cursor_td]; rfl

/-- Every cursor-motion input, fed in NORMAL state, returns in NORMAL state
and leaves all but the cursor and parser fields of the session record. -/
theorem motion_item (m : Motion) (t : Term) (hm : m.ok) (hs : t.td.state = TSTATE_NORMAL) :
    ∃ t1, feed t m.bytes = some t1 ∧ t1.td = with_motion t.td t1.td ∧
      t1.td.state = TSTATE_NORMAL := by
  cases m with
  | print b =>
    have hb : printable b := hm
    have hf := with_cursor_of_eq (erase_cursor_frame t) (drawchar_frame (xansi_erase_cursor t) b)
    refine ⟨_, by simp only [Motion.bytes, feed, putchar_printable t b hs hb, Option.some_bind],
      with_motion_of_cursor hf, ?_⟩
    rw [hf]; exact hs
  | ctrl b =>
    have hb : b = 0x08 ∨ b = 0x09 ∨ b = 0x0A ∨ b = 0x0B ∨ b = 0x0D := hm
    obtain ⟨t1, h1, hf1⟩ := processchar_motion (xansi_erase_cursor t) b (Or.inr hb)
    have hf := with_cursor_of_eq (erase_cursor_frame t) hf1
    refine ⟨t1, ?_, with_motion_of_cursor hf, ?_⟩
    · simp only [Motion.bytes, feed, putchar_ctrl t b hs (by omega) (by omega), h1,
        Option.some_bind]
    · rw [hf]; exact hs
  | csi ps f =>
    obtain ⟨hps, hf⟩ : (∀ p ∈ ps, is_digit p ∨ p = 0x3B) ∧
      (f = 0x41 ∨ f = 0x42 ∨ f = 0x43 ∨ f = 0x44 ∨ f = 0x48 ∨ f = 0x66) := hm
    have hf1 : 0x40 ≤ f := by omega
    have hf2 : f ≤ 0x7E := by omega
    obtain ⟨T0, hT0⟩ : ∃ T : Term, T =
        { td := { t.td with cursor_drawn := false, state := TSTATE_CSI, intermediate_char := 0,
                            num_parms := 0, csi_parms := List.replicate MAX_CSI_PARMS 0 },
          hw := (xansi_erase_cursor t).hw } := ⟨_, rfl⟩
    have hfr0 : T0.td = with_motion t.td T0.td := by rw [hT0]; rfl
    obtain ⟨T1, h1, _, hp1, hd1, hres⟩ := params_run ps T0 hps (by rw [hT0])
      (Or.inl ⟨by rw [hT0], by rw [hT0]; exact Nat.zero_lt_succ 15⟩)
    have hfr1 := with_motion_of_eq hfr0 (with_motion_of_parsing hp1)
    have hfeed : feed t (Motion.csi ps f).bytes = xansiterm_putchar T1 f := by
      simp only [Motion.bytes]
      rw [feed_csi t _ (starts_sequence_of_normal t.td hs), ← hT0, feed_append, h1]
      simp only [Option.some_bind, feed]
      cases xansiterm_putchar T1 f <;> rfl
    rcases hres with ⟨r1, _, _, _⟩ | r
    · obtain ⟨T2, h2, hfr2, hs2, _⟩ := process_csi_motion T1 f hf
      refine ⟨T2, ?_, with_motion_of_eq hfr1 hfr2, hs2⟩
      rw [hfeed, putchar_csi_final T1 f r1 hd1 hf1 hf2, h2]
    · obtain ⟨T2, hT2, h2⟩ : ∃ T, T = _ ∧ xansiterm_putchar T1 f = some T :=
        ⟨_, rfl, putchar_illegal_final T1 f r hd1 hf1 hf2⟩
      exact ⟨T2, by rw [hfeed, h2], with_motion_of_eq hfr1 (by rw [hT2]; rfl), by rw [hT2]⟩

/-- A sequence of cursor-motion inputs, fed in NORMAL state. -/
theorem motion_run (ms : List Motion) : ∀ t : Term, (∀ m ∈ ms, m.ok) →
    t.td.state = TSTATE_NORMAL →
    ∃ t1, feed t (motion_bytes ms) = some t1 ∧ t1.td = with_motion t.td t1.td ∧
      t1.td.state = TSTATE_NORMAL := by
  induction ms with
  | nil => intro t _ hs; exact ⟨t, rfl, rfl, hs⟩
  | cons m ms ih =>
    intro t hm hs
    obtain ⟨t1, h1, hf1, hs1⟩ := motion_item m t (hm m (by simp)) hs
    obtain ⟨t2, h2, hf2, hs2⟩ := ih t1 (fun m' h' => hm m' (by simp [h'])) hs1
    refine ⟨t2, ?_, with_motion_of_eq hf1 hf2, hs2⟩
    simp only [motion_bytes, feed_append, h1, Option.some_bind, h2]

/-- The command `ESC 7` (DECSC), once ESC has been taken. -/
theorem putchar_esc_7 (t : Term) (hs : t.td.state = TSTATE_ESC)
    (hd : t.td.cursor_drawn = false) :
    xansiterm_putchar t 0x37 = some { t with td := { t.td with
      state := TSTATE_NORMAL, save_x := t.td.x, save_y := t.td.y, save_lcf := t.td.lcf } } := by
  have e : ¬ ((0x37 : Nat) &&& 0x7f = 0x1b) := by decide
  have h' : t.td.state = 2 := hs
  unfold xansiterm_putchar
  rw [erase_cursor_of_not_drawn t hd]
  simp [e, h', TSTATE_ESC, TSTATE_NORMAL, xansi_process_esc]

/-- The command `ESC 8` (DECRC), once ESC has been taken. -/
theorem putchar_esc_8 (t : Term) (hs : t.td.state = TSTATE_ESC)
    (hd : t.td.cursor_drawn = false) :
    xansiterm_putchar t 0x38 = some (xansi_calc_cur_addr { t with td := { t.td with
      state := TSTATE_NORMAL, x := t.td.save_x, y := t.td.save_y, lcf := t.td.save_lcf } }) := by
  have e : ¬ ((0x38 : Nat) &&& 0x7f = 0x1b) := by decide
  have h' : t.td.state = 2 := hs
  unfold xansiterm_putchar
  rw [erase_cursor_of_not_drawn t hd]
  simp [e, h', TSTATE_ESC, TSTATE_NORMAL, xansi_process_esc]

/-- C6, as amended: in every state in which ESC starts a sequence, and for
every sequence `ms` of cursor-motion inputs (printable bytes, BS, TAB, LF, VT,
CR, `CSI ... A/B/C/D/H/f`), feeding `ESC 7`, then `ms`, then `ESC 8` returns
and leaves `x`, `y` and `lcf` equal to their values before `ESC 7`. -/
theorem C6_save_restore_cursor (t : Term) (ms : List Motion)
    (hstart : starts_sequence t.td) (hm : ∀ m ∈ ms, m.ok) :
    ∃ t1, feed t ([0x1B, 0x37] ++ motion_bytes ms ++ [0x1B, 0x38]) = some t1 ∧
      t1.td.x = t.td.x ∧ t1.td.y = t.td.y ∧ t1.td.lcf = t.td.lcf := by
  obtain ⟨T0, hT0⟩ : ∃ T : Term, T =
      { td := { t.td with cursor_drawn := false, state := TSTATE_ESC, intermediate_char := 0,
                          num_parms := 0, csi_parms := List.replicate MAX_CSI_PARMS 0 },
        hw := (xansi_erase_cursor t).hw } := ⟨_, rfl⟩
  obtain ⟨Ta, hTa, ha⟩ : ∃ T, T = _ ∧ xansiterm_putchar T0 0x37 = some T :=
    ⟨_, rfl, putchar_esc_7 T0 (by rw [hT0]) (by rw [hT0])⟩
  have hsa : Ta.td.state = TSTATE_NORMAL := by rw [hTa]
  have hxa : Ta.td.save_x = t.td.x := by rw [hTa, hT0]
  have hya : Ta.td.save_y = t.td.y := by rw [hTa, hT0]
  have hla : Ta.td.save_lcf = t.td.lcf := by rw [hTa, hT0]
  obtain ⟨Tb, hb, hfb, hsb⟩ := motion_run ms Ta hm hsa
  have hxb : Tb.td.save_x = t.td.x := by rw [hfb]; exact hxa
  have hyb : Tb.td.save_y = t.td.y := by rw [hfb]; exact hya
  have hlb : Tb.td.save_lcf = t.td.lcf := by rw [hfb]; exact hla
  obtain ⟨Tc, hTc⟩ : ∃ T : Term, T =
      { td := { Tb.td with cursor_drawn := false, state := TSTATE_ESC, intermediate_char := 0,
                           num_parms := 0, csi_parms := List.replicate MAX_CSI_PARMS 0 },
        hw := (xansi_erase_cursor Tb).hw } := ⟨_, rfl⟩
  obtain ⟨Td, hTd, hd⟩ : ∃ T, T = _ ∧ xansiterm_putchar Tc 0x38 = some T :=
    ⟨_, rfl, putchar_esc_8 Tc (by rw [hTc]) (by rw [hTc])⟩
  refine ⟨Td, ?_, ?_, ?_, ?_⟩
  · rw [List.append_assoc, List.cons_append, List.cons_append, List.nil_append,
      feed_esc t _ hstart, ← hT0]
    simp only [feed, ha, Option.some_bind]
    rw [feed_append, hb]
    simp only [Option.some_bind]
    rw [feed_esc Tb _ (starts_sequence_of_normal Tb.td hsb), ← hTc]
    simp only [feed, hd, Option.some_bind]
  · rw [hTd, hTc]; exact hxb
  · rw [hTd, hTc]; exact hyb
  · rw [hTd, hTc]; exact hlb

/-- The sequence `CSI 1 m`. -/
theorem feed_sgr_bright (t : Term) (hstart : starts_sequence t.td) :
    ∃ t1, feed t [0x1B, 0x5B, 0x31, 0x6D] = some t1 ∧
      t1.td.state = TSTATE_NORMAL ∧
      t1.td.flags = bic8 t.td.flags TFLAG_ATTRIB_DIM ||| TFLAG_ATTRIB_BRIGHT ∧
      t1.td.cur_color = t.td.cur_color ∧ t1.td.def_color = t.td.def_color := by
  rw [feed_csi t _ hstart]
  simp only [feed]
  rw [putchar_digit _ 0x31 rfl rfl (by decide)]
  simp only [Option.some_bind]
  rw [putchar_csi_final _ 0x6D rfl rfl (by decide) (by decide)]
  simp [xansi_process_csi, xansi_sgr, sgr_loop, sgr_step, arr_get, arr_set, MAX_CSI_PARMS, u16,
    xansi_calc_cur_addr, sgr_effective]

/-- The sequence `CSI 3k m` for `k` in `0..7`. -/
theorem feed_sgr_foreground (t : Term) (k : Nat) (hk : k < 8) (hstart : starts_sequence t.td) :
    ∃ t1, feed t [0x1B, 0x5B, 0x33, 0x30 + k, 0x6D] = some t1 ∧
      t1.td.flags = t.td.flags ∧
      t1.td.cur_color = u8 (t.td.cur_color &&& 0xf0) ||| arr_get ansi_to_vga_color k ∧
      t1.td.color = (sgr_effective { t.td with
        cur_color := u8 (t.td.cur_color &&& 0xf0) ||| arr_get ansi_to_vga_color k }).color := by
  rw [feed_csi t _ hstart]
  simp only [feed]
  rw [putchar_digit _ 0x33 rfl rfl (by decide)]
  simp only [Option.some_bind]
  rw [putchar_digit _ (0x30 + k) rfl rfl (by unfold is_digit; omega)]
  simp only [Option.some_bind]
  rw [putchar_csi_final _ 0x6D rfl rfl (by decide) (by decide)]
  interval_cases k <;>
    simp [xansi_process_csi, xansi_sgr, sgr_loop, sgr_step, arr_get, arr_set, MAX_CSI_PARMS, u16,
      xansi_calc_cur_addr, sgr_effective, ansi_to_vga_color, u8]

theorem bright_flag_facts : ∀ f, f < 256 → f &&& TFLAG_ATTRIB_REVERSE = 0 →
    (bic8 f TFLAG_ATTRIB_DIM ||| TFLAG_ATTRIB_BRIGHT) &&& TFLAG_ATTRIB_REVERSE = 0 ∧
    (bic8 f TFLAG_ATTRIB_DIM ||| TFLAG_ATTRIB_BRIGHT) &&& TFLAG_ATTRIB_DIM = 0 ∧
    (bic8 f TFLAG_ATTRIB_DIM ||| TFLAG_ATTRIB_BRIGHT) &&& TFLAG_ATTRIB_BRIGHT ≠ 0 := by
  decide!

theorem bright_nibbles : ∀ c, c < 256 → ∀ k, k < 8 →
    u8 ((u8 (c &&& 0xf0) ||| arr_get ansi_to_vga_color k) ||| 0x08) &&& 0x0f =
        arr_get ansi_to_vga_color k ||| 0x08 ∧
    u8 ((u8 (c &&& 0xf0) ||| arr_get ansi_to_vga_color k) ||| 0x08) >>> 4 = c >>> 4 ∧
    (u8 (c &&& 0xf0) ||| arr_get ansi_to_vga_color k) >>> 4 = c >>> 4 := by
  decide!

/-- C7, as amended: for every `k` in `0..7` and every state in which ESC
starts a sequence and the reverse flag is clear, `CSI 1 m` followed by
`CSI 3k m` yields an effective colour whose foreground nibble is
`ansi_to_vga_color[k]` with bit 3 set (`0xC` for `k = 1`) and whose background
nibble is the background nibble of the selected colour, which is unchanged. -/
theorem C7_bright_foreground (t : Term) (k : Nat) (hk : k < 8)
    (hstart : starts_sequence t.td) (hrev : t.td.flags &&& TFLAG_ATTRIB_REVERSE = 0)
    (hf : t.td.flags < 256) (hc : t.td.cur_color < 256) :
    ∃ t1, feed t ([0x1B, 0x5B, 0x31, 0x6D] ++ [0x1B, 0x5B, 0x33, 0x30 + k, 0x6D]) = some t1 ∧
      t1.td.color &&& 0x0f = arr_get ansi_to_vga_color k ||| 0x08 ∧
      (k = 1 → t1.td.color &&& 0x0f = 0xC) ∧
      t1.td.color >>> 4 = t.td.cur_color >>> 4 ∧
      t1.td.cur_color >>> 4 = t.td.cur_color >>> 4 := by
  obtain ⟨ta, ha, hsa, hfa, hca, _⟩ := feed_sgr_bright t hstart
  obtain ⟨tb, hb, hfb, hcb, hcolb⟩ := feed_sgr_foreground ta k hk
    (starts_sequence_of_normal ta.td hsa)
  obtain ⟨f1, f2, f3⟩ := bright_flag_facts t.td.flags hf hrev
  rw [← hfa] at f1 f2 f3
  obtain ⟨n1, n2, n3⟩ := bright_nibbles t.td.cur_color hc k hk
  have hcol : tb.td.color =
      u8 ((u8 (t.td.cur_color &&& 0xf0) ||| arr_get ansi_to_vga_color k) ||| 0x08) := by
    rw [hcolb]
    simp only [sgr_effective, f1, f2, f3, ne_eq, not_true_eq_false, if_false, not_false_eq_true,
      if_true, hca]
  refine ⟨tb, by rw [feed_append, ha]; exact hb, ?_, ?_, ?_, ?_⟩
  · rw [hcol]; exact n1
  · intro h1; subst h1; rw [hcol, n1]; decide
  · rw [hcol]; exact n2
  · rw [hcb, hca]; exact n3

/-! ## Clearing a range -/

/-- The loop of `xansi_clear` never ends when the end address is `0xFFFF`,
whatever the number of passes allowed. -/
theorem clear_loop_diverges (fuel : Nat) : ∀ (s : Nat) (hw : Xosera),
    clear_loop fuel s 65535 hw = none := by
  induction fuel with
  | zero => intro s hw; rfl
  | succ n ih =>
    intro s hw
    have h : u16 (s + 1) ≤ 65535 := by unfold u16; omega
    simp only [clear_loop, h, if_true, ih]

/-- The loop of `xansi_clear` below the top address: the cells `s..e` are
blanked in the held colour, all others are kept. -/
theorem clear_loop_spec (fuel : Nat) : ∀ (s e : Nat) (hw : Xosera),
    s ≤ e → e < 65535 → e - s < fuel → hw.wr_addr = s → hw.wr_incr = 1 →
    ∃ hw1, clear_loop fuel s e hw = some hw1 ∧
      (∀ a, hw1.vram a = if s ≤ a ∧ a ≤ e then hw.data_hi * 256 + 0x20 else hw.vram a) ∧
      hw1.xr = hw.xr ∧ hw1.data_hi = hw.data_hi ∧ hw1.wr_incr = 1 ∧ hw1.wr_addr = e + 1 := by
  induction fuel with
  | zero => intro s e hw _ _ h; omega
  | succ n ih =>
    intro s e hw hse he hfuel hwa hwi
    have hs1 : u16 (s + 1) = s + 1 := by unfold u16; omega
    have hstep : ∀ a, (xm_setbl_DATA 0x20 hw).vram a =
        if a = s then hw.data_hi * 256 + 0x20 else hw.vram a := by
      intro a
      simp [xm_setbl_DATA, vram_store, hwa, u8]
    by_cases hlast : s + 1 ≤ e
    · obtain ⟨hw1, h1, hv, hxr, hhi, hinc, hadr⟩ := ih (s + 1) e (xm_setbl_DATA 0x20 hw)
        hlast he (by omega) (by simp [xm_setbl_DATA, vram_store, hwa, hwi, hs1])
        (by simp [xm_setbl_DATA, vram_store, hwi])
      refine ⟨hw1, by simp only [clear_loop, hs1, hlast, if_true, h1], ?_, ?_, ?_, hinc, hadr⟩
      · intro a
        rw [hv a, hstep a]
        have hd : (xm_setbl_DATA 0x20 hw).data_hi = hw.data_hi := rfl
        rw [hd]
        by_cases c1 : s + 1 ≤ a ∧ a ≤ e
        · have c2 : s ≤ a ∧ a ≤ e := ⟨by omega, c1.2⟩
          rw [if_pos c1, if_pos c2]
        · by_cases c3 : a = s
          · have c2 : s ≤ a ∧ a ≤ e := ⟨by omega, by omega⟩
            rw [if_neg c1, if_pos c3, if_pos c2]
          · have c2 : ¬ (s ≤ a ∧ a ≤ e) := by omega
            rw [if_neg c1, if_neg c3, if_neg c2]
      · rw [hxr]; rfl
      · rw [hhi]; rfl
    · have hse' : s = e := by omega
      refine ⟨xm_setbl_DATA 0x20 hw, by simp only [clear_loop, hs1, hlast, if_false], ?_, rfl,
        rfl, by simp [xm_setbl_DATA, vram_store, hwi],
        by simp [xm_setbl_DATA, vram_store, hwa, hwi, hs1]; omega⟩
      intro a
      rw [hstep a]
      by_cases c3 : a = s
      · have c2 : s ≤ a ∧ a ≤ e := ⟨by omega, by omega⟩
        rw [if_pos c3, if_pos c2]
      · have c2 : ¬ (s ≤ a ∧ a ≤ e) := by omega
        rw [if_neg c3, if_neg c2]

/-- The function `xansi_clear` on a range that ends below address `0xFFFF`:
it returns, the cells from the lower to the higher of the two addresses are
blanked in the effective colour, everything else is kept. -/
theorem xansi_clear_spec (t : Term) (start e : Nat) (hs : start < 65535) (he : e < 65535) :
    ∃ t1, xansi_clear t start e = some t1 ∧ t1.td = t.td ∧
      (∀ a, t1.hw.vram a =
        if min start e ≤ a ∧ a ≤ max start e then u8 t.td.color * 256 + 0x20
        else t.hw.vram a) ∧
      t1.hw.xr = t.hw.xr := by
  unfold xansi_clear
  simp only
  by_cases hgt : start > e
  · simp only [hgt, if_true]
    obtain ⟨hw1, h1, hv, hxr, _⟩ := clear_loop_spec 65536 e start
      (xm_setbh_DATA t.td.color (xm_setw .WR_ADDR e (xm_setw .WR_INCR 1 t.hw)))
      (by omega) hs (by omega)
      (by simp [xm_setbh_DATA, xm_setw, u16]; omega) (by simp [xm_setbh_DATA, xm_setw, u16])
    refine ⟨{ t with hw := hw1 }, by rw [h1]; rfl, rfl, ?_, ?_⟩
    · intro a
      show hw1.vram a = _
      rw [hv a, Nat.min_eq_right (by omega), Nat.max_eq_left (by omega)]
      rfl
    · show hw1.xr = _
      rw [hxr]; rfl
  · simp only [hgt, if_false]
    obtain ⟨hw1, h1, hv, hxr, _⟩ := clear_loop_spec 65536 start e
      (xm_setbh_DATA t.td.color (xm_setw .WR_ADDR start (xm_setw .WR_INCR 1 t.hw)))
      (by omega) he (by omega)
      (by simp [xm_setbh_DATA, xm_setw, u16]; omega) (by simp [xm_setbh_DATA, xm_setw, u16])
    refine ⟨{ t with hw := hw1 }, by rw [h1]; rfl, rfl, ?_, ?_⟩
    · intro a
      show hw1.vram a = _
      rw [hv a, Nat.min_eq_left (by omega), Nat.max_eq_right (by omega)]
      rfl
    · show hw1.xr = _
      rw [hxr]; rfl

/-- The function `xansi_clear` never returns when the higher of the two
addresses is `0xFFFF`. -/
theorem xansi_clear_diverges (t : Term) (start e : Nat) (h : max start e = 65535) :
    xansi_clear t start e = none := by
  unfold xansi_clear
  simp only
  by_cases hgt : start > e
  · have h1 : start = 65535 := by rw [Nat.max_eq_left (by omega)] at h; exact h
    rw [if_pos hgt, if_pos hgt, h1, clear_loop_diverges]
    rfl
  · have h1 : e = 65535 := by rw [Nat.max_eq_right (by omega)] at h; exact h
    rw [if_neg hgt, if_neg hgt, h1, clear_loop_diverges]
    rfl

/-- The command `J` with parameter 2: the clear of `vram_base .. vram_end`. -/
theorem process_csi_erase_screen (t : Term) (h : arr_get t.td.csi_parms 0 = 2) :
    xansi_process_csi t 0x4A =
      (xansi_clear { t with td := { t.td with state := TSTATE_NORMAL } }
        t.td.vram_base t.td.vram_end).map xansi_calc_cur_addr := by
  unfold xansi_process_csi
  simp [h]

/-- The sequence `CSI 2 J` up to the call of `xansi_clear`. -/
theorem feed_erase_screen (t : Term) (hstart : starts_sequence t.td) :
    feed t [0x1B, 0x5B, 0x32, 0x4A] =
      (xansi_clear
        { td := { t.td with cursor_drawn := false, state := TSTATE_NORMAL,
                            intermediate_char := 0, num_parms := 1,
                            csi_parms := arr_set (List.replicate MAX_CSI_PARMS 0) 0 2 },
          hw := (xansi_erase_cursor t).hw }
        t.td.vram_base t.td.vram_end).map xansi_calc_cur_addr := by
  obtain ⟨T0, hT0⟩ : ∃ T : Term, T =
      { td := { t.td with cursor_drawn := false, state := TSTATE_CSI, intermediate_char := 0,
                          num_parms := 0, csi_parms := List.replicate MAX_CSI_PARMS 0 },
        hw := (xansi_erase_cursor t).hw } := ⟨_, rfl⟩
  rw [feed_csi t _ hstart, ← hT0]
  obtain ⟨T1, hT1, h1⟩ : ∃ T, T = _ ∧ xansiterm_putchar T0 0x32 = some T :=
    ⟨_, rfl, putchar_digit T0 0x32 (by rw [hT0]) (by rw [hT0]) (by decide)⟩
  have hparm : arr_get T1.td.csi_parms 0 = 2 := by rw [hT1, hT0]; rfl
  have e : ∀ o : Option Term, (o.bind fun t1 => some t1) = o := by
    intro o; cases o <;> rfl
  simp only [feed, h1, Option.some_bind]
  rw [putchar_csi_final T1 0x4A (by rw [hT1, hT0]) (by rw [hT1, hT0]) (by decide) (by decide),
    process_csi_erase_screen T1 hparm, e, hT1, hT0]
  rfl

/-- C8, as amended: in every state in which ESC starts a sequence and whose
`vram_base` and `vram_end` are both below `0xFFFF`, `CSI 2 J` returns, every
cell at an address in `[vram_base, vram_end)` then holds the space character
with the effective colour that was current before the erase as its high byte,
and `x`, `y` are unchanged. -/
theorem C8_erase_whole_screen (t : Term) (hstart : starts_sequence t.td)
    (hb : t.td.vram_base < 65535) (he : t.td.vram_end < 65535) (hc : t.td.color < 256) :
    ∃ t1, feed t [0x1B, 0x5B, 0x32, 0x4A] = some t1 ∧
      (∀ a, t.td.vram_base ≤ a → a < t.td.vram_end →
        t1.hw.vram a = t.td.color * 256 + 0x20) ∧
      t1.td.x = t.td.x ∧ t1.td.y = t.td.y := by
  obtain ⟨t1, h1, htd, hv, _⟩ := xansi_clear_spec
    { td := { t.td with cursor_drawn := false, state := TSTATE_NORMAL,
                        intermediate_char := 0, num_parms := 1,
                        csi_parms := arr_set (List.replicate MAX_CSI_PARMS 0) 0 2 },
      hw := (xansi_erase_cursor t).hw }
    t.td.vram_base t.td.vram_end hb he
  refine ⟨xansi_calc_cur_addr t1, by rw [feed_erase_screen t hstart, h1]; rfl, ?_, ?_, ?_⟩
  · intro a ha1 ha2
    show t1.hw.vram a = _
    rw [hv a, if_pos ⟨by rw [Nat.min_eq_left (by omega)]; exact ha1,
      by rw [Nat.max_eq_right (by omega)]; omega⟩]
    show u8 t.td.color * 256 + 0x20 = _
    rw [u8_of_lt _ hc]
  · show t1.td.x = _
    rw [htd]
  · show t1.td.y = _
    rw [htd]

/-- C8 at a concrete input: the 80 by 30 terminal. -/
theorem C8_erase_whole_screen_witness :
    starts_sequence demo_term.td ∧ demo_term.td.vram_base < 65535 ∧
    demo_term.td.vram_end < 65535 ∧ demo_term.td.color < 256 ∧
    ∃ t1, feed demo_term [0x1B, 0x5B, 0x32, 0x4A] = some t1 ∧
      (∀ a, demo_term.td.vram_base ≤ a → a < demo_term.td.vram_end →
        t1.hw.vram a = demo_term.td.color * 256 + 0x20) ∧
      t1.td.x = demo_term.td.x ∧ t1.td.y = demo_term.td.y :=
  ⟨by decide, by decide, by decide, by decide,
    C8_erase_whole_screen demo_term (by decide) (by decide) (by decide) (by decide)⟩

/-- C6, the counterexample: on the 640 by 480 adapter, after `CSI 8 m`
(passthrough on), the letters `AB` and `CSI`, the parser is in CSI state with
the cursor at column 2; `ESC 7` then `ESC 8` (no motion between them) leaves
the cursor at column 0: the first ESC and the `7` are printed as glyphs and
`ESC 8` restores a position that was never saved. -/
theorem C6_save_is_printed_in_passthrough :
    ∃ t t1, Reachable t ∧
      feed t ([0x1B, 0x37] ++ motion_bytes [] ++ [0x1B, 0x38]) = some t1 ∧
      t.td.x = 2 ∧ t1.td.x = 0 := by
  obtain ⟨t1, ht1, hv1⟩ := of_map_eq_some
    (boot (adapter 640 480)
      ([0x1B, 0x5B, 0x38, 0x6D, 0x41, 0x42, 0x1B, 0x5B] ++
        ([0x1B, 0x37] ++ motion_bytes [] ++ [0x1B, 0x38])))
    (fun t => t.td.x) 0 (by decide!)
  obtain ⟨t, ht, hfeed⟩ := boot_split _ _ _ t1 ht1
  obtain ⟨t', ht', hv⟩ := of_map_eq_some
    (boot (adapter 640 480) [0x1B, 0x5B, 0x38, 0x6D, 0x41, 0x42, 0x1B, 0x5B])
    (fun t => t.td.x) 2 (by decide!)
  rw [ht] at ht'
  cases ht'
  exact ⟨t, t1, boot_reachable _ _ t 80 30 (by decide) (by decide) (by decide!) ht, hfeed,
    hv, hv1⟩

/-- C6 at a concrete input: a letter, LF and `CSI 5 C` between `ESC 7` and
`ESC 8` on the 80 by 30 terminal. -/
theorem C6_save_restore_cursor_witness :
    starts_sequence demo_term.td ∧
    (∀ m ∈ [Motion.print 0x41, Motion.ctrl 0x0A, Motion.csi [0x35] 0x43], m.ok) ∧
    ∃ t1, feed demo_term ([0x1B, 0x37] ++
        motion_bytes [Motion.print 0x41, Motion.ctrl 0x0A, Motion.csi [0x35] 0x43] ++
        [0x1B, 0x38]) = some t1 ∧
      t1.td.x = demo_term.td.x ∧ t1.td.y = demo_term.td.y ∧ t1.td.lcf = demo_term.td.lcf :=
  ⟨by decide, by decide,
    C6_save_restore_cursor demo_term
      [Motion.print 0x41, Motion.ctrl 0x0A, Motion.csi [0x35] 0x43] (by decide) (by decide)⟩

/-- C7, the counterexamples, both on the 640 by 480 adapter with the reverse
and dim flags clear.  After `CSI 8 m`, `AB` and `CSI` (passthrough on, parser
in CSI state) the bytes of `CSI 1 m` are printed as glyphs, and
`CSI 1 m CSI 31 m` leaves the effective foreground nibble at 4, not `0xC`.
After `CSI 1 m` and `CSI ?5h` the effective colour is `0xA0` over the selected
colour `0x20`; `CSI 1 m CSI 31 m` then gives `0x2C`: the background nibble of
the effective colour goes from `0xA` to `0x2`. -/
theorem C7_bright_foreground_fails :
    (∃ t t1, Reachable t ∧ t.td.flags &&& TFLAG_ATTRIB_REVERSE = 0 ∧
      t.td.flags &&& TFLAG_ATTRIB_DIM = 0 ∧
      feed t ([0x1B, 0x5B, 0x31, 0x6D] ++ [0x1B, 0x5B, 0x33, 0x30 + 1, 0x6D]) = some t1 ∧
      t1.td.color &&& 0x0f = 4) ∧
    (∃ t t1, Reachable t ∧ t.td.flags &&& TFLAG_ATTRIB_REVERSE = 0 ∧
      t.td.flags &&& TFLAG_ATTRIB_DIM = 0 ∧
      feed t ([0x1B, 0x5B, 0x31, 0x6D] ++ [0x1B, 0x5B, 0x33, 0x30 + 1, 0x6D]) = some t1 ∧
      t.td.color >>> 4 = 0xA ∧ t1.td.color >>> 4 = 0x2) := by
  constructor
  · obtain ⟨t1, ht1, hv1⟩ := of_map_eq_some
      (boot (adapter 640 480)
        ([0x1B, 0x5B, 0x38, 0x6D, 0x41, 0x42, 0x1B, 0x5B] ++
          ([0x1B, 0x5B, 0x31, 0x6D] ++ [0x1B, 0x5B, 0x33, 0x30 + 1, 0x6D])))
      (fun t => t.td.color &&& 0x0f) 4 (by decide!)
    obtain ⟨t, ht, hfeed⟩ := boot_split _ _ _ t1 ht1
    obtain ⟨t', ht', hv⟩ := of_map_eq_some
      (boot (adapter 640 480) [0x1B, 0x5B, 0x38, 0x6D, 0x41, 0x42, 0x1B, 0x5B])
      (fun t => t.td.flags) 128 (by decide!)
    rw [ht] at ht'
    cases ht'
    have hv' : t.td.flags = 128 := hv
    exact ⟨t, t1, boot_reachable _ _ t 80 30 (by decide) (by decide) (by decide!) ht,
      by rw [hv']; decide, by rw [hv']; decide, hfeed, hv1⟩
  · obtain ⟨t1, ht1, hv1⟩ := of_map_eq_some
      (boot (adapter 640 480)
        ([0x1B, 0x5B, 0x31, 0x6D, 0x1B, 0x5B, 0x3F, 0x35, 0x68] ++
          ([0x1B, 0x5B, 0x31, 0x6D] ++ [0x1B, 0x5B, 0x33, 0x30 + 1, 0x6D])))
      (fun t => t.td.color >>> 4) 0x2 (by decide!)
    obtain ⟨t, ht, hfeed⟩ := boot_split _ _ _ t1 ht1
    obtain ⟨t', ht', hv⟩ := of_map_eq_some
      (boot (adapter 640 480) [0x1B, 0x5B, 0x31, 0x6D, 0x1B, 0x5B, 0x3F, 0x35, 0x68])
      (fun t => (t.td.flags, t.td.color >>> 4)) (16, 0xA) (by decide!)
    rw [ht] at ht'
    cases ht'
    simp only [Prod.mk.injEq] at hv
    exact ⟨t, t1, boot_reachable _ _ t 80 30 (by decide) (by decide) (by decide!) ht,
      by rw [hv.1]; decide, by rw [hv.1]; decide, hfeed, hv.2, hv1⟩

/-- C7 at a concrete input: red (`k = 1`) on the 80 by 30 terminal. -/
theorem C7_bright_foreground_witness :
    1 < 8 ∧ starts_sequence demo_term.td ∧
    demo_term.td.flags &&& TFLAG_ATTRIB_REVERSE = 0 ∧ demo_term.td.flags < 256 ∧
    demo_term.td.cur_color < 256 ∧
    ∃ t1, feed demo_term ([0x1B, 0x5B, 0x31, 0x6D] ++ [0x1B, 0x5B, 0x33, 0x30 + 1, 0x6D])
        = some t1 ∧
      t1.td.color &&& 0x0f = arr_get ansi_to_vga_color 1 ||| 0x08 ∧
      (1 = 1 → t1.td.color &&& 0x0f = 0xC) ∧
      t1.td.color >>> 4 = demo_term.td.cur_color >>> 4 ∧
      t1.td.cur_color >>> 4 = demo_term.td.cur_color >>> 4 :=
  ⟨by decide, by decide, by decide, by decide, by decide,
    C7_bright_foreground demo_term 1 (by decide) (by decide) (by decide) (by decide)
      (by decide)⟩

/-- C8, the counterexamples, both on the 640 by 480 adapter.  After
`CSI 68;0;0;65535 m` and `ESC (` the text window starts at address `0xFFFF`,
and `CSI 2 J` never returns: the 16-bit counter of the loop of `xansi_clear`
wraps to 0 and stays below the end address.  After `CSI 8 m`, `AB` and `CSI`
(passthrough on, parser in CSI state) the bytes of `CSI 2 J` are printed as
glyphs and move the cursor from column 2 to column 6. -/
theorem C8_erase_whole_screen_fails :
    (∃ t, Reachable t ∧ t.td.vram_base = 65535 ∧ feed t [0x1B, 0x5B, 0x32, 0x4A] = none) ∧
    (∃ t t1, Reachable t ∧ feed t [0x1B, 0x5B, 0x32, 0x4A] = some t1 ∧
      t.td.x = 2 ∧ t1.td.x = 6) := by
  constructor
  · obtain ⟨t, ht, hv⟩ := of_map_eq_some
      (boot (adapter 640 480)
        [0x1B, 0x5B, 0x36, 0x38, 0x3B, 0x30, 0x3B, 0x30, 0x3B, 0x36, 0x35, 0x35, 0x33, 0x35,
          0x6D, 0x1B, 0x28])
      (fun t => (t.td.state, t.td.vram_base, t.td.vram_end)) (0, 65535, 2399) (by decide!)
    simp only [Prod.mk.injEq] at hv
    refine ⟨t, boot_reachable _ _ t 80 30 (by decide) (by decide) (by decide!) ht, hv.2.1, ?_⟩
    rw [feed_erase_screen t (starts_sequence_of_normal t.td hv.1),
      xansi_clear_diverges _ _ _ (by rw [hv.2.1, hv.2.2]; decide)]
    rfl
  · obtain ⟨t1, ht1, hv1⟩ := of_map_eq_some
      (boot (adapter 640 480)
        ([0x1B, 0x5B, 0x38, 0x6D, 0x41, 0x42, 0x1B, 0x5B] ++ [0x1B, 0x5B, 0x32, 0x4A]))
      (fun t => t.td.x) 6 (by decide!)
    obtain ⟨t, ht, hfeed⟩ := boot_split _ _ _ t1 ht1
    obtain ⟨t', ht', hv⟩ := of_map_eq_some
      (boot (adapter 640 480) [0x1B, 0x5B, 0x38, 0x6D, 0x41, 0x42, 0x1B, 0x5B])
      (fun t => t.td.x) 2 (by decide!)
    rw [ht] at ht'
    cases ht'
    exact ⟨t, t1, boot_reachable _ _ t 80 30 (by decide) (by decide) (by decide!) ht, hfeed,
      hv, hv1⟩

/-! ## Copying through the data port -/

theorem copy_word_lag (c : Nat) (hw : Xosera) (h : lag c hw) : lag c (copy_word hw) := by
  obtain ⟨h1, h2⟩ := h
  refine ⟨h1, ?_⟩
  simp only [copy_word, xm_getw, xm_setw, vram_store]
  rw [h2, h1]
  unfold u16
  omega

theorem copy_word_incr (hw : Xosera) : (copy_word hw).wr_incr = hw.wr_incr := rfl

theorem copy_words_lag (c n : Nat) : ∀ hw, lag c hw → lag c (copy_words n hw) := by
  induction n with
  | zero => intro hw h; exact h
  | succ n ih => intro hw h; exact ih _ (copy_word_lag c hw h)

theorem copy_words_incr (n : Nat) : ∀ hw, (copy_words n hw).wr_incr = hw.wr_incr := by
  induction n with
  | zero => intro hw; rfl
  | succ n ih => intro hw; rw [copy_words, ih, copy_word_incr]

theorem copy_words_add (a b : Nat) : ∀ hw, copy_words (a + b) hw = copy_words b (copy_words a hw) := by
  induction a with
  | zero => intro hw; simp [copy_words]
  | succ a ih =>
    intro hw
    have e : a + 1 + b = (a + b) + 1 := by omega
    rw [e, copy_words, ih, copy_words]

/-- A long copy is two word copies, unless the second cell read is the first
cell written. -/
theorem copy_long_eq (hw : Xosera) (h : u16 (hw.rd_addr + hw.rd_incr) ≠ hw.wr_addr) :
    copy_long hw = copy_words 2 hw := by
  simp only [copy_long, copy_words, copy_word, xm_getw, xm_setw, vram_store]
  simp [h]

theorem copy_long_lag (c : Nat) (hw : Xosera) (h : lag c hw)
    (hc : (c + hw.wr_incr) % 65536 ≠ 0) : copy_long hw = copy_words 2 hw := by
  apply copy_long_eq
  obtain ⟨h1, h2⟩ := h
  rw [h2, h1]
  unfold u16
  omega

theorem copy_word_wr_addr (hw : Xosera) :
    (copy_word hw).wr_addr = u16 (hw.wr_addr + hw.wr_incr) := rfl

theorem copy_words_wr_lt (n : Nat) : ∀ hw, hw.wr_addr < 65536 →
    (copy_words n hw).wr_addr < 65536 := by
  induction n with
  | zero => intro hw h; exact h
  | succ n ih =>
    intro hw _
    exact ih _ (by rw [copy_word_wr_addr]; unfold u16; omega)

/-- The first loop of `xansi_do_scroll` copies the multiple of 8 below `i`. -/
theorem scroll_loop8_eq (c : Nat) (fuel : Nat) : ∀ (i : Nat) (hw : Xosera),
    i / 8 ≤ fuel → lag c hw → (c + hw.wr_incr) % 65536 ≠ 0 →
    scroll_loop8 fuel i hw = (i % 8, copy_words (i - i % 8) hw) := by
  induction fuel with
  | zero =>
    intro i hw hi _ _
    have : i < 8 := by omega
    simp only [scroll_loop8]
    rw [Nat.mod_eq_of_lt this, Nat.sub_self]
    rfl
  | succ n ih =>
    intro i hw hi hl hc
    by_cases h8 : i ≥ 8
    · have l1 := copy_long_lag c hw hl hc
      have g1 := copy_words_lag c 2 hw hl
      have i1 := copy_words_incr 2 hw
      have l2 := copy_long_lag c _ g1 (by rw [i1]; exact hc)
      have g2 := copy_words_lag c 2 _ g1
      have i2 := copy_words_incr 2 (copy_words 2 hw)
      have l3 := copy_long_lag c _ g2 (by rw [i2, i1]; exact hc)
      have g3 := copy_words_lag c 2 _ g2
      have i3 := copy_words_incr 2 (copy_words 2 (copy_words 2 hw))
      have l4 := copy_long_lag c _ g3 (by rw [i3, i2, i1]; exact hc)
      have g4 := copy_words_lag c 2 _ g3
      have i4 := copy_words_incr 2 (copy_words 2 (copy_words 2 (copy_words 2 hw)))
      simp only [scroll_loop8, h8, if_true]
      rw [l1, l2, l3, l4]
      rw [ih (i - 8) _ (by omega) g4 (by rw [i4, i3, i2, i1]; exact hc)]
      have e1 : (i - 8) % 8 = i % 8 := by omega
      have e2 : i - i % 8 = 2 + (2 + (2 + (2 + (i - 8 - (i - 8) % 8)))) := by omega
      rw [e2, copy_words_add, copy_words_add, copy_words_add, copy_words_add, e1]
    · have : i < 8 := by omega
      simp only [scroll_loop8, h8, if_false]
      rw [Nat.mod_eq_of_lt this, Nat.sub_self]
      rfl

/-- The second loop of `xansi_do_scroll` copies the multiple of 2 below `i`. -/
theorem scroll_loop2_eq (c : Nat) (fuel : Nat) : ∀ (i : Nat) (hw : Xosera),
    i / 2 ≤ fuel → lag c hw → (c + hw.wr_incr) % 65536 ≠ 0 →
    scroll_loop2 fuel i hw = (i % 2, copy_words (i - i % 2) hw) := by
  induction fuel with
  | zero =>
    intro i hw hi _ _
    have : i < 2 := by omega
    simp only [scroll_loop2]
    rw [Nat.mod_eq_of_lt this, Nat.sub_self]
    rfl
  | succ n ih =>
    intro i hw hi hl hc
    by_cases h2 : i ≥ 2
    · have l1 := copy_long_lag c hw hl hc
      have g1 := copy_words_lag c 2 hw hl
      have i1 := copy_words_incr 2 hw
      simp only [scroll_loop2, h2, if_true]
      rw [l1, ih (i - 2) _ (by omega) g1 (by rw [i1]; exact hc)]
      have e1 : (i - 2) % 2 = i % 2 := by omega
      have e2 : i - i % 2 = 2 + (i - 2 - (i - 2) % 2) := by omega
      rw [e2, copy_words_add, e1]
    · have : i < 2 := by omega
      simp only [scroll_loop2, h2, if_false]
      rw [Nat.mod_eq_of_lt this, Nat.sub_self]
      rfl

/-- The three copy stages of `xansi_do_scroll` (8 words a pass, then 2 words,
then a last word) move exactly `i` cells, one after the other. -/
theorem scroll_stages_eq (c i : Nat) (hw : Xosera) (hl : lag c hw)
    (hc : i < 2 ∨ (c + hw.wr_incr) % 65536 ≠ 0) :
    (if (scroll_loop2 (scroll_loop8 i i hw).1 (scroll_loop8 i i hw).1 (scroll_loop8 i i hw).2).1 ≠ 0
      then copy_word
        (scroll_loop2 (scroll_loop8 i i hw).1 (scroll_loop8 i i hw).1 (scroll_loop8 i i hw).2).2
      else (scroll_loop2 (scroll_loop8 i i hw).1 (scroll_loop8 i i hw).1 (scroll_loop8 i i hw).2).2)
      = copy_words i hw := by
  rcases hc with hi | hc
  · have h8 : scroll_loop8 i i hw = (i, hw) := by
      cases i with
      | zero => rfl
      | succ n =>
        have : ¬ (n + 1 ≥ 8) := by omega
        simp only [scroll_loop8, this, if_false]
    have h2 : scroll_loop2 i i hw = (i, hw) := by
      cases i with
      | zero => rfl
      | succ n =>
        have : ¬ (n + 1 ≥ 2) := by omega
        simp only [scroll_loop2, this, if_false]
    rw [h8]
    simp only
    rw [h2]
    simp only
    have : i = 0 ∨ i = 1 := by omega
    rcases this with h | h <;> subst h <;> simp [copy_words]
  · rw [scroll_loop8_eq c i i hw (by omega) hl hc]
    simp only
    have g := copy_words_lag c (i - i % 8) hw hl
    have ii := copy_words_incr (i - i % 8) hw
    rw [scroll_loop2_eq c (i % 8) (i % 8) _ (by omega) g (by rw [ii]; exact hc)]
    simp only
    have e : i % 8 % 2 = i % 2 := by omega
    rw [e]
    by_cases hodd : i % 2 ≠ 0
    · rw [if_pos hodd]
      have e2 : i = (i - i % 8) + ((i % 8 - i % 2) + 1) := by omega
      conv_rhs => rw [e2]
      rw [copy_words_add, copy_words_add]
      rfl
    · rw [if_neg hodd]
      have e2 : i = (i - i % 8) + (i % 8 - i % 2) := by omega
      conv_rhs => rw [e2]
      rw [copy_words_add]

/-! ## Scrolling up -/

theorem copy_word_vram (hw : Xosera) (a : Nat) :
    (copy_word hw).vram a = if a = hw.wr_addr then u16 (hw.vram hw.rd_addr) else hw.vram a := rfl

theorem copy_word_rd_addr (hw : Xosera) :
    (copy_word hw).rd_addr = u16 (hw.rd_addr + hw.rd_incr) := rfl

theorem copy_word_rd_incr (hw : Xosera) : (copy_word hw).rd_incr = hw.rd_incr := rfl

theorem copy_word_xr (hw : Xosera) : (copy_word hw).xr = hw.xr := rfl

/-- The naive copy towards lower addresses: the `n` cells from `w` on
(addresses taken modulo the address space) take the content of the cells `c`
places further up. -/
theorem copy_words_forward (n : Nat) : ∀ (hw : Xosera) (w c : Nat),
    hw.wr_addr = u16 w → hw.rd_addr = u16 (w + c) → hw.rd_incr = 1 → hw.wr_incr = 1 → 1 ≤ c →
    c + n ≤ 65536 →
    (∀ a, (copy_words n hw).vram a =
      if a < 65536 ∧ sub16 a w < n then u16 (hw.vram (u16 (a + c))) else hw.vram a) ∧
    (copy_words n hw).wr_addr = u16 (w + n) ∧ (copy_words n hw).wr_incr = 1 ∧
    (copy_words n hw).xr = hw.xr := by
  induction n with
  | zero =>
    intro hw w c hwa _ _ hwi _ hb
    refine ⟨?_, ?_, hwi, rfl⟩
    · intro a
      have : ¬ (a < 65536 ∧ sub16 a w < 0) := by omega
      rw [if_neg this]; rfl
    · show hw.wr_addr = _
      rw [hwa]; rfl
  | succ n ih =>
    intro hw w c hwa hra hri hwi hc hb
    have h1 : (copy_word hw).wr_addr = u16 (w + 1) := by
      rw [copy_word_wr_addr, hwa, hwi]; unfold u16; omega
    have h2 : (copy_word hw).rd_addr = u16 ((w + 1) + c) := by
      rw [copy_word_rd_addr, hra, hri]; unfold u16; omega
    obtain ⟨hv, hw', hi', hx'⟩ := ih (copy_word hw) (w + 1) c h1 h2
      (by rw [copy_word_rd_incr]; exact hri) (by rw [copy_word_incr]; exact hwi) hc (by omega)
    refine ⟨?_, ?_, hi', ?_⟩
    · intro a
      show (copy_words n (copy_word hw)).vram a = _
      rw [hv a, copy_word_vram, copy_word_vram, hwa, hra]
      by_cases c1 : a < 65536 ∧ sub16 a (w + 1) < n
      · have c2 : a < 65536 ∧ sub16 a w < n + 1 := by
          unfold sub16 at c1 ⊢; omega
        have c3 : ¬ (u16 (a + c) = u16 w) := by
          unfold sub16 at c1; unfold u16; omega
        rw [if_pos c1, if_pos c2, if_neg c3]
      · by_cases c3 : a = u16 w
        · have c2 : a < 65536 ∧ sub16 a w < n + 1 := by
            rw [c3]; unfold sub16 u16; omega
          have e : u16 (a + c) = u16 (w + c) := by rw [c3]; unfold u16; omega
          rw [if_neg c1, if_pos c3, if_pos c2, e]
        · have c2 : ¬ (a < 65536 ∧ sub16 a w < n + 1) := by
            unfold sub16 at c1 ⊢; unfold u16 at c3; omega
          rw [if_neg c1, if_neg c3, if_neg c2]
    · show (copy_words n (copy_word hw)).wr_addr = _
      rw [hw']; unfold u16; omega
    · show (copy_words n (copy_word hw)).xr = _
      rw [hx', copy_word_xr]

/-- The loop that blanks `n` cells from `w` on (addresses taken modulo the
address space). -/
theorem blank_loop_spec (n : Nat) : ∀ (hw : Xosera) (w : Nat),
    hw.wr_addr = u16 w → hw.wr_incr = 1 → n ≤ 65536 →
    (∀ a, (blank_loop n hw).vram a =
      if a < 65536 ∧ sub16 a w < n then hw.data_hi * 256 + 0x20 else hw.vram a) ∧
    (blank_loop n hw).xr = hw.xr := by
  induction n with
  | zero =>
    intro hw w _ _ _
    refine ⟨?_, rfl⟩
    intro a
    have : ¬ (a < 65536 ∧ sub16 a w < 0) := by omega
    rw [if_neg this]; rfl
  | succ n ih =>
    intro hw w hwa hwi hb
    have hstep : ∀ a, (xm_setbl_DATA 0x20 hw).vram a =
        if a = u16 w then hw.data_hi * 256 + 0x20 else hw.vram a := by
      intro a
      simp [xm_setbl_DATA, vram_store, hwa, u8]
    obtain ⟨hv, hx⟩ := ih (xm_setbl_DATA 0x20 hw) (w + 1)
      (by simp only [xm_setbl_DATA, vram_store, hwa, hwi]; unfold u16; omega)
      (by simp [xm_setbl_DATA, vram_store, hwi]) (by omega)
    refine ⟨?_, by show (blank_loop n (xm_setbl_DATA 0x20 hw)).xr = _; rw [hx]; rfl⟩
    intro a
    show (blank_loop n (xm_setbl_DATA 0x20 hw)).vram a = _
    rw [hv a, hstep a]
    have hd : (xm_setbl_DATA 0x20 hw).data_hi = hw.data_hi := rfl
    rw [hd]
    by_cases c1 : a < 65536 ∧ sub16 a (w + 1) < n
    · have c2 : a < 65536 ∧ sub16 a w < n + 1 := by
        unfold sub16 at c1 ⊢; omega
      rw [if_pos c1, if_pos c2]
    · by_cases c3 : a = u16 w
      · have c2 : a < 65536 ∧ sub16 a w < n + 1 := by
          rw [c3]; unfold sub16 u16; omega
        rw [if_neg c1, if_pos c3, if_pos c2]
      · have c2 : ¬ (a < 65536 ∧ sub16 a w < n + 1) := by
          unfold sub16 at c1 ⊢; unfold u16 at c3; omega
        rw [if_neg c1, if_neg c3, if_neg c2]

/-- The function `xansi_scroll_up` on a grid of `vram_size` cells (addresses
taken modulo the address space): every cell of the grid but those of the last
line takes the content of the cell one line below, the last line is blanked in
the effective colour, and nothing else changes. -/
theorem scroll_up_spec (t : Term) (hc1 : 1 ≤ t.td.cols) (hc2 : t.td.cols ≤ t.td.vram_size)
    (hb : t.td.vram_size ≤ 65536) :
    (xansi_scroll_up t).td = t.td ∧
    (∀ a, (xansi_scroll_up t).hw.vram a =
      if a < 65536 ∧ sub16 a t.td.vram_base < t.td.vram_size - t.td.cols then
        u16 (t.hw.vram (u16 (a + t.td.cols)))
      else if a < 65536 ∧ sub16 a t.td.vram_base < t.td.vram_size then
        u8 t.td.color * 256 + 0x20
      else t.hw.vram a) ∧
    (xansi_scroll_up t).hw.xr = t.hw.xr := by
  obtain ⟨H, hH⟩ : ∃ H : Xosera, H = xm_setw .RD_ADDR (t.td.vram_base + t.td.cols)
      (xm_setw .WR_ADDR t.td.vram_base (xm_setw .RD_INCR 1 (xm_setw .WR_INCR 1 t.hw))) :=
    ⟨_, rfl⟩
  have hwa : H.wr_addr = u16 t.td.vram_base := by
    rw [hH]; rfl
  have hra : H.rd_addr = u16 (t.td.vram_base + t.td.cols) := by
    rw [hH]; rfl
  have hri : H.rd_incr = 1 := by rw [hH]; simp [xm_setw, u16]
  have hwi : H.wr_incr = 1 := by rw [hH]; simp [xm_setw, u16]
  have hvr : H.vram = t.hw.vram := by rw [hH]; rfl
  have hxr : H.xr = t.hw.xr := by rw [hH]; rfl
  have hlag : lag t.td.cols H := by
    refine ⟨by rw [hri, hwi], ?_⟩
    rw [hra, hwa]; unfold u16; omega
  have hn : sub16 t.td.vram_size t.td.cols = t.td.vram_size - t.td.cols := by
    unfold sub16; omega
  have hstage := scroll_stages_eq t.td.cols (t.td.vram_size - t.td.cols) H hlag
    (by rw [hwi]; omega)
  obtain ⟨cv, cw, ci, cx⟩ := copy_words_forward (t.td.vram_size - t.td.cols) H t.td.vram_base
    t.td.cols hwa hra hri hwi hc1 (by omega)
  have hres : (xansi_scroll_up t).hw = blank_loop t.td.cols
      (xm_setbh_DATA t.td.color (copy_words (t.td.vram_size - t.td.cols) H)) := by
    simp only [xansi_scroll_up, xansi_do_scroll]
    rw [← hH, hn, hstage]
  obtain ⟨bv, bx⟩ := blank_loop_spec t.td.cols
    (xm_setbh_DATA t.td.color (copy_words (t.td.vram_size - t.td.cols) H))
    (t.td.vram_base + (t.td.vram_size - t.td.cols))
    (by show (copy_words _ H).wr_addr = _; rw [cw])
    (by show (copy_words _ H).wr_incr = _; exact ci) (by omega)
  refine ⟨rfl, ?_, ?_⟩
  · intro a
    rw [hres, bv a]
    show (if _ then u8 t.td.color * 256 + 0x20 else (copy_words _ H).vram a) = _
    rw [cv a, hvr]
    by_cases c1 : a < 65536 ∧ sub16 a t.td.vram_base < t.td.vram_size - t.td.cols
    · have c2 : ¬ (a < 65536 ∧
          sub16 a (t.td.vram_base + (t.td.vram_size - t.td.cols)) < t.td.cols) := by
        unfold sub16 at c1 ⊢; omega
      rw [if_neg c2, if_pos c1, if_pos c1]
    · rw [if_neg c1, if_neg c1]
      by_cases c3 : a < 65536 ∧ sub16 a t.td.vram_base < t.td.vram_size
      · have c2 : a < 65536 ∧
            sub16 a (t.td.vram_base + (t.td.vram_size - t.td.cols)) < t.td.cols := by
          unfold sub16 at c1 c3 ⊢; omega
        rw [if_pos c2, if_pos c3]
      · have c2 : ¬ (a < 65536 ∧
            sub16 a (t.td.vram_base + (t.td.vram_size - t.td.cols)) < t.td.cols) := by
          unfold sub16 at c1 c3 ⊢; omega
        rw [if_neg c2, if_neg c3]
  · rw [hres, bx]
    show (copy_words _ H).xr = _
    rw [cx, hxr]

/-- The function `xansi_scroll_up` by offsets into the grid: the cell at
offset `i` takes the content of the cell at offset `i + cols`, the cells of
the last line are blanked, the cells outside the grid are kept. -/
theorem scroll_up_cells (t : Term) (hc1 : 1 ≤ t.td.cols) (hc2 : t.td.cols ≤ t.td.vram_size)
    (hb : t.td.vram_size ≤ 65536) :
    (∀ i, i + t.td.cols < t.td.vram_size →
      (xansi_scroll_up t).hw.vram (u16 (t.td.vram_base + i)) =
        u16 (t.hw.vram (u16 (t.td.vram_base + (i + t.td.cols))))) ∧
    (∀ i, i < t.td.vram_size → t.td.vram_size ≤ i + t.td.cols →
      (xansi_scroll_up t).hw.vram (u16 (t.td.vram_base + i)) = u8 t.td.color * 256 + 0x20) ∧
    (∀ a, (∀ i, i < t.td.vram_size → a ≠ u16 (t.td.vram_base + i)) →
      (xansi_scroll_up t).hw.vram a = t.hw.vram a) := by
  obtain ⟨_, hv, _⟩ := scroll_up_spec t hc1 hc2 hb
  refine ⟨?_, ?_, ?_⟩
  · intro i hi
    rw [hv, if_pos ⟨by unfold u16; omega, by unfold sub16 u16; omega⟩]
    congr 2
    unfold u16; omega
  · intro i hi1 hi2
    rw [hv, if_neg (by unfold sub16 u16; omega),
      if_pos ⟨by unfold u16; omega, by unfold sub16 u16; omega⟩]
  · intro a ha
    have key : ¬ (a < 65536 ∧ sub16 a t.td.vram_base < t.td.vram_size) := by
      intro h
      apply ha (sub16 a t.td.vram_base) h.2
      unfold sub16 u16; omega
    rw [hv, if_neg (by intro h; apply key; exact ⟨h.1, by omega⟩), if_neg key]

/-! ## The last column and the deferred wrap -/

theorem drawchar_last_column (t : Term) (b : Nat) (hl : t.td.lcf = false)
    (hx : t.td.x + 1 = t.td.cols) (hc : t.td.cols < 65536)
    (haw : t.td.flags &&& TFLAG_NO_AUTOWRAP = 0) :
    xansi_drawchar t b =
      { td := { t.td with
          cur_addr := u16 (t.td.cur_addr + 1), x := 0,
          y := if u16 (t.td.y + 1) ≥ t.td.rows then sub16 t.td.rows 1 else u16 (t.td.y + 1),
          lcf := true },
        hw := xm_setbl_DATA b (xm_setbh_DATA t.td.color (xm_setw .WR_ADDR t.td.cur_addr t.hw)) } := by
  have h1 : u16 (t.td.x + 1) = t.td.x + 1 := by unfold u16; omega
  have h2 : t.td.x + 1 ≥ t.td.cols := by omega
  by_cases hrow : u16 (t.td.y + 1) ≥ t.td.rows
  · simp [xansi_drawchar, xansi_check_lcf, hl, h1, h2, haw, hrow]
  · simp [xansi_drawchar, xansi_check_lcf, hl, h1, h2, haw, hrow]

/-- A printable byte drawn in the last column with autowrap on: the cell is
written, the cursor goes to column 0 of the next row (the bottom row at most)
and the wrap is deferred. -/
theorem putchar_printable_last_column (t : Term) (b : Nat) (hs : t.td.state = TSTATE_NORMAL)
    (hb : printable b) (hl : t.td.lcf = false) (hx : t.td.x + 1 = t.td.cols)
    (hc : t.td.cols < 65536) (haw : t.td.flags &&& TFLAG_NO_AUTOWRAP = 0) :
    ∃ t1, xansiterm_putchar t b = some t1 ∧
      t1.td = { t.td with
        cur_addr := u16 (t.td.cur_addr + 1), x := 0,
        y := if u16 (t.td.y + 1) ≥ t.td.rows then sub16 t.td.rows 1 else u16 (t.td.y + 1),
        lcf := true, cursor_drawn := false } ∧
      t1.hw.vram = fun a => if a = u16 t.td.cur_addr then u8 t.td.color * 256 + b
                            else t.hw.vram a := by
  have hb8 : u8 b = b := u8_of_lt b (by unfold printable at hb; omega)
  have hdraw := drawchar_last_column (xansi_erase_cursor t) b
    (by rw [erase_cursor_td]; exact hl) (by rw [erase_cursor_td]; exact hx)
    (by rw [erase_cursor_td]; exact hc) (by rw [erase_cursor_td]; exact haw)
  refine ⟨_, putchar_printable t b hs hb, ?_, ?_⟩
  · rw [hdraw]
    simp [erase_cursor_td]
  · rw [hdraw]
    simp only [draw_hw_vram, erase_cursor_td, hb8]
    funext a
    by_cases ha : a = u16 t.td.cur_addr
    · simp [ha]
    · simp [ha, erase_cursor_vram t a ha]

/-- The byte drawn while a wrap is deferred, on a grid of at least two
columns: the wrap is resolved first, by a scroll when the cursor address has
left the grid, then the cell is written and the cursor moves to column 1. -/
theorem putchar_printable_deferred (t : Term) (b : Nat) (hs : t.td.state = TSTATE_NORMAL)
    (hb : printable b) (hl : t.td.lcf = true) (hx : t.td.x = 0) (hc : 2 ≤ t.td.cols)
    (hd : t.td.cursor_drawn = false) :
    ∃ t1, xansiterm_putchar t b = some t1 ∧ t1.td.lcf = false ∧ t1.td.x = 1 ∧
      t1.td.y = t.td.y ∧
      (sub16 t.td.cur_addr t.td.vram_base ≥ t.td.vram_size →
        t1.hw.vram = fun a =>
          if a = u16 (t.td.vram_base + sub16 t.td.vram_size t.td.cols)
          then u8 t.td.color * 256 + b
          else (xansi_scroll_up t).hw.vram a) ∧
      (¬ sub16 t.td.cur_addr t.td.vram_base ≥ t.td.vram_size →
        t1.hw.vram = fun a =>
          if a = u16 t.td.cur_addr then u8 t.td.color * 256 + b else t.hw.vram a) := by
  have h1 : u16 (0 + 1) = 1 := by decide
  have h2 : ¬ (1 ≥ t.td.cols) := by omega
  have hb8 : u8 b = b := u8_of_lt b (by unfold printable at hb; omega)
  refine ⟨_, putchar_printable t b hs hb, ?_, ?_, ?_, ?_, ?_⟩
  · rw [erase_cursor_of_not_drawn t hd]
    simp only [xansi_drawchar, xansi_check_lcf, hl, if_true]
    split <;> simp [scroll_up_td, hx, h1, h2]
  · rw [erase_cursor_of_not_drawn t hd]
    simp only [xansi_drawchar, xansi_check_lcf, hl, if_true]
    split <;> simp [scroll_up_td, hx, h1, h2]
  · rw [erase_cursor_of_not_drawn t hd]
    simp only [xansi_drawchar, xansi_check_lcf, hl, if_true]
    split <;> simp [scroll_up_td, hx, h1, h2]
  · intro hout
    rw [erase_cursor_of_not_drawn t hd]
    simp only [xansi_drawchar, xansi_check_lcf, hl, if_true, hout, scroll_up_td, hx, h1, h2,
      if_false]
    rw [draw_hw_vram, hb8]
    have e : u16 (u16 (t.td.vram_base + sub16 t.td.vram_size t.td.cols)) =
        u16 (t.td.vram_base + sub16 t.td.vram_size t.td.cols) := by unfold u16; omega
    rw [e]
    rfl
  · intro hin
    rw [erase_cursor_of_not_drawn t hd]
    simp only [xansi_drawchar, xansi_check_lcf, hl, if_true, hin, hx, h1, h2, if_false]
    rw [draw_hw_vram, hb8]

theorem exists_front_last (bs : List Nat) (h : 0 < bs.length) :
    ∃ front last, bs = front ++ [last] ∧ front.length + 1 = bs.length := by
  have hne : bs ≠ [] := by
    intro h'; rw [h'] at h; simp at h
  refine ⟨bs.dropLast, bs.getLast hne, (List.dropLast_append_getLast hne).symm, ?_⟩
  rw [List.length_dropLast]
  omega

/-- A full row of printable bytes from column 0, autowrap on: the state with
the wrap deferred. -/
theorem fill_row (t : Term) (bs : List Nat)
    (hs : t.td.state = TSTATE_NORMAL) (haw : t.td.flags &&& TFLAG_NO_AUTOWRAP = 0)
    (hx : t.td.x = 0) (hl : t.td.lcf = false) (hca : t.td.cur_addr < 65536)
    (hc1 : 1 ≤ t.td.cols) (hc16 : t.td.cols < 65536)
    (hbs : ∀ c ∈ bs, printable c) (hlen : bs.length = t.td.cols) :
    ∃ t1, feed t bs = some t1 ∧
      t1.td = { t.td with
        cur_addr := u16 (t.td.cur_addr + t.td.cols), x := 0,
        y := if u16 (t.td.y + 1) ≥ t.td.rows then sub16 t.td.rows 1 else u16 (t.td.y + 1),
        lcf := true, cursor_drawn := false } ∧
      (∀ a, (∀ i, i < t.td.cols → a ≠ u16 (t.td.cur_addr + i)) → t1.hw.vram a = t.hw.vram a) := by
  obtain ⟨front, last, hsplit, hfl⟩ := exists_front_last bs (by omega)
  have hfront : ∀ c ∈ front, printable c := fun c hc => hbs c (by rw [hsplit]; simp [hc])
  have hlast : printable last := hbs last (by rw [hsplit]; simp)
  obtain ⟨ta, ha, htda, _, hfa⟩ := print_run front t hfront hs hl (by omega) (by omega) hca
  have hxa : ta.td.x + 1 = ta.td.cols := by rw [htda]; simp only; omega
  obtain ⟨t1, h1, htd1, hv1⟩ := putchar_printable_last_column ta last
    (by rw [htda]; exact hs) hlast (by rw [htda]; exact hl) hxa (by rw [htda]; exact hc16)
    (by rw [htda]; exact haw)
  refine ⟨t1, ?_, ?_, ?_⟩
  · rw [hsplit, feed_append, ha]
    simp only [Option.some_bind, feed, h1]
  · rw [htd1, htda]
    have e : u16 (u16 (t.td.cur_addr + front.length) + 1) = u16 (t.td.cur_addr + t.td.cols) := by
      unfold u16; omega
    simp only [e]
  · intro a hne
    rw [hv1]
    have hcur : ta.td.cur_addr = u16 (t.td.cur_addr + front.length) := by rw [htda]
    have hna : a ≠ u16 ta.td.cur_addr := by
      rw [hcur]
      have := hne front.length (by omega)
      intro h'
      apply this
      rw [h']; unfold u16; omega
    simp only [hna, if_false]
    exact hfa a (fun i hi => hne i (by omega))

/-- The address of a cell of the grid by its offset. -/
theorem calc_addr_cell (td : xansiterm_data) (r c : Nat) :
    xansi_calc_addr td c r = u16 (td.vram_base + (r * td.cols + c)) := by
  unfold xansi_calc_addr u16
  omega

/-- C4, as amended: on a grid of at least two columns, with autowrap on, in
NORMAL state at column 0 of a row `y` of the grid with `lcf` false and
`cur_addr` consistent: printing exactly `cols` printable characters sets
`lcf`, leaves `cur_addr` one past the last cell of the row and writes no cell
outside that row; one further printable character clears `lcf`; when the row
was the bottom row the grid is first scrolled up one line (every row takes the
content of the row below, the bottom row is blanked in the effective colour)
and the character is written at column 0 of the bottom row; when it was not,
the character is written at column 0 of the next row and no other cell
changes. Cell addresses are those of `xansi_calc_addr`. -/
theorem C4_deferred_wrap (t : Term) (bs : List Nat) (b : Nat)
    (hs : t.td.state = TSTATE_NORMAL) (haw : t.td.flags &&& TFLAG_NO_AUTOWRAP = 0)
    (hx : t.td.x = 0) (hl : t.td.lcf = false) (hy : t.td.y < t.td.rows)
    (ha : t.td.cur_addr = xansi_calc_addr t.td 0 t.td.y)
    (hcols : 2 ≤ t.td.cols)
    (hsize : t.td.vram_size = t.td.cols * t.td.rows) (hs16 : t.td.vram_size < 65536)
    (hcolor : t.td.color < 256)
    (hbs : ∀ c ∈ bs, printable c) (hlen : bs.length = t.td.cols) (hb : printable b) :
    ∃ t1 t2, feed t bs = some t1 ∧ feed t1 [b] = some t2 ∧
      t1.td.lcf = true ∧
      t1.td.cur_addr = u16 (xansi_calc_addr t.td (t.td.cols - 1) t.td.y + 1) ∧
      (∀ a, (∀ c, c < t.td.cols → a ≠ xansi_calc_addr t.td c t.td.y) →
        t1.hw.vram a = t.hw.vram a) ∧
      t2.td.lcf = false ∧ t2.td.x = 1 ∧
      (t.td.y + 1 = t.td.rows →
        (∀ r c, r + 1 < t.td.rows → c < t.td.cols →
          t2.hw.vram (xansi_calc_addr t.td c r) =
            u16 (t1.hw.vram (xansi_calc_addr t.td c (r + 1)))) ∧
        t2.hw.vram (xansi_calc_addr t.td 0 t.td.y) = t.td.color * 256 + b ∧
        (∀ c, 1 ≤ c → c < t.td.cols →
          t2.hw.vram (xansi_calc_addr t.td c t.td.y) = t.td.color * 256 + 0x20) ∧
        (∀ a, (∀ r c, r < t.td.rows → c < t.td.cols → a ≠ xansi_calc_addr t.td c r) →
          t2.hw.vram a = t1.hw.vram a) ∧
        t2.td.y = t.td.y) ∧
      (t.td.y + 1 < t.td.rows →
        t2.hw.vram (xansi_calc_addr t.td 0 (t.td.y + 1)) = t.td.color * 256 + b ∧
        (∀ a, a ≠ xansi_calc_addr t.td 0 (t.td.y + 1) → t2.hw.vram a = t1.hw.vram a) ∧
        t2.td.y = t.td.y + 1) := by
  -- arithmetic of the grid
  have hcr : t.td.cols * t.td.rows < 65536 := by rw [← hsize]; exact hs16
  have n1 : t.td.y * t.td.cols + t.td.cols ≤ t.td.cols * t.td.rows := by
    have := Nat.mul_le_mul_right t.td.cols (show t.td.y + 1 ≤ t.td.rows by omega)
    rw [Nat.add_mul, Nat.one_mul, Nat.mul_comm t.td.rows] at this
    exact this
  have hc16 : t.td.cols < 65536 := by omega
  have hr16 : t.td.rows < 65536 := by
    have := Nat.le_mul_of_pos_left t.td.rows (show 0 < t.td.cols by omega)
    omega
  have hcell : ∀ r c,
      xansi_calc_addr t.td c r = u16 (t.td.vram_base + (r * t.td.cols + c)) :=
    fun r c => calc_addr_cell t.td r c
  have hcur : t.td.cur_addr = u16 (t.td.vram_base + (t.td.y * t.td.cols + 0)) := by
    rw [ha]; exact hcell _ _
  have hc8 : u8 t.td.color = t.td.color := u8_of_lt _ hcolor
  -- the row is filled
  obtain ⟨t1, h1, htd1, hf1⟩ := fill_row t bs hs haw hx hl (by rw [hcur]; unfold u16; omega)
    (by omega) hc16 hbs hlen
  have e1cur : t1.td.cur_addr = u16 (t.td.vram_base + (t.td.y * t.td.cols + t.td.cols)) := by
    rw [htd1]; simp only; rw [hcur]; unfold u16; omega
  have e1lcf : t1.td.lcf = true := by rw [htd1]
  have e1x : t1.td.x = 0 := by rw [htd1]
  have e1cols : t1.td.cols = t.td.cols := by rw [htd1]
  have e1base : t1.td.vram_base = t.td.vram_base := by rw [htd1]
  have e1size : t1.td.vram_size = t.td.vram_size := by rw [htd1]
  have e1color : t1.td.color = t.td.color := by rw [htd1]
  have e1y : t1.td.y =
      if u16 (t.td.y + 1) ≥ t.td.rows then sub16 t.td.rows 1 else u16 (t.td.y + 1) := by
    rw [htd1]
  -- one further character
  obtain ⟨t2, h2, e2lcf, e2x, e2y, hout, hin⟩ := putchar_printable_deferred t1 b
    (by rw [htd1]; exact hs) hb e1lcf e1x (by rw [e1cols]; exact hcols) (by rw [htd1])
  simp only [e1cur, e1base, e1size, e1cols, e1color, hc8] at hout hin
  refine ⟨t1, t2, h1, by simp only [feed, h2, Option.some_bind], e1lcf, ?_, ?_, e2lcf, e2x,
    ?_, ?_⟩
  · rw [e1cur, hcell _ _]
    unfold u16; omega
  · intro a hna
    apply hf1 a
    intro i hi
    have := hna i hi
    rw [hcell _ _] at this
    rw [hcur]
    intro h'
    apply this
    rw [h']; unfold u16; omega
  · -- the bottom row
    intro hbot
    have n2 : t.td.y * t.td.cols + t.td.cols = t.td.cols * t.td.rows := by
      rw [← hbot]; ring
    have hcond : sub16 (u16 (t.td.vram_base + (t.td.y * t.td.cols + t.td.cols)))
        t.td.vram_base ≥ t.td.vram_size := by
      unfold sub16 u16; omega
    have hv2 := hout hcond
    have ecell : u16 (t.td.vram_base + sub16 t.td.vram_size t.td.cols) =
        u16 (t.td.vram_base + (t.td.y * t.td.cols + 0)) := by
      unfold sub16 u16; omega
    rw [ecell] at hv2
    obtain ⟨hsa, hsb, hsc⟩ := scroll_up_cells t1 (by rw [e1cols]; omega)
      (by rw [e1cols, e1size]; omega) (by rw [e1size]; omega)
    simp only [e1base, e1size, e1cols, e1color, hc8] at hsa hsb hsc
    refine ⟨?_, ?_, ?_, ?_, ?_⟩
    · intro r c hr hc
      have n3 : r * t.td.cols + t.td.cols ≤ t.td.y * t.td.cols := by
        have := Nat.mul_le_mul_right t.td.cols (show r + 1 ≤ t.td.y by omega)
        rw [Nat.add_mul, Nat.one_mul] at this
        exact this
      have n4 : (r + 1) * t.td.cols = r * t.td.cols + t.td.cols := by ring
      rw [hcell _ _, hcell _ _, hv2]
      have c0 : ¬ (u16 (t.td.vram_base + (r * t.td.cols + c)) =
          u16 (t.td.vram_base + (t.td.y * t.td.cols + 0))) := by
        unfold u16; omega
      simp only [c0, if_false]
      rw [hsa _ (by omega), n4]
      congr 3
      omega
    · rw [hcell _ _, hv2]
      simp only [if_true]
    · intro c hc1 hc2
      rw [hcell _ _, hv2]
      have c0 : ¬ (u16 (t.td.vram_base + (t.td.y * t.td.cols + c)) =
          u16 (t.td.vram_base + (t.td.y * t.td.cols + 0))) := by
        unfold u16; omega
      simp only [c0, if_false]
      rw [hsb _ (by omega) (by omega)]
    · intro a hna
      rw [hv2]
      have c0 : ¬ (a = u16 (t.td.vram_base + (t.td.y * t.td.cols + 0))) := by
        have := hna t.td.y 0 hy (by omega)
        rw [hcell _ _] at this
        exact this
      simp only [c0, if_false]
      apply hsc
      intro i hi
      have hpos : 0 < t.td.cols := by omega
      have hdiv : i / t.td.cols < t.td.rows := by
        apply Nat.div_lt_of_lt_mul
        rw [← hsize]; exact hi
      have := hna (i / t.td.cols) (i % t.td.cols) hdiv (Nat.mod_lt _ hpos)
      rw [hcell _ _, Nat.mul_comm, Nat.div_add_mod] at this
      exact this
    · rw [e2y, e1y]
      have : u16 (t.td.y + 1) ≥ t.td.rows := by unfold u16; omega
      rw [if_pos this]
      unfold sub16
      omega
  · -- a row above the bottom row
    intro habove
    have n5 : t.td.y * t.td.cols + t.td.cols + t.td.cols ≤ t.td.cols * t.td.rows := by
      have := Nat.mul_le_mul_right t.td.cols (show t.td.y + 2 ≤ t.td.rows by omega)
      rw [Nat.add_mul, Nat.mul_comm t.td.rows] at this
      omega
    have n6 : (t.td.y + 1) * t.td.cols = t.td.y * t.td.cols + t.td.cols := by ring
    have hcond : ¬ sub16 (u16 (t.td.vram_base + (t.td.y * t.td.cols + t.td.cols)))
        t.td.vram_base ≥ t.td.vram_size := by
      unfold sub16 u16; omega
    have hv2 := hin hcond
    have ecell : u16 (u16 (t.td.vram_base + (t.td.y * t.td.cols + t.td.cols))) =
        xansi_calc_addr t.td 0 (t.td.y + 1) := by
      rw [hcell _ _, n6]; unfold u16; omega
    rw [ecell] at hv2
    refine ⟨?_, ?_, ?_⟩
    · rw [hv2]; simp only [if_true]
    · intro a hna
      rw [hv2]; simp only [hna, if_false]
    · rw [e2y, e1y]
      have : ¬ u16 (t.td.y + 1) ≥ t.td.rows := by unfold u16; omega
      rw [if_neg this]
      unfold u16
      omega

/-- C4, the counterexamples, both on the 640 by 480 adapter. After
`CSI 68;0;1;1 m` (line length 1) and `ESC (` the grid has one column; in
NORMAL state with autowrap on, at column 0 with `lcf` false, one letter fills
the row and sets `lcf`, and one further letter leaves `lcf` set: it fills its
own row and defers the next wrap. And after `CSI 99 B`, 80 letters and CR the
cursor is at column 0 of row 29 of the 80 by 30 grid with `lcf` false and
`cur_addr` 2400: printing 80 letters writes the cell at 2400, which is not a
cell of row 29. -/
theorem C4_one_column_keeps_lcf :
    (∃ t t1 t2, Reachable t ∧ t.td.cols = 1 ∧ t.td.state = TSTATE_NORMAL ∧
      t.td.flags &&& TFLAG_NO_AUTOWRAP = 0 ∧ t.td.x = 0 ∧ t.td.lcf = false ∧
      t.td.y < t.td.rows ∧ t.td.cur_addr = xansi_calc_addr t.td 0 t.td.y ∧
      feed t [0x41] = some t1 ∧ t1.td.lcf = true ∧
      feed t1 [0x42] = some t2 ∧ t2.td.lcf = true) ∧
    (∃ t t1, Reachable t ∧ t.td.cols = 80 ∧ t.td.state = TSTATE_NORMAL ∧
      t.td.flags &&& TFLAG_NO_AUTOWRAP = 0 ∧ t.td.x = 0 ∧ t.td.lcf = false ∧
      t.td.y < t.td.rows ∧
      feed t (List.replicate 80 0x41) = some t1 ∧
      (∀ c, c < t.td.cols → 2400 ≠ xansi_calc_addr t.td c t.td.y) ∧
      t1.hw.vram 2400 ≠ t.hw.vram 2400) := by
  constructor
  · obtain ⟨t2, ht2, hv2⟩ := of_map_eq_some
      (boot (adapter 640 480)
        (([0x1B, 0x5B, 0x36, 0x38, 0x3B, 0x30, 0x3B, 0x31, 0x3B, 0x31, 0x6D, 0x1B, 0x28] ++
          [0x41]) ++ [0x42]))
      (fun t => t.td.lcf) true (by decide!)
    obtain ⟨t1, ht1, hfeed2⟩ := boot_split _ _ _ t2 ht2
    obtain ⟨t, ht, hfeed1⟩ := boot_split _ _ _ t1 ht1
    obtain ⟨t1', ht1', hv1⟩ := of_map_eq_some
      (boot (adapter 640 480)
        ([0x1B, 0x5B, 0x36, 0x38, 0x3B, 0x30, 0x3B, 0x31, 0x3B, 0x31, 0x6D, 0x1B, 0x28] ++
          [0x41]))
      (fun t => t.td.lcf) true (by decide!)
    rw [ht1] at ht1'
    cases ht1'
    obtain ⟨t', ht', hv⟩ := of_map_eq_some
      (boot (adapter 640 480)
        [0x1B, 0x5B, 0x36, 0x38, 0x3B, 0x30, 0x3B, 0x31, 0x3B, 0x31, 0x6D, 0x1B, 0x28])
      (fun t => (t.td.cols, t.td.state, t.td.flags, t.td.x, t.td.lcf))
      (1, 0, 0, 0, false) (by decide!)
    rw [ht] at ht'
    cases ht'
    simp only [Prod.mk.injEq] at hv
    obtain ⟨a1, a2, a3, a4, a5⟩ := hv
    obtain ⟨t', ht', hv⟩ := of_map_eq_some
      (boot (adapter 640 480)
        [0x1B, 0x5B, 0x36, 0x38, 0x3B, 0x30, 0x3B, 0x31, 0x3B, 0x31, 0x6D, 0x1B, 0x28])
      (fun t => (decide (t.td.y < t.td.rows),
        decide (t.td.cur_addr = xansi_calc_addr t.td 0 t.td.y)))
      (true, true) (by decide!)
    rw [ht] at ht'
    cases ht'
    simp only [Prod.mk.injEq, decide_eq_true_eq] at hv
    obtain ⟨a6, a7⟩ := hv
    exact ⟨t, t1, t2, boot_reachable _ _ t 80 30 (by decide) (by decide) (by decide!) ht,
      a1, a2, by rw [a3]; decide, a4, a5, a6, a7, hfeed1, hv1, hfeed2, hv2⟩
  · obtain ⟨t1, ht1, hv1⟩ := of_map_eq_some
      (boot (adapter 640 480)
        (([0x1B, 0x5B, 0x39, 0x39, 0x42] ++ List.replicate 80 0x41 ++ [0x0D]) ++
          List.replicate 80 0x41))
      (fun t => t.hw.vram 2400) 0x0241 (by decide!)
    obtain ⟨t, ht, hfeed⟩ := boot_split _ _ _ t1 ht1
    obtain ⟨t', ht', hv⟩ := of_map_eq_some
      (boot (adapter 640 480)
        ([0x1B, 0x5B, 0x39, 0x39, 0x42] ++ List.replicate 80 0x41 ++ [0x0D]))
      (fun t => (t.td.cols, t.td.state, t.td.flags, t.td.x, t.td.lcf))
      (80, 0, 0, 0, false) (by decide!)
    rw [ht] at ht'
    cases ht'
    simp only [Prod.mk.injEq] at hv
    obtain ⟨a1, a2, a3, a4, a5⟩ := hv
    obtain ⟨t', ht', hv⟩ := of_map_eq_some
      (boot (adapter 640 480)
        ([0x1B, 0x5B, 0x39, 0x39, 0x42] ++ List.replicate 80 0x41 ++ [0x0D]))
      (fun t => (t.td.y, t.td.rows, t.td.vram_base, t.hw.vram 2400))
      (29, 30, 0, 0x0220) (by decide!)
    rw [ht] at ht'
    cases ht'
    simp only [Prod.mk.injEq] at hv
    obtain ⟨a6, a7, a8, a9⟩ := hv
    refine ⟨t, t1, boot_reachable _ _ t 80 30 (by decide) (by decide) (by decide!) ht,
      a1, a2, by rw [a3]; decide, a4, a5, by omega, hfeed, ?_, by rw [hv1, a9]; decide⟩
    intro c hc
    rw [calc_addr_cell, a1, a6, a8]
    unfold u16
    omega

/-- C4 at a concrete input: 80 letters `A` and one `B` on the bottom row of
the 80 by 30 terminal. -/
theorem C4_deferred_wrap_witness :
    demo_bottom.td.state = TSTATE_NORMAL ∧ demo_bottom.td.flags &&& TFLAG_NO_AUTOWRAP = 0 ∧
    demo_bottom.td.x = 0 ∧ demo_bottom.td.lcf = false ∧
    demo_bottom.td.y < demo_bottom.td.rows ∧
    demo_bottom.td.cur_addr = xansi_calc_addr demo_bottom.td 0 demo_bottom.td.y ∧
    2 ≤ demo_bottom.td.cols ∧
    demo_bottom.td.vram_size = demo_bottom.td.cols * demo_bottom.td.rows ∧
    demo_bottom.td.vram_size < 65536 ∧ demo_bottom.td.color < 256 ∧
    (∀ c ∈ List.replicate 80 0x41, printable c) ∧
    (List.replicate 80 0x41).length = demo_bottom.td.cols ∧ printable 0x42 ∧
    demo_bottom.td.y + 1 = demo_bottom.td.rows ∧
    ∃ t1 t2, feed demo_bottom (List.replicate 80 0x41) = some t1 ∧
      feed t1 [0x42] = some t2 ∧
      t1.td.lcf = true ∧
      t1.td.cur_addr =
        u16 (xansi_calc_addr demo_bottom.td (demo_bottom.td.cols - 1) demo_bottom.td.y + 1) ∧
      (∀ a, (∀ c, c < demo_bottom.td.cols →
            a ≠ xansi_calc_addr demo_bottom.td c demo_bottom.td.y) →
        t1.hw.vram a = demo_bottom.hw.vram a) ∧
      t2.td.lcf = false ∧ t2.td.x = 1 ∧
      (demo_bottom.td.y + 1 = demo_bottom.td.rows →
        (∀ r c, r + 1 < demo_bottom.td.rows → c < demo_bottom.td.cols →
          t2.hw.vram (xansi_calc_addr demo_bottom.td c r) =
            u16 (t1.hw.vram (xansi_calc_addr demo_bottom.td c (r + 1)))) ∧
        t2.hw.vram (xansi_calc_addr demo_bottom.td 0 demo_bottom.td.y) =
          demo_bottom.td.color * 256 + 0x42 ∧
        (∀ c, 1 ≤ c → c < demo_bottom.td.cols →
          t2.hw.vram (xansi_calc_addr demo_bottom.td c demo_bottom.td.y) =
            demo_bottom.td.color * 256 + 0x20) ∧
        (∀ a, (∀ r c, r < demo_bottom.td.rows → c < demo_bottom.td.cols →
              a ≠ xansi_calc_addr demo_bottom.td c r) →
          t2.hw.vram a = t1.hw.vram a) ∧
        t2.td.y = demo_bottom.td.y) ∧
      (demo_bottom.td.y + 1 < demo_bottom.td.rows →
        t2.hw.vram (xansi_calc_addr demo_bottom.td 0 (demo_bottom.td.y + 1)) =
          demo_bottom.td.color * 256 + 0x42 ∧
        (∀ a, a ≠ xansi_calc_addr demo_bottom.td 0 (demo_bottom.td.y + 1) →
          t2.hw.vram a = t1.hw.vram a) ∧
        t2.td.y = demo_bottom.td.y + 1) :=
  ⟨by decide, by decide, by decide, by decide, by decide, by decide, by decide, by decide,
    by decide, by decide, by decide, by decide, by decide, by decide,
    C4_deferred_wrap demo_bottom (List.replicate 80 0x41) 0x42 (by decide) (by decide)
      (by decide) (by decide) (by decide) (by decide) (by decide) (by decide) (by decide)
      (by decide) (by decide) (by decide) (by decide)⟩

/-! ## The input cursor -/

theorem draw_cursor_of_drawn (t : Term) (h : t.td.cursor_drawn = true) :
    xansi_draw_cursor t = t := by
  unfold xansi_draw_cursor
  simp [h]

theorem draw_cursor_drawn (t : Term) : (xansi_draw_cursor t).td.cursor_drawn = true := by
  unfold xansi_draw_cursor
  cases h : t.td.cursor_drawn <;> simp [h]

/-- C11: for every state with the cursor not drawn (video-memory words are
16-bit values), `xansi_draw_cursor` followed by `xansi_erase_cursor` leaves
video memory what it was and `cursor_drawn` false; `xansi_draw_cursor` twice
is `xansi_draw_cursor` once, and `xansi_erase_cursor` twice is
`xansi_erase_cursor` once. -/
theorem C11_cursor_round_trip (t : Term) (hd : t.td.cursor_drawn = false)
    (hword : t.hw.vram (u16 t.td.cur_addr) < 65536) :
    (xansi_erase_cursor (xansi_draw_cursor t)).hw.vram = t.hw.vram ∧
    (xansi_erase_cursor (xansi_draw_cursor t)).td.cursor_drawn = false ∧
    xansi_draw_cursor (xansi_draw_cursor t) = xansi_draw_cursor t ∧
    xansi_erase_cursor (xansi_erase_cursor t) = xansi_erase_cursor t := by
  refine ⟨?_, ?_, ?_, ?_⟩
  · funext a
    have e : u16 (u16 (t.hw.vram (u16 t.td.cur_addr))) = t.hw.vram (u16 t.td.cur_addr) := by
      unfold u16 at hword ⊢; omega
    simp only [xansi_erase_cursor, xansi_draw_cursor, hd, Bool.not_false, if_true, xm_setw,
      xm_getw, vram_store, e]
    have e2 : u16 (u16 t.td.cur_addr + u16 0) = u16 t.td.cur_addr := by unfold u16; omega
    by_cases h : a = u16 t.td.cur_addr
    · simp [h]
    · simp [h, e2]
  · simp [xansi_erase_cursor, xansi_draw_cursor, hd]
  · exact draw_cursor_of_drawn _ (draw_cursor_drawn t)
  · exact erase_cursor_of_not_drawn _ (by rw [erase_cursor_td])

/-- C11 at a concrete input: the 80 by 30 terminal. -/
theorem C11_cursor_round_trip_witness :
    demo_term.td.cursor_drawn = false ∧
    demo_term.hw.vram (u16 demo_term.td.cur_addr) < 65536 ∧
    (xansi_erase_cursor (xansi_draw_cursor demo_term)).hw.vram = demo_term.hw.vram ∧
    (xansi_erase_cursor (xansi_draw_cursor demo_term)).td.cursor_drawn = false ∧
    xansi_draw_cursor (xansi_draw_cursor demo_term) = xansi_draw_cursor demo_term ∧
    xansi_erase_cursor (xansi_erase_cursor demo_term) = xansi_erase_cursor demo_term :=
  ⟨by decide, by decide, C11_cursor_round_trip demo_term (by decide) (by decide)⟩

/-! ## Cancelling and skipping a sequence -/

/-- C12, as amended: in parser state ESC, CSI or ILLEGAL, whatever the other
fields hold, `xansiterm_putchar` with CAN or SUB sets the state to NORMAL and
takes a drawn input cursor off the screen, and changes nothing else: every
other field of the session record is as it was, and video memory is what
`xansi_erase_cursor` leaves, which is video memory itself when the cursor was
not drawn. -/
theorem C12_cancel (t : Term) (b : Nat)
    (hs : t.td.state = TSTATE_ESC ∨ t.td.state = TSTATE_CSI ∨ t.td.state = TSTATE_ILLEGAL)
    (hb : b = 0x18 ∨ b = 0x1A) :
    ∃ t1, xansiterm_putchar t b = some t1 ∧
      t1.td = { t.td with state := TSTATE_NORMAL, cursor_drawn := false } ∧
      t1.hw = (xansi_erase_cursor t).hw ∧
      (t.td.cursor_drawn = false → t1.hw = t.hw) := by
  have e : ¬ b &&& 0x7f = 0x1b := by
    rcases hb with h | h <;> subst h <;> decide
  have hn : ¬ t.td.state = TSTATE_NORMAL := by
    rcases hs with h | h | h <;> rw [h] <;> decide
  refine ⟨{ td := { t.td with state := TSTATE_NORMAL, cursor_drawn := false },
            hw := (xansi_erase_cursor t).hw }, ?_, rfl, rfl, ?_⟩
  · unfold xansiterm_putchar
    simp only [e, if_false, erase_cursor_td, hn, hb, if_true]
  · intro hd
    show (xansi_erase_cursor t).hw = t.hw
    rw [erase_cursor_of_not_drawn t hd]

/-- C12 at a concrete input: CAN in CSI state on the 80 by 30 terminal. -/
theorem C12_cancel_witness :
    (({ demo_term with td := { demo_term.td with state := TSTATE_CSI } } : Term).td.state =
        TSTATE_ESC ∨
      ({ demo_term with td := { demo_term.td with state := TSTATE_CSI } } : Term).td.state =
        TSTATE_CSI ∨
      ({ demo_term with td := { demo_term.td with state := TSTATE_CSI } } : Term).td.state =
        TSTATE_ILLEGAL) ∧
    ((0x18 : Nat) = 0x18 ∨ (0x18 : Nat) = 0x1A) ∧
    ∃ t1, xansiterm_putchar { demo_term with td := { demo_term.td with state := TSTATE_CSI } }
        0x18 = some t1 ∧
      t1.td = { demo_term.td with state := TSTATE_NORMAL, cursor_drawn := false } ∧
      t1.hw = (xansi_erase_cursor
        { demo_term with td := { demo_term.td with state := TSTATE_CSI } }).hw ∧
      (demo_term.td.cursor_drawn = false → t1.hw = demo_term.hw) :=
  ⟨by decide, by decide,
    C12_cancel { demo_term with td := { demo_term.td with state := TSTATE_CSI } } 0x18
      (by decide) (by decide)⟩

/-- C12, the counterexample: on the 640 by 480 adapter, after `CSI` the
parser is in CSI state; with the input cursor drawn there by
`xansi_draw_cursor` (the cell at address 0 holds `0x2020`), CAN restores the
saved word `0x0220` in that cell and clears `cursor_drawn`: video memory has
changed. -/
theorem C12_cancel_erases_the_cursor :
    ∃ t0 t1, Reachable t0 ∧ t0.td.state = TSTATE_CSI ∧
      xansiterm_putchar (xansi_draw_cursor t0) 0x18 = some t1 ∧
      (xansi_draw_cursor t0).td.cursor_drawn = true ∧ t1.td.cursor_drawn = false ∧
      (xansi_draw_cursor t0).hw.vram 0 = 0x2020 ∧ t1.hw.vram 0 = 0x0220 := by
  obtain ⟨t0, ht0, hv⟩ := of_map_eq_some
    (boot (adapter 640 480) [0x1B, 0x5B])
    (fun t => (t.td.state, (xansi_draw_cursor t).td.cursor_drawn,
      (xansi_draw_cursor t).hw.vram 0,
      (xansiterm_putchar (xansi_draw_cursor t) 0x18).map
        (fun t1 => (t1.td.cursor_drawn, t1.hw.vram 0))))
    (3, true, 0x2020, some (false, 0x0220)) (by decide!)
  simp only [Prod.mk.injEq] at hv
  obtain ⟨a1, a2, a3, a4⟩ := hv
  obtain ⟨t1, ht1, hv1⟩ := of_map_eq_some _ _ _ a4
  simp only [Prod.mk.injEq] at hv1
  exact ⟨t0, t1, boot_reachable _ _ t0 80 30 (by decide) (by decide) (by decide!) ht0,
    a1, ht1, a2, hv1.1, a3, hv1.2⟩

/-- The test `cdata >= 0x40` on the signed `char` holds for the bytes
`0x40..0x7F` only. -/
theorem schar_final : ∀ b, b < 256 → (schar b ≥ 0x40 ↔ (0x40 ≤ b ∧ b ≤ 0x7F)) := by
  decide!

theorem erase_cursor_eta (t : Term) :
    xansi_erase_cursor t =
      { td := { t.td with cursor_drawn := false }, hw := (xansi_erase_cursor t).hw } := by
  rw [← erase_cursor_td t]

/-- C13, as amended: in state ILLEGAL, `xansiterm_putchar` with a byte in
`0x40..0x7F` sets the state to NORMAL, and with any other byte that is none of
ESC, the 8-bit CSI `0x9B`, CAN and SUB (a byte below `0x40`, or one in
`0x80..0xFF`, which is negative as a `char`) leaves the state ILLEGAL; in both
cases the byte is not drawn and the cursor is not moved: the session record
changes in `state` only, a drawn input cursor apart, which is taken off the
screen. -/
theorem C13_illegal_state (t : Term) (b : Nat) (hs : t.td.state = TSTATE_ILLEGAL)
    (hb : b < 256) (h1 : b ≠ 0x1B) (h2 : b ≠ 0x9B) (h3 : b ≠ 0x18) (h4 : b ≠ 0x1A) :
    ∃ t1, xansiterm_putchar t b = some t1 ∧
      t1.td = { t.td with
        state := if 0x40 ≤ b ∧ b ≤ 0x7F then TSTATE_NORMAL else TSTATE_ILLEGAL,
        cursor_drawn := false } ∧
      t1.hw = (xansi_erase_cursor t).hw ∧
      (t.td.cursor_drawn = false → t1.hw = t.hw) := by
  have e : ¬ b &&& 0x7f = 0x1b := by
    rw [esc_test b hb]; omega
  have hs' : t.td.state = 1 := hs
  have hfin := schar_final b hb
  refine ⟨{ td := { t.td with
              state := if 0x40 ≤ b ∧ b ≤ 0x7F then TSTATE_NORMAL else TSTATE_ILLEGAL,
              cursor_drawn := false },
            hw := (xansi_erase_cursor t).hw }, ?_, rfl, rfl, ?_⟩
  · unfold xansiterm_putchar
    simp only [e, if_false, erase_cursor_td, hs', h3, h4, or_self, TSTATE_NORMAL, TSTATE_ESC,
      TSTATE_CSI, TSTATE_ILLEGAL, if_true]
    by_cases c : 0x40 ≤ b ∧ b ≤ 0x7F
    · simp [c, hfin.2 c]
    · have c' : ¬ schar b ≥ 0x40 := fun h => c (hfin.1 h)
      simp only [c, c', if_false]
      conv_lhs => rw [erase_cursor_eta t]
      simp [hs']
  · intro hd
    show (xansi_erase_cursor t).hw = t.hw
    rw [erase_cursor_of_not_drawn t hd]

/-- C13 at a concrete input: the letter `A` in ILLEGAL state on the 80 by 30
terminal. -/
theorem C13_illegal_state_witness :
    ({ demo_term with td := { demo_term.td with state := TSTATE_ILLEGAL } } : Term).td.state =
      TSTATE_ILLEGAL ∧
    (0x41 : Nat) < 256 ∧ (0x41 : Nat) ≠ 0x1B ∧ (0x41 : Nat) ≠ 0x9B ∧ (0x41 : Nat) ≠ 0x18 ∧
    (0x41 : Nat) ≠ 0x1A ∧
    ∃ t1, xansiterm_putchar
        { demo_term with td := { demo_term.td with state := TSTATE_ILLEGAL } } 0x41 = some t1 ∧
      t1.td = { demo_term.td with
        state := if 0x40 ≤ 0x41 ∧ 0x41 ≤ 0x7F then TSTATE_NORMAL else TSTATE_ILLEGAL,
        cursor_drawn := false } ∧
      t1.hw = (xansi_erase_cursor
        { demo_term with td := { demo_term.td with state := TSTATE_ILLEGAL } }).hw ∧
      (demo_term.td.cursor_drawn = false → t1.hw = demo_term.hw) :=
  ⟨by decide, by decide, by decide, by decide, by decide, by decide,
    C13_illegal_state { demo_term with td := { demo_term.td with state := TSTATE_ILLEGAL } } 0x41
      (by decide) (by decide) (by decide) (by decide) (by decide) (by decide)⟩

/-- C13, the counterexample: on the 640 by 480 adapter, `CSI :` leaves the
parser in state ILLEGAL; the byte `0x80`, which lies in `0x40..0xFF` and is
not `0x9B`, leaves the state ILLEGAL: as a signed `char` it is negative and
fails the test `cdata >= 0x40`. -/
theorem C13_high_byte_stays_illegal :
    ∃ t t1, Reachable t ∧ t.td.state = TSTATE_ILLEGAL ∧
      xansiterm_putchar t 0x80 = some t1 ∧ t1.td.state = TSTATE_ILLEGAL := by
  obtain ⟨t1, ht1, hv1⟩ := of_map_eq_some
    (boot (adapter 640 480) ([0x1B, 0x5B, 0x3A] ++ [0x80]))
    (fun t => t.td.state) 1 (by decide!)
  obtain ⟨t, ht, hfeed⟩ := boot_split _ _ _ t1 ht1
  obtain ⟨t', ht', hv⟩ := of_map_eq_some
    (boot (adapter 640 480) [0x1B, 0x5B, 0x3A])
    (fun t => t.td.state) 1 (by decide!)
  rw [ht] at ht'
  cases ht'
  refine ⟨t, t1, boot_reachable _ _ t 80 30 (by decide) (by decide) (by decide!) ht, hv, ?_, hv1⟩
  simp only [feed] at hfeed
  cases h : xansiterm_putchar t 0x80 with
  | none => simp [h] at hfeed
  | some u => simpa [h] using hfeed

/-! ## The effective colour after SGR -/

/-- The dispatcher takes the input cursor off the screen first: a call on `t`
is a call on `xansi_erase_cursor t`. -/
theorem putchar_erase (t : Term) (c : Nat) :
    xansiterm_putchar t c = xansiterm_putchar (xansi_erase_cursor t) c := by
  unfold xansiterm_putchar
  rw [erase_cursor_of_not_drawn (xansi_erase_cursor t) (by rw [erase_cursor_td])]

theorem feed_erase (t : Term) (bs : List Nat) (h : bs ≠ []) :
    feed t bs = feed (xansi_erase_cursor t) bs := by
  cases bs with
  | nil => exact absurd rfl h
  | cons b bs => simp only [feed]; rw [putchar_erase]

theorem ite_term_frame (P : Term → Prop) (c : Prop) [Decidable c] (a b : Term)
    (ha : P a) (hb : P b) : P (if c then a else b) := by
  split <;> assumption

theorem ite_pair_frame (P : Term → Prop) (c : Prop) [Decidable c] (a b : Term × Nat)
    (ha : P a.1) (hb : P b.1) : P (if c then a else b).1 := by
  split <;> assumption

theorem sgr_rosco_frame (t : Term) (i : Nat) :
    (sgr_rosco t i).td = with_sgr t.td (sgr_rosco t i).td := by
  unfold sgr_rosco
  dsimp only
  repeat (first | rfl | apply ite_term_frame (fun u => u.td = with_sgr t.td u.td))

theorem sgr_effective_frame (td s : xansiterm_data) (h : s = with_sgr td s) :
    sgr_effective s = with_sgr td (sgr_effective s) := by
  have : sgr_effective s = sgr_effective (with_sgr td s) := by rw [← h]
  rw [this]
  rfl

theorem sgr_step_frame (t : Term) (i : Nat) :
    (sgr_step t i).1.td = with_sgr t.td (sgr_step t i).1.td := by
  unfold sgr_step
  dsimp only
  apply sgr_effective_frame
  repeat (first | rfl | exact sgr_rosco_frame _ _ |
    apply ite_pair_frame (fun u => u.td = with_sgr t.td u.td))

theorem with_sgr_trans (a b c : xansiterm_data) : with_sgr (with_sgr a b) c = with_sgr a c := rfl

theorem sgr_loop_frame (fuel : Nat) : ∀ (i : Nat) (t : Term),
    (sgr_loop fuel i t).td = with_sgr t.td (sgr_loop fuel i t).td := by
  induction fuel with
  | zero => intro i t; rfl
  | succ n ih =>
    intro i t
    unfold sgr_loop
    split
    · rw [ih, sgr_step_frame t i, with_sgr_trans]
      rfl
    · rfl

theorem xansi_sgr_frame (t : Term) :
    (xansi_sgr t).td =
      with_sgr { t.td with num_parms := if t.td.num_parms = 0 then 1 else t.td.num_parms }
        (xansi_sgr t).td := by
  by_cases h : t.td.num_parms = 0
  · have e : xansi_sgr t = sgr_loop 1 0 { t with td := { t.td with num_parms := 1 } } := by
      unfold xansi_sgr
      simp only [h, if_true]
    rw [e, h]
    conv_lhs => rw [sgr_loop_frame]
    rfl
  · have e : xansi_sgr t = sgr_loop t.td.num_parms 0 t := by
      unfold xansi_sgr
      simp only [h, if_false]
    rw [e]
    conv_lhs => rw [sgr_loop_frame]
    simp only [h, if_false]

/-- The values at that input: `CSI 7;31 m` sets the reverse flag and selects
red on black (`0x04`); the effective colour is black on red (`0x40`), the
nibbles exchanged.  `CSI 1;31 m` sets the bright flag and gives bright red
(`0x0C`).  With dim and bright: `T(0x4C, reverse, dim) = 0xC4` and
`T(0x04, bright) = 0x0C`. -/
theorem demo_reverse_colour :
    (xansiterm_putchar demo_reverse 0x6D).map
      (fun t => (t.td.cur_color, t.td.flags &&& TFLAG_ATTRIB_REVERSE, t.td.color)) =
      some (0x04, TFLAG_ATTRIB_REVERSE, 0x40) ∧
    (xansiterm_putchar demo_sgr 0x6D).map
      (fun t => (t.td.cur_color, t.td.flags &&& TFLAG_ATTRIB_BRIGHT, t.td.color)) =
      some (0x04, TFLAG_ATTRIB_BRIGHT, 0x0C) ∧
    effective_colour_spec 0x04 true false false = 0x40 ∧
    effective_colour_spec 0x4C true true false = 0xC4 ∧
    effective_colour_spec 0x04 false false true = 0x0C ∧
    effective_colour_spec 0x0C false true true = 0x0C := by
  decide!

/-! ## Cursor movement and positioning: failing inputs -/

/-- A reachable state and what one more input leaves, by evaluation. -/
theorem boot_then (pre bytes : List Nat) (α β : Type) (f : Term → α) (g : Term → β) (a : α)
    (b : β)
    (h0 : (xansiterm_init (adapter 640 480)).map (fun t => (t.td.cols, t.td.rows)) =
      some (80, 30))
    (h1 : (boot (adapter 640 480) pre).map f = some a)
    (h2 : (boot (adapter 640 480) (pre ++ bytes)).map g = some b) :
    ∃ t t1, Reachable t ∧ f t = a ∧ feed t bytes = some t1 ∧ g t1 = b := by
  obtain ⟨t1, ht1, hv1⟩ := of_map_eq_some _ _ _ h2
  obtain ⟨t, ht, hfeed⟩ := boot_split _ _ _ t1 ht1
  obtain ⟨t', ht', hv⟩ := of_map_eq_some _ _ _ h1
  rw [ht] at ht'
  cases ht'
  exact ⟨t, t1, boot_reachable _ _ t 80 30 (by decide) (by decide) h0 ht, hv, hfeed, hv1⟩

/-- A reachable state and what each of two inputs leaves, by evaluation. -/
theorem boot_then2 (pre b1 b2 : List Nat) (α β : Type) (g1 : Term → α) (g2 : Term → β)
    (v1 : α) (v2 : β)
    (h0 : (xansiterm_init (adapter 640 480)).map (fun t => (t.td.cols, t.td.rows)) =
      some (80, 30))
    (h1 : (boot (adapter 640 480) (pre ++ b1)).map g1 = some v1)
    (h2 : (boot (adapter 640 480) (pre ++ b2)).map g2 = some v2) :
    ∃ t t1 t2, Reachable t ∧ feed t b1 = some t1 ∧ g1 t1 = v1 ∧ feed t b2 = some t2 ∧
      g2 t2 = v2 := by
  obtain ⟨t1, ht1, hv1⟩ := of_map_eq_some _ _ _ h1
  obtain ⟨t, ht, hfeed1⟩ := boot_split _ _ _ t1 ht1
  obtain ⟨t2, ht2, hv2⟩ := of_map_eq_some _ _ _ h2
  obtain ⟨t', ht', hfeed2⟩ := boot_split _ _ _ t2 ht2
  rw [ht] at ht'
  cases ht'
  exact ⟨t, t1, t2, boot_reachable _ _ t 80 30 (by decide) (by decide) h0 ht, hfeed1, hv1,
    hfeed2, hv2⟩

/-- C14, the failing inputs, all on the 80 by 30 grid of the 640 by 480
adapter with the count 65535.  `CSI 65535 A` on row 0 leaves the cursor on
row 1 (the claim: `max(0, y-n) = 0`); `CSI 65535 B` on row 29 leaves it on row
28 (the claim: `min(rows-1, y+n) = 29`); `CSI 65535 C` in column 1 leaves it in
column 0 (the claim: 79); `CSI 65535 D` in column 0 leaves it in column 1 (the
claim: 0).  The 16-bit sum or difference wraps back into the grid and the
clamp test does not see it. -/
theorem C14_count_65535_wraps :
    (∃ t t1, Reachable t ∧ (t.td.x, t.td.y, t.td.cols, t.td.rows) = (0, 0, 80, 30) ∧
      feed t [0x1B, 0x5B, 0x36, 0x35, 0x35, 0x33, 0x35, 0x41] = some t1 ∧
      (t1.td.x, t1.td.y) = (0, 1)) ∧
    (∃ t t1, Reachable t ∧ (t.td.x, t.td.y, t.td.cols, t.td.rows) = (0, 29, 80, 30) ∧
      feed t [0x1B, 0x5B, 0x36, 0x35, 0x35, 0x33, 0x35, 0x42] = some t1 ∧
      (t1.td.x, t1.td.y) = (0, 28)) ∧
    (∃ t t1, Reachable t ∧ (t.td.x, t.td.y, t.td.cols, t.td.rows) = (1, 0, 80, 30) ∧
      feed t [0x1B, 0x5B, 0x36, 0x35, 0x35, 0x33, 0x35, 0x43] = some t1 ∧
      (t1.td.x, t1.td.y) = (0, 0)) ∧
    (∃ t t1, Reachable t ∧ (t.td.x, t.td.y, t.td.cols, t.td.rows) = (0, 0, 80, 30) ∧
      feed t [0x1B, 0x5B, 0x36, 0x35, 0x35, 0x33, 0x35, 0x44] = some t1 ∧
      (t1.td.x, t1.td.y) = (1, 0)) :=
  ⟨boot_then [] _ _ _ _ _ _ _ (by decide!) (by decide!) (by decide!),
    boot_then [0x1B, 0x5B, 0x39, 0x39, 0x42] _ _ _ _ _ _ _ (by decide!) (by decide!)
      (by decide!),
    boot_then [0x1B, 0x5B, 0x43] _ _ _ _ _ _ _ (by decide!) (by decide!) (by decide!),
    boot_then [] _ _ _ _ _ _ _ (by decide!) (by decide!) (by decide!)⟩

/-- C15, the failing inputs on the 80 by 30 grid of the 640 by 480 adapter:
`CSI 30;80 H` (the last row and the last column, `r = rows` and `c = cols`)
leaves the cursor at `(0, 0)` with `cur_addr = 0`, not at `y = 29`, `x = 79`,
and so does the same sequence with the final byte `f`; `CSI 30;1 H` leaves
`y = 0` and `CSI 1;80 H` leaves `x = 0`.  A parameter is accepted only when it
is below `rows`, respectively `cols`. -/
theorem C15_last_row_and_column_rejected :
    (∃ t t1, Reachable t ∧ (t.td.cols, t.td.rows) = (80, 30) ∧
      feed t [0x1B, 0x5B, 0x33, 0x30, 0x3B, 0x38, 0x30, 0x48] = some t1 ∧
      (t1.td.x, t1.td.y, t1.td.cur_addr) = (0, 0, 0)) ∧
    (∃ t t1, Reachable t ∧ (t.td.cols, t.td.rows) = (80, 30) ∧
      feed t [0x1B, 0x5B, 0x33, 0x30, 0x3B, 0x38, 0x30, 0x66] = some t1 ∧
      (t1.td.x, t1.td.y, t1.td.cur_addr) = (0, 0, 0)) ∧
    (∃ t t1, Reachable t ∧ (t.td.cols, t.td.rows) = (80, 30) ∧
      feed t [0x1B, 0x5B, 0x33, 0x30, 0x3B, 0x31, 0x48] = some t1 ∧
      (t1.td.x, t1.td.y) = (0, 0)) ∧
    (∃ t t1, Reachable t ∧ (t.td.cols, t.td.rows) = (80, 30) ∧
      feed t [0x1B, 0x5B, 0x31, 0x3B, 0x38, 0x30, 0x48] = some t1 ∧
      (t1.td.x, t1.td.y) = (0, 0)) :=
  ⟨boot_then [0x41, 0x0A] _ _ _ _ _ _ _ (by decide!) (by decide!) (by decide!),
    boot_then [0x41, 0x0A] _ _ _ _ _ _ _ (by decide!) (by decide!) (by decide!),
    boot_then [0x41, 0x0A] _ _ _ _ _ _ _ (by decide!) (by decide!) (by decide!),
    boot_then [0x41, 0x0A] _ _ _ _ _ _ _ (by decide!) (by decide!) (by decide!)⟩

/-! ## Decimal parameters -/

theorem arr_get_set_self (a : List Nat) (i v : Nat) (h : i < a.length) :
    arr_get (arr_set a i v) i = v := by
  unfold arr_get arr_set
  rw [List.getD_eq_getElem _ _ (by rw [List.length_set]; exact h)]
  simp

theorem arr_get_set_ne (a : List Nat) (i j v : Nat) (h : i ≠ j) :
    arr_get (arr_set a i v) j = arr_get a j := by
  unfold arr_get arr_set
  simp [List.getD_eq_getElem?_getD, List.getElem?_set_ne h]

theorem arr_set_set (a : List Nat) : ∀ (i v w : Nat),
    arr_set (arr_set a i v) i w = arr_set a i w := by
  unfold arr_set
  induction a with
  | nil => intro i v w; rfl
  | cons x xs ih =>
    intro i v w
    cases i with
    | zero => rfl
    | succ i => simp only [List.set_cons_succ, ih]

theorem arr_set_length (a : List Nat) (i v : Nat) : (arr_set a i v).length = a.length := by
  unfold arr_set; simp

theorem arr_set_get_self (a : List Nat) : ∀ (i : Nat), arr_set a i (arr_get a i) = a := by
  unfold arr_get arr_set
  induction a with
  | nil => intro i; rfl
  | cons x xs ih =>
    intro i
    cases i with
    | zero => rfl
    | succ i =>
      simp only [List.set_cons_succ, List.getD_cons_succ]
      rw [ih]

/-- The accumulated value never falls while digits are added. -/
theorem foldl_digits_ge (ds : List Nat) : ∀ v : Nat,
    v ≤ ds.foldl (fun v d => v * 10 + (d - 0x30)) v := by
  induction ds with
  | nil => intro v; exact Nat.le_refl v
  | cons d ds ih =>
    intro v
    simp only [List.foldl_cons]
    exact Nat.le_trans (by omega) (ih _)

/-- A run of digits in CSI state, the value staying below 65536: the current
parameter slot takes the decimal value, continued from what the slot held. -/
theorem digits_run (ds : List Nat) : ∀ t : Term,
    t.td.state = TSTATE_CSI → t.td.cursor_drawn = false → (∀ d ∈ ds, is_digit d) → ds ≠ [] →
    (if t.td.num_parms = 0 then 1 else t.td.num_parms) - 1 < t.td.csi_parms.length →
    ds.foldl (fun v d => v * 10 + (d - 0x30))
      (arr_get t.td.csi_parms ((if t.td.num_parms = 0 then 1 else t.td.num_parms) - 1)) ≤ 65535 →
    feed t ds = some { t with td := { t.td with
      num_parms := if t.td.num_parms = 0 then 1 else t.td.num_parms,
      csi_parms := arr_set t.td.csi_parms ((if t.td.num_parms = 0 then 1 else t.td.num_parms) - 1)
        (ds.foldl (fun v d => v * 10 + (d - 0x30))
          (arr_get t.td.csi_parms ((if t.td.num_parms = 0 then 1 else t.td.num_parms) - 1))) } } := by
  induction ds with
  | nil => intro t _ _ _ h; exact absurd rfl h
  | cons d ds ih =>
    intro t hs hd hdig _ hlen hval
    have hd1 : is_digit d := hdig d (by simp)
    have hd9 : d - 0x30 ≤ 9 := by unfold is_digit at hd1; omega
    obtain ⟨k, hk⟩ : ∃ k, k = (if t.td.num_parms = 0 then 1 else t.td.num_parms) - 1 := ⟨_, rfl⟩
    obtain ⟨n, hn⟩ : ∃ n, n = (if t.td.num_parms = 0 then 1 else t.td.num_parms) := ⟨_, rfl⟩
    obtain ⟨v, hv⟩ : ∃ v, v = arr_get t.td.csi_parms k := ⟨_, rfl⟩
    have hn1 : n ≠ 0 := by rw [hn]; split <;> omega
    have hnk : n - 1 = k := by rw [hn, hk]
    rw [← hk, ← hv] at hval
    rw [← hk, ← hn, ← hv]
    simp only [List.foldl_cons] at hval ⊢
    have hstep := foldl_digits_ge ds (v * 10 + (d - 0x30))
    have hv1 : (if u16 (u16 (v * 10) + (d - 0x30)) < u16 (v * 10) then 65535
        else u16 (u16 (v * 10) + (d - 0x30))) = v * 10 + (d - 0x30) := by
      unfold u16
      split <;> omega
    obtain ⟨T1, hT1, h1⟩ : ∃ T, T = _ ∧ xansiterm_putchar t d = some T :=
      ⟨_, rfl, putchar_digit t d hs hd hd1⟩
    rw [← hn, hnk, ← hv, hv1] at hT1
    have hk16 : k < t.td.csi_parms.length := by rw [← hk] at hlen; exact hlen
    have e1 : T1.td.num_parms = n := by rw [hT1]
    have e2 : T1.td.csi_parms = arr_set t.td.csi_parms k (v * 10 + (d - 0x30)) := by rw [hT1]
    have e3 : (if T1.td.num_parms = 0 then 1 else T1.td.num_parms) = n := by
      rw [e1]; simp only [hn1, if_false]
    simp only [feed, h1, Option.some_bind]
    by_cases hnil : ds = []
    · subst hnil
      rw [hT1]
      rfl
    · rw [ih T1 (by rw [hT1]; exact hs) (by rw [hT1]; exact hd)
          (fun c hc => hdig c (by simp [hc])) hnil
          (by rw [e3, hnk, e2, arr_set_length]; exact hk16)
          (by rw [e3, hnk, e2, arr_get_set_self _ _ _ hk16]; exact hval)]
      rw [e3, hnk, e2, arr_get_set_self _ _ _ hk16, arr_set_set, hT1]

/-! ## Modes -/

/-- The private-mode marker `?` at the start of the parameters is kept as
the intermediate character. -/
theorem putchar_question (t : Term) (hs : t.td.state = TSTATE_CSI)
    (hd : t.td.cursor_drawn = false) (hi : t.td.intermediate_char = 0) :
    xansiterm_putchar t 0x3F = some { t with td := { t.td with intermediate_char := 0x3F } } := by
  have hs' : t.td.state = 3 := hs
  have c1 : ¬ (0x3F : Nat) &&& 0x7f = 0x1b := by decide
  have c2 : ¬ schar 0x3F ≤ 0x20 := by decide
  have c3 : u8 (0x3F &&& 0xf0) = 0x30 := by decide
  have c4 : sub8 0x3F 0x30 = 15 := by decide
  unfold xansiterm_putchar
  rw [erase_cursor_of_not_drawn t hd]
  simp only [c1, if_false, hs']
  simp only [TSTATE_CSI, TSTATE_NORMAL, TSTATE_ESC, if_true]
  unfold xansi_parse_csi
  simp [c2, c3, c4, hi, hs']

theorem check_lcf_flags (t : Term) : (xansi_check_lcf t).td.flags = t.td.flags := by
  rw [check_lcf_frame]; rfl

/-! ## Whole CSI sequences -/

theorem option_bind_some (o : Option Term) : (o.bind fun t1 => some t1) = o := by
  cases o <;> rfl

theorem feed_snoc (t : Term) (bs : List Nat) (b : Nat) (t1 : Term) (h : feed t bs = some t1) :
    feed t (bs ++ [b]) = xansiterm_putchar t1 b := by
  rw [feed_append, h]
  simp only [Option.some_bind, feed, option_bind_some]

/-- The first parameter of a CSI sequence: a non-empty digit string with a
value below 65536 is stored in slot 0. -/
theorem digits_first (t : Term) (ds : List Nat) (hs : t.td.state = TSTATE_CSI)
    (hd : t.td.cursor_drawn = false) (hn : t.td.num_parms = 0)
    (hp : t.td.csi_parms = List.replicate MAX_CSI_PARMS 0)
    (hdig : ∀ d ∈ ds, is_digit d) (hne : ds ≠ []) (hval : decimal_value ds ≤ 65535) :
    feed t ds = some { t with td := { t.td with
      num_parms := 1,
      csi_parms := arr_set (List.replicate MAX_CSI_PARMS 0) 0 (decimal_value ds) } } := by
  have h := digits_run ds t hs hd hdig hne (by rw [hn, hp]; decide)
    (by rw [hn, hp]; exact hval)
  rw [h, hn, hp]
  rfl

/-- The sequence `CSI n f` with one decimal parameter and a final byte, up to
the call of `xansi_process_csi`. -/
theorem feed_csi_one (t : Term) (ds : List Nat) (f : Nat) (hstart : starts_sequence t.td)
    (hdig : ∀ d ∈ ds, is_digit d) (hne : ds ≠ []) (hval : decimal_value ds ≤ 65535)
    (h1 : 0x40 ≤ f) (h2 : f ≤ 0x7E) :
    feed t (0x1B :: 0x5B :: (ds ++ [f])) =
      xansi_process_csi
        { td := { t.td with cursor_drawn := false, state := TSTATE_CSI, intermediate_char := 0,
                            num_parms := 1,
                            csi_parms := arr_set (List.replicate MAX_CSI_PARMS 0) 0
                              (decimal_value ds) },
          hw := (xansi_erase_cursor t).hw } f := by
  rw [feed_csi t _ hstart]
  rw [feed_snoc _ ds f _ (digits_first _ ds rfl rfl rfl rfl hdig hne hval)]
  exact putchar_csi_final _ f rfl rfl h1 h2

/-- The sequence `CSI ? n f` with the private-mode marker, one decimal
parameter and a final byte, up to the call of `xansi_process_csi`. -/
theorem feed_csi_private_one (t : Term) (ds : List Nat) (f : Nat)
    (hstart : starts_sequence t.td)
    (hdig : ∀ d ∈ ds, is_digit d) (hne : ds ≠ []) (hval : decimal_value ds ≤ 65535)
    (h1 : 0x40 ≤ f) (h2 : f ≤ 0x7E) :
    feed t (0x1B :: 0x5B :: 0x3F :: (ds ++ [f])) =
      xansi_process_csi
        { td := { t.td with cursor_drawn := false, state := TSTATE_CSI,
                            intermediate_char := 0x3F, num_parms := 1,
                            csi_parms := arr_set (List.replicate MAX_CSI_PARMS 0) 0
                              (decimal_value ds) },
          hw := (xansi_erase_cursor t).hw } f := by
  rw [feed_csi t _ hstart]
  simp only [feed]
  rw [putchar_question _ rfl rfl rfl]
  simp only [Option.some_bind]
  rw [feed_snoc _ ds f _ (digits_first _ ds rfl rfl rfl rfl hdig hne hval)]
  exact putchar_csi_final _ f rfl rfl h1 h2

/-- The commands `h` and `l`: the call of `xansi_mode`. -/
theorem process_csi_mode (t : Term) (f : Nat) (hf : f = 0x68 ∨ f = 0x6C) :
    xansi_process_csi t f =
      (xansi_mode { t with td := { t.td with state := TSTATE_NORMAL } } f
        (if arr_get t.td.csi_parms 0 ≠ 0 then arr_get t.td.csi_parms 0 else 1)).map
        xansi_calc_cur_addr := by
  unfold xansi_process_csi
  rcases hf with h | h <;> subst h <;> simp

theorem flag_bit_facts : ∀ f, f < 256 → ∀ m, m < 8 → (m = 1 ∨ m = 2 ∨ m = 4) →
    ((f ||| m) &&& m = m ∧ (f ||| m) ||| m = f ||| m) ∧
    (bic8 f m &&& m = 0 ∧ bic8 f m ||| m = f ||| m) := by
  decide!

/-- What `xansi_mode` does to the flags. -/
theorem mode_flags (t : Term) (f num : Nat) (hf : f = 0x68 ∨ f = 0x6C) :
    (t.td.intermediate_char = 0x3F → num = 7 →
      ∃ t1, xansi_mode t f num = some t1 ∧
        t1.td.flags = if f = 0x6C then t.td.flags ||| TFLAG_NO_AUTOWRAP
                      else bic8 t.td.flags TFLAG_NO_AUTOWRAP) ∧
    (t.td.intermediate_char = 0x3F → num = 25 →
      ∃ t1, xansi_mode t f num = some t1 ∧
        t1.td.flags = if f = 0x6C then t.td.flags ||| TFLAG_HIDE_CURSOR
                      else bic8 t.td.flags TFLAG_HIDE_CURSOR) ∧
    (t.td.intermediate_char = 0 → num = 20 →
      ∃ t1, xansi_mode t f num = some t1 ∧
        t1.td.flags = if f = 0x6C then bic8 t.td.flags TFLAG_NEWLINE
                      else t.td.flags ||| TFLAG_NEWLINE) ∧
    (t.td.intermediate_char = 0x3F → num = 20 →
      ∃ t1, xansi_mode t f num = some t1 ∧ t1.td.flags = t.td.flags) := by
  refine ⟨?_, ?_, ?_, ?_⟩
  · intro hi hn
    subst hn
    unfold xansi_mode
    rcases hf with h | h <;> subst h <;> simp [hi, check_lcf_flags]
  · intro hi hn
    subst hn
    unfold xansi_mode
    rcases hf with h | h <;> subst h <;> simp [hi]
  · intro hi hn
    subst hn
    unfold xansi_mode
    rcases hf with h | h <;> subst h <;> simp [hi]
  · intro hi hn
    subst hn
    unfold xansi_mode
    simp [hi]

/-- The sequences `CSI ? n h`, `CSI ? n l` (`q` true) and `CSI n h`, `CSI n l`
(`q` false) with a parameter `n` in `1..65535`: the call of `xansi_mode`. -/
theorem feed_mode (t : Term) (q : Bool) (ds : List Nat) (f : Nat)
    (hstart : starts_sequence t.td) (hdig : ∀ d ∈ ds, is_digit d)
    (h0 : 0 < decimal_value ds) (hval : decimal_value ds ≤ 65535) (hf : f = 0x68 ∨ f = 0x6C) :
    feed t (0x1B :: 0x5B :: ((if q then [0x3F] else []) ++ (ds ++ [f]))) =
      (xansi_mode
        { td := { t.td with cursor_drawn := false, state := TSTATE_NORMAL,
                            intermediate_char := if q then 0x3F else 0, num_parms := 1,
                            csi_parms := arr_set (List.replicate MAX_CSI_PARMS 0) 0
                              (decimal_value ds) },
          hw := (xansi_erase_cursor t).hw } f (decimal_value ds)).map xansi_calc_cur_addr := by
  have hne : ds ≠ [] := by
    intro h; rw [h] at h0; exact absurd h0 (by decide)
  have hf1 : 0x40 ≤ f ∧ f ≤ 0x7E := by rcases hf with h | h <;> subst h <;> decide
  have hget : ∀ v, arr_get (arr_set (List.replicate MAX_CSI_PARMS 0) 0 v) 0 = v :=
    fun v => arr_get_set_self _ _ _ (by decide)
  cases q with
  | true =>
    simp only [if_true, List.singleton_append]
    rw [feed_csi_private_one t ds f hstart hdig hne hval hf1.1 hf1.2, process_csi_mode _ f hf]
    simp only [hget, if_pos (Nat.pos_iff_ne_zero.mp h0)]
  | false =>
    simp only [Bool.false_eq_true, if_false, List.nil_append]
    rw [feed_csi_one t ds f hstart hdig hne hval hf1.1 hf1.2, process_csi_mode _ f hf]
    simp only [hget, if_pos (Nat.pos_iff_ne_zero.mp h0)]

theorem feed_mode_ex (t : Term) (q : Bool) (ds : List Nat) (f : Nat)
    (hstart : starts_sequence t.td) (hdig : ∀ d ∈ ds, is_digit d)
    (h0 : 0 < decimal_value ds) (hval : decimal_value ds ≤ 65535) (hf : f = 0x68 ∨ f = 0x6C) :
    ∃ T : Term, T.td.flags = t.td.flags ∧ T.td.intermediate_char = (if q then 0x3F else 0) ∧
      feed t (0x1B :: 0x5B :: ((if q then [0x3F] else []) ++ (ds ++ [f]))) =
        (xansi_mode T f (decimal_value ds)).map xansi_calc_cur_addr :=
  ⟨{ td := { t.td with cursor_drawn := false, state := TSTATE_NORMAL,
                       intermediate_char := if q then 0x3F else 0, num_parms := 1,
                       csi_parms := arr_set (List.replicate MAX_CSI_PARMS 0) 0
                         (decimal_value ds) },
     hw := (xansi_erase_cursor t).hw }, rfl, rfl, feed_mode t q ds f hstart hdig h0 hval hf⟩

theorem map_calc_flags (o : Option Term) (t1 : Term) (v : Nat) (h : o = some t1)
    (hv : t1.td.flags = v) : ∃ t2, o.map xansi_calc_cur_addr = some t2 ∧ t2.td.flags = v :=
  ⟨xansi_calc_cur_addr t1, by rw [h]; rfl, hv⟩

/-- C18, as amended: fed in a state in which ESC starts a sequence, `CSI ?7l`
sets and `CSI ?7h` clears the no-autowrap flag, `CSI ?25l` sets and `CSI ?25h`
clears the hide-cursor flag, `CSI 20h` sets and `CSI 20l` clears the
newline-mode flag, each of the six changing no other bit of the 8-bit flags,
and `CSI ?20h` changes no flag at all. -/
theorem C18_mode_flags (t : Term) (hstart : starts_sequence t.td) (hf : t.td.flags < 256) :
    (∃ t1, feed t [0x1B, 0x5B, 0x3F, 0x37, 0x6C] = some t1 ∧
      t1.td.flags &&& TFLAG_NO_AUTOWRAP = TFLAG_NO_AUTOWRAP ∧
      t1.td.flags ||| TFLAG_NO_AUTOWRAP = t.td.flags ||| TFLAG_NO_AUTOWRAP) ∧
    (∃ t1, feed t [0x1B, 0x5B, 0x3F, 0x37, 0x68] = some t1 ∧
      t1.td.flags &&& TFLAG_NO_AUTOWRAP = 0 ∧
      t1.td.flags ||| TFLAG_NO_AUTOWRAP = t.td.flags ||| TFLAG_NO_AUTOWRAP) ∧
    (∃ t1, feed t [0x1B, 0x5B, 0x3F, 0x32, 0x35, 0x6C] = some t1 ∧
      t1.td.flags &&& TFLAG_HIDE_CURSOR = TFLAG_HIDE_CURSOR ∧
      t1.td.flags ||| TFLAG_HIDE_CURSOR = t.td.flags ||| TFLAG_HIDE_CURSOR) ∧
    (∃ t1, feed t [0x1B, 0x5B, 0x3F, 0x32, 0x35, 0x68] = some t1 ∧
      t1.td.flags &&& TFLAG_HIDE_CURSOR = 0 ∧
      t1.td.flags ||| TFLAG_HIDE_CURSOR = t.td.flags ||| TFLAG_HIDE_CURSOR) ∧
    (∃ t1, feed t [0x1B, 0x5B, 0x32, 0x30, 0x68] = some t1 ∧
      t1.td.flags &&& TFLAG_NEWLINE = TFLAG_NEWLINE ∧
      t1.td.flags ||| TFLAG_NEWLINE = t.td.flags ||| TFLAG_NEWLINE) ∧
    (∃ t1, feed t [0x1B, 0x5B, 0x32, 0x30, 0x6C] = some t1 ∧
      t1.td.flags &&& TFLAG_NEWLINE = 0 ∧
      t1.td.flags ||| TFLAG_NEWLINE = t.td.flags ||| TFLAG_NEWLINE) ∧
    (∃ t1, feed t [0x1B, 0x5B, 0x3F, 0x32, 0x30, 0x68] = some t1 ∧
      t1.td.flags = t.td.flags) := by
  have b1 := flag_bit_facts t.td.flags hf 1 (by decide) (Or.inl rfl)
  have b2 := flag_bit_facts t.td.flags hf 2 (by decide) (Or.inr (Or.inl rfl))
  have b4 := flag_bit_facts t.td.flags hf 4 (by decide) (Or.inr (Or.inr rfl))
  obtain ⟨T_m7l, fl_m7l, ic_m7l, m7l⟩ := feed_mode_ex t true [0x37] 0x6C hstart (by decide) (by decide) (by decide)
    (Or.inr rfl)
  obtain ⟨T_m7h, fl_m7h, ic_m7h, m7h⟩ := feed_mode_ex t true [0x37] 0x68 hstart (by decide) (by decide) (by decide)
    (Or.inl rfl)
  obtain ⟨T_m25l, fl_m25l, ic_m25l, m25l⟩ := feed_mode_ex t true [0x32, 0x35] 0x6C hstart (by decide) (by decide) (by decide)
    (Or.inr rfl)
  obtain ⟨T_m25h, fl_m25h, ic_m25h, m25h⟩ := feed_mode_ex t true [0x32, 0x35] 0x68 hstart (by decide) (by decide) (by decide)
    (Or.inl rfl)
  obtain ⟨T_m20h, fl_m20h, ic_m20h, m20h⟩ := feed_mode_ex t false [0x32, 0x30] 0x68 hstart (by decide) (by decide) (by decide)
    (Or.inl rfl)
  obtain ⟨T_m20l, fl_m20l, ic_m20l, m20l⟩ := feed_mode_ex t false [0x32, 0x30] 0x6C hstart (by decide) (by decide) (by decide)
    (Or.inr rfl)
  obtain ⟨T_mq20, fl_mq20, ic_mq20, mq20⟩ := feed_mode_ex t true [0x32, 0x30] 0x68 hstart (by decide) (by decide) (by decide)
    (Or.inl rfl)
  refine ⟨?_, ?_, ?_, ?_, ?_, ?_, ?_⟩
  · obtain ⟨u, hu, hfl⟩ := (mode_flags T_m7l 0x6C _ (Or.inr rfl)).1 ic_m7l
      (show decimal_value [0x37] = 7 by decide)
    rw [fl_m7l] at hfl
    obtain ⟨t2, h2, hf2⟩ := map_calc_flags _ u _ hu hfl
    refine ⟨t2, m7l.trans h2, ?_, ?_⟩
    · rw [hf2]; exact b2.1.1
    · rw [hf2]; exact b2.1.2
  · obtain ⟨u, hu, hfl⟩ := (mode_flags T_m7h 0x68 _ (Or.inl rfl)).1 ic_m7h
      (show decimal_value [0x37] = 7 by decide)
    rw [fl_m7h] at hfl
    obtain ⟨t2, h2, hf2⟩ := map_calc_flags _ u _ hu hfl
    refine ⟨t2, m7h.trans h2, ?_, ?_⟩
    · rw [hf2]; exact b2.2.1
    · rw [hf2]; exact b2.2.2
  · obtain ⟨u, hu, hfl⟩ := (mode_flags T_m25l 0x6C _ (Or.inr rfl)).2.1 ic_m25l
      (show decimal_value [0x32, 0x35] = 25 by decide)
    rw [fl_m25l] at hfl
    obtain ⟨t2, h2, hf2⟩ := map_calc_flags _ u _ hu hfl
    refine ⟨t2, m25l.trans h2, ?_, ?_⟩
    · rw [hf2]; exact b4.1.1
    · rw [hf2]; exact b4.1.2
  · obtain ⟨u, hu, hfl⟩ := (mode_flags T_m25h 0x68 _ (Or.inl rfl)).2.1 ic_m25h
      (show decimal_value [0x32, 0x35] = 25 by decide)
    rw [fl_m25h] at hfl
    obtain ⟨t2, h2, hf2⟩ := map_calc_flags _ u _ hu hfl
    refine ⟨t2, m25h.trans h2, ?_, ?_⟩
    · rw [hf2]; exact b4.2.1
    · rw [hf2]; exact b4.2.2
  · obtain ⟨u, hu, hfl⟩ := (mode_flags T_m20h 0x68 _ (Or.inl rfl)).2.2.1 ic_m20h
      (show decimal_value [0x32, 0x30] = 20 by decide)
    rw [fl_m20h] at hfl
    obtain ⟨t2, h2, hf2⟩ := map_calc_flags _ u _ hu hfl
    refine ⟨t2, m20h.trans h2, ?_, ?_⟩
    · rw [hf2]; exact b1.1.1
    · rw [hf2]; exact b1.1.2
  · obtain ⟨u, hu, hfl⟩ := (mode_flags T_m20l 0x6C _ (Or.inr rfl)).2.2.1 ic_m20l
      (show decimal_value [0x32, 0x30] = 20 by decide)
    rw [fl_m20l] at hfl
    obtain ⟨t2, h2, hf2⟩ := map_calc_flags _ u _ hu hfl
    refine ⟨t2, m20l.trans h2, ?_, ?_⟩
    · rw [hf2]; exact b1.2.1
    · rw [hf2]; exact b1.2.2
  · obtain ⟨u, hu, hfl⟩ := (mode_flags T_mq20 0x68 _ (Or.inl rfl)).2.2.2 ic_mq20
      (show decimal_value [0x32, 0x30] = 20 by decide)
    rw [fl_mq20] at hfl
    obtain ⟨t2, h2, hf2⟩ := map_calc_flags _ u _ hu hfl
    exact ⟨t2, mq20.trans h2, hf2⟩

/-- C18 at a concrete input: the 80 by 30 terminal. -/
theorem C18_mode_flags_witness :
    starts_sequence demo_term.td ∧ demo_term.td.flags < 256 ∧
    ((∃ t1, feed demo_term [0x1B, 0x5B, 0x3F, 0x37, 0x6C] = some t1 ∧
      t1.td.flags &&& TFLAG_NO_AUTOWRAP = TFLAG_NO_AUTOWRAP ∧
      t1.td.flags ||| TFLAG_NO_AUTOWRAP = demo_term.td.flags ||| TFLAG_NO_AUTOWRAP) ∧
    (∃ t1, feed demo_term [0x1B, 0x5B, 0x3F, 0x37, 0x68] = some t1 ∧
      t1.td.flags &&& TFLAG_NO_AUTOWRAP = 0 ∧
      t1.td.flags ||| TFLAG_NO_AUTOWRAP = demo_term.td.flags ||| TFLAG_NO_AUTOWRAP) ∧
    (∃ t1, feed demo_term [0x1B, 0x5B, 0x3F, 0x32, 0x35, 0x6C] = some t1 ∧
      t1.td.flags &&& TFLAG_HIDE_CURSOR = TFLAG_HIDE_CURSOR ∧
      t1.td.flags ||| TFLAG_HIDE_CURSOR = demo_term.td.flags ||| TFLAG_HIDE_CURSOR) ∧
    (∃ t1, feed demo_term [0x1B, 0x5B, 0x3F, 0x32, 0x35, 0x68] = some t1 ∧
      t1.td.flags &&& TFLAG_HIDE_CURSOR = 0 ∧
      t1.td.flags ||| TFLAG_HIDE_CURSOR = demo_term.td.flags ||| TFLAG_HIDE_CURSOR) ∧
    (∃ t1, feed demo_term [0x1B, 0x5B, 0x32, 0x30, 0x68] = some t1 ∧
      t1.td.flags &&& TFLAG_NEWLINE = TFLAG_NEWLINE ∧
      t1.td.flags ||| TFLAG_NEWLINE = demo_term.td.flags ||| TFLAG_NEWLINE) ∧
    (∃ t1, feed demo_term [0x1B, 0x5B, 0x32, 0x30, 0x6C] = some t1 ∧
      t1.td.flags &&& TFLAG_NEWLINE = 0 ∧
      t1.td.flags ||| TFLAG_NEWLINE = demo_term.td.flags ||| TFLAG_NEWLINE) ∧
    (∃ t1, feed demo_term [0x1B, 0x5B, 0x3F, 0x32, 0x30, 0x68] = some t1 ∧
      t1.td.flags = demo_term.td.flags)) :=
  ⟨by decide, by decide, C18_mode_flags demo_term (by decide) (by decide)⟩

/-- C18, the counterexample: on the 640 by 480 adapter, after `CSI 8 m`
(passthrough on) and a first `CSI` the parser is in CSI state; the bytes of
`CSI ?7l` fed now are drawn as glyphs and the no-autowrap flag stays clear. -/
theorem C18_mode_is_printed_in_passthrough :
    ∃ t t1, Reachable t ∧ t.td.flags &&& TFLAG_NO_AUTOWRAP = 0 ∧
      feed t [0x1B, 0x5B, 0x3F, 0x37, 0x6C] = some t1 ∧
      t1.td.flags &&& TFLAG_NO_AUTOWRAP = 0 ∧ t1.td.x = t.td.x + 5 := by
  obtain ⟨t, t1, hr, h1, hfeed, h2⟩ := boot_then [0x1B, 0x5B, 0x38, 0x6D, 0x1B, 0x5B]
    [0x1B, 0x5B, 0x3F, 0x37, 0x6C] _ _
    (fun t => (t.td.flags, t.td.x)) (fun t => (t.td.flags, t.td.x)) (128, 0) (128, 5)
    (by decide!) (by decide!) (by decide!)
  simp only [Prod.mk.injEq] at h1 h2
  exact ⟨t, t1, hr, by rw [h1.1]; decide, hfeed, by rw [h2.1]; decide, by rw [h2.2, h1.2]⟩

/-! ## Parameter lists -/

/-- A `;` and the digits of the next parameter (possibly none), with a value
below 65536: the next slot, which held 0, takes the value. -/
theorem param_next (t : Term) (ds : List Nat) (hs : t.td.state = TSTATE_CSI)
    (hd : t.td.cursor_drawn = false) (h1 : 1 ≤ t.td.num_parms) (h16 : t.td.num_parms + 1 < 16)
    (hlen : t.td.num_parms < t.td.csi_parms.length)
    (hz : arr_get t.td.csi_parms t.td.num_parms = 0)
    (hdig : ∀ d ∈ ds, is_digit d) (hval : decimal_value ds ≤ 65535) :
    feed t (0x3B :: ds) = some { t with td := { t.td with
      num_parms := t.td.num_parms + 1,
      csi_parms := arr_set t.td.csi_parms t.td.num_parms (decimal_value ds) } } := by
  obtain ⟨T1, hT1, hstep⟩ : ∃ T, T = _ ∧ xansiterm_putchar t 0x3B = some T :=
    ⟨_, rfl, putchar_semicolon t hs hd⟩
  have hu : u8 (t.td.num_parms + 1) = t.td.num_parms + 1 := by unfold u8; omega
  have hst : ¬ (t.td.num_parms + 1 ≥ MAX_CSI_PARMS) := by unfold MAX_CSI_PARMS; omega
  rw [hu] at hT1
  simp only [hst, if_false] at hT1
  simp only [feed, hstep, Option.some_bind]
  by_cases hnil : ds = []
  · subst hnil
    have e : decimal_value [] = 0 := rfl
    rw [e, ← hz, arr_set_get_self, hT1]
    simp [feed, hs]
  · have e1 : T1.td.num_parms = t.td.num_parms + 1 := by rw [hT1]
    have e2 : T1.td.csi_parms = t.td.csi_parms := by rw [hT1]
    have e3 : (if T1.td.num_parms = 0 then 1 else T1.td.num_parms) - 1 = t.td.num_parms := by
      rw [e1]; simp
    have e4 : (if T1.td.num_parms = 0 then 1 else T1.td.num_parms) = t.td.num_parms + 1 := by
      rw [e1]; simp
    rw [digits_run ds T1 (by rw [hT1]) (by rw [hT1]; exact hd) hdig hnil
      (by rw [e3, e2]; exact hlen) (by rw [e3, e2, hz]; exact hval)]
    rw [e3, e4, e2, hz, hT1]
    simp [hs, decimal_value]

/-- Further parameters `;v1;v2;...` of a CSI sequence, each a digit string
(possibly empty) with a value below 65536, fewer than 16 parameters in all:
the following slots, which held 0, take the values in order. -/
theorem values_run (vals : List (List Nat)) : ∀ t : Term,
    t.td.state = TSTATE_CSI → t.td.cursor_drawn = false → 1 ≤ t.td.num_parms →
    t.td.num_parms + vals.length < 16 → t.td.csi_parms.length = 16 →
    (∀ j, t.td.num_parms ≤ j → arr_get t.td.csi_parms j = 0) →
    (∀ v ∈ vals, (∀ d ∈ v, is_digit d) ∧ decimal_value v ≤ 65535) →
    ∃ t1, feed t (vals.flatMap fun v => 0x3B :: v) = some t1 ∧ t1.hw = t.hw ∧
      t1.td = { t.td with num_parms := t.td.num_parms + vals.length,
                          csi_parms := t1.td.csi_parms } ∧
      t1.td.csi_parms.length = 16 ∧
      ∀ j, arr_get t1.td.csi_parms j =
        if t.td.num_parms ≤ j ∧ j < t.td.num_parms + vals.length then
          (vals.map decimal_value).getD (j - t.td.num_parms) 0
        else arr_get t.td.csi_parms j := by
  induction vals with
  | nil =>
    intro t _ _ _ _ hlen _ _
    refine ⟨t, rfl, rfl, rfl, hlen, ?_⟩
    intro j
    have : ¬ (t.td.num_parms ≤ j ∧ j < t.td.num_parms + ([] : List (List Nat)).length) := by
      simp
    rw [if_neg this]
  | cons v vs ih =>
    intro t hs hd h1 h16 hlen hz hv
    simp only [List.length_cons] at h16
    obtain ⟨T1, hT1, hstep⟩ : ∃ T, T = _ ∧ feed t (0x3B :: v) = some T :=
      ⟨_, rfl, param_next t v hs hd h1 (by omega) (by omega) (hz _ (Nat.le_refl _))
        (hv v (by simp)).1 (hv v (by simp)).2⟩
    have e1 : T1.td.num_parms = t.td.num_parms + 1 := by rw [hT1]
    have e2 : T1.td.csi_parms = arr_set t.td.csi_parms t.td.num_parms (decimal_value v) := by
      rw [hT1]
    obtain ⟨t1, hfeed, hhw, htd, hl1, hget⟩ := ih T1 (by rw [hT1]; exact hs)
      (by rw [hT1]; exact hd) (by omega) (by omega) (by rw [e2, arr_set_length]; exact hlen)
      (by
        intro j hj
        rw [e2, arr_get_set_ne _ _ _ _ (by omega)]
        exact hz j (by omega))
      (fun w hw => hv w (by simp [hw]))
    refine ⟨t1, ?_, by rw [hhw, hT1], ?_, hl1, ?_⟩
    · rw [List.flatMap_cons, feed_append, hstep]
      exact hfeed
    · rw [htd, hT1]
      simp only [List.length_cons]
      have : t.td.num_parms + 1 + vs.length = t.td.num_parms + (vs.length + 1) := by omega
      rw [this]
    · intro j
      rw [hget j, e1, e2]
      simp only [List.length_cons, List.map_cons]
      by_cases c1 : t.td.num_parms + 1 ≤ j ∧ j < t.td.num_parms + 1 + vs.length
      · have c2 : t.td.num_parms ≤ j ∧ j < t.td.num_parms + (vs.length + 1) := by omega
        rw [if_pos c1, if_pos c2]
        obtain ⟨k, hk⟩ : ∃ k, j - t.td.num_parms = k + 1 := ⟨j - t.td.num_parms - 1, by omega⟩
        rw [hk, List.getD_cons_succ]
        congr 1
        omega
      · rw [if_neg c1]
        by_cases c3 : j = t.td.num_parms
        · subst c3
          rw [arr_get_set_self _ _ _ (by omega), if_pos (by omega)]
          simp
        · rw [arr_get_set_ne _ _ _ _ (Ne.symm c3), if_neg (by omega)]

theorem arr_get_zeros (n : Nat) : ∀ j, arr_get (List.replicate n 0) j = 0 := by
  unfold arr_get
  induction n with
  | zero => intro j; rfl
  | succ n ih =>
    intro j
    cases j with
    | zero => rfl
    | succ j => simp only [List.replicate_succ, List.getD_cons_succ]; exact ih j

theorem sep_values_cons (v0 : List Nat) (rest : List (List Nat)) :
    sep_values (v0 :: rest) = v0 ++ rest.flatMap fun v => 0x3B :: v := by
  induction rest generalizing v0 with
  | nil => simp [sep_values]
  | cons w ws ih =>
    rw [sep_values, ih w, List.flatMap_cons]
    simp

/-- The parameters of a CSI sequence: `CSI v0;v1;...` with fewer than 16
decimal values below 65536, the first of them not empty, leaves the parser in
CSI state with the count of values in `num_parms` and the values in the slots
`0, 1, ...` in order, the other slots 0. -/
theorem csi_values (t : Term) (v0 : List Nat) (rest : List (List Nat))
    (hstart : starts_sequence t.td) (hne : v0 ≠ [])
    (hv : ∀ v ∈ v0 :: rest, (∀ d ∈ v, is_digit d) ∧ decimal_value v ≤ 65535)
    (hlen : rest.length + 1 < 16) :
    ∃ T, feed t (0x1B :: 0x5B :: sep_values (v0 :: rest)) = some T ∧
      T.hw = (xansi_erase_cursor t).hw ∧
      T.td = { t.td with cursor_drawn := false, state := TSTATE_CSI, intermediate_char := 0,
                         num_parms := rest.length + 1, csi_parms := T.td.csi_parms } ∧
      ∀ j, arr_get T.td.csi_parms j = ((v0 :: rest).map decimal_value).getD j 0 := by
  obtain ⟨T0, hT0⟩ : ∃ T : Term, T =
      { td := { t.td with cursor_drawn := false, state := TSTATE_CSI, intermediate_char := 0,
                          num_parms := 0, csi_parms := List.replicate MAX_CSI_PARMS 0 },
        hw := (xansi_erase_cursor t).hw } := ⟨_, rfl⟩
  obtain ⟨T1, hT1, h1⟩ : ∃ T, T = _ ∧ feed T0 v0 = some T :=
    ⟨_, rfl, digits_first T0 v0 (by rw [hT0]) (by rw [hT0]) (by rw [hT0]) (by rw [hT0])
      (hv v0 (by simp)).1 hne (hv v0 (by simp)).2⟩
  have e1 : T1.td.num_parms = 1 := by rw [hT1]
  have e2 : T1.td.csi_parms = arr_set (List.replicate MAX_CSI_PARMS 0) 0 (decimal_value v0) := by
    rw [hT1]
  obtain ⟨T2, h2, hhw, htd, hl2, hget⟩ := values_run rest T1 (by rw [hT1, hT0])
    (by rw [hT1, hT0]) (by rw [e1]) (by rw [e1]; omega)
    (by rw [e2, arr_set_length]; rfl)
    (by
      intro j hj
      rw [e1] at hj
      rw [e2, arr_get_set_ne _ _ _ _ (by omega), arr_get_zeros])
    (fun w hw => hv w (by simp [hw]))
  refine ⟨T2, ?_, by rw [hhw, hT1, hT0], ?_, ?_⟩
  · rw [feed_csi t _ hstart, ← hT0, sep_values_cons, feed_append, h1]
    exact h2
  · rw [htd, hT1, hT0]
    simp only [Nat.add_comm 1 rest.length]
  · intro j
    rw [hget j, e1, e2]
    simp only [List.map_cons]
    by_cases c1 : 1 ≤ j ∧ j < 1 + rest.length
    · rw [if_pos c1]
      obtain ⟨k, hk⟩ : ∃ k, j = k + 1 := ⟨j - 1, by omega⟩
      subst hk
      rw [List.getD_cons_succ]
      rfl
    · rw [if_neg c1]
      by_cases c2 : j = 0
      · subst c2
        rw [arr_get_set_self _ _ _ (by decide)]
        rfl
      · rw [arr_get_set_ne _ _ _ _ (Ne.symm c2), arr_get_zeros, List.getD_eq_default]
        simp only [List.length_cons, List.length_map]
        omega

/-- A whole CSI sequence with its final byte, up to the call of
`xansi_process_csi`. -/
theorem csi_sequence (t : Term) (v0 : List Nat) (rest : List (List Nat)) (f : Nat)
    (hstart : starts_sequence t.td) (hne : v0 ≠ [])
    (hv : ∀ v ∈ v0 :: rest, (∀ d ∈ v, is_digit d) ∧ decimal_value v ≤ 65535)
    (hlen : rest.length + 1 < 16) (h1 : 0x40 ≤ f) (h2 : f ≤ 0x7E) :
    ∃ T, feed t (0x1B :: 0x5B :: (sep_values (v0 :: rest) ++ [f])) = xansi_process_csi T f ∧
      T.hw = (xansi_erase_cursor t).hw ∧
      T.td = { t.td with cursor_drawn := false, state := TSTATE_CSI, intermediate_char := 0,
                         num_parms := rest.length + 1, csi_parms := T.td.csi_parms } ∧
      ∀ j, arr_get T.td.csi_parms j = ((v0 :: rest).map decimal_value).getD j 0 := by
  obtain ⟨T, hfeed, hhw, htd, hget⟩ := csi_values t v0 rest hstart hne hv hlen
  refine ⟨T, ?_, hhw, htd, hget⟩
  have e : (0x1B :: 0x5B :: (sep_values (v0 :: rest) ++ [f])) =
      (0x1B :: 0x5B :: sep_values (v0 :: rest)) ++ [f] := rfl
  rw [e, feed_snoc _ _ f T hfeed]
  exact putchar_csi_final T f (by rw [htd]) (by rw [htd]) h1 h2

/-! ## Indexed colours -/

/-- The body of the SGR loop at a parameter 38 followed by `5` and a colour
index: the foreground nibble of the default and of the selected colour takes
the index, passed through `ansi_to_vga_color` when it is below 8, and the loop
index is set to the parameter count. -/
theorem sgr_step_38 (t : Term) (i : Nat) (h0 : arr_get t.td.csi_parms i = 38)
    (h1 : arr_get t.td.csi_parms (i + 1) = 5) (h2 : i + 2 < t.td.num_parms) :
    sgr_step t i =
      ({ t with td := sgr_effective { t.td with
          def_color := u8 (t.td.def_color &&& 0xf0) |||
            (if u8 (arr_get t.td.csi_parms (i + 2) &&& 0xf) < 8 then
              arr_get ansi_to_vga_color (u8 (arr_get t.td.csi_parms (i + 2) &&& 0xf))
             else u8 (arr_get t.td.csi_parms (i + 2) &&& 0xf)),
          cur_color := u8 (t.td.cur_color &&& 0xf0) |||
            (if u8 (arr_get t.td.csi_parms (i + 2) &&& 0xf) < 8 then
              arr_get ansi_to_vga_color (u8 (arr_get t.td.csi_parms (i + 2) &&& 0xf))
             else u8 (arr_get t.td.csi_parms (i + 2) &&& 0xf)) } },
        t.td.num_parms) := by
  have h3 : ¬ (i + 2 ≥ t.td.num_parms) := by omega
  unfold sgr_step
  simp only [h0, h1, h3]
  by_cases c : u8 (arr_get t.td.csi_parms (i + 2) &&& 0xf) < 8
  · simp [c]
  · simp [c]

/-- The body of the SGR loop at a parameter 48 followed by `5` and a colour
index. -/
theorem sgr_step_48 (t : Term) (i : Nat) (h0 : arr_get t.td.csi_parms i = 48)
    (h1 : arr_get t.td.csi_parms (i + 1) = 5) (h2 : i + 2 < t.td.num_parms) :
    sgr_step t i =
      ({ t with td := sgr_effective { t.td with
          def_color := u8 (t.td.def_color &&& 0x0f) |||
            u8 ((if u8 (arr_get t.td.csi_parms (i + 2) &&& 0xf) < 8 then
              arr_get ansi_to_vga_color (u8 (arr_get t.td.csi_parms (i + 2) &&& 0xf))
             else u8 (arr_get t.td.csi_parms (i + 2) &&& 0xf)) <<< 4),
          cur_color := u8 (t.td.cur_color &&& 0x0f) |||
            u8 ((if u8 (arr_get t.td.csi_parms (i + 2) &&& 0xf) < 8 then
              arr_get ansi_to_vga_color (u8 (arr_get t.td.csi_parms (i + 2) &&& 0xf))
             else u8 (arr_get t.td.csi_parms (i + 2) &&& 0xf)) <<< 4) } },
        t.td.num_parms) := by
  have h3 : ¬ (i + 2 ≥ t.td.num_parms) := by omega
  unfold sgr_step
  simp only [h0, h1, h3]
  by_cases c : u8 (arr_get t.td.csi_parms (i + 2) &&& 0xf) < 8
  · simp [c]
  · simp [c]

theorem sgr_loop_done (fuel i : Nat) (t : Term) (h : ¬ i < t.td.num_parms) :
    sgr_loop fuel i t = t := by
  cases fuel with
  | zero => rfl
  | succ n => unfold sgr_loop; rw [if_neg h]

/-- The SGR command on a parameter list of at least one parameter: the first
pass of the loop and the rest of it. -/
theorem xansi_sgr_first (t : Term) (h : 1 ≤ t.td.num_parms) :
    xansi_sgr t =
      sgr_loop (t.td.num_parms - 1) (u16 ((sgr_step t 0).2 + 1)) (sgr_step t 0).1 := by
  obtain ⟨n, hn⟩ : ∃ n, t.td.num_parms = n + 1 := ⟨t.td.num_parms - 1, by omega⟩
  have e : xansi_sgr t = sgr_loop t.td.num_parms 0 t := by
    unfold xansi_sgr
    simp only [show ¬ t.td.num_parms = 0 by omega, if_false]
  have e2 : t.td.num_parms - 1 = n := by omega
  have e3 : sgr_loop (n + 1) 0 t =
      sgr_loop n (u16 ((sgr_step t 0).2 + 1)) (sgr_step t 0).1 := by
    conv_lhs => unfold sgr_loop
    rw [if_pos (by omega)]
  rw [e, e2]
  conv_lhs => rw [hn]
  exact e3

/-- The command `m`: the call of `xansi_sgr`. -/
theorem process_csi_sgr (t : Term) :
    xansi_process_csi t 0x6D =
      some (xansi_calc_cur_addr (xansi_sgr { t with td := { t.td with state := TSTATE_NORMAL } })) := by
  unfold xansi_process_csi
  simp

/-- Every number has a decimal digit string. -/
theorem decimal_digits_exist (n : Nat) : ∃ ds, (∀ d ∈ ds, is_digit d) ∧ decimal_value ds = n := by
  induction n using Nat.strong_induction_on with
  | _ n ih =>
    by_cases h : n < 10
    · refine ⟨[0x30 + n], ?_, ?_⟩
      · intro d hd
        simp only [List.mem_singleton] at hd
        subst hd
        unfold is_digit; omega
      · simp [decimal_value]
    · obtain ⟨ds, hds, hv⟩ := ih (n / 10) (by omega)
      refine ⟨ds ++ [0x30 + n % 10], ?_, ?_⟩
      · intro d hd
        rcases List.mem_append.mp hd with h1 | h1
        · exact hds d h1
        · simp only [List.mem_singleton] at h1
          subst h1
          unfold is_digit; omega
      · unfold decimal_value at hv ⊢
        rw [List.foldl_append, hv]
        simp only [List.foldl_cons, List.foldl_nil]
        omega

theorem nibble_facts : ∀ c, c < 256 → ∀ k, k < 16 →
    ((u8 (c &&& 0xf0) ||| k) &&& 0x0f = k ∧ (u8 (c &&& 0xf0) ||| k) >>> 4 = c >>> 4) ∧
    ((u8 (c &&& 0x0f) ||| u8 (k <<< 4)) >>> 4 = k ∧
      (u8 (c &&& 0x0f) ||| u8 (k <<< 4)) &&& 0x0f = c &&& 0x0f) := by
  decide!

theorem index_facts (n : Nat) :
    u8 (n &&& 0xf) = n &&& 0xf ∧ n &&& 0xf < 16 ∧
    (if n &&& 0xf < 8 then arr_get ansi_to_vga_color (n &&& 0xf) else n &&& 0xf) < 16 := by
  have h : n &&& 0xf ≤ 0xf := Nat.and_le_right
  refine ⟨by unfold u8; omega, by omega, ?_⟩
  generalize n &&& 0xf = k at h
  interval_cases k <;> decide

/-- The sequences `CSI 38;5;n m` and `CSI 48;5;n m` up to the selected colour
they leave. -/
theorem feed_indexed (t : Term) (bg : Bool) (ds : List Nat) (hstart : starts_sequence t.td)
    (hdig : ∀ d ∈ ds, is_digit d) (hval : decimal_value ds ≤ 65535) :
    ∃ t1, feed t (0x1B :: 0x5B :: ([if bg then 0x34 else 0x33, 0x38, 0x3B, 0x35, 0x3B] ++ ds ++
        [0x6D])) = some t1 ∧
      t1.td.cur_color =
        if bg then
          u8 (t.td.cur_color &&& 0x0f) |||
            u8 ((if u8 (decimal_value ds &&& 0xf) < 8 then
              arr_get ansi_to_vga_color (u8 (decimal_value ds &&& 0xf))
             else u8 (decimal_value ds &&& 0xf)) <<< 4)
        else
          u8 (t.td.cur_color &&& 0xf0) |||
            (if u8 (decimal_value ds &&& 0xf) < 8 then
              arr_get ansi_to_vga_color (u8 (decimal_value ds &&& 0xf))
             else u8 (decimal_value ds &&& 0xf)) := by
  have hv : ∀ v ∈ [if bg then 0x34 else 0x33, 0x38] :: [[0x35], ds],
      (∀ d ∈ v, is_digit d) ∧ decimal_value v ≤ 65535 := by
    intro v hv
    simp only [List.mem_cons, List.mem_singleton, List.not_mem_nil, or_false] at hv
    rcases hv with h | h | h
    · subst h; cases bg <;> decide
    · subst h; decide
    · subst h; exact ⟨hdig, hval⟩
  obtain ⟨T, hfeed, _, htd, hget⟩ := csi_sequence t [if bg then 0x34 else 0x33, 0x38]
    [[0x35], ds] 0x6D hstart (by simp) hv (by simp) (by decide) (by decide)
  have ebytes : (0x1B :: 0x5B :: ([if bg then 0x34 else 0x33, 0x38, 0x3B, 0x35, 0x3B] ++ ds ++
      [0x6D])) = 0x1B :: 0x5B ::
        (sep_values ([if bg then 0x34 else 0x33, 0x38] :: [[0x35], ds]) ++ [0x6D]) := by
    simp [sep_values]
  obtain ⟨T', hT'⟩ : ∃ T' : Term, T' = { T with td := { T.td with state := TSTATE_NORMAL } } :=
    ⟨_, rfl⟩
  have hnum : T'.td.num_parms = 3 := by rw [hT']; simp only; rw [htd]; rfl
  have hparm : T'.td.csi_parms = T.td.csi_parms := by rw [hT']
  have hcur : T'.td.cur_color = t.td.cur_color := by rw [hT']; simp only; rw [htd]
  have g0 : arr_get T'.td.csi_parms 0 = if bg then 48 else 38 := by
    rw [hparm, hget 0]; cases bg <;> rfl
  have g1 : arr_get T'.td.csi_parms (0 + 1) = 5 := by rw [hparm, hget (0 + 1)]; rfl
  have g2 : arr_get T'.td.csi_parms (0 + 2) = decimal_value ds := by
    rw [hparm, hget (0 + 2)]; rfl
  rw [ebytes, hfeed, process_csi_sgr, ← hT', xansi_sgr_first T' (by omega), hnum]
  cases bg with
  | false =>
    simp only [Bool.false_eq_true, if_false] at g0 ⊢
    rw [sgr_step_38 T' 0 g0 g1 (by omega), hnum]
    rw [sgr_loop_done _ _ _ (by show ¬ u16 (3 + 1) < T'.td.num_parms; rw [hnum]; decide)]
    refine ⟨_, rfl, ?_⟩
    show u8 (T'.td.cur_color &&& 0xf0) ||| _ = _
    rw [g2, hcur]
  | true =>
    simp only [if_true] at g0 ⊢
    rw [sgr_step_48 T' 0 g0 g1 (by omega), hnum]
    rw [sgr_loop_done _ _ _ (by show ¬ u16 (3 + 1) < T'.td.num_parms; rw [hnum]; decide)]
    refine ⟨_, rfl, ?_⟩
    show u8 (T'.td.cur_color &&& 0x0f) ||| _ = _
    rw [g2, hcur]

/-- C20, as amended: for every `n` in `0..65535`, written as any string of
decimal digits, and every state in which ESC starts a sequence: `CSI 38;5;n m`
sets the foreground nibble of the selected colour, and `CSI 48;5;n m` its
background nibble, to the colour index `n & 0xF` passed through
`ansi_to_vga_color` when it is below 8 and to `n & 0xF` itself when it is 8 or
more, leaving the other nibble as it was. -/
theorem C20_indexed_colour (t : Term) (n : Nat) (hstart : starts_sequence t.td)
    (hn : n ≤ 65535) (hc : t.td.cur_color < 256) :
    (∃ ds, (∀ d ∈ ds, is_digit d) ∧ decimal_value ds = n) ∧
    ∀ ds, (∀ d ∈ ds, is_digit d) → decimal_value ds = n →
      (∃ t1, feed t (0x1B :: 0x5B :: ([0x33, 0x38, 0x3B, 0x35, 0x3B] ++ ds ++ [0x6D])) =
          some t1 ∧
        t1.td.cur_color &&& 0x0f =
          (if n &&& 0xf < 8 then arr_get ansi_to_vga_color (n &&& 0xf) else n &&& 0xf) ∧
        t1.td.cur_color >>> 4 = t.td.cur_color >>> 4) ∧
      (∃ t1, feed t (0x1B :: 0x5B :: ([0x34, 0x38, 0x3B, 0x35, 0x3B] ++ ds ++ [0x6D])) =
          some t1 ∧
        t1.td.cur_color >>> 4 =
          (if n &&& 0xf < 8 then arr_get ansi_to_vga_color (n &&& 0xf) else n &&& 0xf) ∧
        t1.td.cur_color &&& 0x0f = t.td.cur_color &&& 0x0f) := by
  refine ⟨decimal_digits_exist n, ?_⟩
  intro ds hdig hv
  obtain ⟨i1, i2, i3⟩ := index_facts n
  obtain ⟨nf, nb⟩ := nibble_facts t.td.cur_color hc _ i3
  constructor
  · obtain ⟨t1, h1, hcol⟩ := feed_indexed t false ds hstart hdig (by rw [hv]; exact hn)
    simp only [Bool.false_eq_true, if_false] at h1 hcol
    rw [hv, i1] at hcol
    exact ⟨t1, h1, by rw [hcol]; exact nf.1, by rw [hcol]; exact nf.2⟩
  · obtain ⟨t1, h1, hcol⟩ := feed_indexed t true ds hstart hdig (by rw [hv]; exact hn)
    simp only [if_true] at h1 hcol
    rw [hv, i1] at hcol
    exact ⟨t1, h1, by rw [hcol]; exact nb.1, by rw [hcol]; exact nb.2⟩

/-- C20 at a concrete input: the index 1 on the 80 by 30 terminal. -/
theorem C20_indexed_colour_witness :
    starts_sequence demo_term.td ∧ (1 : Nat) ≤ 65535 ∧ demo_term.td.cur_color < 256 ∧
    ((∃ ds, (∀ d ∈ ds, is_digit d) ∧ decimal_value ds = 1) ∧
    ∀ ds, (∀ d ∈ ds, is_digit d) → decimal_value ds = 1 →
      (∃ t1, feed demo_term (0x1B :: 0x5B :: ([0x33, 0x38, 0x3B, 0x35, 0x3B] ++ ds ++ [0x6D])) =
          some t1 ∧
        t1.td.cur_color &&& 0x0f =
          (if 1 &&& 0xf < 8 then arr_get ansi_to_vga_color (1 &&& 0xf) else 1 &&& 0xf) ∧
        t1.td.cur_color >>> 4 = demo_term.td.cur_color >>> 4) ∧
      (∃ t1, feed demo_term (0x1B :: 0x5B :: ([0x34, 0x38, 0x3B, 0x35, 0x3B] ++ ds ++ [0x6D])) =
          some t1 ∧
        t1.td.cur_color >>> 4 =
          (if 1 &&& 0xf < 8 then arr_get ansi_to_vga_color (1 &&& 0xf) else 1 &&& 0xf) ∧
        t1.td.cur_color &&& 0x0f = demo_term.td.cur_color &&& 0x0f)) :=
  ⟨by decide, by decide, by decide,
    C20_indexed_colour demo_term 1 (by decide) (by decide) (by decide)⟩

/-- C20, the counterexamples, both on the 640 by 480 adapter.  After
`xansiterm_init`, `CSI 38;5;1 m` leaves the foreground nibble of the selected
colour at 4, not at `1 & 0xF = 1`, and `CSI 48;5;1 m` leaves its background
nibble at 4: the index is passed through `ansi_to_vga_color`.  After `CSI 8 m`
and `CSI` (passthrough on, parser in CSI state) the bytes of `CSI 38;5;9 m`
are printed as glyphs and the foreground nibble stays 2. -/
theorem C20_index_is_remapped :
    (∃ t t1 t2, Reachable t ∧
      feed t [0x1B, 0x5B, 0x33, 0x38, 0x3B, 0x35, 0x3B, 0x31, 0x6D] = some t1 ∧
      t1.td.cur_color &&& 0x0f = 4 ∧
      feed t [0x1B, 0x5B, 0x34, 0x38, 0x3B, 0x35, 0x3B, 0x31, 0x6D] = some t2 ∧
      t2.td.cur_color >>> 4 = 4 ∧ (1 : Nat) &&& 0xF = 1) ∧
    (∃ t t1, Reachable t ∧
      feed t [0x1B, 0x5B, 0x33, 0x38, 0x3B, 0x35, 0x3B, 0x39, 0x6D] = some t1 ∧
      t1.td.cur_color &&& 0x0f = 2 ∧ (9 : Nat) &&& 0xF = 9) := by
  constructor
  · obtain ⟨t, t1, t2, hr, hf1, h1, hf2, h2⟩ := boot_then2 []
      [0x1B, 0x5B, 0x33, 0x38, 0x3B, 0x35, 0x3B, 0x31, 0x6D]
      [0x1B, 0x5B, 0x34, 0x38, 0x3B, 0x35, 0x3B, 0x31, 0x6D] _ _
      (fun t => t.td.cur_color &&& 0x0f) (fun t => t.td.cur_color >>> 4) 4 4 (by decide!)
      (by decide!) (by decide!)
    exact ⟨t, t1, t2, hr, hf1, h1, hf2, h2, by decide⟩
  · obtain ⟨t, t1, hr, _, hfeed, h1⟩ := boot_then [0x1B, 0x5B, 0x38, 0x6D, 0x1B, 0x5B]
      [0x1B, 0x5B, 0x33, 0x38, 0x3B, 0x35, 0x3B, 0x39, 0x6D] _ _
      (fun _ => ()) (fun t => t.td.cur_color &&& 0x0f) () 2 (by decide!) (by decide!)
      (by decide!)
    exact ⟨t, t1, hr, hfeed, h1, by decide⟩

/-! ## Erase in display and in line -/

/-- The command `J`: the calls of `xansi_clear`. -/
theorem process_csi_J (t : Term) :
    xansi_process_csi t 0x4A =
      (if arr_get t.td.csi_parms 0 = 0 then
        xansi_clear { t with td := { t.td with state := TSTATE_NORMAL } }
          (xansi_calc_addr t.td 0 t.td.y) t.td.vram_end
      else if arr_get t.td.csi_parms 0 = 1 then
        xansi_clear { t with td := { t.td with state := TSTATE_NORMAL } }
          t.td.vram_base (xansi_calc_addr t.td (sub16 t.td.cols 1) t.td.y)
      else if arr_get t.td.csi_parms 0 = 2 then
        xansi_clear { t with td := { t.td with state := TSTATE_NORMAL } }
          t.td.vram_base t.td.vram_end
      else some { t with td := { t.td with state := TSTATE_NORMAL } }).map
        xansi_calc_cur_addr := by
  unfold xansi_process_csi
  simp [xansi_calc_addr]

/-- The command `K`: the calls of `xansi_clear`. -/
theorem process_csi_K (t : Term) :
    xansi_process_csi t 0x4B =
      (if arr_get t.td.csi_parms 0 = 0 then
        xansi_clear { t with td := { t.td with state := TSTATE_NORMAL } }
          t.td.cur_addr (xansi_calc_addr t.td (sub16 t.td.cols 1) t.td.y)
      else if arr_get t.td.csi_parms 0 = 1 then
        xansi_clear { t with td := { t.td with state := TSTATE_NORMAL } }
          (xansi_calc_addr t.td 0 t.td.y) t.td.cur_addr
      else if arr_get t.td.csi_parms 0 = 2 then
        xansi_clear { t with td := { t.td with state := TSTATE_NORMAL } }
          (xansi_calc_addr t.td 0 t.td.y) (xansi_calc_addr t.td (sub16 t.td.cols 1) t.td.y)
      else some { t with td := { t.td with state := TSTATE_NORMAL } }).map
        xansi_calc_cur_addr := by
  unfold xansi_process_csi
  simp [xansi_calc_addr]

/-- The sequence `CSI p f` with a one-digit parameter `p`, up to the call of
`xansi_process_csi`. -/
theorem feed_csi_digit (t : Term) (p f : Nat) (hstart : starts_sequence t.td) (hp : p ≤ 9)
    (h1 : 0x40 ≤ f) (h2 : f ≤ 0x7E) :
    ∃ T : Term, feed t [0x1B, 0x5B, 0x30 + p, f] = xansi_process_csi T f ∧
      T.hw = (xansi_erase_cursor t).hw ∧
      T.td = { t.td with cursor_drawn := false, state := TSTATE_CSI, intermediate_char := 0,
                         num_parms := 1, csi_parms := T.td.csi_parms } ∧
      arr_get T.td.csi_parms 0 = p := by
  refine ⟨{ td := { t.td with cursor_drawn := false, state := TSTATE_CSI,
                               intermediate_char := 0, num_parms := 1,
                               csi_parms := arr_set (List.replicate MAX_CSI_PARMS 0) 0
                                 (decimal_value [0x30 + p]) },
            hw := (xansi_erase_cursor t).hw }, ?_, rfl, rfl, ?_⟩
  · exact feed_csi_one t [0x30 + p] f hstart
      (by intro d hd; simp only [List.mem_singleton] at hd; subst hd; unfold is_digit; omega)
      (by simp) (by simp [decimal_value]; omega) h1 h2
  · show arr_get (arr_set (List.replicate MAX_CSI_PARMS 0) 0 (decimal_value [0x30 + p])) 0 = p
    rw [arr_get_set_self _ _ _ (by decide)]
    simp [decimal_value]

/-- A clear issued by a CSI sequence: what the sequence leaves, from what
`xansi_clear` does on the state `T` the parser hands over. -/
theorem clear_after_csi (t T : Term) (s0 e0 s e : Nat) (hs0 : s0 = s) (he0 : e0 = e)
    (hs : s < 65535) (he : e < 65535)
    (hhw : T.hw = (xansi_erase_cursor t).hw)
    (htd : T.td = { t.td with cursor_drawn := false, state := TSTATE_CSI,
                              intermediate_char := 0, num_parms := 1,
                              csi_parms := T.td.csi_parms }) :
    ∃ t1, (xansi_clear { T with td := { T.td with state := TSTATE_NORMAL } } s0 e0).map
        xansi_calc_cur_addr = some t1 ∧
      (∀ a, t1.hw.vram a =
        if min s e ≤ a ∧ a ≤ max s e then u8 t.td.color * 256 + 0x20
        else (xansi_erase_cursor t).hw.vram a) ∧
      t1.td.x = t.td.x ∧ t1.td.y = t.td.y ∧ t1.td.lcf = t.td.lcf ∧
      t1.td.state = TSTATE_NORMAL := by
  subst hs0 he0
  obtain ⟨t1, h1, htd1, hv, _⟩ := xansi_clear_spec
    { T with td := { T.td with state := TSTATE_NORMAL } } s0 e0 hs he
  have hcol : T.td.color = t.td.color := by rw [htd]
  refine ⟨xansi_calc_cur_addr t1, by rw [h1]; rfl, ?_, ?_, ?_, ?_, ?_⟩
  · intro a
    show t1.hw.vram a = _
    rw [hv a]
    show (if _ then u8 T.td.color * 256 + 0x20 else T.hw.vram a) = _
    rw [hcol, hhw]
  · show t1.td.x = _
    rw [htd1]; show T.td.x = _; rw [htd]
  · show t1.td.y = _
    rw [htd1]; show T.td.y = _; rw [htd]
  · show t1.td.lcf = _
    rw [htd1]; show T.td.lcf = _; rw [htd]
  · show t1.td.state = _
    rw [htd1]

/-- C17, as amended: fed in a state in which ESC starts a sequence, with the
cursor column in range, `cur_addr == vram_base + y*cols + x` and the row of
the cursor below address `0xFFFF`: for `p` in `{0, 1, 2}`, `CSI p K` returns,
writes space with the effective colour to exactly the cells of row `y` in
columns `[x, cols-1]` (`p = 0`), `[0, x]` (`p = 1`) or `[0, cols-1]`
(`p = 2`), leaves every other cell unchanged, and leaves `x`, `y` and `lcf`
unchanged. -/
theorem C17_erase_line (t : Term) (p : Nat) (hstart : starts_sequence t.td) (hp : p ≤ 2)
    (hx : t.td.x < t.td.cols)
    (hrow : t.td.vram_base + t.td.y * t.td.cols + t.td.cols ≤ 65535)
    (ha : t.td.cur_addr = xansi_calc_addr t.td t.td.x t.td.y) (hc : t.td.color < 256) :
    ∃ t1, feed t [0x1B, 0x5B, 0x30 + p, 0x4B] = some t1 ∧
      (∀ c, (if p = 0 then t.td.x else 0) ≤ c → c ≤ (if p = 1 then t.td.x else t.td.cols - 1) →
        t1.hw.vram (xansi_calc_addr t.td c t.td.y) = t.td.color * 256 + 0x20) ∧
      (∀ a, (∀ c, (if p = 0 then t.td.x else 0) ≤ c →
            c ≤ (if p = 1 then t.td.x else t.td.cols - 1) →
            a ≠ xansi_calc_addr t.td c t.td.y) →
        t1.hw.vram a = t.hw.vram a) ∧
      t1.td.x = t.td.x ∧ t1.td.y = t.td.y ∧ t1.td.lcf = t.td.lcf := by
  obtain ⟨T, hfeed, hhw, htd, hget⟩ := feed_csi_digit t p 0x4B hstart (by omega) (by decide)
    (by decide)
  have hcell : ∀ c, c < t.td.cols →
      xansi_calc_addr t.td c t.td.y = t.td.vram_base + t.td.y * t.td.cols + c := by
    intro c hc'
    unfold xansi_calc_addr u16
    omega
  have hcur : T.td.cur_addr = t.td.vram_base + t.td.y * t.td.cols + t.td.x := by
    rw [htd]; show t.td.cur_addr = _; rw [ha, hcell _ hx]
  have hfirst : xansi_calc_addr T.td 0 T.td.y = t.td.vram_base + t.td.y * t.td.cols := by
    have : xansi_calc_addr T.td 0 T.td.y = xansi_calc_addr t.td 0 t.td.y := by rw [htd]; rfl
    rw [this, hcell 0 (by omega), Nat.add_zero]
  have hlast : xansi_calc_addr T.td (sub16 T.td.cols 1) T.td.y =
      t.td.vram_base + t.td.y * t.td.cols + (t.td.cols - 1) := by
    have : xansi_calc_addr T.td (sub16 T.td.cols 1) T.td.y =
        xansi_calc_addr t.td (sub16 t.td.cols 1) t.td.y := by rw [htd]; rfl
    have e : sub16 t.td.cols 1 = t.td.cols - 1 := by unfold sub16; omega
    rw [this, e, hcell _ (by omega)]
  have hc8 : u8 t.td.color = t.td.color := u8_of_lt _ hc
  -- the range cleared, by case of `p`
  obtain ⟨lo, hi, hlo, hhi, hrun⟩ : ∃ lo hi,
      lo = (if p = 0 then t.td.x else 0) ∧ hi = (if p = 1 then t.td.x else t.td.cols - 1) ∧
      ∃ t1, feed t [0x1B, 0x5B, 0x30 + p, 0x4B] = some t1 ∧
        (∀ a, t1.hw.vram a =
          if t.td.vram_base + t.td.y * t.td.cols + lo ≤ a ∧
              a ≤ t.td.vram_base + t.td.y * t.td.cols + hi
          then t.td.color * 256 + 0x20 else (xansi_erase_cursor t).hw.vram a) ∧
        t1.td.x = t.td.x ∧ t1.td.y = t.td.y ∧ t1.td.lcf = t.td.lcf := by
    refine ⟨_, _, rfl, rfl, ?_⟩
    rw [hfeed, process_csi_K, hget]
    interval_cases p
    · simp only [if_true, OfNat.ofNat_ne_one, if_false]
      obtain ⟨t1, h1, hv, e1, e2, e3, _⟩ := clear_after_csi t T _ _ _ _ hcur hlast
        (show t.td.vram_base + t.td.y * t.td.cols + t.td.x < 65535 by omega)
        (show t.td.vram_base + t.td.y * t.td.cols + (t.td.cols - 1) < 65535 by omega) hhw htd
      refine ⟨t1, h1, ?_, e1, e2, e3⟩
      intro a
      rw [hv a, Nat.min_eq_left (by omega), Nat.max_eq_right (by omega), hc8]
      rfl
    · simp only [OfNat.one_ne_ofNat, if_false, if_true]
      obtain ⟨t1, h1, hv, e1, e2, e3, _⟩ := clear_after_csi t T _ _ _ _ hfirst hcur
        (show t.td.vram_base + t.td.y * t.td.cols < 65535 by omega)
        (show t.td.vram_base + t.td.y * t.td.cols + t.td.x < 65535 by omega) hhw htd
      refine ⟨t1, h1, ?_, e1, e2, e3⟩
      intro a
      rw [hv a, Nat.min_eq_left (by omega), Nat.max_eq_right (by omega), hc8]
      rfl
    · simp only [OfNat.ofNat_ne_zero, OfNat.ofNat_ne_one, if_false, if_true]
      obtain ⟨t1, h1, hv, e1, e2, e3, _⟩ := clear_after_csi t T _ _ _ _ hfirst hlast
        (show t.td.vram_base + t.td.y * t.td.cols < 65535 by omega)
        (show t.td.vram_base + t.td.y * t.td.cols + (t.td.cols - 1) < 65535 by omega) hhw htd
      refine ⟨t1, h1, ?_, e1, e2, e3⟩
      intro a
      rw [hv a, Nat.min_eq_left (by omega), Nat.max_eq_right (by omega), hc8]
      rfl
  obtain ⟨t1, h1, hv, e1, e2, e3⟩ := hrun
  rw [← hlo, ← hhi]
  have hlox : lo ≤ t.td.x := by rw [hlo]; split <;> omega
  have hhix : t.td.x ≤ hi ∧ hi < t.td.cols := by rw [hhi]; split <;> omega
  refine ⟨t1, h1, ?_, ?_, e1, e2, e3⟩
  · intro c h1c h2c
    rw [hcell c (by omega), hv, if_pos ⟨by omega, by omega⟩]
  · intro a hne
    have hout : ¬ (t.td.vram_base + t.td.y * t.td.cols + lo ≤ a ∧
        a ≤ t.td.vram_base + t.td.y * t.td.cols + hi) := by
      intro hin
      apply hne (a - (t.td.vram_base + t.td.y * t.td.cols)) (by omega) (by omega)
      rw [hcell _ (by omega)]
      omega
    rw [hv, if_neg hout]
    apply erase_cursor_vram
    rw [ha, hcell _ hx]
    have e : u16 (t.td.vram_base + t.td.y * t.td.cols + t.td.x) =
        t.td.vram_base + t.td.y * t.td.cols + t.td.x := by unfold u16; omega
    rw [e]
    intro h
    apply hout
    omega

/-- C17 at a concrete input: `CSI 2 K` on the bottom row of the 80 by 30
terminal. -/
theorem C17_erase_line_witness :
    starts_sequence demo_bottom.td ∧ (2 : Nat) ≤ 2 ∧ demo_bottom.td.x < demo_bottom.td.cols ∧
    demo_bottom.td.vram_base + demo_bottom.td.y * demo_bottom.td.cols + demo_bottom.td.cols ≤
      65535 ∧
    demo_bottom.td.cur_addr = xansi_calc_addr demo_bottom.td demo_bottom.td.x demo_bottom.td.y ∧
    demo_bottom.td.color < 256 ∧
    ∃ t1, feed demo_bottom [0x1B, 0x5B, 0x30 + 2, 0x4B] = some t1 ∧
      (∀ c, (if 2 = 0 then demo_bottom.td.x else 0) ≤ c →
        c ≤ (if 2 = 1 then demo_bottom.td.x else demo_bottom.td.cols - 1) →
        t1.hw.vram (xansi_calc_addr demo_bottom.td c demo_bottom.td.y) =
          demo_bottom.td.color * 256 + 0x20) ∧
      (∀ a, (∀ c, (if 2 = 0 then demo_bottom.td.x else 0) ≤ c →
            c ≤ (if 2 = 1 then demo_bottom.td.x else demo_bottom.td.cols - 1) →
            a ≠ xansi_calc_addr demo_bottom.td c demo_bottom.td.y) →
        t1.hw.vram a = demo_bottom.hw.vram a) ∧
      t1.td.x = demo_bottom.td.x ∧ t1.td.y = demo_bottom.td.y ∧
      t1.td.lcf = demo_bottom.td.lcf :=
  ⟨by decide, by decide, by decide, by decide, by decide, by decide,
    C17_erase_line demo_bottom 2 (by decide) (by decide) (by decide) (by decide) (by decide)
      (by decide)⟩

/-- C17, the counterexamples, both on the 640 by 480 adapter.  After
`CSI 68;0;0;65456 m` and `ESC (` the text window starts at address 65456: the
cursor is at `(0, 0)`, in range, with `lcf` false and `cur_addr` consistent,
and the last cell of its row has address `0xFFFF`; `CSI 0 K` never returns,
the 16-bit counter of the loop of `xansi_clear` wraps to 0 and stays below the
end address.  After `CSI 8 m` and `CSI` (passthrough on, parser in CSI state)
the bytes of `CSI 2 K` are printed as glyphs and move the cursor from column 0
to column 4. -/
theorem C17_erase_line_fails :
    (∃ t, Reachable t ∧ t.td.x < t.td.cols ∧ t.td.y < t.td.rows ∧ t.td.lcf = false ∧
      t.td.cur_addr = xansi_calc_addr t.td t.td.x t.td.y ∧
      feed t [0x1B, 0x5B, 0x30, 0x4B] = none) ∧
    (∃ t t1, Reachable t ∧ t.td.x = 0 ∧ feed t [0x1B, 0x5B, 0x32, 0x4B] = some t1 ∧
      t1.td.x = 4) := by
  constructor
  · obtain ⟨t, ht, hv⟩ := of_map_eq_some
      (boot (adapter 640 480)
        [0x1B, 0x5B, 0x36, 0x38, 0x3B, 0x30, 0x3B, 0x30, 0x3B, 0x36, 0x35, 0x34, 0x35, 0x36,
          0x6D, 0x1B, 0x28])
      (fun t => (t.td.state, decide (t.td.x < t.td.cols ∧ t.td.y < t.td.rows), t.td.lcf,
        decide (t.td.cur_addr = xansi_calc_addr t.td t.td.x t.td.y),
        max t.td.cur_addr (xansi_calc_addr t.td (sub16 t.td.cols 1) t.td.y)))
      (0, true, false, true, 65535) (by decide!)
    simp only [Prod.mk.injEq, decide_eq_true_eq] at hv
    obtain ⟨a1, a2, a3, a4, a5⟩ := hv
    refine ⟨t, boot_reachable _ _ t 80 30 (by decide) (by decide) (by decide!) ht, a2.1, a2.2,
      a3, a4, ?_⟩
    obtain ⟨T, hfeed, _, htd, hget⟩ := feed_csi_digit t 0 0x4B
      (starts_sequence_of_normal t.td a1) (by decide) (by decide) (by decide)
    have e : feed t [0x1B, 0x5B, 0x30, 0x4B] = xansi_process_csi T 0x4B := hfeed
    have hmax : max T.td.cur_addr (xansi_calc_addr T.td (sub16 T.td.cols 1) T.td.y) = 65535 := by
      have : max T.td.cur_addr (xansi_calc_addr T.td (sub16 T.td.cols 1) T.td.y) =
          max t.td.cur_addr (xansi_calc_addr t.td (sub16 t.td.cols 1) t.td.y) := by
        rw [htd]; rfl
      rw [this]; exact a5
    rw [e, process_csi_K, hget]
    simp only [if_true]
    rw [xansi_clear_diverges _ _ _ hmax]
    rfl
  · obtain ⟨t, t1, hr, h1, hfeed, h2⟩ := boot_then [0x1B, 0x5B, 0x38, 0x6D, 0x1B, 0x5B]
      [0x1B, 0x5B, 0x32, 0x4B] _ _ (fun t => t.td.x) (fun t => t.td.x) 0 4
      (by decide!) (by decide!) (by decide!)
    exact ⟨t, t1, hr, h1, hfeed, h2⟩

/-- C16, as amended: fed in a state in which ESC starts a sequence, with the
cursor on a row `y` of a grid that ends below address `0xFFFF`
(`vram_base + cols*rows == vram_end`): `CSI 0 J` returns and writes space
with the effective colour to every cell of the grid from the first cell of the
cursor row through the last cell of the grid, whatever the cursor column, and
leaves every cell before the cursor row, and every cell after the one at
`vram_end`, as it was; `CSI 1 J` returns and writes space to exactly the cells
from the first cell of the grid through the last cell of the cursor row, every
other cell being as it was (a drawn input cursor apart, which is taken off the
screen first); `x`, `y`, `lcf` are unchanged.  Nothing is stated of the cell
at `vram_end`, the first one past the grid, after `CSI 0 J`. -/
theorem C16_erase_display (t : Term) (hstart : starts_sequence t.td)
    (hy : t.td.y < t.td.rows) (hcols : 1 ≤ t.td.cols)
    (hgrid : t.td.vram_base + t.td.cols * t.td.rows = t.td.vram_end)
    (hend : t.td.vram_end < 65535) (hc : t.td.color < 256) :
    (∃ t1, feed t [0x1B, 0x5B, 0x30, 0x4A] = some t1 ∧
      (∀ a, a ≠ t.td.vram_end → t1.hw.vram a =
        if t.td.vram_base + t.td.y * t.td.cols ≤ a ∧ a < t.td.vram_end
        then t.td.color * 256 + 0x20 else (xansi_erase_cursor t).hw.vram a) ∧
      t1.td.x = t.td.x ∧ t1.td.y = t.td.y ∧ t1.td.lcf = t.td.lcf) ∧
    (∃ t1, feed t [0x1B, 0x5B, 0x31, 0x4A] = some t1 ∧
      (∀ a, t1.hw.vram a =
        if t.td.vram_base ≤ a ∧ a ≤ t.td.vram_base + t.td.y * t.td.cols + (t.td.cols - 1)
        then t.td.color * 256 + 0x20 else (xansi_erase_cursor t).hw.vram a) ∧
      t1.td.x = t.td.x ∧ t1.td.y = t.td.y ∧ t1.td.lcf = t.td.lcf) ∧
    (t.td.cursor_drawn = false → (xansi_erase_cursor t).hw.vram = t.hw.vram) := by
  have n1 : t.td.y * t.td.cols + t.td.cols ≤ t.td.cols * t.td.rows := by
    have := Nat.mul_le_mul_right t.td.cols (show t.td.y + 1 ≤ t.td.rows by omega)
    rw [Nat.add_mul, Nat.one_mul, Nat.mul_comm t.td.rows] at this
    exact this
  have hc8 : u8 t.td.color = t.td.color := u8_of_lt _ hc
  have hcell : ∀ c, c < t.td.cols →
      xansi_calc_addr t.td c t.td.y = t.td.vram_base + t.td.y * t.td.cols + c := by
    intro c hc'
    unfold xansi_calc_addr u16
    omega
  refine ⟨?_, ?_, ?_⟩
  · obtain ⟨T, hfeed, hhw, htd, hget⟩ := feed_csi_digit t 0 0x4A hstart (by decide)
      (by decide) (by decide)
    have hfirst : xansi_calc_addr T.td 0 T.td.y = t.td.vram_base + t.td.y * t.td.cols := by
      have : xansi_calc_addr T.td 0 T.td.y = xansi_calc_addr t.td 0 t.td.y := by rw [htd]; rfl
      rw [this, hcell 0 (by omega), Nat.add_zero]
    have hlast : T.td.vram_end = t.td.vram_end := by rw [htd]
    obtain ⟨t1, h1, hv, e1, e2, e3, _⟩ := clear_after_csi t T _ _ _ _ hfirst hlast
      (show t.td.vram_base + t.td.y * t.td.cols < 65535 by omega) hend hhw htd
    refine ⟨t1, ?_, ?_, e1, e2, e3⟩
    · have e : feed t [0x1B, 0x5B, 0x30, 0x4A] = xansi_process_csi T 0x4A := hfeed
      rw [e, process_csi_J, hget]
      simp only [if_true]
      exact h1
    · intro a ha
      rw [hv a, Nat.min_eq_left (by omega), Nat.max_eq_right (by omega), hc8]
      by_cases c : t.td.vram_base + t.td.y * t.td.cols ≤ a ∧ a ≤ t.td.vram_end
      · rw [if_pos c, if_pos ⟨c.1, by omega⟩]
      · rw [if_neg c, if_neg (fun c2 => c ⟨c2.1, by omega⟩)]
  · obtain ⟨T, hfeed, hhw, htd, hget⟩ := feed_csi_digit t 1 0x4A hstart (by decide)
      (by decide) (by decide)
    have hfirst : T.td.vram_base = t.td.vram_base := by rw [htd]
    have hlast : xansi_calc_addr T.td (sub16 T.td.cols 1) T.td.y =
        t.td.vram_base + t.td.y * t.td.cols + (t.td.cols - 1) := by
      have : xansi_calc_addr T.td (sub16 T.td.cols 1) T.td.y =
          xansi_calc_addr t.td (sub16 t.td.cols 1) t.td.y := by rw [htd]; rfl
      have e : sub16 t.td.cols 1 = t.td.cols - 1 := by unfold sub16; omega
      rw [this, e, hcell _ (by omega)]
    obtain ⟨t1, h1, hv, e1, e2, e3, _⟩ := clear_after_csi t T _ _ _ _ hfirst hlast
      (show t.td.vram_base < 65535 by omega)
      (show t.td.vram_base + t.td.y * t.td.cols + (t.td.cols - 1) < 65535 by omega) hhw htd
    refine ⟨t1, ?_, ?_, e1, e2, e3⟩
    · have e : feed t [0x1B, 0x5B, 0x31, 0x4A] = xansi_process_csi T 0x4A := hfeed
      rw [e, process_csi_J, hget]
      simp only [OfNat.one_ne_ofNat, if_false, if_true]
      exact h1
    · intro a
      rw [hv a, Nat.min_eq_left (by omega), Nat.max_eq_right (by omega), hc8]
  · intro hd
    rw [erase_cursor_of_not_drawn t hd]

/-- C16 at a concrete input: the 80 by 30 terminal, cursor on the bottom
row. -/
theorem C16_erase_display_witness :
    starts_sequence demo_bottom.td ∧ demo_bottom.td.y < demo_bottom.td.rows ∧
    1 ≤ demo_bottom.td.cols ∧
    demo_bottom.td.vram_base + demo_bottom.td.cols * demo_bottom.td.rows =
      demo_bottom.td.vram_end ∧
    demo_bottom.td.vram_end < 65535 ∧ demo_bottom.td.color < 256 ∧
    ((∃ t1, feed demo_bottom [0x1B, 0x5B, 0x30, 0x4A] = some t1 ∧
      (∀ a, a ≠ demo_bottom.td.vram_end → t1.hw.vram a =
        if demo_bottom.td.vram_base + demo_bottom.td.y * demo_bottom.td.cols ≤ a ∧
            a < demo_bottom.td.vram_end
        then demo_bottom.td.color * 256 + 0x20
        else (xansi_erase_cursor demo_bottom).hw.vram a) ∧
      t1.td.x = demo_bottom.td.x ∧ t1.td.y = demo_bottom.td.y ∧
      t1.td.lcf = demo_bottom.td.lcf) ∧
    (∃ t1, feed demo_bottom [0x1B, 0x5B, 0x31, 0x4A] = some t1 ∧
      (∀ a, t1.hw.vram a =
        if demo_bottom.td.vram_base ≤ a ∧
            a ≤ demo_bottom.td.vram_base + demo_bottom.td.y * demo_bottom.td.cols +
              (demo_bottom.td.cols - 1)
        then demo_bottom.td.color * 256 + 0x20
        else (xansi_erase_cursor demo_bottom).hw.vram a) ∧
      t1.td.x = demo_bottom.td.x ∧ t1.td.y = demo_bottom.td.y ∧
      t1.td.lcf = demo_bottom.td.lcf) ∧
    (demo_bottom.td.cursor_drawn = false →
      (xansi_erase_cursor demo_bottom).hw.vram = demo_bottom.hw.vram)) :=
  ⟨by decide, by decide, by decide, by decide, by decide, by decide,
    C16_erase_display demo_bottom (by decide) (by decide) (by decide) (by decide) (by decide)
      (by decide)⟩

/-- C16, the counterexamples on the 80 by 30 grid of the 640 by 480 adapter.
After the letters `AB` the cursor is at `(2, 0)` with `lcf` false, and
`CSI 0 J` blanks the cell at address 0, which holds `A` and lies before the
cursor.  After `ABC` and `CSI 1;2 H` the cursor is at `(1, 0)` with `lcf`
false, and `CSI 1 J` blanks the cell at address 2, which holds `C` and lies
after the cursor. -/
theorem C16_erase_takes_whole_rows :
    (∃ t t1, Reachable t ∧ (t.td.x, t.td.y, t.td.lcf, t.td.vram_base, t.hw.vram 0) =
        (2, 0, false, 0, 0x0241) ∧
      feed t [0x1B, 0x5B, 0x30, 0x4A] = some t1 ∧ t1.hw.vram 0 = 0x0220) ∧
    (∃ t t1, Reachable t ∧ (t.td.x, t.td.y, t.td.lcf, t.td.vram_base, t.hw.vram 2) =
        (1, 0, false, 0, 0x0243) ∧
      feed t [0x1B, 0x5B, 0x31, 0x4A] = some t1 ∧ t1.hw.vram 2 = 0x0220) :=
  ⟨boot_then [0x41, 0x42] [0x1B, 0x5B, 0x30, 0x4A] _ _ _ _ _ _ (by decide!) (by decide!)
      (by decide!),
    boot_then [0x41, 0x42, 0x43, 0x1B, 0x5B, 0x31, 0x3B, 0x32, 0x48] [0x1B, 0x5B, 0x31, 0x4A]
      _ _ _ _ _ _ (by decide!) (by decide!) (by decide!)⟩

/-! ## Intermediate bytes -/

theorem intermediate_class : ∀ b, b < 256 → (0x21 ≤ b ∧ b ≤ 0x2F) →
    (¬ b &&& 0x7f = 0x1b) ∧ ¬ schar b ≤ 0x20 ∧ u8 (b &&& 0xf0) = 0x20 := by
  decide!

/-- A byte of the intermediate range `0x21..0x2F` in CSI state is stored as
the intermediate char, whatever was stored before. -/
theorem putchar_intermediate (t : Term) (b : Nat) (hs : t.td.state = TSTATE_CSI)
    (h1 : 0x21 ≤ b) (h2 : b ≤ 0x2F) :
    xansiterm_putchar t b =
      some { td := { t.td with cursor_drawn := false, intermediate_char := b },
             hw := (xansi_erase_cursor t).hw } := by
  obtain ⟨c1, c2, c3⟩ := intermediate_class b (by omega) ⟨h1, h2⟩
  have hs' : t.td.state = 3 := hs
  have n1 : b ≠ 0x18 := by omega
  have n2 : b ≠ 0x1A := by omega
  have n3 : b ≠ 0x7f := by omega
  unfold xansiterm_putchar
  simp only [c1, if_false, erase_cursor_td, hs', n1, n2, or_self]
  simp only [TSTATE_CSI, TSTATE_NORMAL, TSTATE_ESC, if_true]
  unfold xansi_parse_csi
  simp [c2, c3, n3, erase_cursor_td, hs']

/-- C30, as amended: in CSI state, with an intermediate byte already stored or
not, a byte `b` of the intermediate range `0x21..0x2F` replaces the stored
intermediate char (it becomes `b`) and leaves the state CSI; the parameters
collected so far are kept. -/
theorem C30_second_intermediate (t : Term) (b : Nat) (hs : t.td.state = TSTATE_CSI)
    (h1 : 0x21 ≤ b) (h2 : b ≤ 0x2F) :
    ∃ t1, xansiterm_putchar t b = some t1 ∧ t1.td.intermediate_char = b ∧
      t1.td.state = TSTATE_CSI ∧ t1.td.num_parms = t.td.num_parms ∧
      t1.td.csi_parms = t.td.csi_parms :=
  ⟨_, putchar_intermediate t b hs h1 h2, rfl, hs, rfl, rfl⟩

/-- C30 at a concrete input: `"` after `CSI !` on the 80 by 30 terminal. -/
theorem C30_second_intermediate_witness :
    demo_intermediate.td.state = TSTATE_CSI ∧ (0x21 : Nat) ≤ 0x22 ∧ (0x22 : Nat) ≤ 0x2F ∧
    ∃ t1, xansiterm_putchar demo_intermediate 0x22 = some t1 ∧ t1.td.intermediate_char = 0x22 ∧
      t1.td.state = TSTATE_CSI ∧ t1.td.num_parms = demo_intermediate.td.num_parms ∧
      t1.td.csi_parms = demo_intermediate.td.csi_parms :=
  ⟨by decide, by decide, by decide,
    C30_second_intermediate demo_intermediate 0x22 (by decide) (by decide) (by decide)⟩

/-- C30, the counterexamples, on the 640 by 480 adapter.  After `CSI !` the
parser is in CSI state with the intermediate char `!` (0x21) stored; the byte
`"` (0x22) leaves the state CSI and the stored intermediate char equal to
0x22, not to the first one.  After `CSI ?` the stored char is `?` (0x3F); the
byte `!` replaces it. -/
theorem C30_second_intermediate_replaces_first :
    (∃ t t1, Reachable t ∧ (t.td.state, t.td.intermediate_char) = (TSTATE_CSI, 0x21) ∧
      feed t [0x22] = some t1 ∧ (t1.td.state, t1.td.intermediate_char) = (TSTATE_CSI, 0x22)) ∧
    (∃ t t1, Reachable t ∧ (t.td.state, t.td.intermediate_char) = (TSTATE_CSI, 0x3F) ∧
      feed t [0x21] = some t1 ∧ (t1.td.state, t1.td.intermediate_char) = (TSTATE_CSI, 0x21)) :=
  ⟨boot_then [0x1B, 0x5B, 0x21] _ _ _ _ _ _ _ (by decide!) (by decide!) (by decide!),
    boot_then [0x1B, 0x5B, 0x3F] _ _ _ _ _ _ _ (by decide!) (by decide!) (by decide!)⟩

/-! ## ESC and the 8-bit CSI in the middle of a sequence -/

/-- What `xansi_drawchar` leaves in video memory: the cell at the cursor
address, after a deferred wrap is resolved, takes the glyph. -/
theorem drawchar_vram (t : Term) (b : Nat) :
    (xansi_drawchar t b).hw.vram = fun a =>
      if a = u16 (xansi_check_lcf t).td.cur_addr then u8 t.td.color * 256 + u8 b
      else (xansi_check_lcf t).hw.vram a := by
  have hcol : (xansi_check_lcf t).td.color = t.td.color := by rw [check_lcf_frame]; rfl
  have h : (xansi_drawchar t b).hw =
      xm_setbl_DATA b (xm_setbh_DATA (xansi_check_lcf t).td.color
        (xm_setw .WR_ADDR (xansi_check_lcf t).td.cur_addr (xansi_check_lcf t).hw)) := by
    unfold xansi_drawchar
    dsimp only
    split
    · split
      · rfl
      · rfl
    · rfl
  rw [h, draw_hw_vram, hcol]

theorem drawchar_state (t : Term) (b : Nat) : (xansi_drawchar t b).td.state = t.td.state := by
  rw [drawchar_frame]; rfl

/-- ESC or the 8-bit CSI in ESC or CSI state with passthrough on is drawn. -/
theorem putchar_esc_drawn (t : Term) (b : Nat) (hb : b = 0x1B ∨ b = 0x9B)
    (hs : t.td.state = TSTATE_ESC ∨ t.td.state = TSTATE_CSI)
    (hp : t.td.flags &&& TFLAG_ATTRIB_PASSTHRU ≠ 0) :
    xansiterm_putchar t b = some (xansi_drawchar
      { td := { t.td with cursor_drawn := false, state := TSTATE_NORMAL },
        hw := (xansi_erase_cursor t).hw } b) := by
  have e : b &&& 0x7f = 0x1b := by rcases hb with h | h <;> subst h <;> decide
  have hs2 : t.td.state ≥ TSTATE_ESC := by
    rcases hs with h | h <;> simp [h, TSTATE_ESC, TSTATE_CSI]
  unfold xansiterm_putchar
  simp only [e, if_true, erase_cursor_td, hs2, hp, ne_eq, not_false_eq_true, and_self]
  unfold xansi_processchar
  simp [hp]

/-- ESC or the 8-bit CSI with passthrough off starts a sequence. -/
theorem putchar_esc_starts (t : Term) (b : Nat) (hb : b = 0x1B ∨ b = 0x9B)
    (hp : t.td.flags &&& TFLAG_ATTRIB_PASSTHRU = 0) :
    xansiterm_putchar t b = some
      { td := { t.td with cursor_drawn := false,
                          state := if b = 0x1B then TSTATE_ESC else TSTATE_CSI,
                          intermediate_char := 0, num_parms := 0,
                          csi_parms := List.replicate MAX_CSI_PARMS 0 },
        hw := (xansi_erase_cursor t).hw } := by
  have e : b &&& 0x7f = 0x1b := by rcases hb with h | h <;> subst h <;> decide
  unfold xansiterm_putchar
  simp only [e, if_true, erase_cursor_td, hp, ne_eq, not_true_eq_false, and_false, if_false]
  simp [xansi_begin_csi_or_esc, erase_cursor_td]

/-- C29: in ESC or CSI state with the passthrough flag set, the byte ESC
(0x1B) or 0x9B is drawn as a glyph in the effective colour at the cursor (the
cell at `cur_addr`, after a deferred wrap is resolved when one is pending) and
the state is NORMAL afterwards; with the passthrough flag clear, in any state,
the byte starts a sequence: the state becomes ESC for 0x1B and CSI for 0x9B,
the intermediate char is 0, `num_parms` is 0, all 16 parameter slots are 0 and
no cell is drawn (the adapter is as the removal of the input cursor leaves
it). -/
theorem C29_esc_mid_sequence (t : Term) (b : Nat) (hb : b = 0x1B ∨ b = 0x9B)
    (hc : t.td.color < 256) :
    (((t.td.state = TSTATE_ESC ∨ t.td.state = TSTATE_CSI) ∧
        t.td.flags &&& TFLAG_ATTRIB_PASSTHRU ≠ 0) →
      ∃ t1, xansiterm_putchar t b = some t1 ∧ t1.td.state = TSTATE_NORMAL ∧
        t1.hw.vram (u16 (xansi_check_lcf (xansi_erase_cursor t)).td.cur_addr) =
          t.td.color * 256 + b ∧
        (t.td.lcf = false →
          t1.hw.vram (u16 t.td.cur_addr) = t.td.color * 256 + b ∧
          ∀ a, a ≠ u16 t.td.cur_addr → t1.hw.vram a = t.hw.vram a)) ∧
    (t.td.flags &&& TFLAG_ATTRIB_PASSTHRU = 0 →
      ∃ t1, xansiterm_putchar t b = some t1 ∧
        t1.td.state = (if b = 0x1B then TSTATE_ESC else TSTATE_CSI) ∧
        t1.td.intermediate_char = 0 ∧ t1.td.num_parms = 0 ∧
        t1.td.csi_parms.length = 16 ∧ (∀ j, j < 16 → arr_get t1.td.csi_parms j = 0) ∧
        t1.hw = (xansi_erase_cursor t).hw ∧ (t.td.cursor_drawn = false → t1.hw = t.hw)) := by
  have hb8 : u8 b = b := u8_of_lt b (by rcases hb with h | h <;> subst h <;> decide)
  have hc8 : u8 t.td.color = t.td.color := u8_of_lt _ hc
  constructor
  · rintro ⟨hs, hp⟩
    obtain ⟨T, hT⟩ : ∃ T : Term, T =
        { td := { t.td with cursor_drawn := false, state := TSTATE_NORMAL },
          hw := (xansi_erase_cursor t).hw } := ⟨_, rfl⟩
    have hlcf : xansi_check_lcf T =
        { td := { (xansi_check_lcf (xansi_erase_cursor t)).td with state := TSTATE_NORMAL },
          hw := (xansi_check_lcf (xansi_erase_cursor t)).hw } := by
      rw [hT]
      conv_rhs => rw [erase_cursor_eta t]
      unfold xansi_check_lcf
      dsimp only
      split
      · split
        · rfl
        · rfl
      · rfl
    have hcur : (xansi_check_lcf T).td.cur_addr =
        (xansi_check_lcf (xansi_erase_cursor t)).td.cur_addr := by rw [hlcf]
    have hcolT : T.td.color = t.td.color := by rw [hT]
    refine ⟨_, putchar_esc_drawn t b hb hs hp, ?_, ?_, ?_⟩
    · rw [← hT, drawchar_state, hT]
    · rw [← hT, drawchar_vram, hcur, hcolT, hc8, hb8]
      simp
    · intro hl
      have hnl : xansi_check_lcf T = T := by
        unfold xansi_check_lcf
        rw [if_neg (by rw [hT]; simp [hl])]
      have hTcur : T.td.cur_addr = t.td.cur_addr := by rw [hT]
      have hThw : T.hw = (xansi_erase_cursor t).hw := by rw [hT]
      rw [← hT, drawchar_vram, hnl, hTcur, hcolT, hc8, hb8, hThw]
      refine ⟨by simp, ?_⟩
      intro a ha
      simp only [ha, if_false]
      exact erase_cursor_vram t a ha
  · intro hp
    refine ⟨_, putchar_esc_starts t b hb hp, rfl, rfl, rfl, rfl, ?_, rfl, ?_⟩
    · intro j _
      exact arr_get_zeros _ j
    · intro hd
      rw [erase_cursor_of_not_drawn t hd]

/-- C29 at concrete inputs: ESC on the 80 by 30 terminal in CSI state with
passthrough on (the byte is drawn), and the 8-bit CSI on the same terminal in
NORMAL state with passthrough off (a sequence starts). -/
theorem C29_esc_mid_sequence_witness :
    (((0x1B : Nat) = 0x1B ∨ (0x1B : Nat) = 0x9B) ∧ demo_passthru.td.color < 256 ∧
      ((demo_passthru.td.state = TSTATE_ESC ∨ demo_passthru.td.state = TSTATE_CSI) ∧
        demo_passthru.td.flags &&& TFLAG_ATTRIB_PASSTHRU ≠ 0) ∧
      ∃ t1, xansiterm_putchar demo_passthru 0x1B = some t1 ∧ t1.td.state = TSTATE_NORMAL ∧
        t1.hw.vram (u16 (xansi_check_lcf (xansi_erase_cursor demo_passthru)).td.cur_addr) =
          demo_passthru.td.color * 256 + 0x1B ∧
        (demo_passthru.td.lcf = false →
          t1.hw.vram (u16 demo_passthru.td.cur_addr) = demo_passthru.td.color * 256 + 0x1B ∧
          ∀ a, a ≠ u16 demo_passthru.td.cur_addr → t1.hw.vram a = demo_passthru.hw.vram a)) ∧
    (((0x9B : Nat) = 0x1B ∨ (0x9B : Nat) = 0x9B) ∧ demo_term.td.color < 256 ∧
      demo_term.td.flags &&& TFLAG_ATTRIB_PASSTHRU = 0 ∧
      ∃ t1, xansiterm_putchar demo_term 0x9B = some t1 ∧
        t1.td.state = (if (0x9B : Nat) = 0x1B then TSTATE_ESC else TSTATE_CSI) ∧
        t1.td.intermediate_char = 0 ∧ t1.td.num_parms = 0 ∧
        t1.td.csi_parms.length = 16 ∧ (∀ j, j < 16 → arr_get t1.td.csi_parms j = 0) ∧
        t1.hw = (xansi_erase_cursor demo_term).hw ∧
        (demo_term.td.cursor_drawn = false → t1.hw = demo_term.hw)) :=
  ⟨⟨by decide, by decide, by decide,
      (C29_esc_mid_sequence demo_passthru 0x1B (by decide) (by decide)).1 (by decide)⟩,
    ⟨by decide, by decide, by decide,
      (C29_esc_mid_sequence demo_term 0x9B (by decide) (by decide)).2 (by decide)⟩⟩

/-! ## TAB and NEL: failing inputs -/

/-- A reachable state on any adapter and what one more input leaves, by
evaluation. -/
theorem boot_then_on (hw : Xosera) (c r : Nat) (pre bytes : List Nat) (α β : Type)
    (f : Term → α) (g : Term → β) (a : α) (b : β) (hc : 0 < c) (hr : 0 < r)
    (h0 : (xansiterm_init hw).map (fun t => (t.td.cols, t.td.rows)) = some (c, r))
    (h1 : (boot hw pre).map f = some a)
    (h2 : (boot hw (pre ++ bytes)).map g = some b) :
    ∃ t t1, Reachable t ∧ f t = a ∧ feed t bytes = some t1 ∧ g t1 = b := by
  obtain ⟨t1, ht1, hv1⟩ := of_map_eq_some _ _ _ h2
  obtain ⟨t, ht, hfeed⟩ := boot_split _ _ _ t1 ht1
  obtain ⟨t', ht', hv⟩ := of_map_eq_some _ _ _ h1
  rw [ht] at ht'
  cases ht'
  exact ⟨t, t1, boot_reachable _ _ t c r hc hr h0 ht, hv, hfeed, hv1⟩

/-- C25, the failing inputs, on the 106 by 30 grid that `xansiterm_init`
sets up on the adapter in its 848 by 480 mode.  With the cursor at column 104
(after `CSI 1;105 H`), in NORMAL state with passthrough off, TAB leaves the
cursor at column 112 of the same row, outside the grid: the next multiple of
8 is `nx = 112 >= cols`, the claim has the cursor at column 0 of the next row
and `x < cols`.  With the cursor at column 96 (after `CSI 1;97 H`) TAB leaves
it at column 0 of row 1, while `nx = 104 < cols` and the claim has it at
column 104 of row 0. -/
theorem C25_tab_leaves_the_grid :
    (∃ t t1, Reachable t ∧
      (t.td.state, t.td.flags &&& TFLAG_ATTRIB_PASSTHRU, t.td.cols, t.td.x, t.td.y) =
        (TSTATE_NORMAL, 0, 106, 104, 0) ∧
      feed t [0x09] = some t1 ∧ (t1.td.x, t1.td.y, t1.td.cols) = (112, 0, 106)) ∧
    (∃ t t1, Reachable t ∧
      (t.td.state, t.td.flags &&& TFLAG_ATTRIB_PASSTHRU, t.td.cols, t.td.x, t.td.y) =
        (TSTATE_NORMAL, 0, 106, 96, 0) ∧
      feed t [0x09] = some t1 ∧ (t1.td.x, t1.td.y, t1.td.cols) = (0, 1, 106)) :=
  ⟨boot_then_on (adapter 848 480) 106 30 [0x1B, 0x5B, 0x31, 0x3B, 0x31, 0x30, 0x35, 0x48]
      _ _ _ _ _ _ _ (by decide) (by decide) (by decide!) (by decide!) (by decide!),
    boot_then_on (adapter 848 480) 106 30 [0x1B, 0x5B, 0x31, 0x3B, 0x39, 0x37, 0x48]
      _ _ _ _ _ _ _ (by decide) (by decide) (by decide!) (by decide!) (by decide!)⟩

/-- C28, the failing inputs, on the 640 by 480 adapter.  On the 80 by 30 grid
with the cursor on the bottom row (after `A` and `CSI 99 B`: column 1, row
29), `ESC E` leaves `y = 30 = rows`, outside the grid, and does not scroll (the
`A` is still in the cell at address 0); the claim has the grid scrolled and
`y = 29`.  On a 20 by 30 grid (after `CSI 68;0;1;20 m` and `ESC c`) with the
cursor on row 19, above the bottom row 29 (after `A` and `CSI 19 B`), `ESC E`
scrolls the grid up (the `A` at address 0 is gone) and leaves `y = 19`; the
claim has `y = 20` and no scroll.  The row is compared with `cols`. -/
theorem C28_next_line_tests_the_column_count :
    (∃ t t1, Reachable t ∧
      (t.td.cols, t.td.rows, t.td.x, t.td.y, t.hw.vram 0) = (80, 30, 1, 29, 0x0241) ∧
      feed t [0x1B, 0x45] = some t1 ∧
      (t1.td.x, t1.td.y, t1.td.rows, t1.td.lcf, t1.hw.vram 0) = (0, 30, 30, false, 0x0241)) ∧
    (∃ t t1, Reachable t ∧
      (t.td.cols, t.td.rows, t.td.x, t.td.y, t.hw.vram 0) = (20, 30, 1, 19, 0x0241) ∧
      feed t [0x1B, 0x45] = some t1 ∧
      (t1.td.x, t1.td.y, t1.td.rows, t1.td.lcf, t1.hw.vram 0) = (0, 19, 30, false, 0x0220)) :=
  ⟨boot_then [0x41, 0x1B, 0x5B, 0x39, 0x39, 0x42] _ _ _ _ _ _ _ (by decide!) (by decide!)
      (by decide!),
    boot_then
      [0x1B, 0x5B, 0x36, 0x38, 0x3B, 0x30, 0x3B, 0x31, 0x3B, 0x32, 0x30, 0x6D, 0x1B, 0x63,
        0x41, 0x1B, 0x5B, 0x31, 0x39, 0x42]
      _ _ _ _ _ _ _ (by decide!) (by decide!) (by decide!)⟩

/-! ## Parameters after an indexed colour -/

theorem sgr_effective_flags (td : xansiterm_data) : (sgr_effective td).flags = td.flags := rfl

theorem sgr_effective_cur_color (td : xansiterm_data) :
    (sgr_effective td).cur_color = td.cur_color := rfl

/-- The sequences `CSI 38;5;n;... m` and `CSI 48;5;n;... m` with any further
parameters after the colour index: the loop over the parameters ends with the
38 or 48, the further parameters are not looked at. -/
theorem feed_indexed_tail (t : Term) (bg : Bool) (ds : List Nat) (tail : List (List Nat))
    (hstart : starts_sequence t.td)
    (hdig : ∀ d ∈ ds, is_digit d) (hval : decimal_value ds ≤ 65535)
    (htail : ∀ v ∈ tail, (∀ d ∈ v, is_digit d) ∧ decimal_value v ≤ 65535)
    (hlen : tail.length + 3 < 16) :
    ∃ t1, feed t (0x1B :: 0x5B ::
        (sep_values ([if bg then 0x34 else 0x33, 0x38] :: [0x35] :: ds :: tail) ++ [0x6D])) =
          some t1 ∧
      t1.td.flags = t.td.flags ∧
      t1.td.cur_color =
        if bg then
          u8 (t.td.cur_color &&& 0x0f) |||
            u8 ((if u8 (decimal_value ds &&& 0xf) < 8 then
              arr_get ansi_to_vga_color (u8 (decimal_value ds &&& 0xf))
             else u8 (decimal_value ds &&& 0xf)) <<< 4)
        else
          u8 (t.td.cur_color &&& 0xf0) |||
            (if u8 (decimal_value ds &&& 0xf) < 8 then
              arr_get ansi_to_vga_color (u8 (decimal_value ds &&& 0xf))
             else u8 (decimal_value ds &&& 0xf)) := by
  have hv : ∀ v ∈ [if bg then 0x34 else 0x33, 0x38] :: [0x35] :: ds :: tail,
      (∀ d ∈ v, is_digit d) ∧ decimal_value v ≤ 65535 := by
    intro v hv
    simp only [List.mem_cons] at hv
    rcases hv with h | h | h | h
    · subst h; cases bg <;> decide
    · subst h; decide
    · subst h; exact ⟨hdig, hval⟩
    · exact htail v h
  obtain ⟨T, hfeed, _, htd, hget⟩ := csi_sequence t [if bg then 0x34 else 0x33, 0x38]
    ([0x35] :: ds :: tail) 0x6D hstart (by simp) hv (by simp only [List.length_cons]; omega)
    (by decide) (by decide)
  obtain ⟨T', hT'⟩ : ∃ T' : Term, T' = { T with td := { T.td with state := TSTATE_NORMAL } } :=
    ⟨_, rfl⟩
  have hnum : T'.td.num_parms = tail.length + 3 := by
    rw [hT']; simp only; rw [htd]; simp only [List.length_cons]
  have hparm : T'.td.csi_parms = T.td.csi_parms := by rw [hT']
  have hcur : T'.td.cur_color = t.td.cur_color := by rw [hT']; simp only; rw [htd]
  have hfl : T'.td.flags = t.td.flags := by rw [hT']; simp only; rw [htd]
  have g0 : arr_get T'.td.csi_parms 0 = if bg then 48 else 38 := by
    rw [hparm, hget 0]; cases bg <;> rfl
  have g1 : arr_get T'.td.csi_parms (0 + 1) = 5 := by rw [hparm, hget (0 + 1)]; rfl
  have g2 : arr_get T'.td.csi_parms (0 + 2) = decimal_value ds := by
    rw [hparm, hget (0 + 2)]; rfl
  have hdone : ¬ u16 (T'.td.num_parms + 1) < T'.td.num_parms := by
    rw [hnum]; unfold u16; omega
  rw [hfeed, process_csi_sgr, ← hT', xansi_sgr_first T' (by omega)]
  cases bg with
  | false =>
    simp only [Bool.false_eq_true, if_false] at g0 ⊢
    rw [sgr_step_38 T' 0 g0 g1 (by omega)]
    rw [sgr_loop_done _ _ _ (by show ¬ u16 (T'.td.num_parms + 1) < T'.td.num_parms; exact hdone)]
    refine ⟨_, rfl, ?_, ?_⟩
    · show T'.td.flags = _
      exact hfl
    · show u8 (T'.td.cur_color &&& 0xf0) ||| _ = _
      rw [g2, hcur]
  | true =>
    simp only [if_true] at g0 ⊢
    rw [sgr_step_48 T' 0 g0 g1 (by omega)]
    rw [sgr_loop_done _ _ _ (by show ¬ u16 (T'.td.num_parms + 1) < T'.td.num_parms; exact hdone)]
    refine ⟨_, rfl, ?_, ?_⟩
    · show T'.td.flags = _
      exact hfl
    · show u8 (T'.td.cur_color &&& 0x0f) ||| _ = _
      rw [g2, hcur]

/-- C21, as amended: for every `n` in `0..65535`, written as any string of
decimal digits, and every state in which ESC starts a sequence: in
`CSI 38;5;n;7 m` and in `CSI 48;5;n;7 m` the colour index is taken (as in
`CSI 38;5;n m`) and the trailing parameter 7 is not processed: the flags are
what they were, so the reverse flag is set afterwards only if it was set
before.  SGR 38 and 48 end the processing of the parameter list. -/
theorem C21_indexed_colour_ends_the_list (t : Term) (n : Nat)
    (hstart : starts_sequence t.td) (hn : n ≤ 65535) (hc : t.td.cur_color < 256) :
    (∃ ds, (∀ d ∈ ds, is_digit d) ∧ decimal_value ds = n) ∧
    ∀ ds, (∀ d ∈ ds, is_digit d) → decimal_value ds = n →
      (∃ t1, feed t (0x1B :: 0x5B :: ([0x33, 0x38, 0x3B, 0x35, 0x3B] ++ ds ++
          [0x3B, 0x37, 0x6D])) = some t1 ∧
        t1.td.flags = t.td.flags ∧
        (t.td.flags &&& TFLAG_ATTRIB_REVERSE = 0 → t1.td.flags &&& TFLAG_ATTRIB_REVERSE = 0) ∧
        t1.td.cur_color &&& 0x0f =
          (if n &&& 0xf < 8 then arr_get ansi_to_vga_color (n &&& 0xf) else n &&& 0xf) ∧
        t1.td.cur_color >>> 4 = t.td.cur_color >>> 4) ∧
      (∃ t1, feed t (0x1B :: 0x5B :: ([0x34, 0x38, 0x3B, 0x35, 0x3B] ++ ds ++
          [0x3B, 0x37, 0x6D])) = some t1 ∧
        t1.td.flags = t.td.flags ∧
        (t.td.flags &&& TFLAG_ATTRIB_REVERSE = 0 → t1.td.flags &&& TFLAG_ATTRIB_REVERSE = 0) ∧
        t1.td.cur_color >>> 4 =
          (if n &&& 0xf < 8 then arr_get ansi_to_vga_color (n &&& 0xf) else n &&& 0xf) ∧
        t1.td.cur_color &&& 0x0f = t.td.cur_color &&& 0x0f) := by
  refine ⟨decimal_digits_exist n, ?_⟩
  intro ds hdig hv
  obtain ⟨i1, i2, i3⟩ := index_facts n
  obtain ⟨nf, nb⟩ := nibble_facts t.td.cur_color hc _ i3
  have htail : ∀ v ∈ [[0x37]], (∀ d ∈ v, is_digit d) ∧ decimal_value v ≤ 65535 := by
    intro v hv
    simp only [List.mem_singleton] at hv
    subst hv
    decide
  have eb : ∀ a : Nat, (0x1B :: 0x5B :: ([a, 0x38, 0x3B, 0x35, 0x3B] ++ ds ++
      [0x3B, 0x37, 0x6D])) =
      0x1B :: 0x5B :: (sep_values ([a, 0x38] :: [0x35] :: ds :: [[0x37]]) ++ [0x6D]) := by
    intro a
    simp [sep_values]
  constructor
  · obtain ⟨t1, h1, hfl, hcol⟩ := feed_indexed_tail t false ds [[0x37]] hstart hdig
      (by rw [hv]; exact hn) htail (by decide)
    simp only [Bool.false_eq_true, if_false] at h1 hcol
    rw [hv, i1] at hcol
    exact ⟨t1, by rw [eb]; exact h1, hfl, by intro h; rw [hfl]; exact h,
      by rw [hcol]; exact nf.1, by rw [hcol]; exact nf.2⟩
  · obtain ⟨t1, h1, hfl, hcol⟩ := feed_indexed_tail t true ds [[0x37]] hstart hdig
      (by rw [hv]; exact hn) htail (by decide)
    simp only [if_true] at h1 hcol
    rw [hv, i1] at hcol
    exact ⟨t1, by rw [eb]; exact h1, hfl, by intro h; rw [hfl]; exact h,
      by rw [hcol]; exact nb.1, by rw [hcol]; exact nb.2⟩

/-- C21 at a concrete input: the index 1 on the 80 by 30 terminal. -/
theorem C21_indexed_colour_ends_the_list_witness :
    starts_sequence demo_term.td ∧ (1 : Nat) ≤ 65535 ∧ demo_term.td.cur_color < 256 ∧
    ((∃ ds, (∀ d ∈ ds, is_digit d) ∧ decimal_value ds = 1) ∧
    ∀ ds, (∀ d ∈ ds, is_digit d) → decimal_value ds = 1 →
      (∃ t1, feed demo_term (0x1B :: 0x5B :: ([0x33, 0x38, 0x3B, 0x35, 0x3B] ++ ds ++
          [0x3B, 0x37, 0x6D])) = some t1 ∧
        t1.td.flags = demo_term.td.flags ∧
        (demo_term.td.flags &&& TFLAG_ATTRIB_REVERSE = 0 →
          t1.td.flags &&& TFLAG_ATTRIB_REVERSE = 0) ∧
        t1.td.cur_color &&& 0x0f =
          (if 1 &&& 0xf < 8 then arr_get ansi_to_vga_color (1 &&& 0xf) else 1 &&& 0xf) ∧
        t1.td.cur_color >>> 4 = demo_term.td.cur_color >>> 4) ∧
      (∃ t1, feed demo_term (0x1B :: 0x5B :: ([0x34, 0x38, 0x3B, 0x35, 0x3B] ++ ds ++
          [0x3B, 0x37, 0x6D])) = some t1 ∧
        t1.td.flags = demo_term.td.flags ∧
        (demo_term.td.flags &&& TFLAG_ATTRIB_REVERSE = 0 →
          t1.td.flags &&& TFLAG_ATTRIB_REVERSE = 0) ∧
        t1.td.cur_color >>> 4 =
          (if 1 &&& 0xf < 8 then arr_get ansi_to_vga_color (1 &&& 0xf) else 1 &&& 0xf) ∧
        t1.td.cur_color &&& 0x0f = demo_term.td.cur_color &&& 0x0f)) :=
  ⟨by decide, by decide, by decide,
    C21_indexed_colour_ends_the_list demo_term 1 (by decide) (by decide) (by decide)⟩

/-- C21, the counterexample, on the 640 by 480 adapter: after
`xansiterm_init`, `CSI 38;5;1;7 m` and `CSI 48;5;1;7 m` leave the reverse
flag clear (and the effective colour unreversed, `0x04` and `0x42`), while
`CSI 7 m` alone sets it. -/
theorem C21_trailing_parameter_is_dropped :
    (∃ t t1 t2, Reachable t ∧
      feed t [0x1B, 0x5B, 0x33, 0x38, 0x3B, 0x35, 0x3B, 0x31, 0x3B, 0x37, 0x6D] = some t1 ∧
      (t1.td.flags &&& TFLAG_ATTRIB_REVERSE, t1.td.cur_color, t1.td.color) = (0, 0x04, 0x04) ∧
      feed t [0x1B, 0x5B, 0x37, 0x6D] = some t2 ∧
      t2.td.flags &&& TFLAG_ATTRIB_REVERSE = TFLAG_ATTRIB_REVERSE) ∧
    (∃ t t1, Reachable t ∧ t.td.flags &&& TFLAG_ATTRIB_REVERSE = 0 ∧
      feed t [0x1B, 0x5B, 0x34, 0x38, 0x3B, 0x35, 0x3B, 0x31, 0x3B, 0x37, 0x6D] = some t1 ∧
      (t1.td.flags &&& TFLAG_ATTRIB_REVERSE, t1.td.cur_color, t1.td.color) = (0, 0x42, 0x42)) :=
  ⟨boot_then2 [] _ _ _ _ _ _ _ _ (by decide!) (by decide!) (by decide!),
    boot_then [] _ _ _ _ _ _ _ (by decide!) (by decide!) (by decide!)⟩

/-! ## The light colours 90..97 and 100..107 -/

/-- The sequence `CSI 9k m` for `k` in `0..7`. -/
theorem feed_sgr_light_fg (t : Term) (k : Nat) (hk : k < 8) (hstart : starts_sequence t.td) :
    ∃ t1, feed t [0x1B, 0x5B, 0x39, 0x30 + k, 0x6D] = some t1 ∧
      t1.td.flags = t.td.flags ∧
      t1.td.cur_color = u8 (t.td.cur_color &&& 0xf0) ||| (arr_get ansi_to_vga_color k + 8) ∧
      t1.td.color = (sgr_effective { t.td with
        cur_color := u8 (t.td.cur_color &&& 0xf0) ||| (arr_get ansi_to_vga_color k + 8) }).color := by
  rw [feed_csi t _ hstart]
  simp only [feed]
  rw [putchar_digit _ 0x39 rfl rfl (by decide)]
  simp only [Option.some_bind]
  rw [putchar_digit _ (0x30 + k) rfl rfl (by unfold is_digit; omega)]
  simp only [Option.some_bind]
  rw [putchar_csi_final _ 0x6D rfl rfl (by decide) (by decide)]
  interval_cases k <;>
    simp [xansi_process_csi, xansi_sgr, sgr_loop, sgr_step, arr_get, arr_set, MAX_CSI_PARMS, u16,
      xansi_calc_cur_addr, sgr_effective, ansi_to_vga_color, u8]

/-- The sequence `CSI 10k m` for `k` in `0..7`. -/
theorem feed_sgr_light_bg (t : Term) (k : Nat) (hk : k < 8) (hstart : starts_sequence t.td) :
    ∃ t1, feed t [0x1B, 0x5B, 0x31, 0x30, 0x30 + k, 0x6D] = some t1 ∧
      t1.td.flags = t.td.flags ∧
      t1.td.cur_color =
        u8 (t.td.cur_color &&& 0x0f) ||| u8 ((arr_get ansi_to_vga_color k + 8) <<< 4) ∧
      t1.td.color = (sgr_effective { t.td with
        cur_color :=
          u8 (t.td.cur_color &&& 0x0f) ||| u8 ((arr_get ansi_to_vga_color k + 8) <<< 4) }).color := by
  rw [feed_csi t _ hstart]
  simp only [feed]
  rw [putchar_digit _ 0x31 rfl rfl (by decide)]
  simp only [Option.some_bind]
  rw [putchar_digit _ 0x30 rfl rfl (by decide)]
  simp only [Option.some_bind]
  rw [putchar_digit _ (0x30 + k) rfl rfl (by unfold is_digit; omega)]
  simp only [Option.some_bind]
  rw [putchar_csi_final _ 0x6D rfl rfl (by decide) (by decide)]
  interval_cases k <;>
    simp [xansi_process_csi, xansi_sgr, sgr_loop, sgr_step, arr_get, arr_set, MAX_CSI_PARMS, u16,
      xansi_calc_cur_addr, sgr_effective, ansi_to_vga_color, u8]

theorem light_fg_facts : ∀ c, c < 256 → ∀ k, k < 8 →
    ((u8 (c &&& 0xf0) ||| (arr_get ansi_to_vga_color k + 8)) &&& 0x0f =
        arr_get ansi_to_vga_color k ||| 0x08 ∧
      bic8 (u8 (c &&& 0xf0) ||| (arr_get ansi_to_vga_color k + 8)) 0x08 &&& 0x0f =
        arr_get ansi_to_vga_color k ∧
      u8 ((u8 (c &&& 0xf0) ||| (arr_get ansi_to_vga_color k + 8)) ||| 0x08) &&& 0x0f =
        arr_get ansi_to_vga_color k ||| 0x08 ∧
      u8 (bic8 (u8 (c &&& 0xf0) ||| (arr_get ansi_to_vga_color k + 8)) 0x08 ||| 0x08) &&& 0x0f =
        arr_get ansi_to_vga_color k ||| 0x08) ∧
    ((u8 (c &&& 0xf0) ||| (arr_get ansi_to_vga_color k + 8)) >>> 4 = c >>> 4 ∧
      bic8 (u8 (c &&& 0xf0) ||| (arr_get ansi_to_vga_color k + 8)) 0x08 >>> 4 = c >>> 4 ∧
      u8 ((u8 (c &&& 0xf0) ||| (arr_get ansi_to_vga_color k + 8)) ||| 0x08) >>> 4 = c >>> 4 ∧
      u8 (bic8 (u8 (c &&& 0xf0) ||| (arr_get ansi_to_vga_color k + 8)) 0x08 ||| 0x08) >>> 4 =
        c >>> 4) := by
  decide!

theorem light_bg_facts : ∀ c, c < 256 → ∀ k, k < 8 →
    ((u8 (c &&& 0x0f) ||| u8 ((arr_get ansi_to_vga_color k + 8) <<< 4)) >>> 4 =
        arr_get ansi_to_vga_color k ||| 0x08 ∧
      bic8 (u8 (c &&& 0x0f) ||| u8 ((arr_get ansi_to_vga_color k + 8) <<< 4)) 0x08 >>> 4 =
        arr_get ansi_to_vga_color k ||| 0x08 ∧
      u8 ((u8 (c &&& 0x0f) ||| u8 ((arr_get ansi_to_vga_color k + 8) <<< 4)) ||| 0x08) >>> 4 =
        arr_get ansi_to_vga_color k ||| 0x08 ∧
      u8 (bic8 (u8 (c &&& 0x0f) ||| u8 ((arr_get ansi_to_vga_color k + 8) <<< 4)) 0x08 |||
          0x08) >>> 4 = arr_get ansi_to_vga_color k ||| 0x08) ∧
    (u8 (c &&& 0x0f) ||| u8 ((arr_get ansi_to_vga_color k + 8) <<< 4)) &&& 0x0f = c &&& 0x0f := by
  decide!

/-- The effective colour computed from a selected colour `c` with the reverse
flag clear, by the dim and bright flags. -/
theorem sgr_effective_unreversed (td : xansiterm_data) (c : Nat)
    (hrev : td.flags &&& TFLAG_ATTRIB_REVERSE = 0) :
    (sgr_effective { td with cur_color := c }).color =
      if td.flags &&& TFLAG_ATTRIB_DIM ≠ 0 then
        (if td.flags &&& TFLAG_ATTRIB_BRIGHT ≠ 0 then u8 (bic8 c 0x08 ||| 0x08)
         else bic8 c 0x08)
      else (if td.flags &&& TFLAG_ATTRIB_BRIGHT ≠ 0 then u8 (c ||| 0x08) else c) := by
  unfold sgr_effective
  by_cases hd : td.flags &&& TFLAG_ATTRIB_DIM = 0 <;>
    by_cases hb : td.flags &&& TFLAG_ATTRIB_BRIGHT = 0 <;>
    simp [hrev, hd, hb]

/-- C22, as amended: for every `k` in `0..7` and every state in which ESC
starts a sequence and the reverse flag is clear, whatever the bright and dim
flags: after `CSI 9k m` the foreground nibble of the selected colour is
`ansi_to_vga_color[k]` with bit 3 set, and so is the foreground nibble of the
effective colour unless the dim flag is set and the bright flag is clear, in
which case it is `ansi_to_vga_color[k]` with bit 3 clear; the background
nibble is unchanged.  After `CSI 10k m` the background nibble of the selected
and of the effective colour is `ansi_to_vga_color[k]` with bit 3 set. -/
theorem C22_light_colours (t : Term) (k : Nat) (hk : k < 8) (hstart : starts_sequence t.td)
    (hrev : t.td.flags &&& TFLAG_ATTRIB_REVERSE = 0) (hc : t.td.cur_color < 256) :
    (∃ t1, feed t [0x1B, 0x5B, 0x39, 0x30 + k, 0x6D] = some t1 ∧
      t1.td.cur_color &&& 0x0f = arr_get ansi_to_vga_color k ||| 0x08 ∧
      t1.td.color &&& 0x0f =
        (if t.td.flags &&& TFLAG_ATTRIB_DIM ≠ 0 ∧ t.td.flags &&& TFLAG_ATTRIB_BRIGHT = 0
         then arr_get ansi_to_vga_color k else arr_get ansi_to_vga_color k ||| 0x08) ∧
      t1.td.cur_color >>> 4 = t.td.cur_color >>> 4 ∧
      t1.td.color >>> 4 = t.td.cur_color >>> 4) ∧
    (∃ t1, feed t [0x1B, 0x5B, 0x31, 0x30, 0x30 + k, 0x6D] = some t1 ∧
      t1.td.cur_color >>> 4 = arr_get ansi_to_vga_color k ||| 0x08 ∧
      t1.td.color >>> 4 = arr_get ansi_to_vga_color k ||| 0x08 ∧
      t1.td.cur_color &&& 0x0f = t.td.cur_color &&& 0x0f) := by
  obtain ⟨⟨f1, f2, f3, f4⟩, g1, g2, g3, g4⟩ := light_fg_facts t.td.cur_color hc k hk
  obtain ⟨⟨b1, b2, b3, b4⟩, b5⟩ := light_bg_facts t.td.cur_color hc k hk
  constructor
  · obtain ⟨t1, h1, _, hcur, hcol⟩ := feed_sgr_light_fg t k hk hstart
    rw [sgr_effective_unreversed t.td _ hrev] at hcol
    refine ⟨t1, h1, by rw [hcur]; exact f1, ?_, by rw [hcur]; exact g1, ?_⟩
    · rw [hcol]
      by_cases hd : t.td.flags &&& TFLAG_ATTRIB_DIM = 0 <;>
        by_cases hb : t.td.flags &&& TFLAG_ATTRIB_BRIGHT = 0 <;>
        simp [hd, hb, f1, f2, f3, f4]
    · rw [hcol]
      by_cases hd : t.td.flags &&& TFLAG_ATTRIB_DIM = 0 <;>
        by_cases hb : t.td.flags &&& TFLAG_ATTRIB_BRIGHT = 0 <;>
        simp [hd, hb, g1, g2, g3, g4]
  · obtain ⟨t1, h1, _, hcur, hcol⟩ := feed_sgr_light_bg t k hk hstart
    rw [sgr_effective_unreversed t.td _ hrev] at hcol
    refine ⟨t1, h1, by rw [hcur]; exact b1, ?_, by rw [hcur]; exact b5⟩
    rw [hcol]
    by_cases hd : t.td.flags &&& TFLAG_ATTRIB_DIM = 0 <;>
      by_cases hb : t.td.flags &&& TFLAG_ATTRIB_BRIGHT = 0 <;>
      simp [hd, hb, b1, b2, b3, b4]

/-- C22 at a concrete input: light red (`k = 1`) on the 80 by 30 terminal. -/
theorem C22_light_colours_witness :
    1 < 8 ∧ starts_sequence demo_term.td ∧
    demo_term.td.flags &&& TFLAG_ATTRIB_REVERSE = 0 ∧ demo_term.td.cur_color < 256 ∧
    ((∃ t1, feed demo_term [0x1B, 0x5B, 0x39, 0x30 + 1, 0x6D] = some t1 ∧
      t1.td.cur_color &&& 0x0f = arr_get ansi_to_vga_color 1 ||| 0x08 ∧
      t1.td.color &&& 0x0f =
        (if demo_term.td.flags &&& TFLAG_ATTRIB_DIM ≠ 0 ∧
            demo_term.td.flags &&& TFLAG_ATTRIB_BRIGHT = 0
         then arr_get ansi_to_vga_color 1 else arr_get ansi_to_vga_color 1 ||| 0x08) ∧
      t1.td.cur_color >>> 4 = demo_term.td.cur_color >>> 4 ∧
      t1.td.color >>> 4 = demo_term.td.cur_color >>> 4) ∧
    (∃ t1, feed demo_term [0x1B, 0x5B, 0x31, 0x30, 0x30 + 1, 0x6D] = some t1 ∧
      t1.td.cur_color >>> 4 = arr_get ansi_to_vga_color 1 ||| 0x08 ∧
      t1.td.color >>> 4 = arr_get ansi_to_vga_color 1 ||| 0x08 ∧
      t1.td.cur_color &&& 0x0f = demo_term.td.cur_color &&& 0x0f)) :=
  ⟨by decide, by decide, by decide, by decide,
    C22_light_colours demo_term 1 (by decide) (by decide) (by decide) (by decide)⟩

/-- C22, the counterexample, on the 640 by 480 adapter: after `CSI 2 m` the
dim flag is set and the reverse and bright flags are clear; `CSI 91 m` then
leaves the foreground nibble of the selected colour at `0xC` but that of the
effective colour at 4, `ansi_to_vga_color[1]` with bit 3 clear. -/
theorem C22_dim_clears_the_light_bit :
    ∃ t t1, Reachable t ∧
      (t.td.flags &&& TFLAG_ATTRIB_REVERSE, t.td.flags &&& TFLAG_ATTRIB_DIM,
        t.td.flags &&& TFLAG_ATTRIB_BRIGHT) = (0, TFLAG_ATTRIB_DIM, 0) ∧
      feed t [0x1B, 0x5B, 0x39, 0x30 + 1, 0x6D] = some t1 ∧
      (t1.td.cur_color &&& 0x0f, t1.td.color &&& 0x0f, arr_get ansi_to_vga_color 1 ||| 0x08) =
        (0xC, 4, 0xC) :=
  boot_then [0x1B, 0x5B, 0x32, 0x6D] _ _ _ _ _ _ _ (by decide!) (by decide!) (by decide!)

/-! ## The rosco_m68k commands of SGR 68 -/

/-- The body of the SGR loop at a parameter 68: the rosco_m68k command is
carried out and the loop index is set to the parameter count. -/
theorem sgr_step_68 (t : Term) (i : Nat) (h : arr_get t.td.csi_parms i = 68) :
    sgr_step t i =
      ({ sgr_rosco t i with td := sgr_effective (sgr_rosco t i).td }, t.td.num_parms) := by
  unfold sgr_step
  simp [h]

/-- The sequence `CSI 68;... m` up to the rosco_m68k command: the terminal
`T` on which the command is carried out holds the parameter values in the
slots `1, 2, ...`. -/
theorem feed_rosco (t : Term) (rest : List (List Nat)) (hstart : starts_sequence t.td)
    (hrest : ∀ v ∈ rest, (∀ d ∈ v, is_digit d) ∧ decimal_value v ≤ 65535)
    (hlen : rest.length + 1 < 16) :
    ∃ T : Term,
      feed t (0x1B :: 0x5B :: (sep_values ([0x36, 0x38] :: rest) ++ [0x6D])) =
        some (xansi_calc_cur_addr
          { sgr_rosco T 0 with td := sgr_effective (sgr_rosco T 0).td }) ∧
      T.hw = (xansi_erase_cursor t).hw ∧
      T.td = { t.td with cursor_drawn := false, state := TSTATE_NORMAL, intermediate_char := 0,
                         num_parms := rest.length + 1, csi_parms := T.td.csi_parms } ∧
      arr_get T.td.csi_parms 0 = 68 ∧
      ∀ j, arr_get T.td.csi_parms (j + 1) = (rest.map decimal_value).getD j 0 := by
  have hv : ∀ v ∈ [0x36, 0x38] :: rest, (∀ d ∈ v, is_digit d) ∧ decimal_value v ≤ 65535 := by
    intro v hv
    simp only [List.mem_cons] at hv
    rcases hv with h | h
    · subst h; decide
    · exact hrest v h
  obtain ⟨T, hfeed, hhw, htd, hget⟩ := csi_sequence t [0x36, 0x38] rest 0x6D hstart (by simp) hv
    hlen (by decide) (by decide)
  obtain ⟨T', hT'⟩ : ∃ T' : Term, T' = { T with td := { T.td with state := TSTATE_NORMAL } } :=
    ⟨_, rfl⟩
  have hparm : T'.td.csi_parms = T.td.csi_parms := by rw [hT']
  have hnum : T'.td.num_parms = rest.length + 1 := by rw [hT']; simp only; rw [htd]
  have g0 : arr_get T'.td.csi_parms 0 = 68 := by rw [hparm, hget 0]; rfl
  have hdone : ¬ u16 (T'.td.num_parms + 1) < T'.td.num_parms := by
    rw [hnum]; unfold u16; omega
  have hrn : (sgr_rosco T' 0).td.num_parms = T'.td.num_parms := by
    rw [sgr_rosco_frame]; rfl
  refine ⟨T', ?_, by rw [hT']; exact hhw, ?_, g0, ?_⟩
  · rw [hfeed, process_csi_sgr, ← hT', xansi_sgr_first T' (by omega), sgr_step_68 T' 0 g0]
    rw [sgr_loop_done _ _ _ (by
      show ¬ u16 (T'.td.num_parms + 1) < (sgr_rosco T' 0).td.num_parms
      rw [hrn]; exact hdone)]
  · rw [hT']
    simp only
    rw [htd]
  · intro j
    rw [hparm, hget (j + 1)]
    rfl

/-- The rosco_m68k command with fewer than three parameters after the 68 does
nothing. -/
theorem sgr_rosco_short (t : Term) (i : Nat) (h : ¬ i + 3 < t.td.num_parms) :
    sgr_rosco t i = t := by
  unfold sgr_rosco
  simp [h]

/-- On a settled session record the computation of the effective colour
changes nothing. -/
theorem sgr_effective_settled (td : xansiterm_data) (h : settled td) : sgr_effective td = td := by
  unfold settled at h
  have e : sgr_effective td = { td with color := (sgr_effective td).color } := rfl
  rw [e, ← h]

/-- C23, as amended: for every 16-bit `v`, written as any string of decimal
digits, and every state in which ESC starts a sequence: `CSI 68;20;16;v m`
sets the `gfx_ctrl` preset to `v`, and for every `n` in `0..3`
`CSI 68;12;n;v m` sets `tile_ctrl[n]` to `v`; the other presets are kept. -/
theorem C23_vendor_forms (t : Term) (v : Nat) (hstart : starts_sequence t.td)
    (hv : v ≤ 65535) :
    (∃ ds, (∀ d ∈ ds, is_digit d) ∧ decimal_value ds = v) ∧
    ∀ ds, (∀ d ∈ ds, is_digit d) → decimal_value ds = v →
      (∃ t1, feed t (0x1B :: 0x5B :: ([0x36, 0x38, 0x3B, 0x32, 0x30, 0x3B, 0x31, 0x36, 0x3B] ++
          ds ++ [0x6D])) = some t1 ∧
        t1.td.gfx_ctrl = v ∧ t1.td.tile_ctrl = t.td.tile_ctrl) ∧
      (∀ n, n < 4 →
        ∃ t1, feed t (0x1B :: 0x5B :: ([0x36, 0x38, 0x3B, 0x31, 0x32, 0x3B, 0x30 + n, 0x3B] ++
            ds ++ [0x6D])) = some t1 ∧
          t1.td.tile_ctrl = arr_set t.td.tile_ctrl n v ∧
          (t.td.tile_ctrl.length = 4 → arr_get t1.td.tile_ctrl n = v) ∧
          (∀ m, m ≠ n → arr_get t1.td.tile_ctrl m = arr_get t.td.tile_ctrl m) ∧
          t1.td.gfx_ctrl = t.td.gfx_ctrl) := by
  refine ⟨decimal_digits_exist v, ?_⟩
  intro ds hdig hval
  constructor
  · have hrest : ∀ w ∈ [[0x32, 0x30], [0x31, 0x36], ds],
        (∀ d ∈ w, is_digit d) ∧ decimal_value w ≤ 65535 := by
      intro w hw
      simp only [List.mem_cons, List.mem_singleton, List.not_mem_nil, or_false] at hw
      rcases hw with h | h | h
      · subst h; decide
      · subst h; decide
      · subst h; exact ⟨hdig, by rw [hval]; exact hv⟩
    obtain ⟨T, hfeed, _, htd, _, hget⟩ := feed_rosco t [[0x32, 0x30], [0x31, 0x36], ds] hstart
      hrest (by simp)
    have eb : (0x1B :: 0x5B :: ([0x36, 0x38, 0x3B, 0x32, 0x30, 0x3B, 0x31, 0x36, 0x3B] ++
        ds ++ [0x6D])) =
        0x1B :: 0x5B :: (sep_values ([0x36, 0x38] :: [[0x32, 0x30], [0x31, 0x36], ds]) ++
          [0x6D]) := by
      simp [sep_values]
    have hnum : T.td.num_parms = 4 := by rw [htd]; rfl
    have c1 : arr_get T.td.csi_parms (0 + 1) = 20 := by rw [hget 0]; rfl
    have c2 : arr_get T.td.csi_parms (0 + 2) = 16 := by rw [hget 1]; rfl
    have c3 : arr_get T.td.csi_parms (0 + 3) = v := by rw [hget 2, ← hval]; rfl
    have hr : sgr_rosco T 0 = { T with td := { T.td with gfx_ctrl := v } } := by
      unfold sgr_rosco
      simp [hnum, c1, c2, c3, XR_PA_GFX_CTRL]
    rw [eb, hfeed, hr]
    refine ⟨_, rfl, rfl, ?_⟩
    show T.td.tile_ctrl = _
    rw [htd]
  · intro n hn
    have hrest : ∀ w ∈ [[0x31, 0x32], [0x30 + n], ds],
        (∀ d ∈ w, is_digit d) ∧ decimal_value w ≤ 65535 := by
      intro w hw
      simp only [List.mem_cons, List.mem_singleton, List.not_mem_nil, or_false] at hw
      rcases hw with h | h | h
      · subst h; decide
      · subst h
        refine ⟨?_, ?_⟩
        · intro d hd
          simp only [List.mem_singleton] at hd
          subst hd
          unfold is_digit; omega
        · simp only [decimal_value, List.foldl_cons, List.foldl_nil]; omega
      · subst h; exact ⟨hdig, by rw [hval]; exact hv⟩
    obtain ⟨T, hfeed, _, htd, _, hget⟩ := feed_rosco t [[0x31, 0x32], [0x30 + n], ds] hstart
      hrest (by simp)
    have eb : (0x1B :: 0x5B :: ([0x36, 0x38, 0x3B, 0x31, 0x32, 0x3B, 0x30 + n, 0x3B] ++
        ds ++ [0x6D])) =
        0x1B :: 0x5B :: (sep_values ([0x36, 0x38] :: [[0x31, 0x32], [0x30 + n], ds]) ++
          [0x6D]) := by
      simp [sep_values]
    have hnum : T.td.num_parms = 4 := by rw [htd]; rfl
    have c1 : arr_get T.td.csi_parms (0 + 1) = 12 := by rw [hget 0]; rfl
    have c2 : arr_get T.td.csi_parms (0 + 2) = n := by
      rw [hget 1]
      simp [decimal_value]
    have c3 : arr_get T.td.csi_parms (0 + 3) = v := by rw [hget 2, ← hval]; rfl
    have htile : T.td.tile_ctrl = t.td.tile_ctrl := by rw [htd]
    have hr : sgr_rosco T 0 =
        { T with td := { T.td with tile_ctrl := arr_set T.td.tile_ctrl n v } } := by
      unfold sgr_rosco
      simp [hnum, c1, c2, c3, hn]
    rw [eb, hfeed, hr]
    refine ⟨_, rfl, ?_, ?_, ?_, ?_⟩
    · show arr_set T.td.tile_ctrl n v = _
      rw [htile]
    · intro hl
      show arr_get (arr_set T.td.tile_ctrl n v) n = v
      rw [htile]
      exact arr_get_set_self _ _ _ (by omega)
    · intro m hm
      show arr_get (arr_set T.td.tile_ctrl n v) m = _
      rw [htile]
      exact arr_get_set_ne _ _ _ _ (Ne.symm hm)
    · show T.td.gfx_ctrl = _
      rw [htd]

/-- C23 at a concrete input: the value 5 on the 80 by 30 terminal. -/
theorem C23_vendor_forms_witness :
    starts_sequence demo_term.td ∧ (5 : Nat) ≤ 65535 ∧
    ((∃ ds, (∀ d ∈ ds, is_digit d) ∧ decimal_value ds = 5) ∧
    ∀ ds, (∀ d ∈ ds, is_digit d) → decimal_value ds = 5 →
      (∃ t1, feed demo_term (0x1B :: 0x5B ::
          ([0x36, 0x38, 0x3B, 0x32, 0x30, 0x3B, 0x31, 0x36, 0x3B] ++ ds ++ [0x6D])) = some t1 ∧
        t1.td.gfx_ctrl = 5 ∧ t1.td.tile_ctrl = demo_term.td.tile_ctrl) ∧
      (∀ n, n < 4 →
        ∃ t1, feed demo_term (0x1B :: 0x5B ::
            ([0x36, 0x38, 0x3B, 0x31, 0x32, 0x3B, 0x30 + n, 0x3B] ++ ds ++ [0x6D])) = some t1 ∧
          t1.td.tile_ctrl = arr_set demo_term.td.tile_ctrl n 5 ∧
          (demo_term.td.tile_ctrl.length = 4 → arr_get t1.td.tile_ctrl n = 5) ∧
          (∀ m, m ≠ n → arr_get t1.td.tile_ctrl m = arr_get demo_term.td.tile_ctrl m) ∧
          t1.td.gfx_ctrl = demo_term.td.gfx_ctrl)) :=
  ⟨by decide, by decide, C23_vendor_forms demo_term 5 (by decide) (by decide)⟩

/-- C23, the counterexample, on the 640 by 480 adapter: after `CSI 8 m` and
`CSI` (passthrough on, parser in CSI state) the bytes of `CSI 68;20;16;5 m`
and of `CSI 68;12;0;5 m` are printed as glyphs; `gfx_ctrl` stays 0 and
`tile_ctrl[0]` stays `0x000F`. -/
theorem C23_vendor_form_is_printed_in_passthrough :
    ∃ t t1 t2, Reachable t ∧
      feed t [0x1B, 0x5B, 0x36, 0x38, 0x3B, 0x32, 0x30, 0x3B, 0x31, 0x36, 0x3B, 0x35, 0x6D] =
        some t1 ∧
      (t1.td.gfx_ctrl, t1.td.x) = (0, 13) ∧
      feed t [0x1B, 0x5B, 0x36, 0x38, 0x3B, 0x31, 0x32, 0x3B, 0x30, 0x3B, 0x35, 0x6D] =
        some t2 ∧
      (arr_get t2.td.tile_ctrl 0, t2.td.x) = (0x000F, 12) :=
  boot_then2 [0x1B, 0x5B, 0x38, 0x6D, 0x1B, 0x5B] _ _ _ _ _ _ _ _ (by decide!) (by decide!)
    (by decide!)

/-- C24, as amended: from a state in which ESC starts a sequence, whose
effective colour equals `T(selected colour, flags)` and whose `cur_addr` is
the address of the cell `(x, y)`, an SGR sequence whose first parameter is 68,
followed by fewer than three further parameters (any decimal values, empty
ones included), returns with the parser in NORMAL state and changes nothing of
the session record but the parser fields and the input cursor flag: flags,
colours, `vram_base`, `line_len`, `height`, `tile_ctrl`, `gfx_ctrl`, `x`, `y`,
`lcf` and `cur_addr` are what they were, and nothing is written to the adapter
(apart from the input cursor being taken off the screen): no palette entry,
no register.  The trailing parameters are not taken as SGR codes. -/
theorem C24_short_vendor_command (t : Term) (rest : List (List Nat))
    (hstart : starts_sequence t.td) (hset : settled t.td)
    (hcons : t.td.cur_addr = xansi_calc_addr t.td t.td.x t.td.y)
    (hrest : ∀ v ∈ rest, (∀ d ∈ v, is_digit d) ∧ decimal_value v ≤ 65535)
    (hlen : rest.length < 3) :
    ∃ t1, feed t (0x1B :: 0x5B :: (sep_values ([0x36, 0x38] :: rest) ++ [0x6D])) = some t1 ∧
      t1.td = { t.td with cursor_drawn := false, state := TSTATE_NORMAL, intermediate_char := 0,
                          num_parms := rest.length + 1, csi_parms := t1.td.csi_parms } ∧
      (t1.td.flags = t.td.flags ∧ t1.td.cur_color = t.td.cur_color ∧
        t1.td.def_color = t.td.def_color ∧ t1.td.color = t.td.color) ∧
      (t1.td.vram_base = t.td.vram_base ∧ t1.td.line_len = t.td.line_len ∧
        t1.td.height = t.td.height ∧ t1.td.tile_ctrl = t.td.tile_ctrl ∧
        t1.td.gfx_ctrl = t.td.gfx_ctrl) ∧
      (t1.td.x = t.td.x ∧ t1.td.y = t.td.y ∧ t1.td.lcf = t.td.lcf ∧
        t1.td.cur_addr = t.td.cur_addr) ∧
      t1.hw = (xansi_erase_cursor t).hw ∧ (t.td.cursor_drawn = false → t1.hw = t.hw) := by
  obtain ⟨T, hfeed, hhw, htd, _, _⟩ := feed_rosco t rest hstart hrest (by omega)
  have hnum : T.td.num_parms = rest.length + 1 := by rw [htd]
  have hshort : sgr_rosco T 0 = T := sgr_rosco_short T 0 (by rw [hnum]; omega)
  have hsetT : settled T.td := by
    have e : (sgr_effective T.td).color = (sgr_effective t.td).color := by
      rw [htd]; rfl
    unfold settled
    rw [e, ← hset, htd]
  rw [hshort, sgr_effective_settled T.td hsetT] at hfeed
  have hres : (xansi_calc_cur_addr { T with td := T.td }).td =
      { t.td with cursor_drawn := false, state := TSTATE_NORMAL, intermediate_char := 0,
                  num_parms := rest.length + 1, csi_parms := T.td.csi_parms } := by
    unfold xansi_calc_cur_addr
    simp only
    have ea : xansi_calc_addr T.td T.td.x T.td.y = t.td.cur_addr := by
      rw [hcons, htd]; rfl
    rw [ea, htd]
  have hcsi : (xansi_calc_cur_addr { T with td := T.td }).td.csi_parms = T.td.csi_parms := rfl
  refine ⟨_, hfeed, ?_, ?_, ?_, ?_, hhw, ?_⟩
  · rw [hcsi]; exact hres
  · rw [hres]; exact ⟨rfl, rfl, rfl, rfl⟩
  · rw [hres]; exact ⟨rfl, rfl, rfl, rfl, rfl⟩
  · rw [hres]; exact ⟨rfl, rfl, rfl, rfl⟩
  · intro hd
    show T.hw = _
    rw [hhw, erase_cursor_of_not_drawn t hd]

/-- C24 at a concrete input: `CSI 68;1;7 m` on the 80 by 30 terminal. -/
theorem C24_short_vendor_command_witness :
    starts_sequence demo_term.td ∧ settled demo_term.td ∧
    demo_term.td.cur_addr = xansi_calc_addr demo_term.td demo_term.td.x demo_term.td.y ∧
    (∀ v ∈ [[0x31], [0x37]], (∀ d ∈ v, is_digit d) ∧ decimal_value v ≤ 65535) ∧
    [[0x31], [0x37]].length < 3 ∧
    ∃ t1, feed demo_term (0x1B :: 0x5B ::
        (sep_values ([0x36, 0x38] :: [[0x31], [0x37]]) ++ [0x6D])) = some t1 ∧
      t1.td = { demo_term.td with
        cursor_drawn := false, state := TSTATE_NORMAL, intermediate_char := 0,
        num_parms := [[0x31], [0x37]].length + 1, csi_parms := t1.td.csi_parms } ∧
      (t1.td.flags = demo_term.td.flags ∧ t1.td.cur_color = demo_term.td.cur_color ∧
        t1.td.def_color = demo_term.td.def_color ∧ t1.td.color = demo_term.td.color) ∧
      (t1.td.vram_base = demo_term.td.vram_base ∧ t1.td.line_len = demo_term.td.line_len ∧
        t1.td.height = demo_term.td.height ∧ t1.td.tile_ctrl = demo_term.td.tile_ctrl ∧
        t1.td.gfx_ctrl = demo_term.td.gfx_ctrl) ∧
      (t1.td.x = demo_term.td.x ∧ t1.td.y = demo_term.td.y ∧ t1.td.lcf = demo_term.td.lcf ∧
        t1.td.cur_addr = demo_term.td.cur_addr) ∧
      t1.hw = (xansi_erase_cursor demo_term).hw ∧
      (demo_term.td.cursor_drawn = false → t1.hw = demo_term.hw) :=
  ⟨by decide, by unfold settled; decide, by decide, by decide, by decide,
    C24_short_vendor_command demo_term [[0x31], [0x37]] (by decide) (by unfold settled; decide)
      (by decide) (by decide) (by decide)⟩

/-- C24, the counterexample, on the 640 by 480 adapter: after `CSI 8 m` and
`CSI` the passthrough flag is set and the parser is in CSI state, the
effective colour equals `T(selected colour, flags)` and `cur_addr` is the
address of the cell `(x, y)`; the bytes of `CSI 68;1 m` are then printed as
glyphs, the first of them at address 0, and `x` goes from 0 to 7. -/
theorem C24_short_vendor_command_is_printed_in_passthrough :
    ∃ t t1, Reachable t ∧
      ((t.td.state, t.td.flags &&& TFLAG_ATTRIB_PASSTHRU),
        (t.td.x, t.td.color, (sgr_effective t.td).color),
        (t.td.cur_addr, xansi_calc_addr t.td t.td.x t.td.y, t.hw.vram 0)) =
        ((TSTATE_CSI, TFLAG_ATTRIB_PASSTHRU), (0, 2, 2), (0, 0, 0x0220)) ∧
      feed t [0x1B, 0x5B, 0x36, 0x38, 0x3B, 0x31, 0x6D] = some t1 ∧
      (t1.td.x, t1.td.cur_addr, t1.hw.vram 0) = (7, 7, 0x021B) :=
  boot_then [0x1B, 0x5B, 0x38, 0x6D, 0x1B, 0x5B] _ _ _ _ _ _ _ (by decide!) (by decide!)
    (by decide!)

/-! ## Scrolling down -/

/-- The naive copy towards higher addresses, run from the top down: the `n`
cells from `w` downwards (addresses taken modulo the address space) take the
content of the cells `c` places further down. -/
theorem copy_words_backward (n : Nat) : ∀ (hw : Xosera) (w c : Nat),
    hw.wr_addr = u16 w → hw.rd_addr = sub16 w c → hw.rd_incr = 65535 → hw.wr_incr = 65535 →
    1 ≤ c → c + n ≤ 65536 →
    (∀ a, (copy_words n hw).vram a =
      if a < 65536 ∧ sub16 w a < n then u16 (hw.vram (sub16 a c)) else hw.vram a) ∧
    (copy_words n hw).wr_addr = sub16 w n ∧ (copy_words n hw).wr_incr = 65535 ∧
    (copy_words n hw).xr = hw.xr := by
  induction n with
  | zero =>
    intro hw w c hwa _ _ hwi _ hb
    refine ⟨?_, ?_, hwi, rfl⟩
    · intro a
      have : ¬ (a < 65536 ∧ sub16 w a < 0) := by omega
      rw [if_neg this]; rfl
    · show hw.wr_addr = _
      rw [hwa]; unfold u16 sub16; omega
  | succ n ih =>
    intro hw w c hwa hra hri hwi hc hb
    have h1 : (copy_word hw).wr_addr = u16 (w + 65535) := by
      rw [copy_word_wr_addr, hwa, hwi]; unfold u16; omega
    have h2 : (copy_word hw).rd_addr = sub16 (w + 65535) c := by
      rw [copy_word_rd_addr, hra, hri]; unfold u16 sub16; omega
    obtain ⟨hv, hw', hi', hx'⟩ := ih (copy_word hw) (w + 65535) c h1 h2
      (by rw [copy_word_rd_incr]; exact hri) (by rw [copy_word_incr]; exact hwi) hc (by omega)
    refine ⟨?_, ?_, hi', ?_⟩
    · intro a
      show (copy_words n (copy_word hw)).vram a = _
      rw [hv a, copy_word_vram, copy_word_vram, hwa, hra]
      by_cases c1 : a < 65536 ∧ sub16 (w + 65535) a < n
      · have c2 : a < 65536 ∧ sub16 w a < n + 1 := by
          unfold sub16 at c1 ⊢; omega
        have c3 : ¬ (sub16 a c = u16 w) := by
          unfold sub16 at c1 ⊢; unfold u16; omega
        rw [if_pos c1, if_pos c2, if_neg c3]
      · by_cases c3 : a = u16 w
        · have c2 : a < 65536 ∧ sub16 w a < n + 1 := by
            rw [c3]; unfold sub16 u16; omega
          have e : sub16 a c = sub16 w c := by rw [c3]; unfold sub16 u16; omega
          rw [if_neg c1, if_pos c3, if_pos c2, e]
        · have c2 : ¬ (a < 65536 ∧ sub16 w a < n + 1) := by
            unfold sub16 at c1 ⊢; unfold u16 at c3; omega
          rw [if_neg c1, if_neg c3, if_neg c2]
    · show (copy_words n (copy_word hw)).wr_addr = _
      rw [hw']; unfold sub16; omega
    · show (copy_words n (copy_word hw)).xr = _
      rw [hx', copy_word_xr]

/-- The loop that blanks `n` cells from `w` downwards (addresses taken modulo
the address space). -/
theorem blank_loop_back (n : Nat) : ∀ (hw : Xosera) (w : Nat),
    hw.wr_addr = u16 w → hw.wr_incr = 65535 → n ≤ 65536 →
    (∀ a, (blank_loop n hw).vram a =
      if a < 65536 ∧ sub16 w a < n then hw.data_hi * 256 + 0x20 else hw.vram a) ∧
    (blank_loop n hw).xr = hw.xr := by
  induction n with
  | zero =>
    intro hw w _ _ _
    refine ⟨?_, rfl⟩
    intro a
    have : ¬ (a < 65536 ∧ sub16 w a < 0) := by omega
    rw [if_neg this]; rfl
  | succ n ih =>
    intro hw w hwa hwi hb
    have hstep : ∀ a, (xm_setbl_DATA 0x20 hw).vram a =
        if a = u16 w then hw.data_hi * 256 + 0x20 else hw.vram a := by
      intro a
      simp [xm_setbl_DATA, vram_store, hwa, u8]
    obtain ⟨hv, hx⟩ := ih (xm_setbl_DATA 0x20 hw) (w + 65535)
      (by simp only [xm_setbl_DATA, vram_store, hwa, hwi]; unfold u16; omega)
      (by simp [xm_setbl_DATA, vram_store, hwi]) (by omega)
    refine ⟨?_, by show (blank_loop n (xm_setbl_DATA 0x20 hw)).xr = _; rw [hx]; rfl⟩
    intro a
    show (blank_loop n (xm_setbl_DATA 0x20 hw)).vram a = _
    rw [hv a, hstep a]
    have hd : (xm_setbl_DATA 0x20 hw).data_hi = hw.data_hi := rfl
    rw [hd]
    by_cases c1 : a < 65536 ∧ sub16 (w + 65535) a < n
    · have c2 : a < 65536 ∧ sub16 w a < n + 1 := by
        unfold sub16 at c1 ⊢; omega
      rw [if_pos c1, if_pos c2]
    · by_cases c3 : a = u16 w
      · have c2 : a < 65536 ∧ sub16 w a < n + 1 := by
          rw [c3]; unfold sub16 u16; omega
        rw [if_neg c1, if_pos c3, if_pos c2]
      · have c2 : ¬ (a < 65536 ∧ sub16 w a < n + 1) := by
          unfold sub16 at c1 ⊢; unfold u16 at c3; omega
        rw [if_neg c1, if_neg c3, if_neg c2]

/-- The function `xansi_scroll_down` on a grid of `vram_size` cells that ends
one cell before `vram_end` (addresses taken modulo the address space): every
cell of the grid but those of the first line takes the content of the cell one
line above, the first line is blanked in the effective colour, and nothing
else changes. -/
theorem scroll_down_spec (t : Term) (hc1 : 1 ≤ t.td.cols) (hc2 : t.td.cols ≤ t.td.vram_size)
    (hb : t.td.vram_size ≤ 65536) :
    (xansi_scroll_down t).td = t.td ∧
    (∀ a, (xansi_scroll_down t).hw.vram a =
      if a < 65536 ∧ sub16 (sub16 t.td.vram_end 1) a < t.td.vram_size - t.td.cols then
        u16 (t.hw.vram (sub16 a t.td.cols))
      else if a < 65536 ∧ sub16 (sub16 t.td.vram_end 1) a < t.td.vram_size then
        u8 t.td.color * 256 + 0x20
      else t.hw.vram a) ∧
    (xansi_scroll_down t).hw.xr = t.hw.xr := by
  obtain ⟨w, hw0⟩ : ∃ w, w = sub16 t.td.vram_end 1 := ⟨_, rfl⟩
  have hwlt : w < 65536 := by rw [hw0]; unfold sub16; omega
  obtain ⟨H, hH⟩ : ∃ H : Xosera, H = xm_setw .RD_ADDR (sub16 (sub16 t.td.vram_end 1) t.td.cols)
      (xm_setw .WR_ADDR (sub16 t.td.vram_end 1)
        (xm_setw .RD_INCR 0xFFFF (xm_setw .WR_INCR 0xFFFF t.hw))) :=
    ⟨_, rfl⟩
  have hwa : H.wr_addr = u16 w := by
    rw [hH, hw0]; rfl
  have hra : H.rd_addr = sub16 w t.td.cols := by
    rw [hH, hw0]
    show u16 (sub16 (sub16 t.td.vram_end 1) t.td.cols) = _
    unfold u16 sub16; omega
  have hri : H.rd_incr = 65535 := by rw [hH]; simp [xm_setw, u16]
  have hwi : H.wr_incr = 65535 := by rw [hH]; simp [xm_setw, u16]
  have hvr : H.vram = t.hw.vram := by rw [hH]; rfl
  have hxr : H.xr = t.hw.xr := by rw [hH]; rfl
  have hlag : lag (65536 - t.td.cols) H := by
    refine ⟨by rw [hri, hwi], ?_⟩
    rw [hra, hwa]; unfold u16 sub16; omega
  have hn : sub16 t.td.vram_size t.td.cols = t.td.vram_size - t.td.cols := by
    unfold sub16; omega
  have hstage := scroll_stages_eq (65536 - t.td.cols) (t.td.vram_size - t.td.cols) H hlag
    (by rw [hwi]; omega)
  obtain ⟨cv, cw, ci, cx⟩ := copy_words_backward (t.td.vram_size - t.td.cols) H w
    t.td.cols hwa hra hri hwi hc1 (by omega)
  have hres : (xansi_scroll_down t).hw = blank_loop t.td.cols
      (xm_setbh_DATA t.td.color (copy_words (t.td.vram_size - t.td.cols) H)) := by
    simp only [xansi_scroll_down, xansi_do_scroll]
    rw [← hH, hn, hstage]
  obtain ⟨bv, bx⟩ := blank_loop_back t.td.cols
    (xm_setbh_DATA t.td.color (copy_words (t.td.vram_size - t.td.cols) H))
    (sub16 w (t.td.vram_size - t.td.cols))
    (by
      show (copy_words _ H).wr_addr = _
      rw [cw]; unfold u16 sub16; omega)
    (by show (copy_words _ H).wr_incr = _; exact ci) (by omega)
  refine ⟨rfl, ?_, ?_⟩
  · intro a
    rw [hres, bv a, ← hw0]
    show (if _ then u8 t.td.color * 256 + 0x20 else (copy_words _ H).vram a) = _
    rw [cv a, hvr]
    by_cases c1 : a < 65536 ∧ sub16 w a < t.td.vram_size - t.td.cols
    · have c2 : ¬ (a < 65536 ∧
          sub16 (sub16 w (t.td.vram_size - t.td.cols)) a < t.td.cols) := by
        unfold sub16 at c1 ⊢; omega
      rw [if_neg c2, if_pos c1, if_pos c1]
    · rw [if_neg c1, if_neg c1]
      by_cases c3 : a < 65536 ∧ sub16 w a < t.td.vram_size
      · have c2 : a < 65536 ∧
            sub16 (sub16 w (t.td.vram_size - t.td.cols)) a < t.td.cols := by
          unfold sub16 at c1 c3 ⊢; omega
        rw [if_pos c2, if_pos c3]
      · have c2 : ¬ (a < 65536 ∧
            sub16 (sub16 w (t.td.vram_size - t.td.cols)) a < t.td.cols) := by
          unfold sub16 at c1 c3 ⊢; omega
        rw [if_neg c2, if_neg c3]
  · rw [hres, bx]
    show (copy_words _ H).xr = _
    rw [cx, hxr]

/-! ## Scrolling by rows and columns -/

theorem grid_offset (cols rows r c : Nat) (hr : r < rows) (hc : c < cols) :
    r * cols + c < cols * rows := by
  have h := Nat.mul_le_mul_right cols (show r + 1 ≤ rows by omega)
  rw [Nat.add_mul, Nat.one_mul, Nat.mul_comm rows] at h
  omega

theorem grid_cell_of_offset (cols rows i : Nat) (hpos : 0 < cols) (hi : i < cols * rows) :
    i / cols < rows ∧ i % cols < cols ∧ i / cols * cols + i % cols = i := by
  refine ⟨Nat.div_lt_of_lt_mul hi, Nat.mod_lt _ hpos, ?_⟩
  rw [Nat.mul_comm]
  exact Nat.div_add_mod i cols

/-- The function `xansi_scroll_up` by rows and columns: every row but the last
takes the content of the row below, the last row is blanked in the effective
colour, the cells outside the grid are kept. -/
theorem scroll_up_grid (t : Term) (hc1 : 1 ≤ t.td.cols) (hr1 : 1 ≤ t.td.rows)
    (hsize : t.td.vram_size = t.td.cols * t.td.rows) (hs16 : t.td.vram_size < 65536) :
    (∀ r c, r + 1 < t.td.rows → c < t.td.cols →
      (xansi_scroll_up t).hw.vram (xansi_calc_addr t.td c r) =
        u16 (t.hw.vram (xansi_calc_addr t.td c (r + 1)))) ∧
    (∀ c, c < t.td.cols →
      (xansi_scroll_up t).hw.vram (xansi_calc_addr t.td c (t.td.rows - 1)) =
        u8 t.td.color * 256 + 0x20) ∧
    (∀ a, (∀ r c, r < t.td.rows → c < t.td.cols → a ≠ xansi_calc_addr t.td c r) →
      (xansi_scroll_up t).hw.vram a = t.hw.vram a) := by
  have hle : t.td.cols ≤ t.td.vram_size := by
    rw [hsize]; exact Nat.le_mul_of_pos_right _ (by omega)
  obtain ⟨ha, hb, hc⟩ := scroll_up_cells t hc1 hle (by omega)
  refine ⟨?_, ?_, ?_⟩
  · intro r c hr hc'
    have h1 := grid_offset t.td.cols t.td.rows (r + 1) c (by omega) hc'
    have e1 : (r + 1) * t.td.cols = r * t.td.cols + t.td.cols := by ring
    rw [calc_addr_cell, calc_addr_cell, ha _ (by rw [hsize]; omega), e1]
    congr 3
    omega
  · intro c hc'
    have h1 := grid_offset t.td.cols t.td.rows (t.td.rows - 1) c (by omega) hc'
    have e1 : (t.td.rows - 1) * t.td.cols + t.td.cols = t.td.cols * t.td.rows := by
      have : t.td.rows = (t.td.rows - 1) + 1 := by omega
      conv_rhs => rw [this]
      ring
    rw [calc_addr_cell, hb _ (by rw [hsize]; omega) (by rw [hsize]; omega)]
  · intro a hna
    apply hc
    intro i hi
    rw [hsize] at hi
    obtain ⟨g1, g2, g3⟩ := grid_cell_of_offset t.td.cols t.td.rows i (by omega) hi
    have := hna _ _ g1 g2
    rw [calc_addr_cell, g3] at this
    exact this

/-- The function `xansi_scroll_down` by rows and columns, on a grid whose
`vram_end` is `vram_base + vram_size`: every row but the first takes the
content of the row above, the first row is blanked in the effective colour,
the cells outside the grid are kept. -/
theorem scroll_down_grid (t : Term) (hc1 : 1 ≤ t.td.cols) (hr1 : 1 ≤ t.td.rows)
    (hsize : t.td.vram_size = t.td.cols * t.td.rows) (hs16 : t.td.vram_size < 65536)
    (hend : t.td.vram_end = u16 (t.td.vram_base + t.td.vram_size)) :
    (∀ r c, r + 1 < t.td.rows → c < t.td.cols →
      (xansi_scroll_down t).hw.vram (xansi_calc_addr t.td c (r + 1)) =
        u16 (t.hw.vram (xansi_calc_addr t.td c r))) ∧
    (∀ c, c < t.td.cols →
      (xansi_scroll_down t).hw.vram (xansi_calc_addr t.td c 0) = u8 t.td.color * 256 + 0x20) ∧
    (∀ a, (∀ r c, r < t.td.rows → c < t.td.cols → a ≠ xansi_calc_addr t.td c r) →
      (xansi_scroll_down t).hw.vram a = t.hw.vram a) := by
  have hle : t.td.cols ≤ t.td.vram_size := by
    rw [hsize]; exact Nat.le_mul_of_pos_right _ (by omega)
  obtain ⟨_, hv, _⟩ := scroll_down_spec t hc1 hle (by omega)
  refine ⟨?_, ?_, ?_⟩
  · intro r c hr hc'
    have h1 := grid_offset t.td.cols t.td.rows (r + 1) c (by omega) hc'
    have e1 : (r + 1) * t.td.cols = r * t.td.cols + t.td.cols := by ring
    rw [calc_addr_cell, calc_addr_cell, hv, e1, hend]
    rw [if_pos ⟨by unfold u16; omega, by rw [hsize]; unfold sub16 u16; omega⟩]
    congr 2
    unfold sub16 u16; omega
  · intro c hc'
    have h1 := grid_offset t.td.cols t.td.rows 0 c (by omega) hc'
    rw [calc_addr_cell, hv, hend]
    rw [if_neg (by rw [hsize]; unfold sub16 u16; omega),
      if_pos ⟨by unfold u16; omega, by rw [hsize]; unfold sub16 u16; omega⟩]
  · intro a hna
    have key : ¬ (a < 65536 ∧ sub16 (sub16 t.td.vram_end 1) a < t.td.vram_size) := by
      intro h
      have hi : t.td.vram_size - 1 - sub16 (sub16 t.td.vram_end 1) a < t.td.cols * t.td.rows := by
        rw [← hsize]; omega
      obtain ⟨g1, g2, g3⟩ := grid_cell_of_offset t.td.cols t.td.rows _ (by omega) hi
      apply hna _ _ g1 g2
      rw [calc_addr_cell, g3]
      rw [hend] at h ⊢
      unfold sub16 u16 at h ⊢
      omega
    rw [hv, if_neg (by intro h; apply key; exact ⟨h.1, by omega⟩), if_neg key]

/-! ## LF on the bottom row -/

theorem processchar_finish_scroll (t : Term) (h : t.td.y ≥ t.td.rows) :
    processchar_finish t =
      { td := { t.td with cur_addr := sub16 t.td.cur_addr t.td.cols, y := sub16 t.td.y 1,
                          lcf := false },
        hw := (xansi_scroll_up { t with td := { t.td with
          cur_addr := sub16 t.td.cur_addr t.td.cols, y := sub16 t.td.y 1 } }).hw } := by
  unfold processchar_finish
  simp only [h, if_true]
  rfl

/-- LF in NORMAL state with passthrough off and the cursor on the bottom row:
the row stays, the grid is scrolled up. -/
theorem putchar_lf_bottom (t : Term) (hs : t.td.state = TSTATE_NORMAL)
    (hp : t.td.flags &&& TFLAG_ATTRIB_PASSTHRU = 0) (hy : t.td.y + 1 = t.td.rows)
    (hr : t.td.rows < 65536) :
    ∃ S : Term,
      S.td = { t.td with
        cursor_drawn := false,
        cur_addr := if t.td.flags &&& TFLAG_NEWLINE ≠ 0
          then sub16 (sub16 (u16 (t.td.cur_addr + t.td.cols)) t.td.x) t.td.cols
          else sub16 (u16 (t.td.cur_addr + t.td.cols)) t.td.cols,
        x := if t.td.flags &&& TFLAG_NEWLINE ≠ 0 then 0 else t.td.x } ∧
      S.hw = (xansi_erase_cursor t).hw ∧
      xansiterm_putchar t 0x0A = some { td := { S.td with lcf := false },
                                        hw := (xansi_scroll_up S).hw } := by
  have hy1 : u16 (t.td.y + 1) = t.td.rows := by unfold u16; omega
  have hy2 : sub16 t.td.rows 1 = t.td.y := by unfold sub16; omega
  rw [putchar_ctrl t 0x0A hs (by decide) (by decide),
    processchar_lf _ (by rw [erase_cursor_td]; exact hp)]
  simp only [erase_cursor_td, hy1]
  by_cases hn : t.td.flags &&& TFLAG_NEWLINE = 0
  · simp only [hn, ne_eq, not_true_eq_false, if_false]
    rw [processchar_finish_scroll _ (by show t.td.rows ≥ t.td.rows; omega)]
    simp only [hy2]
    exact ⟨{ td := _, hw := (xansi_erase_cursor t).hw }, rfl, rfl, rfl⟩
  · simp only [hn, ne_eq, not_false_eq_true, if_true]
    rw [processchar_finish_scroll _ (by show t.td.rows ≥ t.td.rows; omega)]
    simp only [hy2]
    exact ⟨{ td := _, hw := (xansi_erase_cursor t).hw }, rfl, rfl, rfl⟩

/-- C27, as amended: in NORMAL state with passthrough off, on a grid that fits the
address space (`vram_size = cols*rows < 65536`, at least one column), the
cursor on the bottom row and `cur_addr` consistent with `(x, y)` (`lcf` false
or not): LF scrolls the grid up one line (every row `r + 1` moves to row `r`,
the bottom row becomes spaces in the effective colour, no cell outside the
grid changes), leaves `y = rows - 1` and `lcf` false, sets `x` to 0 in newline
mode and keeps it otherwise, and leaves `cur_addr` equal to
`vram_base + y*cols + x` for the resulting `x`.  The content that moves is
video memory with the input cursor taken off the screen. -/
theorem C27_lf_on_bottom_row (t : Term) (hs : t.td.state = TSTATE_NORMAL)
    (hp : t.td.flags &&& TFLAG_ATTRIB_PASSTHRU = 0) (hy : t.td.y + 1 = t.td.rows)
    (ha : t.td.cur_addr = xansi_calc_addr t.td t.td.x t.td.y)
    (hcols : 1 ≤ t.td.cols) (hsize : t.td.vram_size = t.td.cols * t.td.rows)
    (hs16 : t.td.vram_size < 65536) (hcolor : t.td.color < 256) :
    ∃ t1, xansiterm_putchar t 0x0A = some t1 ∧
      (∀ r c, r + 1 < t.td.rows → c < t.td.cols →
        t1.hw.vram (xansi_calc_addr t.td c r) =
          u16 ((xansi_erase_cursor t).hw.vram (xansi_calc_addr t.td c (r + 1)))) ∧
      (∀ c, c < t.td.cols →
        t1.hw.vram (xansi_calc_addr t.td c t.td.y) = t.td.color * 256 + 0x20) ∧
      (∀ a, (∀ r c, r < t.td.rows → c < t.td.cols → a ≠ xansi_calc_addr t.td c r) →
        t1.hw.vram a = (xansi_erase_cursor t).hw.vram a) ∧
      (t.td.cursor_drawn = false → (xansi_erase_cursor t).hw = t.hw) ∧
      t1.td.y = t.td.y ∧ t1.td.y + 1 = t1.td.rows ∧ t1.td.lcf = false ∧
      t1.td.x = (if t.td.flags &&& TFLAG_NEWLINE ≠ 0 then 0 else t.td.x) ∧
      t1.td.cur_addr = u16 (t1.td.vram_base + t1.td.y * t1.td.cols + t1.td.x) := by
  have hrows : t.td.rows < 65536 := by
    have := Nat.le_mul_of_pos_left t.td.rows (show 0 < t.td.cols by omega)
    omega
  obtain ⟨S, hS, hShw, hput⟩ := putchar_lf_bottom t hs hp hy hrows
  have e1 : S.td.cols = t.td.cols := by rw [hS]
  have e2 : S.td.rows = t.td.rows := by rw [hS]
  have e3 : S.td.vram_size = t.td.vram_size := by rw [hS]
  have e4 : S.td.color = t.td.color := by rw [hS]
  have e5 : ∀ c r, xansi_calc_addr S.td c r = xansi_calc_addr t.td c r := by
    intro c r; rw [hS]; rfl
  obtain ⟨ga, gb, gc⟩ := scroll_up_grid S (by rw [e1]; exact hcols) (by rw [e2]; omega)
    (by rw [e3, e1, e2]; exact hsize) (by rw [e3]; exact hs16)
  simp only [e1, e2, e4, e5, hShw, u8_of_lt _ hcolor] at ga gb gc
  have hyr : t.td.rows - 1 = t.td.y := by omega
  rw [hyr] at gb
  refine ⟨_, hput, ga, gb, gc, ?_, ?_, ?_, rfl, ?_, ?_⟩
  · intro hd; rw [erase_cursor_of_not_drawn t hd]
  · show S.td.y = _
    rw [hS]
  · show S.td.y + 1 = S.td.rows
    rw [hS]; exact hy
  · show S.td.x = _
    rw [hS]
  · show S.td.cur_addr = u16 (S.td.vram_base + S.td.y * S.td.cols + S.td.x)
    rw [hS]
    simp only
    rw [ha]
    unfold xansi_calc_addr
    split <;> (unfold sub16 u16; omega)

/-- C27 at a concrete input: the 80 by 30 terminal with the cursor on the
bottom row. -/
theorem C27_lf_on_bottom_row_witness :
    demo_bottom.td.state = TSTATE_NORMAL ∧
    demo_bottom.td.flags &&& TFLAG_ATTRIB_PASSTHRU = 0 ∧
    demo_bottom.td.y + 1 = demo_bottom.td.rows ∧
    demo_bottom.td.cur_addr = xansi_calc_addr demo_bottom.td demo_bottom.td.x demo_bottom.td.y ∧
    1 ≤ demo_bottom.td.cols ∧ demo_bottom.td.vram_size = demo_bottom.td.cols * demo_bottom.td.rows ∧
    demo_bottom.td.vram_size < 65536 ∧ demo_bottom.td.color < 256 ∧
    ∃ t1, xansiterm_putchar demo_bottom 0x0A = some t1 ∧
      (∀ r c, r + 1 < demo_bottom.td.rows → c < demo_bottom.td.cols →
        t1.hw.vram (xansi_calc_addr demo_bottom.td c r) =
          u16 ((xansi_erase_cursor demo_bottom).hw.vram
            (xansi_calc_addr demo_bottom.td c (r + 1)))) ∧
      (∀ c, c < demo_bottom.td.cols →
        t1.hw.vram (xansi_calc_addr demo_bottom.td c demo_bottom.td.y) =
          demo_bottom.td.color * 256 + 0x20) ∧
      (∀ a, (∀ r c, r < demo_bottom.td.rows → c < demo_bottom.td.cols →
          a ≠ xansi_calc_addr demo_bottom.td c r) →
        t1.hw.vram a = (xansi_erase_cursor demo_bottom).hw.vram a) ∧
      (demo_bottom.td.cursor_drawn = false → (xansi_erase_cursor demo_bottom).hw = demo_bottom.hw) ∧
      t1.td.y = demo_bottom.td.y ∧ t1.td.y + 1 = t1.td.rows ∧ t1.td.lcf = false ∧
      t1.td.x = (if demo_bottom.td.flags &&& TFLAG_NEWLINE ≠ 0 then 0 else demo_bottom.td.x) ∧
      t1.td.cur_addr = u16 (t1.td.vram_base + t1.td.y * t1.td.cols + t1.td.x) :=
  ⟨by decide, by decide, by decide, by decide, by decide, by decide, by decide, by decide,
    C27_lf_on_bottom_row demo_bottom (by decide) (by decide) (by decide) (by decide)
      (by decide) (by decide) (by decide) (by decide)⟩

/-- C27, the counterexample, on the 640 by 480 adapter: after
`CSI 68;0;1;2260 m` and `ESC (` the lines are 2260 cells long, the grid has 30
rows and `cols * rows` is beyond the 16-bit address space (`vram_size` is
2264).  With the letter `A` at column 10 of row 1 (address 2270) and the
cursor then on the bottom row (`CSI 99 B`: NORMAL state, passthrough off,
`lcf` false, `cur_addr` the address of `(x, y)`), LF leaves `y` on the bottom
row but copies four cells only: the cell at column 10 of row 0 (address 10)
does not receive the `A`, which stays on row 1. -/
theorem C27_oversized_grid_rows_do_not_move :
    ∃ t t1, Reachable t ∧
      (t.td.lcf, [t.td.state, t.td.flags &&& TFLAG_ATTRIB_PASSTHRU, t.td.x, t.td.y, t.td.rows,
        t.td.cols, t.td.vram_size, t.td.vram_base, t.td.cur_addr,
        xansi_calc_addr t.td t.td.x t.td.y, xansi_calc_addr t.td 10 0,
        xansi_calc_addr t.td 10 1, t.hw.vram 2270]) =
        (false, [TSTATE_NORMAL, 0, 11, 29, 30, 2260, 2264, 0, 15, 15, 10, 2270, 0x0241]) ∧
      xansiterm_putchar t 0x0A = some t1 ∧
      (t1.td.y, t1.hw.vram 10, t1.hw.vram 2270) = (29, 0x0220, 0x0241) := by
  obtain ⟨t, t1, hr, h1, hfeed, h2⟩ := boot_then
    [0x1B, 0x5B, 0x36, 0x38, 0x3B, 0x30, 0x3B, 0x31, 0x3B, 0x32, 0x32, 0x36, 0x30, 0x6D,
      0x1B, 0x28, 0x1B, 0x5B, 0x32, 0x3B, 0x31, 0x31, 0x48, 0x41, 0x1B, 0x5B, 0x39, 0x39, 0x42]
    [0x0A] _ _
    (fun t => (t.td.lcf, [t.td.state, t.td.flags &&& TFLAG_ATTRIB_PASSTHRU, t.td.x, t.td.y,
      t.td.rows, t.td.cols, t.td.vram_size, t.td.vram_base, t.td.cur_addr,
      xansi_calc_addr t.td t.td.x t.td.y, xansi_calc_addr t.td 10 0,
      xansi_calc_addr t.td 10 1, t.hw.vram 2270]))
    (fun t => (t.td.y, t.hw.vram 10, t.hw.vram 2270))
    (false, [TSTATE_NORMAL, 0, 11, 29, 30, 2260, 2264, 0, 15, 15, 10, 2270, 0x0241])
    (29, 0x0220, 0x0241)
    (by decide!) (by decide!) (by decide!)
  refine ⟨t, t1, hr, h1, ?_, h2⟩
  simp only [feed] at hfeed
  cases hp : xansiterm_putchar t 0x0A with
  | none => rw [hp] at hfeed; simp at hfeed
  | some u =>
    rw [hp] at hfeed
    simp only [Option.some_bind, Option.some.injEq] at hfeed
    rw [hfeed]

/-! ## VT -/

theorem processchar_vt (t : Term) (hp : t.td.flags &&& TFLAG_ATTRIB_PASSTHRU = 0) :
    xansi_processchar t 0x0B = some (processchar_finish
      (if sub16 t.td.y 1 ≥ t.td.rows then
        xansi_scroll_down { t with td := { t.td with
          cur_addr := u16 (sub16 t.td.cur_addr t.td.cols + t.td.cols),
          y := u16 (sub16 t.td.y 1 + 1) } }
      else
        { t with td := { t.td with
            cur_addr := sub16 t.td.cur_addr t.td.cols, y := sub16 t.td.y 1 } })) := by
  unfold xansi_processchar
  have : ¬ (u8 0x0B ≥ 0x20) := by decide
  simp only [this, hp, ne_eq, not_true_eq_false, or_self, if_false]
  simp

/-- VT in NORMAL state with passthrough off and the cursor on row 0: the
cursor stays, the grid is scrolled down. -/
theorem putchar_vt_top (t : Term) (hs : t.td.state = TSTATE_NORMAL)
    (hp : t.td.flags &&& TFLAG_ATTRIB_PASSTHRU = 0) (hy : t.td.y = 0)
    (hr1 : 1 ≤ t.td.rows) (hr : t.td.rows < 65536) (hca : t.td.cur_addr < 65536) :
    xansiterm_putchar t 0x0B = some
      { td := { t.td with cursor_drawn := false, lcf := false },
        hw := (xansi_scroll_down
          { td := { t.td with cursor_drawn := false }, hw := (xansi_erase_cursor t).hw }).hw } := by
  have h1 : sub16 t.td.y 1 ≥ t.td.rows := by rw [hy]; unfold sub16; omega
  have h2 : u16 (sub16 t.td.y 1 + 1) = t.td.y := by rw [hy]; decide
  have h3 : u16 (sub16 t.td.cur_addr t.td.cols + t.td.cols) = t.td.cur_addr := by
    unfold u16 sub16; omega
  rw [putchar_ctrl t 0x0B hs (by decide) (by decide),
    processchar_vt _ (by rw [erase_cursor_td]; exact hp)]
  simp only [erase_cursor_td, h1, if_true, h2, h3]
  rw [processchar_finish_in_grid _ (by rw [scroll_down_td]; show t.td.y < t.td.rows; omega)]
  rfl

/-- VT in NORMAL state with passthrough off and the cursor on a row of the
grid below row 0: the cursor moves up one row. -/
theorem putchar_vt_above (t : Term) (hs : t.td.state = TSTATE_NORMAL)
    (hp : t.td.flags &&& TFLAG_ATTRIB_PASSTHRU = 0) (hy0 : 0 < t.td.y)
    (hy : t.td.y < t.td.rows) (hr : t.td.rows < 65536) :
    xansiterm_putchar t 0x0B = some
      { td := { t.td with cursor_drawn := false, cur_addr := sub16 t.td.cur_addr t.td.cols,
                          y := t.td.y - 1, lcf := false },
        hw := (xansi_erase_cursor t).hw } := by
  have h1 : ¬ t.td.y - 1 ≥ t.td.rows := by omega
  have h2 : sub16 t.td.y 1 = t.td.y - 1 := by unfold sub16; omega
  rw [putchar_ctrl t 0x0B hs (by decide) (by decide),
    processchar_vt _ (by rw [erase_cursor_td]; exact hp)]
  simp only [erase_cursor_td, h2, h1, if_false]
  rw [processchar_finish_in_grid _ (by show t.td.y - 1 < t.td.rows; omega)]

/-- C26, as amended: in NORMAL state with passthrough off.  With the cursor on
row 0 of a grid that fits the address space (`vram_size = cols*rows < 65536`,
at least one column and one row) and whose `vram_end` is
`vram_base + vram_size`, as `xansi_reset` leaves it: VT leaves `x`, `y` and
`cur_addr` as they were, clears `lcf`, moves the content of every row
`r < rows - 1` to row `r + 1` (the old bottom row is lost), leaves row 0
filled with spaces in the effective colour and changes no cell outside the
grid.  With the cursor on a row `0 < y < rows`: VT decrements `y`, moves
`cur_addr` up by one row (so that it stays consistent with `(x, y)` when it
was), clears `lcf` and writes no cell.  The content that moves is video memory
with the input cursor taken off the screen. -/
theorem C26_vt (t : Term) (hs : t.td.state = TSTATE_NORMAL)
    (hp : t.td.flags &&& TFLAG_ATTRIB_PASSTHRU = 0) (hr : t.td.rows < 65536) :
    (t.td.y = 0 → 1 ≤ t.td.rows → 1 ≤ t.td.cols → t.td.vram_size = t.td.cols * t.td.rows →
      t.td.vram_size < 65536 → t.td.vram_end = u16 (t.td.vram_base + t.td.vram_size) →
      t.td.cur_addr < 65536 → t.td.color < 256 →
      ∃ t1, xansiterm_putchar t 0x0B = some t1 ∧
        t1.td.x = t.td.x ∧ t1.td.y = t.td.y ∧ t1.td.cur_addr = t.td.cur_addr ∧
        t1.td.lcf = false ∧
        (∀ r c, r + 1 < t.td.rows → c < t.td.cols →
          t1.hw.vram (xansi_calc_addr t.td c (r + 1)) =
            u16 ((xansi_erase_cursor t).hw.vram (xansi_calc_addr t.td c r))) ∧
        (∀ c, c < t.td.cols →
          t1.hw.vram (xansi_calc_addr t.td c 0) = t.td.color * 256 + 0x20) ∧
        (∀ a, (∀ r c, r < t.td.rows → c < t.td.cols → a ≠ xansi_calc_addr t.td c r) →
          t1.hw.vram a = (xansi_erase_cursor t).hw.vram a)) ∧
    (0 < t.td.y → t.td.y < t.td.rows →
      ∃ t1, xansiterm_putchar t 0x0B = some t1 ∧
        t1.td.x = t.td.x ∧ t1.td.y = t.td.y - 1 ∧ t1.td.lcf = false ∧
        t1.td.cur_addr = sub16 t.td.cur_addr t.td.cols ∧
        (t.td.cur_addr = xansi_calc_addr t.td t.td.x t.td.y →
          t1.td.cur_addr = xansi_calc_addr t.td t.td.x (t.td.y - 1)) ∧
        t1.hw = (xansi_erase_cursor t).hw ∧ (t.td.cursor_drawn = false → t1.hw = t.hw)) := by
  constructor
  · intro hy hr1 hc1 hsize hs16 hend hca hcolor
    obtain ⟨S, hS⟩ : ∃ S : Term, S =
        { td := { t.td with cursor_drawn := false }, hw := (xansi_erase_cursor t).hw } :=
      ⟨_, rfl⟩
    have e1 : S.td.cols = t.td.cols := by rw [hS]
    have e2 : S.td.rows = t.td.rows := by rw [hS]
    have e3 : S.td.vram_size = t.td.vram_size := by rw [hS]
    have e4 : S.td.color = t.td.color := by rw [hS]
    have e5 : ∀ c r, xansi_calc_addr S.td c r = xansi_calc_addr t.td c r := by
      intro c r; rw [hS]; rfl
    have e6 : S.td.vram_end = t.td.vram_end := by rw [hS]
    have e7 : S.td.vram_base = t.td.vram_base := by rw [hS]
    have e8 : S.hw = (xansi_erase_cursor t).hw := by rw [hS]
    obtain ⟨ga, gb, gc⟩ := scroll_down_grid S (by rw [e1]; exact hc1) (by rw [e2]; exact hr1)
      (by rw [e3, e1, e2]; exact hsize) (by rw [e3]; exact hs16)
      (by rw [e6, e7, e3]; exact hend)
    simp only [e1, e2, e4, e5, e8, u8_of_lt _ hcolor] at ga gb gc
    have hput := putchar_vt_top t hs hp hy hr1 hr hca
    rw [← hS] at hput
    exact ⟨_, hput, rfl, rfl, rfl, rfl, ga, gb, gc⟩
  · intro hy0 hy
    refine ⟨_, putchar_vt_above t hs hp hy0 hy hr, rfl, rfl, rfl, rfl, ?_, rfl, ?_⟩
    · intro ha
      show sub16 t.td.cur_addr t.td.cols = _
      rw [ha]
      obtain ⟨k, hk⟩ : ∃ k, t.td.y = k + 1 := ⟨t.td.y - 1, by omega⟩
      have e : (k + 1) * t.td.cols = k * t.td.cols + t.td.cols := by ring
      rw [hk, Nat.add_sub_cancel]
      unfold xansi_calc_addr
      rw [e]
      unfold sub16 u16
      omega
    · intro hd
      show (xansi_erase_cursor t).hw = _
      rw [erase_cursor_of_not_drawn t hd]

/-- C26 at concrete inputs: the 80 by 30 terminal with the cursor on row 0
(the grid is scrolled down) and with the cursor on the bottom row (the cursor
moves up). -/
theorem C26_vt_witness :
    (demo_term.td.state = TSTATE_NORMAL ∧ demo_term.td.flags &&& TFLAG_ATTRIB_PASSTHRU = 0 ∧
      demo_term.td.rows < 65536 ∧
      (demo_term.td.y = 0 ∧ 1 ≤ demo_term.td.rows ∧ 1 ≤ demo_term.td.cols ∧
        demo_term.td.vram_size = demo_term.td.cols * demo_term.td.rows ∧
        demo_term.td.vram_size < 65536 ∧
        demo_term.td.vram_end = u16 (demo_term.td.vram_base + demo_term.td.vram_size)) ∧
      (demo_term.td.cur_addr < 65536 ∧ demo_term.td.color < 256) ∧
      ∃ t1, xansiterm_putchar demo_term 0x0B = some t1 ∧
        t1.td.x = demo_term.td.x ∧ t1.td.y = demo_term.td.y ∧
        t1.td.cur_addr = demo_term.td.cur_addr ∧ t1.td.lcf = false ∧
        (∀ r c, r + 1 < demo_term.td.rows → c < demo_term.td.cols →
          t1.hw.vram (xansi_calc_addr demo_term.td c (r + 1)) =
            u16 ((xansi_erase_cursor demo_term).hw.vram (xansi_calc_addr demo_term.td c r))) ∧
        (∀ c, c < demo_term.td.cols →
          t1.hw.vram (xansi_calc_addr demo_term.td c 0) = demo_term.td.color * 256 + 0x20) ∧
        (∀ a, (∀ r c, r < demo_term.td.rows → c < demo_term.td.cols →
            a ≠ xansi_calc_addr demo_term.td c r) →
          t1.hw.vram a = (xansi_erase_cursor demo_term).hw.vram a)) ∧
    (demo_bottom.td.state = TSTATE_NORMAL ∧
      demo_bottom.td.flags &&& TFLAG_ATTRIB_PASSTHRU = 0 ∧ demo_bottom.td.rows < 65536 ∧
      0 < demo_bottom.td.y ∧ demo_bottom.td.y < demo_bottom.td.rows ∧
      ∃ t1, xansiterm_putchar demo_bottom 0x0B = some t1 ∧
        t1.td.x = demo_bottom.td.x ∧ t1.td.y = demo_bottom.td.y - 1 ∧ t1.td.lcf = false ∧
        t1.td.cur_addr = sub16 demo_bottom.td.cur_addr demo_bottom.td.cols ∧
        (demo_bottom.td.cur_addr =
            xansi_calc_addr demo_bottom.td demo_bottom.td.x demo_bottom.td.y →
          t1.td.cur_addr =
            xansi_calc_addr demo_bottom.td demo_bottom.td.x (demo_bottom.td.y - 1)) ∧
        t1.hw = (xansi_erase_cursor demo_bottom).hw ∧
        (demo_bottom.td.cursor_drawn = false → t1.hw = demo_bottom.hw)) :=
  ⟨⟨by decide, by decide, by decide, by decide, by decide,
      (C26_vt demo_term (by decide) (by decide) (by decide)).1 (by decide) (by decide)
        (by decide) (by decide) (by decide) (by decide) (by decide) (by decide)⟩,
    ⟨by decide, by decide, by decide, by decide, by decide,
      (C26_vt demo_bottom (by decide) (by decide) (by decide)).2 (by decide) (by decide)⟩⟩

/-- C26, the counterexample, on the 640 by 480 adapter.  After `A` and
`CSI 68;0;0;80 m` the terminal is in NORMAL state with passthrough off, the
cursor on row 0 of the 80 by 30 grid, `vram_base` is 80 and `vram_end` is
still 2400.  VT then copies downwards from address 2399, as `vram_end` has it:
the cell of row 0, column 0 (address 80) takes the `A` of address 0 and is
not a space in the effective colour 2. -/
theorem C26_scroll_down_uses_a_stale_end :
    ∃ t t1, Reachable t ∧
      (t.td.state, t.td.flags &&& TFLAG_ATTRIB_PASSTHRU, t.td.y, t.td.rows, t.td.cols) =
        (TSTATE_NORMAL, 0, 0, 30, 80) ∧
      (t.td.vram_base, t.td.vram_size, t.td.vram_end, t.td.color) = (80, 2400, 2400, 2) ∧
      feed t [0x0B] = some t1 ∧
      (t1.hw.vram (xansi_calc_addr t.td 0 0), xansi_calc_addr t.td 0 0,
        t.td.color * 256 + 0x20) = (0x0241, 80, 0x0220) := by
  obtain ⟨t, t1, hr, h1, hfeed, h2⟩ := boot_then
    [0x41, 0x1B, 0x5B, 0x36, 0x38, 0x3B, 0x30, 0x3B, 0x30, 0x3B, 0x38, 0x30, 0x6D] [0x0B] _ _
    (fun t => ((t.td.state, t.td.flags &&& TFLAG_ATTRIB_PASSTHRU, t.td.y, t.td.rows, t.td.cols),
      (t.td.vram_base, t.td.vram_size, t.td.vram_end, t.td.color)))
    (fun t1 => t1.hw.vram 80)
    ((TSTATE_NORMAL, 0, 0, 30, 80), (80, 2400, 2400, 2)) 0x0241
    (by decide!) (by decide!) (by decide!)
  simp only [Prod.mk.injEq] at h1
  obtain ⟨⟨a1, a2, a3, a4, a5⟩, b1, b2, b3, b4⟩ := h1
  have e0 : xansi_calc_addr t.td 0 0 = 80 := by
    unfold xansi_calc_addr; rw [b1, a5]; decide
  refine ⟨t, t1, hr, ?_, ?_, hfeed, ?_⟩
  · simp only [Prod.mk.injEq]; exact ⟨a1, a2, a3, a4, a5⟩
  · simp only [Prod.mk.injEq]; exact ⟨b1, b2, b3, b4⟩
  · rw [e0, h2, b4]

/-! ## Parameters and pending wraps: failing inputs -/

/-- C31, the failing input, on the 640 by 480 adapter: after `CSI`, an empty
first value, `;` and the digit `5` the parser is in CSI state with
`num_parms = 1`, slot 0 holds 5 and slot 1 holds 0, where the claim has 0 in
slot 0 and 5 in slot 1; the final byte `H` then puts the cursor on row 4,
column 0 (as `CSI 5 H` does) instead of row 0, column 4.  With the first value
`2` given, `CSI 2;5` stores 2 and 5 in slots 0 and 1. -/
theorem C31_empty_first_value_is_overwritten :
    (∃ t t1, Reachable t ∧ t.td.state = TSTATE_NORMAL ∧
      feed t [0x1B, 0x5B, 0x3B, 0x35] = some t1 ∧
      (t1.td.state, t1.td.num_parms, arr_get t1.td.csi_parms 0, arr_get t1.td.csi_parms 1) =
        (TSTATE_CSI, 1, 5, 0)) ∧
    (∃ t t1, Reachable t ∧ (t.td.state, t.td.x, t.td.y) = (TSTATE_NORMAL, 0, 0) ∧
      feed t [0x1B, 0x5B, 0x3B, 0x35, 0x48] = some t1 ∧ (t1.td.x, t1.td.y) = (0, 4)) ∧
    (∃ t t1, Reachable t ∧ t.td.state = TSTATE_NORMAL ∧
      feed t [0x1B, 0x5B, 0x32, 0x3B, 0x35] = some t1 ∧
      (t1.td.state, t1.td.num_parms, arr_get t1.td.csi_parms 0, arr_get t1.td.csi_parms 1) =
        (TSTATE_CSI, 2, 2, 5)) :=
  ⟨boot_then [] _ _ _ _ _ _ _ (by decide!) (by decide!) (by decide!),
    boot_then [] _ _ _ _ _ _ _ (by decide!) (by decide!) (by decide!),
    boot_then [] _ _ _ _ _ _ _ (by decide!) (by decide!) (by decide!)⟩

/-- C32, the failing input, on the 640 by 480 adapter: after `CSI` and the 16
values `1;2;...;16` the parser is in ILLEGAL state, `num_parms` is 16 and slot
15 holds 0, not 16: the fifteenth `;` makes the sequence illegal and the
digits of the sixteenth value are swallowed.  After the 15 values
`1;2;...;15` the parser is in CSI state with `num_parms = 15` and the values
in the slots. -/
theorem C32_sixteenth_parameter_is_illegal :
    (∃ t t1, Reachable t ∧ t.td.state = TSTATE_NORMAL ∧
      feed t [0x1B, 0x5B, 0x31, 0x3B, 0x32, 0x3B, 0x33, 0x3B, 0x34, 0x3B, 0x35, 0x3B, 0x36, 0x3B,
        0x37, 0x3B, 0x38, 0x3B, 0x39, 0x3B, 0x31, 0x30, 0x3B, 0x31, 0x31, 0x3B, 0x31, 0x32, 0x3B,
        0x31, 0x33, 0x3B, 0x31, 0x34, 0x3B, 0x31, 0x35, 0x3B, 0x31, 0x36] = some t1 ∧
      (t1.td.state, t1.td.num_parms, arr_get t1.td.csi_parms 14, arr_get t1.td.csi_parms 15) =
        (TSTATE_ILLEGAL, 16, 15, 0)) ∧
    (∃ t t1, Reachable t ∧ t.td.state = TSTATE_NORMAL ∧
      feed t [0x1B, 0x5B, 0x31, 0x3B, 0x32, 0x3B, 0x33, 0x3B, 0x34, 0x3B, 0x35, 0x3B, 0x36, 0x3B,
        0x37, 0x3B, 0x38, 0x3B, 0x39, 0x3B, 0x31, 0x30, 0x3B, 0x31, 0x31, 0x3B, 0x31, 0x32, 0x3B,
        0x31, 0x33, 0x3B, 0x31, 0x34, 0x3B, 0x31, 0x35] = some t1 ∧
      (t1.td.state, t1.td.num_parms, arr_get t1.td.csi_parms 0, arr_get t1.td.csi_parms 14) =
        (TSTATE_CSI, 15, 1, 15)) :=
  ⟨boot_then [] _ _ _ _ _ _ _ (by decide!) (by decide!) (by decide!),
    boot_then [] _ _ _ _ _ _ _ (by decide!) (by decide!) (by decide!)⟩

/-- C33, the failing input, on the 640 by 480 adapter: after `CSI 99 B` and 80
letters the bottom row is full, a wrap is pending (`lcf` set) and `cur_addr`
is 2400, one past the last cell of the grid; the ignored sequence `CSI z`
returns the parser to NORMAL and sets `cur_addr` to 2320, the address of
`(0, 29)`, with `lcf` still set. -/
theorem C33_ignored_sequence_moves_the_cursor_address :
    ∃ t t1, Reachable t ∧
      (t.td.state, t.td.x, t.td.y, t.td.lcf, t.td.cur_addr) = (TSTATE_NORMAL, 0, 29, true, 2400) ∧
      feed t [0x1B, 0x5B, 0x7A] = some t1 ∧
      (t1.td.state, t1.td.x, t1.td.y, t1.td.lcf, t1.td.cur_addr) =
        (TSTATE_NORMAL, 0, 29, true, 2320) :=
  boot_then ([0x1B, 0x5B, 0x39, 0x39, 0x42] ++ List.replicate 80 0x41) _ _ _ _ _ _ _
    (by decide!) (by decide!) (by decide!)

/-- C38, the failing input, on the 640 by 480 adapter, from the state after
`CSI 99 B` and 80 letters `A` (bottom row full, wrap pending, autowrap on).
With `CSI 0 m` fed first, the letter `B` is written over the first `A` of the
bottom row (address 2320) and nothing scrolls: the second cell of the bottom
row still holds `A` and the row above (address 2240) is still blank.  Without
the SGR sequence the letter `B` scrolls the grid: the filled line is on row 28
and `B` is alone on the bottom row. -/
theorem C38_sgr_drops_the_pending_wrap :
    ∃ t t1 t2, Reachable t ∧
      feed t [0x1B, 0x5B, 0x30, 0x6D, 0x42] = some t1 ∧
      (t1.hw.vram 2240, t1.hw.vram 2320, t1.hw.vram 2321, t1.td.x, t1.td.y) =
        (0x0220, 0x0242, 0x0241, 1, 29) ∧
      feed t [0x42] = some t2 ∧
      (t2.hw.vram 2240, t2.hw.vram 2320, t2.hw.vram 2321, t2.td.x, t2.td.y) =
        (0x0241, 0x0242, 0x0220, 1, 29) :=
  boot_then2 ([0x1B, 0x5B, 0x39, 0x39, 0x42] ++ List.replicate 80 0x41) _ _ _ _ _ _ _ _
    (by decide!) (by decide!) (by decide!)

/-- C39, the failing inputs, on the 640 by 480 adapter: after `CSI 41 m` (red
background, effective colour `0x42`) the cursor is at home, `lcf` is false,
`cur_addr` is consistent and the cell at address `vram_end = 2400` holds
`0x0220`.  FF, `CSI 0 J` and `CSI 2 J` each leave `0x4220` in that cell: the
erase writes the cell at `vram_end`. -/
theorem C39_erase_writes_the_cell_at_vram_end :
    (∃ t t1, Reachable t ∧
      ((t.td.x, t.td.y, t.td.lcf, t.td.cur_addr), (t.td.vram_base, t.td.vram_end,
        t.hw.vram 2400)) = ((0, 0, false, 0), (0, 2400, 0x0220)) ∧
      feed t [0x0C] = some t1 ∧ t1.hw.vram 2400 = 0x4220) ∧
    (∃ t t1, Reachable t ∧
      ((t.td.x, t.td.y, t.td.lcf, t.td.cur_addr), (t.td.vram_base, t.td.vram_end,
        t.hw.vram 2400)) = ((0, 0, false, 0), (0, 2400, 0x0220)) ∧
      feed t [0x1B, 0x5B, 0x30, 0x4A] = some t1 ∧ t1.hw.vram 2400 = 0x4220) ∧
    (∃ t t1, Reachable t ∧
      ((t.td.x, t.td.y, t.td.lcf, t.td.cur_addr), (t.td.vram_base, t.td.vram_end,
        t.hw.vram 2400)) = ((0, 0, false, 0), (0, 2400, 0x0220)) ∧
      feed t [0x1B, 0x5B, 0x32, 0x4A] = some t1 ∧ t1.hw.vram 2400 = 0x4220) :=
  ⟨boot_then [0x1B, 0x5B, 0x34, 0x31, 0x6D] _ _ _ _ _ _ _ (by decide!) (by decide!)
      (by decide!),
    boot_then [0x1B, 0x5B, 0x34, 0x31, 0x6D] _ _ _ _ _ _ _ (by decide!) (by decide!)
      (by decide!),
    boot_then [0x1B, 0x5B, 0x34, 0x31, 0x6D] _ _ _ _ _ _ _ (by decide!) (by decide!)
      (by decide!)⟩

/-! ## The chunked scroll and the naive scroll -/

/-- The chunked loops of `xansi_do_scroll`, as run by `xansi_scroll_up`, are
the naive loops: `vram_size - cols` single word copies, then `cols` blanks. -/
theorem scroll_up_loops (t : Term) (hc1 : 1 ≤ t.td.cols) (hc2 : t.td.cols ≤ t.td.vram_size)
    (hb : t.td.vram_size ≤ 65536) :
    (xansi_scroll_up t).hw = (scroll_up_naive t).hw := by
  obtain ⟨H, hH⟩ : ∃ H : Xosera, H = xm_setw .RD_ADDR (t.td.vram_base + t.td.cols)
      (xm_setw .WR_ADDR t.td.vram_base (xm_setw .RD_INCR 1 (xm_setw .WR_INCR 1 t.hw))) :=
    ⟨_, rfl⟩
  have hwa : H.wr_addr = u16 t.td.vram_base := by rw [hH]; rfl
  have hra : H.rd_addr = u16 (t.td.vram_base + t.td.cols) := by rw [hH]; rfl
  have hri : H.rd_incr = 1 := by rw [hH]; simp [xm_setw, u16]
  have hwi : H.wr_incr = 1 := by rw [hH]; simp [xm_setw, u16]
  have hlag : lag t.td.cols H := by
    refine ⟨by rw [hri, hwi], ?_⟩
    rw [hra, hwa]; unfold u16; omega
  have hn : sub16 t.td.vram_size t.td.cols = t.td.vram_size - t.td.cols := by
    unfold sub16; omega
  have hstage := scroll_stages_eq t.td.cols (t.td.vram_size - t.td.cols) H hlag
    (by rw [hwi]; omega)
  simp only [xansi_scroll_up, xansi_do_scroll, scroll_up_naive]
  rw [← hH, hn, hstage]

/-- C35: for every `cols >= 1` and `vram_size >= cols` (a 16-bit count), the
chunked loops of `xansi_do_scroll` (8 words a pass, then 2 words, then a last
word), as `xansi_scroll_up` runs them, leave the adapter exactly as the naive
procedure does that copies `vram_size - cols` cells one at a time and then
writes `cols` blanks; the cell at `vram_base + i` takes the old content of the
cell at `vram_base + i + cols` for `i < vram_size - cols`, the last `cols`
cells of the grid become a space in the effective colour, and no cell outside
`[vram_base, vram_base + vram_size)` is written (addresses modulo `2^16`). -/
theorem C35_chunked_scroll (t : Term) (hc1 : 1 ≤ t.td.cols) (hc2 : t.td.cols ≤ t.td.vram_size)
    (hb : t.td.vram_size < 65536) (hcolor : t.td.color < 256) :
    (xansi_scroll_up t).hw = (scroll_up_naive t).hw ∧
    (xansi_scroll_up t).td = t.td ∧
    (∀ i, i + t.td.cols < t.td.vram_size →
      (xansi_scroll_up t).hw.vram (u16 (t.td.vram_base + i)) =
        u16 (t.hw.vram (u16 (t.td.vram_base + i + t.td.cols)))) ∧
    (∀ i, i < t.td.vram_size → t.td.vram_size ≤ i + t.td.cols →
      (xansi_scroll_up t).hw.vram (u16 (t.td.vram_base + i)) = t.td.color * 256 + 0x20) ∧
    (∀ a, (∀ i, i < t.td.vram_size → a ≠ u16 (t.td.vram_base + i)) →
      (xansi_scroll_up t).hw.vram a = t.hw.vram a) := by
  obtain ⟨ha, hb', hc⟩ := scroll_up_cells t hc1 hc2 (by omega)
  refine ⟨scroll_up_loops t hc1 hc2 (by omega), rfl, ?_, ?_, hc⟩
  · intro i hi
    rw [ha i hi, Nat.add_assoc]
  · intro i h1 h2
    rw [hb' i h1 h2, u8_of_lt _ hcolor]

/-- C35 at a concrete input: the 80 by 30 terminal. -/
theorem C35_chunked_scroll_witness :
    1 ≤ demo_term.td.cols ∧ demo_term.td.cols ≤ demo_term.td.vram_size ∧
    demo_term.td.vram_size < 65536 ∧ demo_term.td.color < 256 ∧
    ((xansi_scroll_up demo_term).hw = (scroll_up_naive demo_term).hw ∧
    (xansi_scroll_up demo_term).td = demo_term.td ∧
    (∀ i, i + demo_term.td.cols < demo_term.td.vram_size →
      (xansi_scroll_up demo_term).hw.vram (u16 (demo_term.td.vram_base + i)) =
        u16 (demo_term.hw.vram (u16 (demo_term.td.vram_base + i + demo_term.td.cols)))) ∧
    (∀ i, i < demo_term.td.vram_size → demo_term.td.vram_size ≤ i + demo_term.td.cols →
      (xansi_scroll_up demo_term).hw.vram (u16 (demo_term.td.vram_base + i)) =
        demo_term.td.color * 256 + 0x20) ∧
    (∀ a, (∀ i, i < demo_term.td.vram_size → a ≠ u16 (demo_term.td.vram_base + i)) →
      (xansi_scroll_up demo_term).hw.vram a = demo_term.hw.vram a)) :=
  ⟨by decide, by decide, by decide, by decide,
    C35_chunked_scroll demo_term (by decide) (by decide) (by decide) (by decide)⟩

/-! ## Printing with autowrap off -/

theorem drawchar_no_autowrap (t : Term) (b : Nat) (hl : t.td.lcf = false)
    (hf : t.td.flags &&& TFLAG_NO_AUTOWRAP ≠ 0) (hx : t.td.x < t.td.cols)
    (hc : t.td.cols < 65536) (hca : t.td.cur_addr < 65536) :
    xansi_drawchar t b =
      { td := { t.td with
          cur_addr := if t.td.x + 1 < t.td.cols then u16 (t.td.cur_addr + 1) else t.td.cur_addr,
          x := if t.td.x + 1 < t.td.cols then t.td.x + 1 else t.td.x },
        hw := xm_setbl_DATA b (xm_setbh_DATA t.td.color (xm_setw .WR_ADDR t.td.cur_addr t.hw)) } := by
  have h1 : u16 (t.td.x + 1) = t.td.x + 1 := by unfold u16; omega
  by_cases h2 : t.td.x + 1 < t.td.cols
  · have h3 : ¬ (t.td.x + 1 ≥ t.td.cols) := by omega
    simp [xansi_drawchar, xansi_check_lcf, hl, h1, h2, h3]
  · have h3 : t.td.x + 1 ≥ t.td.cols := by omega
    have h4 : sub16 (u16 (t.td.cur_addr + 1)) 1 = t.td.cur_addr := by unfold sub16 u16; omega
    have h5 : sub16 t.td.cols 1 = t.td.x := by unfold sub16; omega
    simp [xansi_drawchar, xansi_check_lcf, hl, h1, h2, h3, hf, h4, h5]

/-- One printable byte with autowrap off, `lcf` false and the cursor in a
column of the grid: the cell at `cur_addr` is written and the cursor moves
right by one unless it is in the last column, where it stays. -/
theorem putchar_no_autowrap (t : Term) (b : Nat) (hs : t.td.state = TSTATE_NORMAL)
    (hb : printable b) (hl : t.td.lcf = false) (hf : t.td.flags &&& TFLAG_NO_AUTOWRAP ≠ 0)
    (hx : t.td.x < t.td.cols) (hc : t.td.cols < 65536) (hca : t.td.cur_addr < 65536) :
    ∃ t1, xansiterm_putchar t b = some t1 ∧
      t1.td = { t.td with
        cur_addr := if t.td.x + 1 < t.td.cols then u16 (t.td.cur_addr + 1) else t.td.cur_addr,
        x := if t.td.x + 1 < t.td.cols then t.td.x + 1 else t.td.x,
        cursor_drawn := false } ∧
      t1.hw.vram = fun a => if a = u16 t.td.cur_addr then u8 t.td.color * 256 + b
                            else t.hw.vram a := by
  have hb8 : u8 b = b := u8_of_lt b (by unfold printable at hb; omega)
  have hdraw := drawchar_no_autowrap (xansi_erase_cursor t) b
    (by rw [erase_cursor_td]; exact hl) (by rw [erase_cursor_td]; exact hf)
    (by rw [erase_cursor_td]; exact hx) (by rw [erase_cursor_td]; exact hc)
    (by rw [erase_cursor_td]; exact hca)
  refine ⟨_, putchar_printable t b hs hb, ?_, ?_⟩
  · rw [hdraw]
    simp [erase_cursor_td]
  · rw [hdraw]
    simp only [draw_hw_vram, erase_cursor_td, hb8]
    funext a
    by_cases ha : a = u16 t.td.cur_addr
    · simp [ha]
    · simp [ha, erase_cursor_vram t a ha]

/-- A run of printable bytes with autowrap off: the cursor moves right up to
the last column and stays there; only cells from `cur_addr` up to the address
the cursor ends on are written. -/
theorem no_autowrap_run (bs : List Nat) : ∀ (t : Term), (∀ b ∈ bs, printable b) →
    t.td.state = TSTATE_NORMAL → t.td.lcf = false → t.td.flags &&& TFLAG_NO_AUTOWRAP ≠ 0 →
    t.td.x < t.td.cols → t.td.cols < 65536 → t.td.cur_addr < 65536 →
    ∃ t1, feed t bs = some t1 ∧
      t1.td = { t.td with
        cur_addr := u16 (t.td.cur_addr + (min (t.td.x + bs.length) (t.td.cols - 1) - t.td.x)),
        x := min (t.td.x + bs.length) (t.td.cols - 1),
        cursor_drawn := if bs = [] then t.td.cursor_drawn else false } ∧
      (∀ a, (∀ j, j ≤ min (t.td.x + bs.length) (t.td.cols - 1) - t.td.x →
          a ≠ u16 (t.td.cur_addr + j)) → t1.hw.vram a = t.hw.vram a) := by
  induction bs with
  | nil =>
    intro t _ _ _ _ hx _ hca
    refine ⟨t, rfl, ?_, fun _ _ => rfl⟩
    have e1 : min (t.td.x + ([] : List Nat).length) (t.td.cols - 1) = t.td.x := by
      simp only [List.length_nil, Nat.add_zero]; omega
    rw [e1, Nat.sub_self, Nat.add_zero, u16_of_lt _ hca]
    simp
  | cons b bs ih =>
    intro t hb hs hl hf hx hc hca
    obtain ⟨T, hT, htd, hv⟩ := putchar_no_autowrap t b hs (hb b (by simp)) hl hf hx hc hca
    have e1 : T.td.state = TSTATE_NORMAL := by rw [htd]; exact hs
    have e2 : T.td.lcf = false := by rw [htd]; exact hl
    have e3 : T.td.flags = t.td.flags := by rw [htd]
    have e4 : T.td.cols = t.td.cols := by rw [htd]
    have e5 : T.td.x = if t.td.x + 1 < t.td.cols then t.td.x + 1 else t.td.x := by rw [htd]
    have e6 : T.td.cur_addr =
        if t.td.x + 1 < t.td.cols then u16 (t.td.cur_addr + 1) else t.td.cur_addr := by rw [htd]
    have e7 : T.td.x < T.td.cols := by rw [e5, e4]; split <;> omega
    have e8 : T.td.cur_addr < 65536 := by
      rw [e6]; split
      · unfold u16; omega
      · exact hca
    obtain ⟨t1, h1, htd1, hv1⟩ := ih T (fun c hc' => hb c (by simp [hc'])) e1 e2
      (by rw [e3]; exact hf) e7 (by rw [e4]; exact hc) e8
    have ex : min (T.td.x + bs.length) (T.td.cols - 1) =
        min (t.td.x + (b :: bs).length) (t.td.cols - 1) := by
      rw [e5, e4]; simp only [List.length_cons]; split <;> omega
    have ea : u16 (T.td.cur_addr + (min (T.td.x + bs.length) (T.td.cols - 1) - T.td.x)) =
        u16 (t.td.cur_addr + (min (t.td.x + (b :: bs).length) (t.td.cols - 1) - t.td.x)) := by
      rw [ex, e5, e6]; simp only [List.length_cons]
      split <;> (unfold u16; omega)
    refine ⟨t1, by simp only [feed, hT, Option.some_bind, h1], ?_, ?_⟩
    · rw [htd1, ea, ex, htd]
      simp
    · intro a hna
      have h0 : a ≠ u16 t.td.cur_addr := by
        have := hna 0 (by omega)
        simpa using this
      rw [hv1 a ?_, hv]
      · simp [h0]
      · intro j hj
        rw [e6]
        rw [ex, e5] at hj
        simp only [List.length_cons] at hj hna
        by_cases c : t.td.x + 1 < t.td.cols
        · simp only [c, if_true] at hj ⊢
          have := hna (j + 1) (by omega)
          intro h'
          apply this
          rw [h']; unfold u16; omega
        · simp only [c, if_false] at hj ⊢
          exact hna j (by omega)

/-- C37: with the no-autowrap flag set, in NORMAL state with `lcf` false and
the cursor in a column of the grid, printing any sequence of printable bytes
returns, leaves `y` as it was and `lcf` false, and changes nothing of the
session record but `x`, `cur_addr` and the input cursor flag; `x` advances by
one per byte up to `cols - 1` and stays there, `cur_addr` advances with it
(and is the address of `(x, y)` afterwards when it was before); no cell is
written but those from the old `cur_addr` to the new one, so nothing scrolls.
Once `x` is `cols - 1`, `x` and `cur_addr` no longer change and every further
byte is written, in the effective colour, to the cell at `cur_addr` (the last
cell of the row), no other cell changing. -/
theorem C37_no_autowrap (t : Term) (bs : List Nat) (hb : ∀ b ∈ bs, printable b)
    (hs : t.td.state = TSTATE_NORMAL) (hf : t.td.flags &&& TFLAG_NO_AUTOWRAP ≠ 0)
    (hl : t.td.lcf = false) (hx : t.td.x < t.td.cols) (hc : t.td.cols < 65536)
    (hca : t.td.cur_addr < 65536) (hcolor : t.td.color < 256) :
    ∃ t1, feed t bs = some t1 ∧
      t1.td.y = t.td.y ∧ t1.td.lcf = false ∧ t1.td = with_cursor t.td t1.td ∧
      t1.td.x = min (t.td.x + bs.length) (t.td.cols - 1) ∧
      t1.td.cur_addr = u16 (t.td.cur_addr + (t1.td.x - t.td.x)) ∧
      (t.td.cur_addr = xansi_calc_addr t.td t.td.x t.td.y →
        t1.td.cur_addr = xansi_calc_addr t.td t1.td.x t.td.y) ∧
      (∀ a, (∀ j, j ≤ t1.td.x - t.td.x → a ≠ u16 (t.td.cur_addr + j)) →
        t1.hw.vram a = t.hw.vram a) ∧
      (t.td.x + 1 = t.td.cols →
        t1.td.x = t.td.cols - 1 ∧ t1.td.cur_addr = t.td.cur_addr ∧
        ∀ init b, bs = init ++ [b] →
          t1.hw.vram (u16 t.td.cur_addr) = t.td.color * 256 + b ∧
          ∀ a, a ≠ u16 t.td.cur_addr → t1.hw.vram a = t.hw.vram a) := by
  obtain ⟨t1, h1, htd, hv⟩ := no_autowrap_run bs t hb hs hl hf hx hc hca
  have ex : t1.td.x = min (t.td.x + bs.length) (t.td.cols - 1) := by rw [htd]
  have ea : t1.td.cur_addr =
      u16 (t.td.cur_addr + (min (t.td.x + bs.length) (t.td.cols - 1) - t.td.x)) := by rw [htd]
  refine ⟨t1, h1, by rw [htd], by rw [htd]; exact hl, by rw [htd]; rfl, ex, by rw [ea, ex],
    ?_, by rw [ex]; exact hv, ?_⟩
  · intro ha
    rw [ea, ex, ha]
    unfold xansi_calc_addr u16
    omega
  · intro hlast
    have e0 : min (t.td.x + bs.length) (t.td.cols - 1) = t.td.x := by omega
    refine ⟨by rw [ex]; omega, by rw [ea, e0, Nat.sub_self, Nat.add_zero, u16_of_lt _ hca], ?_⟩
    intro init b hbs
    subst hbs
    obtain ⟨T, hT, hTtd, hTv⟩ := no_autowrap_run init t (fun c hc' => hb c (by simp [hc'])) hs
      hl hf hx hc hca
    have f0 : min (t.td.x + init.length) (t.td.cols - 1) = t.td.x := by omega
    rw [f0, Nat.sub_self] at hTtd hTv
    rw [Nat.add_zero, u16_of_lt _ hca] at hTtd
    have g1 : T.td.state = TSTATE_NORMAL := by rw [hTtd]; exact hs
    have g2 : T.td.lcf = false := by rw [hTtd]; exact hl
    have g3 : T.td.flags = t.td.flags := by rw [hTtd]
    have g4 : T.td.cols = t.td.cols := by rw [hTtd]
    have g5 : T.td.x = t.td.x := by rw [hTtd]
    have g6 : T.td.cur_addr = t.td.cur_addr := by rw [hTtd]
    have g7 : T.td.color = t.td.color := by rw [hTtd]
    obtain ⟨t2, h2, _, hv2⟩ := putchar_no_autowrap T b g1 (hb b (by simp)) g2
      (by rw [g3]; exact hf) (by rw [g5, g4]; exact hx) (by rw [g4]; exact hc)
      (by rw [g6]; exact hca)
    have hfeed : feed t (init ++ [b]) = some t2 := by
      rw [feed_snoc t init b T hT]; exact h2
    rw [hfeed] at h1
    cases h1
    rw [hv2, g6, g7, u8_of_lt _ hcolor]
    refine ⟨by simp, ?_⟩
    intro a ha
    simp only [ha, if_false]
    apply hTv
    intro j hj
    have : j = 0 := by omega
    subst this
    simpa using ha

/-- C37 at a concrete input: three letters on the 80 by 30 terminal with
autowrap off and the cursor in the last column. -/
theorem C37_no_autowrap_witness :
    (∀ b ∈ [0x41, 0x42, 0x43], printable b) ∧ demo_nowrap.td.state = TSTATE_NORMAL ∧
    demo_nowrap.td.flags &&& TFLAG_NO_AUTOWRAP ≠ 0 ∧ demo_nowrap.td.lcf = false ∧
    demo_nowrap.td.x < demo_nowrap.td.cols ∧ demo_nowrap.td.cols < 65536 ∧
    demo_nowrap.td.cur_addr < 65536 ∧ demo_nowrap.td.color < 256 ∧
    ∃ t1, feed demo_nowrap [0x41, 0x42, 0x43] = some t1 ∧
      t1.td.y = demo_nowrap.td.y ∧ t1.td.lcf = false ∧
      t1.td = with_cursor demo_nowrap.td t1.td ∧
      t1.td.x = min (demo_nowrap.td.x + [0x41, 0x42, 0x43].length) (demo_nowrap.td.cols - 1) ∧
      t1.td.cur_addr = u16 (demo_nowrap.td.cur_addr + (t1.td.x - demo_nowrap.td.x)) ∧
      (demo_nowrap.td.cur_addr =
          xansi_calc_addr demo_nowrap.td demo_nowrap.td.x demo_nowrap.td.y →
        t1.td.cur_addr = xansi_calc_addr demo_nowrap.td t1.td.x demo_nowrap.td.y) ∧
      (∀ a, (∀ j, j ≤ t1.td.x - demo_nowrap.td.x → a ≠ u16 (demo_nowrap.td.cur_addr + j)) →
        t1.hw.vram a = demo_nowrap.hw.vram a) ∧
      (demo_nowrap.td.x + 1 = demo_nowrap.td.cols →
        t1.td.x = demo_nowrap.td.cols - 1 ∧ t1.td.cur_addr = demo_nowrap.td.cur_addr ∧
        ∀ init b, [0x41, 0x42, 0x43] = init ++ [b] →
          t1.hw.vram (u16 demo_nowrap.td.cur_addr) = demo_nowrap.td.color * 256 + b ∧
          ∀ a, a ≠ u16 demo_nowrap.td.cur_addr → t1.hw.vram a = demo_nowrap.hw.vram a) :=
  ⟨by decide, by decide, by decide, by decide, by decide, by decide, by decide, by decide,
    C37_no_autowrap demo_nowrap [0x41, 0x42, 0x43] (by decide) (by decide) (by decide)
      (by decide) (by decide) (by decide) (by decide) (by decide)⟩

/-- The cell a cursor draw writes at the cursor address, and the cell read
there before. -/
theorem draw_cursor_vram (t : Term) (hd : t.td.cursor_drawn = false) :
    (xansi_draw_cursor t).hw.vram (u16 t.td.cur_addr) =
      (let data := t.hw.vram (u16 t.td.cur_addr)
       let c0 := u16 ((t.td.color &&& 0x0f) <<< 12) ||| u16 ((t.td.color &&& 0xf0) <<< 4)
       let c1 := if u16 ((c0 ^^^ data) &&& 0x0f00) = 0 then c0 ^^^ 0x0800 else c0
       let c2 := if u16 ((c1 ^^^ data) &&& 0xf000) = 0 then c1 ^^^ 0x8000 else c1
       u16 (c2 ||| u16 (data &&& 0x00ff))) := by
  have e : u16 (u16 t.td.cur_addr + u16 0) = u16 t.td.cur_addr := by unfold u16; omega
  have e2 : ∀ v, u16 (u16 v) = u16 v := by intro v; unfold u16; omega
  unfold xansi_draw_cursor
  simp [hd, xm_setw, xm_getw, vram_store, e, e2]

/-- The bits of the cursor colour word: nothing below bit 8, nothing above
bit 15. -/
theorem cursor_color_bits (color : Nat) :
    (u16 ((color &&& 0x0f) <<< 12) ||| u16 ((color &&& 0xf0) <<< 4)) < 65536 ∧
    (u16 ((color &&& 0x0f) <<< 12) ||| u16 ((color &&& 0xf0) <<< 4)) &&& 0xff = 0 := by
  have h : color &&& 255 < 256 := Nat.lt_succ_of_le Nat.and_le_right
  have e1 : color &&& 0x0f = (color &&& 255) &&& 0x0f := by rw [Nat.and_assoc]; rfl
  have e2 : color &&& 0xf0 = (color &&& 255) &&& 0xf0 := by rw [Nat.and_assoc]; rfl
  rw [e1, e2]
  generalize color &&& 255 = c at h
  revert c
  decide!

/-- Masking distributes over the bitwise or. -/
theorem or_mask (a b m : Nat) : (a ||| b) &&& m = (a &&& m) ||| (b &&& m) := by
  rw [Nat.and_comm, Nat.and_or_distrib_left, Nat.and_comm m a, Nat.and_comm m b]

/-- Flipping a bit changes the value. -/
theorem xor_ne_self (a k : Nat) (hk : k ≠ 0) : a ^^^ k ≠ a := by
  intro h
  have h2 : a ^^^ k = a ^^^ 0 := by rw [h, Nat.xor_zero]
  exact hk (Nat.xor_right_inj.mp h2)

/-- A colour word that differs from the data in the bits of `m`, after the
adjustment by the bit `k` of `m` made when they agree. -/
theorem cursor_adjust (c data m k : Nat) (hm : m < 65536) (hk : k &&& m = k) (hk0 : k ≠ 0) :
    (if u16 ((c ^^^ data) &&& m) = 0 then c ^^^ k else c) &&& m ≠ data &&& m := by
  have hlt : (c ^^^ data) &&& m < 65536 := Nat.lt_of_le_of_lt Nat.and_le_right hm
  have hiff : u16 ((c ^^^ data) &&& m) = 0 ↔ c &&& m = data &&& m := by
    rw [u16_of_lt _ hlt, Nat.and_xor_distrib_right, Nat.xor_eq_zero]
  by_cases h : c &&& m = data &&& m
  · rw [if_pos (hiff.mpr h), Nat.and_xor_distrib_right, hk, h]
    exact xor_ne_self _ _ hk0
  · rw [if_neg (fun h2 => h (hiff.mp h2))]
    exact h

/-- The adjustment by a bit outside `m` leaves the bits of `m` alone. -/
theorem cursor_adjust_frame (c k m : Nat) (p : Prop) [Decidable p] (hk : k &&& m = 0) :
    (if p then c ^^^ k else c) &&& m = c &&& m := by
  split
  · rw [Nat.and_xor_distrib_right, hk, Nat.xor_zero]
  · rfl

/-- The adjustment keeps the colour word a 16-bit value. -/
theorem cursor_adjust_lt (c k : Nat) (p : Prop) [Decidable p] (hc : c < 65536)
    (hk : k < 65536) : (if p then c ^^^ k else c) < 65536 := by
  split
  · exact Nat.xor_lt_two_pow (n := 16) hc hk
  · exact hc

/-- The word written by a cursor draw, from a colour word `c0` with an empty
low byte: the character code of the data, and colour nibbles that both differ
from those of the data. -/
theorem cursor_cell_bits (c0 data : Nat) (hc : c0 < 65536) (hl : c0 &&& 0xff = 0) :
    (u16 ((if u16 (((if u16 ((c0 ^^^ data) &&& 0x0f00) = 0 then c0 ^^^ 0x0800 else c0) ^^^ data)
            &&& 0xf000) = 0
          then (if u16 ((c0 ^^^ data) &&& 0x0f00) = 0 then c0 ^^^ 0x0800 else c0) ^^^ 0x8000
          else (if u16 ((c0 ^^^ data) &&& 0x0f00) = 0 then c0 ^^^ 0x0800 else c0))
        ||| u16 (data &&& 0x00ff))) &&& 0xff = data &&& 0xff ∧
    (u16 ((if u16 (((if u16 ((c0 ^^^ data) &&& 0x0f00) = 0 then c0 ^^^ 0x0800 else c0) ^^^ data)
            &&& 0xf000) = 0
          then (if u16 ((c0 ^^^ data) &&& 0x0f00) = 0 then c0 ^^^ 0x0800 else c0) ^^^ 0x8000
          else (if u16 ((c0 ^^^ data) &&& 0x0f00) = 0 then c0 ^^^ 0x0800 else c0))
        ||| u16 (data &&& 0x00ff))) &&& 0x0f00 ≠ data &&& 0x0f00 ∧
    (u16 ((if u16 (((if u16 ((c0 ^^^ data) &&& 0x0f00) = 0 then c0 ^^^ 0x0800 else c0) ^^^ data)
            &&& 0xf000) = 0
          then (if u16 ((c0 ^^^ data) &&& 0x0f00) = 0 then c0 ^^^ 0x0800 else c0) ^^^ 0x8000
          else (if u16 ((c0 ^^^ data) &&& 0x0f00) = 0 then c0 ^^^ 0x0800 else c0))
        ||| u16 (data &&& 0x00ff))) &&& 0xf000 ≠ data &&& 0xf000 := by
  obtain ⟨c1, e1⟩ : ∃ c1, c1 = (if u16 ((c0 ^^^ data) &&& 0x0f00) = 0 then c0 ^^^ 0x0800 else c0) :=
    ⟨_, rfl⟩
  rw [← e1]
  obtain ⟨c2, e2⟩ : ∃ c2, c2 = (if u16 ((c1 ^^^ data) &&& 0xf000) = 0 then c1 ^^^ 0x8000 else c1) :=
    ⟨_, rfl⟩
  rw [← e2]
  have hc1 : c1 < 65536 := by rw [e1]; exact cursor_adjust_lt _ _ _ hc (by decide)
  have hc2 : c2 < 65536 := by rw [e2]; exact cursor_adjust_lt _ _ _ hc1 (by decide)
  have l1 : c1 &&& 0xff = 0 := by rw [e1, cursor_adjust_frame _ _ _ _ (by decide)]; exact hl
  have l2 : c2 &&& 0xff = 0 := by rw [e2, cursor_adjust_frame _ _ _ _ (by decide)]; exact l1
  have f1 : c1 &&& 0x0f00 ≠ data &&& 0x0f00 := by
    rw [e1]; exact cursor_adjust _ _ _ _ (by decide) (by decide) (by decide)
  have f2 : c2 &&& 0x0f00 = c1 &&& 0x0f00 := by
    rw [e2, cursor_adjust_frame _ _ _ _ (by decide)]
  have b2 : c2 &&& 0xf000 ≠ data &&& 0xf000 := by
    rw [e2]; exact cursor_adjust _ _ _ _ (by decide) (by decide) (by decide)
  have hd : data &&& 0xff < 65536 := Nat.lt_of_le_of_lt Nat.and_le_right (by decide)
  rw [u16_of_lt _ hd, u16_of_lt _ (Nat.or_lt_two_pow (n := 16) hc2 hd)]
  have m1 : (data &&& 0xff) &&& 0xff = data &&& 0xff := by rw [Nat.and_assoc]; rfl
  have m2 : (data &&& 0xff) &&& 0x0f00 = 0 := by rw [Nat.and_assoc]; exact Nat.and_zero _
  have m3 : (data &&& 0xff) &&& 0xf000 = 0 := by rw [Nat.and_assoc]; exact Nat.and_zero _
  refine ⟨?_, ?_, ?_⟩
  · rw [or_mask, l2, m1, Nat.zero_or]
  · rw [or_mask, m2, Nat.or_zero, f2]; exact f1
  · rw [or_mask, m3, Nat.or_zero]; exact b2

/-- C34: when the cursor is not yet drawn, `xansi_draw_cursor` writes at the
cursor address a 16-bit cell with the character code (low byte) of the cell
that was there, a foreground nibble (bits 8 to 11) different from that cell's
and a background nibble (bits 12 to 15) different from that cell's, so the
drawn cell is never the underlying cell; this holds for every cell value and
every colour, with no cell but that one written. -/
theorem C34_cursor_is_visible (t : Term) (hd : t.td.cursor_drawn = false) :
    (xansi_draw_cursor t).hw.vram (u16 t.td.cur_addr) &&& 0xff =
      t.hw.vram (u16 t.td.cur_addr) &&& 0xff ∧
    (xansi_draw_cursor t).hw.vram (u16 t.td.cur_addr) &&& 0x0f00 ≠
      t.hw.vram (u16 t.td.cur_addr) &&& 0x0f00 ∧
    (xansi_draw_cursor t).hw.vram (u16 t.td.cur_addr) &&& 0xf000 ≠
      t.hw.vram (u16 t.td.cur_addr) &&& 0xf000 ∧
    (xansi_draw_cursor t).hw.vram (u16 t.td.cur_addr) ≠ t.hw.vram (u16 t.td.cur_addr) ∧
    (xansi_draw_cursor t).hw.vram (u16 t.td.cur_addr) < 65536 ∧
    (∀ a, a ≠ u16 t.td.cur_addr → (xansi_draw_cursor t).hw.vram a = t.hw.vram a) ∧
    (xansi_draw_cursor t).td.cursor_drawn = true := by
  have hb := cursor_color_bits t.td.color
  have h := cursor_cell_bits _ (t.hw.vram (u16 t.td.cur_addr)) hb.1 hb.2
  have e := draw_cursor_vram t hd
  simp only at e
  rw [← e] at h
  refine ⟨h.1, h.2.1, h.2.2, fun hw => h.2.1 (by rw [hw]), ?_, ?_, ?_⟩
  · rw [e]; unfold u16; omega
  · intro a ha
    have e0 : u16 (u16 t.td.cur_addr + u16 0) = u16 t.td.cur_addr := by unfold u16; omega
    unfold xansi_draw_cursor
    simp [hd, xm_setw, xm_getw, vram_store, e0, ha]
  · unfold xansi_draw_cursor
    simp [hd]

/-- C34 at a concrete input: the cursor drawn on the 80 by 30 terminal. -/
theorem C34_cursor_is_visible_witness :
    demo_term.td.cursor_drawn = false ∧
    (xansi_draw_cursor demo_term).hw.vram (u16 demo_term.td.cur_addr) &&& 0xff =
      demo_term.hw.vram (u16 demo_term.td.cur_addr) &&& 0xff ∧
    (xansi_draw_cursor demo_term).hw.vram (u16 demo_term.td.cur_addr) &&& 0x0f00 ≠
      demo_term.hw.vram (u16 demo_term.td.cur_addr) &&& 0x0f00 ∧
    (xansi_draw_cursor demo_term).hw.vram (u16 demo_term.td.cur_addr) &&& 0xf000 ≠
      demo_term.hw.vram (u16 demo_term.td.cur_addr) &&& 0xf000 ∧
    (xansi_draw_cursor demo_term).hw.vram (u16 demo_term.td.cur_addr) ≠
      demo_term.hw.vram (u16 demo_term.td.cur_addr) ∧
    (xansi_draw_cursor demo_term).hw.vram (u16 demo_term.td.cur_addr) < 65536 ∧
    (∀ a, a ≠ u16 demo_term.td.cur_addr →
      (xansi_draw_cursor demo_term).hw.vram a = demo_term.hw.vram a) ∧
    (xansi_draw_cursor demo_term).td.cursor_drawn = true :=
  ⟨by decide, C34_cursor_is_visible demo_term (by decide)⟩

theorem bell_word_high : ∀ h, h < 256 →
    (256 * h) &&& 0xff = 0 ∧
    u16 (((256 * h) &&& 0xf000) >>> 4) ||| u16 (((256 * h) &&& 0x0f00) <<< 4) =
      256 * swap_nibbles h ∧
    swap_nibbles h < 256 ∧ swap_nibbles (swap_nibbles h) = h := by
  decide!

theorem swap_nibbles_facts (c : Nat) (h : c < 256) :
    swap_nibbles c < 256 ∧ swap_nibbles (swap_nibbles c) = c :=
  (bell_word_high c h).2.2

/-- A byte has no bit in a mask above the low byte. -/
theorem byte_mask (l m : Nat) (hl : l < 256) (hm : 255 &&& m = 0) : l &&& m = 0 := by
  have e : l &&& 255 = l := by
    rw [Nat.and_pow_two_sub_one_eq_mod l 8]; exact Nat.mod_eq_of_lt hl
  rw [← e, Nat.and_assoc, hm, Nat.and_zero]

/-- The word written back by the visual bell for a 16-bit cell: the colour
byte with its nibbles exchanged, over the same character code. -/
theorem bell_word_cell (w : Nat) (h : w < 65536) :
    bell_word w = 256 * swap_nibbles (w / 256) + w % 256 := by
  have hh : w / 256 < 256 := by omega
  have hl : w % 256 < 256 := by omega
  obtain ⟨f1, f2, f3, _⟩ := bell_word_high (w / 256) hh
  have e : w = 256 * (w / 256) ||| w % 256 := by
    rw [← Nat.mul_add_lt_is_or (i := 8) hl]; omega
  have el : w % 256 &&& 255 = w % 256 := by
    rw [Nat.and_pow_two_sub_one_eq_mod _ 8]; exact Nat.mod_eq_of_lt hl
  have m1 : w &&& 0xf000 = (256 * (w / 256)) &&& 0xf000 := by
    rw [e, or_mask, byte_mask _ _ hl rfl, Nat.or_zero, ← e]
  have m2 : w &&& 0x0f00 = (256 * (w / 256)) &&& 0x0f00 := by
    rw [e, or_mask, byte_mask _ _ hl rfl, Nat.or_zero, ← e]
  have m3 : w &&& 0xff = w % 256 := by
    rw [e, or_mask, f1, Nat.zero_or, ← e]; exact el
  unfold bell_word
  rw [m1, m2, m3, f2, u16_of_lt (w % 256) (by omega),
    ← Nat.mul_add_lt_is_or (i := 8) hl, u16_of_lt _ (by omega)]

/-- The loop of the visual bell over `n` cells from `w` on (addresses taken
modulo the address space), reading and writing at the same address. -/
theorem bell_loop_spec (n : Nat) : ∀ (hw : Xosera) (w : Nat),
    hw.rd_addr = u16 w → hw.wr_addr = u16 w → hw.rd_incr = 1 → hw.wr_incr = 1 → n ≤ 65536 →
    ∀ a, (bell_loop n hw).vram a =
      if a < 65536 ∧ sub16 a w < n then bell_word (hw.vram a) else hw.vram a := by
  induction n with
  | zero =>
    intro hw w _ _ _ _ _ a
    have : ¬ (a < 65536 ∧ sub16 a w < 0) := by omega
    rw [if_neg this]; rfl
  | succ n ih =>
    intro hw w hra hwa hri hwi hb a
    obtain ⟨H, hH⟩ : ∃ H : Xosera, H = xm_setw .DATA
        (u16 (((xm_getw .DATA hw).1 &&& 0xf000) >>> 4) |||
          u16 (((xm_getw .DATA hw).1 &&& 0x0f00) <<< 4) ||| u16 ((xm_getw .DATA hw).1 &&& 0xff))
        (xm_getw .DATA hw).2 := ⟨_, rfl⟩
    have hstep : ∀ a, H.vram a = if a = u16 w then bell_word (hw.vram (u16 w)) else hw.vram a := by
      intro a
      rw [hH]
      simp [xm_setw, xm_getw, vram_store, hra, hwa, bell_word]
    have h1 : H.rd_addr = u16 (w + 1) := by
      rw [hH]; simp only [xm_setw, xm_getw, vram_store, hra, hri]; unfold u16; omega
    have h2 : H.wr_addr = u16 (w + 1) := by
      rw [hH]; simp only [xm_setw, xm_getw, vram_store, hwa, hwi]; unfold u16; omega
    have h3 : H.rd_incr = 1 := by rw [hH]; simp [xm_setw, xm_getw, vram_store, hri]
    have h4 : H.wr_incr = 1 := by rw [hH]; simp [xm_setw, xm_getw, vram_store, hwi]
    have hv := ih H (w + 1) h1 h2 h3 h4 (by omega) a
    have hloop : bell_loop (n + 1) hw = bell_loop n H := by rw [hH]; rfl
    rw [hloop, hv, hstep a]
    by_cases c1 : a < 65536 ∧ sub16 a (w + 1) < n
    · have c2 : a < 65536 ∧ sub16 a w < n + 1 := by
        unfold sub16 at c1 ⊢; omega
      have c3 : a ≠ u16 w := by
        intro c3; rw [c3] at c1; unfold sub16 u16 at c1; omega
      rw [if_pos c1, if_pos c2, if_neg c3]
    · by_cases c3 : a = u16 w
      · have c2 : a < 65536 ∧ sub16 a w < n + 1 := by
          rw [c3]; unfold sub16 u16; omega
        rw [if_neg c1, if_pos c3, if_pos c2, c3]
      · have c2 : ¬ (a < 65536 ∧ sub16 a w < n + 1) := by
          unfold sub16 at c1 ⊢; unfold u16 at c3; omega
        rw [if_neg c1, if_neg c3, if_neg c2]

/-- The function `xansi_visualbell` with `invert` set: the `vram_end` cells
from `vram_base` on get their colour nibbles exchanged, nothing else changes. -/
theorem visualbell_invert (t : Term) (he : t.td.vram_end ≤ 65536) :
    (xansi_visualbell t true).td = t.td ∧
    ∀ a, (xansi_visualbell t true).hw.vram a =
      if a < 65536 ∧ sub16 a t.td.vram_base < t.td.vram_end then bell_word (t.hw.vram a)
      else t.hw.vram a := by
  refine ⟨rfl, ?_⟩
  intro a
  show (bell_loop t.td.vram_end _).vram a = _
  rw [bell_loop_spec t.td.vram_end _ t.td.vram_base rfl rfl (by simp [xm_setw, u16])
    (by simp [xm_setw, u16]) he a]
  rfl

/-- The sequences `CSI ?5h` and `CSI ?5l`, fed in a state in which ESC starts
a sequence: the three colours get their nibbles exchanged and the screen is
inverted once. -/
theorem feed_screen_reverse (t : Term) (f : Nat) (hstart : starts_sequence t.td)
    (hf : f = 0x68 ∨ f = 0x6C) :
    feed t [0x1B, 0x5B, 0x3F, 0x35, f] =
      some (xansi_calc_cur_addr (xansi_visualbell
        { td := { t.td with cursor_drawn := false, state := TSTATE_NORMAL,
                            intermediate_char := 0x3F, num_parms := 1,
                            csi_parms := arr_set (List.replicate MAX_CSI_PARMS 0) 0 5,
                            def_color := swap_nibbles t.td.def_color,
                            color := swap_nibbles t.td.color,
                            cur_color := swap_nibbles t.td.cur_color },
          hw := (xansi_erase_cursor t).hw } true)) := by
  have h := feed_mode t true [0x35] f hstart (by decide) (by decide) (by decide) hf
  have e : decimal_value [0x35] = 5 := by decide
  simp only [if_true, List.singleton_append, List.cons_append, List.nil_append, e] at h
  rw [h]
  unfold xansi_mode
  simp

/-- Twice the visual-bell word of a 16-bit cell is the cell. -/
theorem bell_word_twice (w : Nat) (h : w < 65536) :
    bell_word w < 65536 ∧ bell_word (bell_word w) = w := by
  obtain ⟨_, _, f3, f4⟩ := bell_word_high (w / 256) (by omega)
  have e1 := bell_word_cell w h
  have hlt : bell_word w < 65536 := by omega
  have e2 := bell_word_cell (bell_word w) hlt
  have q1 : bell_word w / 256 = swap_nibbles (w / 256) := by omega
  have q2 : bell_word w % 256 = w % 256 := by omega
  rw [q1, q2, f4] at e2
  exact ⟨hlt, by omega⟩

/-- The cells of video memory after the cursor is erased are 16-bit values
when those before are. -/
theorem erase_cursor_cells (t : Term) (h : ∀ a, t.hw.vram a < 65536) (a : Nat) :
    (xansi_erase_cursor t).hw.vram a < 65536 := by
  unfold xansi_erase_cursor
  split
  · simp only [xm_setw, vram_store]
    split
    · unfold u16; omega
    · exact h a
  · exact h a

/-- The screen reversal where the grid lies within the `vram_end` cells that
the loop of `xansi_visualbell` covers from `vram_base` on (as it does when
`vram_base` is 0): fed in a state in which ESC starts a sequence, with 16-bit
cells and 8-bit colours, `CSI ?5h` and `CSI ?5l` exchange the nibbles of the
default, selected and effective colours and of the colour byte of every cell
of the grid, with every character code as it was after the erasure of the
cursor, and change no cell outside the `vram_end` cells from `vram_base` on;
a second `CSI ?5h` or `CSI ?5l` then restores the three colours and the whole
video memory (as it was once the cursor was erased). -/
theorem screen_reverse_within_end (t : Term) (f g : Nat) (hf : f = 0x68 ∨ f = 0x6C)
    (hg : g = 0x68 ∨ g = 0x6C) (hstart : starts_sequence t.td)
    (hdef : t.td.def_color < 256) (hcur : t.td.cur_color < 256) (hcol : t.td.color < 256)
    (hcells : ∀ a, t.hw.vram a < 65536)
    (hsize : t.td.vram_size ≤ t.td.vram_end) (hend : t.td.vram_end < 65536) :
    ∃ t1, feed t [0x1B, 0x5B, 0x3F, 0x35, f] = some t1 ∧
      t1.td.def_color = swap_nibbles t.td.def_color ∧
      t1.td.cur_color = swap_nibbles t.td.cur_color ∧
      t1.td.color = swap_nibbles t.td.color ∧
      (∀ i, i < t.td.vram_size →
        t1.hw.vram (u16 (t.td.vram_base + i)) % 256 =
          (xansi_erase_cursor t).hw.vram (u16 (t.td.vram_base + i)) % 256 ∧
        t1.hw.vram (u16 (t.td.vram_base + i)) / 256 =
          swap_nibbles ((xansi_erase_cursor t).hw.vram (u16 (t.td.vram_base + i)) / 256)) ∧
      (∀ a, ¬ (a < 65536 ∧ sub16 a t.td.vram_base < t.td.vram_end) →
        t1.hw.vram a = (xansi_erase_cursor t).hw.vram a) ∧
      ∃ t2, feed t1 [0x1B, 0x5B, 0x3F, 0x35, g] = some t2 ∧
        t2.td.def_color = t.td.def_color ∧ t2.td.cur_color = t.td.cur_color ∧
        t2.td.color = t.td.color ∧
        ∀ a, t2.hw.vram a = (xansi_erase_cursor t).hw.vram a := by
  obtain ⟨B, hB⟩ : ∃ B : Term, B =
      { td := { t.td with cursor_drawn := false, state := TSTATE_NORMAL,
                          intermediate_char := 0x3F, num_parms := 1,
                          csi_parms := arr_set (List.replicate MAX_CSI_PARMS 0) 0 5,
                          def_color := swap_nibbles t.td.def_color,
                          color := swap_nibbles t.td.color,
                          cur_color := swap_nibbles t.td.cur_color },
        hw := (xansi_erase_cursor t).hw } := ⟨_, rfl⟩
  have h1 : feed t [0x1B, 0x5B, 0x3F, 0x35, f] =
      some (xansi_calc_cur_addr (xansi_visualbell B true)) := by
    rw [hB]; exact feed_screen_reverse t f hstart hf
  have bend : B.td.vram_end = t.td.vram_end := by rw [hB]
  have bbase : B.td.vram_base = t.td.vram_base := by rw [hB]
  have bhw : B.hw.vram = (xansi_erase_cursor t).hw.vram := by rw [hB]
  obtain ⟨vtd, vv⟩ := visualbell_invert B (by rw [bend]; omega)
  rw [bend, bbase, bhw] at vv
  obtain ⟨t1, ht1⟩ : ∃ t1, t1 = xansi_calc_cur_addr (xansi_visualbell B true) := ⟨_, rfl⟩
  have t1td : t1.td = { B.td with cur_addr := xansi_calc_addr B.td B.td.x B.td.y } := by
    rw [ht1]; unfold xansi_calc_cur_addr; rw [vtd]
  have t1v : ∀ a, t1.hw.vram a =
      if a < 65536 ∧ sub16 a t.td.vram_base < t.td.vram_end then
        bell_word ((xansi_erase_cursor t).hw.vram a)
      else (xansi_erase_cursor t).hw.vram a := by
    intro a; rw [ht1]; exact vv a
  have hV := erase_cursor_cells t hcells
  rw [← ht1] at h1
  refine ⟨t1, h1, by rw [t1td, hB], by rw [t1td, hB], by rw [t1td, hB], ?_, ?_, ?_⟩
  · intro i hi
    have hin : u16 (t.td.vram_base + i) < 65536 ∧
        sub16 (u16 (t.td.vram_base + i)) t.td.vram_base < t.td.vram_end := by
      unfold sub16 u16; omega
    rw [t1v, if_pos hin, bell_word_cell _ (hV _)]
    have hs := (bell_word_high ((xansi_erase_cursor t).hw.vram (u16 (t.td.vram_base + i)) / 256)
      (by have := hV (u16 (t.td.vram_base + i)); omega)).2.2.1
    constructor <;> omega
  · intro a ha
    rw [t1v, if_neg ha]
  · have s1 : starts_sequence t1.td := by
      unfold starts_sequence
      rw [t1td, hB]
      simp [TSTATE_NORMAL, TSTATE_ESC]
    have h2 := feed_screen_reverse t1 g s1 hg
    have e1 : xansi_erase_cursor t1 = t1 :=
      erase_cursor_of_not_drawn t1 (by rw [t1td, hB])
    rw [e1] at h2
    obtain ⟨B2, hB2⟩ : ∃ B2 : Term, B2 =
        { td := { t1.td with cursor_drawn := false, state := TSTATE_NORMAL,
                             intermediate_char := 0x3F, num_parms := 1,
                             csi_parms := arr_set (List.replicate MAX_CSI_PARMS 0) 0 5,
                             def_color := swap_nibbles t1.td.def_color,
                             color := swap_nibbles t1.td.color,
                             cur_color := swap_nibbles t1.td.cur_color },
          hw := t1.hw } := ⟨_, rfl⟩
    rw [← hB2] at h2
    have b2end : B2.td.vram_end = t.td.vram_end := by rw [hB2, t1td, hB]
    have b2base : B2.td.vram_base = t.td.vram_base := by rw [hB2, t1td, hB]
    have b2hw : B2.hw.vram = t1.hw.vram := by rw [hB2]
    obtain ⟨wtd, wv⟩ := visualbell_invert B2 (by rw [b2end]; omega)
    rw [b2end, b2base, b2hw] at wv
    refine ⟨_, h2, ?_, ?_, ?_, ?_⟩
    · show (xansi_visualbell B2 true).td.def_color = _
      rw [wtd, hB2, t1td, hB]
      exact (swap_nibbles_facts _ hdef).2
    · show (xansi_visualbell B2 true).td.cur_color = _
      rw [wtd, hB2, t1td, hB]
      exact (swap_nibbles_facts _ hcur).2
    · show (xansi_visualbell B2 true).td.color = _
      rw [wtd, hB2, t1td, hB]
      exact (swap_nibbles_facts _ hcol).2
    · intro a
      show (xansi_visualbell B2 true).hw.vram a = _
      rw [wv a, t1v a]
      split
      · exact (bell_word_twice _ (hV a)).2
      · rfl

/-- The screen reversal at a concrete input: `CSI ?5h` then `CSI ?5l` on the
80 by 30 terminal full of letters. -/
theorem screen_reverse_within_end_demo :
    (0x68 = 0x68 ∨ 0x68 = 0x6C) ∧ (0x6C = 0x68 ∨ 0x6C = 0x6C) ∧
    starts_sequence demo_text.td ∧ demo_text.td.def_color < 256 ∧
    demo_text.td.cur_color < 256 ∧ demo_text.td.color < 256 ∧
    (∀ a, demo_text.hw.vram a < 65536) ∧
    demo_text.td.vram_size ≤ demo_text.td.vram_end ∧ demo_text.td.vram_end < 65536 ∧
    ∃ t1, feed demo_text [0x1B, 0x5B, 0x3F, 0x35, 0x68] = some t1 ∧
      t1.td.def_color = swap_nibbles demo_text.td.def_color ∧
      t1.td.cur_color = swap_nibbles demo_text.td.cur_color ∧
      t1.td.color = swap_nibbles demo_text.td.color ∧
      (∀ i, i < demo_text.td.vram_size →
        t1.hw.vram (u16 (demo_text.td.vram_base + i)) % 256 =
          (xansi_erase_cursor demo_text).hw.vram (u16 (demo_text.td.vram_base + i)) % 256 ∧
        t1.hw.vram (u16 (demo_text.td.vram_base + i)) / 256 =
          swap_nibbles
            ((xansi_erase_cursor demo_text).hw.vram (u16 (demo_text.td.vram_base + i)) / 256)) ∧
      (∀ a, ¬ (a < 65536 ∧ sub16 a demo_text.td.vram_base < demo_text.td.vram_end) →
        t1.hw.vram a = (xansi_erase_cursor demo_text).hw.vram a) ∧
      ∃ t2, feed t1 [0x1B, 0x5B, 0x3F, 0x35, 0x6C] = some t2 ∧
        t2.td.def_color = demo_text.td.def_color ∧ t2.td.cur_color = demo_text.td.cur_color ∧
        t2.td.color = demo_text.td.color ∧
        ∀ a, t2.hw.vram a = (xansi_erase_cursor demo_text).hw.vram a :=
  have hcells : ∀ a, demo_text.hw.vram a < 65536 := by
    intro a
    show (if a < 2400 then 0x0241 else 0) < 65536
    split <;> decide
  ⟨by decide, by decide, by decide, by decide, by decide, by decide, hcells, by decide,
    by decide,
    screen_reverse_within_end demo_text 0x68 0x6C (by decide) (by decide) (by decide) (by decide)
      (by decide) (by decide) hcells (by decide) (by decide)⟩

/-- C36, the failing input, on the 640 by 480 adapter: after
`CSI 68;0;0;65000 m` and `ESC (` the grid of 2400 cells starts at address
65000 and runs on past the end of the address space to address 1863,
`vram_end` is 1864, the parser is in NORMAL state and the cursor is not drawn.
`CSI ?5h` exchanges the nibbles of the effective colour (`0x02` to `0x20`) and
of the colour byte of the cell at address 100 (`0x0220` to `0x2020`), but the
cell at address 1500, cell 2036 of the grid, keeps its colour byte: the loop
of `xansi_visualbell` stops after `vram_end = 1864` cells. -/
theorem C36_wrapped_grid_is_not_inverted :
    ∃ t t1, Reachable t ∧
      (starts_sequence t.td ∧ t.td.cursor_drawn = false ∧ t.td.vram_base = 65000 ∧
        t.td.vram_size = 2400 ∧ t.td.vram_end = 1864 ∧ t.td.color = 0x02 ∧
        u16 (t.td.vram_base + 2036) = 1500 ∧ u16 (t.td.vram_base + 636) = 100 ∧
        t.hw.vram 1500 = 0x0220 ∧ t.hw.vram 100 = 0x0220) ∧
      feed t [0x1B, 0x5B, 0x3F, 0x35, 0x68] = some t1 ∧
      t1.td.color = 0x20 ∧ t1.hw.vram 100 = 0x2020 ∧ t1.hw.vram 1500 = 0x0220 := by
  obtain ⟨t, t1, hr, h1, hfeed, h2⟩ := boot_then
    [0x1B, 0x5B, 0x36, 0x38, 0x3B, 0x30, 0x3B, 0x30, 0x3B, 0x36, 0x35, 0x30, 0x30, 0x30, 0x6D,
      0x1B, 0x28]
    [0x1B, 0x5B, 0x3F, 0x35, 0x68] _ _
    (fun t => ((t.td.state, t.td.cursor_drawn, t.td.vram_base, t.td.vram_size, t.td.vram_end),
      (t.td.color, t.hw.vram 1500, t.hw.vram 100)))
    (fun t => (t.td.color, t.hw.vram 100, t.hw.vram 1500))
    ((0, false, 65000, 2400, 1864), (0x02, 0x0220, 0x0220)) (0x20, 0x2020, 0x0220)
    (by decide!) (by decide!) (by decide!)
  simp only [Prod.mk.injEq] at h1 h2
  obtain ⟨⟨a1, a2, a3, a4, a5⟩, a6, a7, a8⟩ := h1
  refine ⟨t, t1, hr, ⟨?_, a2, a3, a4, a5, a6, by rw [a3]; decide, by rw [a3]; decide, a7, a8⟩,
    hfeed, h2.1, h2.2.1, h2.2.2⟩
  unfold starts_sequence
  rw [a1]
  intro h
  exact absurd h.1 (by decide)

theorem same_parms_refl (a : xansiterm_data) : same_parms a a := ⟨rfl, rfl, rfl⟩

theorem same_parms_trans {a b c : xansiterm_data} (h1 : same_parms a b) (h2 : same_parms b c) :
    same_parms a c :=
  ⟨h2.1.trans h1.1, h2.2.1.trans h1.2.1, h2.2.2.trans h1.2.2⟩

theorem same_parms_of_cursor {a b : xansiterm_data} (h : b = with_cursor a b) :
    same_parms a b := by
  rw [h]; exact ⟨rfl, rfl, rfl⟩

theorem same_parms_of_sgr {a b : xansiterm_data} (h : b = with_sgr a b) :
    same_parms a b := by
  rw [h]; exact ⟨rfl, rfl, rfl⟩

theorem parms_in_bounds_of_same {a b : xansiterm_data} (h : same_parms a b)
    (ha : parms_in_bounds a) : parms_in_bounds b := by
  unfold parms_in_bounds at ha ⊢
  rw [h.1, h.2.1, h.2.2]
  exact ha

theorem clear_td (t : Term) (s e : Nat) (t1 : Term) (h : xansi_clear t s e = some t1) :
    t1.td = t.td := by
  unfold xansi_clear at h
  obtain ⟨hw, _, h2⟩ := of_map_eq_some _ _ _ h
  rw [← h2]

theorem cls_same (t t1 : Term) (h : xansi_cls t = some t1) : same_parms t.td t1.td := by
  unfold xansi_cls at h
  obtain ⟨u, hu, h2⟩ := of_map_eq_some _ _ _ h
  rw [← h2]
  have := clear_td _ _ _ _ hu
  exact ⟨by show u.td.state = _; rw [this], by show u.td.num_parms = _; rw [this],
    by show u.td.csi_parms = _; rw [this]⟩

theorem ite_same (a : xansiterm_data) (c : Prop) [Decidable c] (x y : xansiterm_data)
    (hx : same_parms a x) (hy : same_parms a y) : same_parms a (if c then x else y) := by
  split
  · exact hx
  · exact hy

theorem ite_clear_td (c : Prop) [Decidable c] (T : Term) (a b : Nat) (u : Term)
    (h : (if c then xansi_clear T a b else some T) = some u) : u.td = T.td := by
  split at h
  · exact clear_td _ _ _ _ h
  · cases h; rfl

theorem reset_clamp_same (a td1 : xansiterm_data) (c r : Nat) (h : same_parms a td1) :
    same_parms a
      (if (if td1.x ≥ c then { td1 with x := sub16 c 1 } else td1).y ≥ r then
        { (if td1.x ≥ c then { td1 with x := sub16 c 1 } else td1) with y := sub16 r 1 }
      else (if td1.x ≥ c then { td1 with x := sub16 c 1 } else td1)) := by
  have s2 : same_parms a (if td1.x ≥ c then { td1 with x := sub16 c 1 } else td1) :=
    ite_same _ _ _ _ ⟨h.1, h.2.1, h.2.2⟩ h
  exact ite_same _ _ _ _ ⟨s2.1, s2.2.1, s2.2.2⟩ s2

theorem reset_same (t t1 : Term) (h : xansi_reset t = some t1) : same_parms t.td t1.td := by
  unfold xansi_reset at h
  obtain ⟨u, hu, h2⟩ := of_map_eq_some _ _ _ h
  have e := ite_clear_td _ _ _ _ _ hu
  rw [← h2]
  show same_parms t.td u.td
  rw [e]
  exact reset_clamp_same t.td _ _ _ ⟨rfl, rfl, rfl⟩

theorem ite_term_same (a : xansiterm_data) (c : Prop) [Decidable c] (x y : Term)
    (hx : same_parms a x.td) (hy : same_parms a y.td) :
    same_parms a (if c then x else y).td := by
  split
  · exact hx
  · exact hy

theorem finish_same (a : xansiterm_data) (t : Term) (h : same_parms a t.td) :
    same_parms a (processchar_finish t).td :=
  same_parms_trans h (same_parms_of_cursor (processchar_finish_frame t))

/-- The function `xansi_processchar` leaves the parser state and the
parameter storage alone. -/
theorem processchar_same (t : Term) (b : Nat) (t1 : Term)
    (h : xansi_processchar t b = some t1) : same_parms t.td t1.td := by
  unfold xansi_processchar at h
  simp only at h
  split at h
  · cases h
    exact same_parms_of_cursor (drawchar_frame t b)
  split at h
  · cases h
    exact ⟨rfl, rfl, rfl⟩
  split at h
  · cases h
    exact finish_same _ _ (ite_term_same _ _ _ _ ⟨rfl, rfl, rfl⟩ ⟨rfl, rfl, rfl⟩)
  split at h
  · cases h
    exact finish_same _ _ (ite_term_same _ _ _ _ ⟨rfl, rfl, rfl⟩ ⟨rfl, rfl, rfl⟩)
  split at h
  · cases h
    exact finish_same _ _ (ite_term_same _ _ _ _ ⟨rfl, rfl, rfl⟩ ⟨rfl, rfl, rfl⟩)
  split at h
  · cases h
    exact finish_same _ _ (ite_term_same _ _ _ _ ⟨rfl, rfl, rfl⟩ ⟨rfl, rfl, rfl⟩)
  split at h
  · obtain ⟨u, hu, h2⟩ := of_map_eq_some _ _ _ h
    rw [← h2]
    exact finish_same _ _ (cls_same _ _ hu)
  split at h
  · cases h
    exact finish_same _ _ ⟨rfl, rfl, rfl⟩
  · cases h
    exact ⟨rfl, rfl, rfl⟩

theorem reset_cls_same (T t1 : Term) (h : (xansi_reset T).bind xansi_cls = some t1) :
    same_parms T.td t1.td := by
  cases hr : xansi_reset T with
  | none => rw [hr] at h; simp at h
  | some u =>
    rw [hr] at h
    simp only [Option.some_bind] at h
    exact same_parms_trans (reset_same _ _ hr) (cls_same _ _ h)

/-- The function `xansi_mode` leaves the parser state and the parameter
storage alone. -/
theorem mode_same (t : Term) (f num : Nat) (t1 : Term) (h : xansi_mode t f num = some t1) :
    same_parms t.td t1.td := by
  unfold xansi_mode at h
  simp only at h
  split at h
  · split at h
    · split at h <;> split at h <;>
        first
        | (have e := reset_cls_same _ _ h; exact e)
        | (cases h; exact ⟨rfl, rfl, rfl⟩)
    split at h
    · cases h; exact ⟨rfl, rfl, rfl⟩
    split at h
    · have hc := same_parms_of_cursor (check_lcf_frame t)
      split at h <;> (cases h; exact ⟨hc.1, hc.2.1, hc.2.2⟩)
    split at h
    · split at h <;> (cases h; exact ⟨rfl, rfl, rfl⟩)
    · cases h; exact ⟨rfl, rfl, rfl⟩
  · split at h
    · split at h <;> (cases h; exact ⟨rfl, rfl, rfl⟩)
    · cases h; exact ⟨rfl, rfl, rfl⟩

theorem inv_of_same_normal (a x b : xansiterm_data) (hi : parms_in_bounds a)
    (h : same_parms x b) (hx : x.state = TSTATE_NORMAL) (hn : x.num_parms = a.num_parms)
    (hc : x.csi_parms = a.csi_parms) : parms_in_bounds b := by
  unfold parms_in_bounds at hi ⊢
  rw [h.1, h.2.1, h.2.2, hx, hn, hc]
  exact ⟨hi.1, hi.2.1, fun h0 => absurd h0 (by decide)⟩

theorem inv_of_not_csi (a b : xansiterm_data) (hi : parms_in_bounds a)
    (hs : b.state ≠ TSTATE_CSI) (hn : b.num_parms = a.num_parms)
    (hc : b.csi_parms = a.csi_parms) : parms_in_bounds b := by
  unfold parms_in_bounds at hi ⊢
  rw [hn, hc]
  exact ⟨hi.1, hi.2.1, fun h0 => absurd h0 hs⟩

/-- The function `xansi_process_esc` keeps the parameter storage within
bounds. -/
theorem process_esc_inv (t0 : Term) (c : Nat) (t1 : Term)
    (h : xansi_process_esc t0 c = some t1) (hi : parms_in_bounds t0.td) :
    parms_in_bounds t1.td := by
  unfold xansi_process_esc at h
  dsimp only at h
  by_cases c1 : c = 0x9b ∨ c = 0x5B
  · rw [if_pos c1] at h
    cases h
    unfold parms_in_bounds
    simp [xansi_begin_csi_or_esc, MAX_CSI_PARMS]
  rw [if_neg c1] at h
  by_cases c2 : c = 0x63
  · rw [if_pos c2] at h
    have e := reset_cls_same _ _ h
    exact inv_of_same_normal t0.td _ _ hi e rfl rfl rfl
  rw [if_neg c2] at h
  by_cases c3 : c = 0x37
  · rw [if_pos c3] at h
    cases h
    exact inv_of_same_normal t0.td _ _ hi (same_parms_refl _) rfl rfl rfl
  rw [if_neg c3] at h
  by_cases c4 : c = 0x38
  · rw [if_pos c4] at h
    cases h
    exact inv_of_same_normal t0.td _ _ hi (same_parms_refl _) rfl rfl rfl
  rw [if_neg c4] at h
  by_cases c5 : c = 0x28 ∨ c = 0x29 ∨ c = 0x2A ∨ c = 0x2B
  · rw [if_pos c5] at h
    have e := reset_same _ _ h
    exact inv_of_same_normal t0.td _ _ hi e rfl rfl rfl
  rw [if_neg c5] at h
  by_cases c6 : c = 0x44
  · rw [if_pos c6] at h
    obtain ⟨u, hu, h2⟩ := of_map_eq_some _ _ _ h
    have e := processchar_same _ _ _ hu
    rw [← h2]
    exact inv_of_same_normal t0.td _ _ hi ⟨e.1, e.2.1, e.2.2⟩ rfl rfl rfl
  rw [if_neg c6] at h
  by_cases c7 : c = 0x4D
  · rw [if_pos c7] at h
    obtain ⟨u, hu, h2⟩ := of_map_eq_some _ _ _ h
    have e := processchar_same _ _ _ hu
    rw [← h2]
    exact inv_of_same_normal t0.td _ _ hi ⟨e.1, e.2.1, e.2.2⟩ rfl rfl rfl
  rw [if_neg c7] at h
  by_cases c8 : c = 0x45
  · rw [if_pos c8] at h
    cases h
    have e := ite_term_same { t0.td with state := TSTATE_NORMAL }
      (u16 (t0.td.y + 1) ≥ t0.td.cols)
      (xansi_scroll_up { t0 with td := { t0.td with
        state := TSTATE_NORMAL, y := sub16 t0.td.cols 1, x := 0, lcf := false } })
      { t0 with td := { t0.td with
        state := TSTATE_NORMAL, y := u16 (t0.td.y + 1), x := 0, lcf := false } }
      ⟨rfl, rfl, rfl⟩ ⟨rfl, rfl, rfl⟩
    exact inv_of_same_normal t0.td _ _ hi ⟨e.1, e.2.1, e.2.2⟩ rfl rfl rfl
  rw [if_neg c8] at h
  by_cases c9 : c = 0x7f
  · rw [if_pos c9] at h
    cases h
    exact inv_of_not_csi t0.td _ hi (by show TSTATE_ESC ≠ TSTATE_CSI; decide) rfl rfl
  · rw [if_neg c9] at h
    cases h
    exact inv_of_same_normal t0.td _ _ hi (same_parms_refl _) rfl rfl rfl

theorem clear3_td (T : Term) (n a0 b0 a1 b1 a2 b2 : Nat) (u : Term)
    (h : (if n = 0 then xansi_clear T a0 b0
          else if n = 1 then xansi_clear T a1 b1
          else if n = 2 then xansi_clear T a2 b2
          else some T) = some u) : u.td = T.td := by
  split at h
  · exact clear_td _ _ _ _ h
  split at h
  · exact clear_td _ _ _ _ h
  split at h
  · exact clear_td _ _ _ _ h
  · cases h; rfl

/-- The session record after `xansi_sgr`: the parser state and the parameter
values as before, the parameter count as before or 1. -/
theorem sgr_parms (t : Term) :
    (xansi_sgr t).td.state = t.td.state ∧ (xansi_sgr t).td.csi_parms = t.td.csi_parms ∧
    (xansi_sgr t).td.num_parms = if t.td.num_parms = 0 then 1 else t.td.num_parms := by
  have h := xansi_sgr_frame t
  refine ⟨by rw [h]; rfl, by rw [h]; rfl, by rw [h]; rfl⟩

/-- The function `xansi_process_csi` returns in NORMAL state with the
parameter values as they were and the parameter count as it was, or 1. -/
theorem process_csi_parms (t0 : Term) (c : Nat) (t1 : Term)
    (h : xansi_process_csi t0 c = some t1) :
    t1.td.state = TSTATE_NORMAL ∧ t1.td.csi_parms = t0.td.csi_parms ∧
    (t1.td.num_parms = t0.td.num_parms ∨ t1.td.num_parms = 1) := by
  unfold xansi_process_csi at h
  dsimp only at h
  obtain ⟨u, hu, h2⟩ := of_map_eq_some _ _ _ h
  rw [← h2]
  show u.td.state = TSTATE_NORMAL ∧ u.td.csi_parms = t0.td.csi_parms ∧
    (u.td.num_parms = t0.td.num_parms ∨ u.td.num_parms = 1)
  by_cases c1 : c = 0x41
  · rw [if_pos c1] at hu; cases hu; exact ⟨rfl, rfl, Or.inl rfl⟩
  rw [if_neg c1] at hu
  by_cases c2 : c = 0x42
  · rw [if_pos c2] at hu; cases hu; exact ⟨rfl, rfl, Or.inl rfl⟩
  rw [if_neg c2] at hu
  by_cases c3 : c = 0x43
  · rw [if_pos c3] at hu; cases hu; exact ⟨rfl, rfl, Or.inl rfl⟩
  rw [if_neg c3] at hu
  by_cases c4 : c = 0x44
  · rw [if_pos c4] at hu; cases hu; exact ⟨rfl, rfl, Or.inl rfl⟩
  rw [if_neg c4] at hu
  by_cases c5 : c = 0x48 ∨ c = 0x66
  · rw [if_pos c5] at hu; cases hu; exact ⟨rfl, rfl, Or.inl rfl⟩
  rw [if_neg c5] at hu
  by_cases c6 : c = 0x68 ∨ c = 0x6C
  · rw [if_pos c6] at hu
    have e := mode_same _ _ _ _ hu
    exact ⟨e.1, e.2.2, Or.inl e.2.1⟩
  rw [if_neg c6] at hu
  by_cases c7 : c = 0x73
  · rw [if_pos c7] at hu; cases hu; exact ⟨rfl, rfl, Or.inl rfl⟩
  rw [if_neg c7] at hu
  by_cases c8 : c = 0x75
  · rw [if_pos c8] at hu; cases hu; exact ⟨rfl, rfl, Or.inl rfl⟩
  rw [if_neg c8] at hu
  by_cases c9 : c = 0x4A
  · rw [if_pos c9] at hu
    have e := clear3_td _ _ _ _ _ _ _ _ _ hu
    rw [e]; exact ⟨rfl, rfl, Or.inl rfl⟩
  rw [if_neg c9] at hu
  by_cases c10 : c = 0x4B
  · rw [if_pos c10] at hu
    have e := clear3_td _ _ _ _ _ _ _ _ _ hu
    rw [e]; exact ⟨rfl, rfl, Or.inl rfl⟩
  rw [if_neg c10] at hu
  by_cases c11 : c = 0x6D
  · rw [if_pos c11] at hu
    cases hu
    obtain ⟨e1, e2, e3⟩ := sgr_parms { t0 with td := { t0.td with state := TSTATE_NORMAL } }
    refine ⟨e1, e2, ?_⟩
    rw [e3]
    show (if t0.td.num_parms = 0 then 1 else t0.td.num_parms) = t0.td.num_parms ∨
      (if t0.td.num_parms = 0 then 1 else t0.td.num_parms) = 1
    split
    · exact Or.inr rfl
    · exact Or.inl rfl
  · rw [if_neg c11] at hu; cases hu; exact ⟨rfl, rfl, Or.inl rfl⟩

/-- The function `xansi_parse_csi`, called in state CSI, keeps the parameter
storage within bounds. -/
theorem parse_csi_inv (t : Term) (c : Nat) (t1 : Term) (h : xansi_parse_csi t c = some t1)
    (hi : parms_in_bounds t.td) (hs : t.td.state = TSTATE_CSI) : parms_in_bounds t1.td := by
  have hn : t.td.num_parms < 16 := hi.2.2 hs
  have hl : t.td.csi_parms.length = 16 := hi.1
  unfold xansi_parse_csi at h
  dsimp only at h
  by_cases c1 : schar c ≤ 0x20 ∨ c = 0x7f
  · rw [if_pos c1] at h; cases h; exact hi
  rw [if_neg c1] at h
  by_cases c2 : u8 (c &&& 0xf0) = 0x20
  · rw [if_pos c2] at h; cases h; exact hi
  rw [if_neg c2] at h
  by_cases c3 : u8 (c &&& 0xf0) = 0x30
  · rw [if_pos c3] at h
    by_cases c4 : sub8 c 0x30 ≤ 9
    · rw [if_pos c4] at h
      cases h
      unfold parms_in_bounds
      refine ⟨by show (arr_set _ _ _).length = _; rw [arr_set_length]; exact hl, ?_, ?_⟩
      · show (if t.td.num_parms = 0 then 1 else t.td.num_parms) ≤ 16
        split <;> omega
      · intro _
        show (if t.td.num_parms = 0 then 1 else t.td.num_parms) < 16
        split <;> omega
    rw [if_neg c4] at h
    by_cases c5 : c = 0x3B
    · rw [if_pos c5] at h
      cases h
      have hu : u8 (t.td.num_parms + 1) = t.td.num_parms + 1 := by unfold u8; omega
      unfold parms_in_bounds
      refine ⟨hl, ?_, ?_⟩
      · show u8 (t.td.num_parms + 1) ≤ 16
        rw [hu]; omega
      · show (if u8 (t.td.num_parms + 1) ≥ MAX_CSI_PARMS then TSTATE_ILLEGAL else t.td.state) =
          TSTATE_CSI → u8 (t.td.num_parms + 1) < 16
        rw [hu]
        split
        · intro h0; exact absurd h0 (by decide)
        · intro _; unfold MAX_CSI_PARMS at *; omega
    rw [if_neg c5] at h
    by_cases c6 : t.td.intermediate_char ≠ 0 ∨ c = 0x3A
    · rw [if_pos c6] at h; cases h
      exact inv_of_not_csi t.td _ hi (by show TSTATE_ILLEGAL ≠ TSTATE_CSI; decide) rfl rfl
    · rw [if_neg c6] at h; cases h; exact hi
  rw [if_neg c3] at h
  by_cases c7 : u8 (c &&& 0xf0) ≥ 0x40
  · rw [if_pos c7] at h
    obtain ⟨e1, e2, e3⟩ := process_csi_parms _ _ _ h
    unfold parms_in_bounds
    rw [e1, e2]
    refine ⟨hl, ?_, fun h0 => absurd h0 (by decide)⟩
    unfold MAX_CSI_PARMS
    omega
  · rw [if_neg c7] at h; cases h
    exact inv_of_not_csi t.td _ hi (by show TSTATE_ILLEGAL ≠ TSTATE_CSI; decide) rfl rfl

/-- The function `xansiterm_putchar` keeps the parameter storage within
bounds. -/
theorem putchar_inv (t0 : Term) (c : Nat) (t1 : Term) (h : xansiterm_putchar t0 c = some t1)
    (hi : parms_in_bounds t0.td) : parms_in_bounds t1.td := by
  have he : same_parms t0.td (xansi_erase_cursor t0).td := by
    rw [erase_cursor_td]; exact ⟨rfl, rfl, rfl⟩
  have hi2 := parms_in_bounds_of_same he hi
  obtain ⟨T, hT⟩ : ∃ T, T = xansi_erase_cursor t0 := ⟨_, rfl⟩
  rw [← hT] at hi2
  unfold xansiterm_putchar at h
  dsimp only at h
  rw [← hT] at h
  by_cases c1 : c &&& 0x7f = 0x1b
  · rw [if_pos c1] at h
    by_cases c2 : T.td.state ≥ TSTATE_ESC ∧ T.td.flags &&& TFLAG_ATTRIB_PASSTHRU ≠ 0
    · rw [if_pos c2] at h
      have e := processchar_same _ _ _ h
      exact inv_of_same_normal T.td _ _ hi2 e rfl rfl rfl
    · rw [if_neg c2] at h
      cases h
      unfold parms_in_bounds
      simp [xansi_begin_csi_or_esc, MAX_CSI_PARMS]
  rw [if_neg c1] at h
  by_cases c3 : T.td.state = TSTATE_NORMAL
  · rw [if_pos c3] at h
    exact parms_in_bounds_of_same (processchar_same _ _ _ h) hi2
  rw [if_neg c3] at h
  by_cases c4 : c = 0x18 ∨ c = 0x1A
  · rw [if_pos c4] at h
    cases h
    exact inv_of_same_normal T.td _ _ hi2 (same_parms_refl _) rfl rfl rfl
  rw [if_neg c4] at h
  by_cases c5 : T.td.state = TSTATE_ESC
  · rw [if_pos c5] at h
    exact process_esc_inv _ _ _ h hi2
  rw [if_neg c5] at h
  by_cases c6 : T.td.state = TSTATE_CSI
  · rw [if_pos c6] at h
    exact parse_csi_inv _ _ _ h hi2 c6
  rw [if_neg c6] at h
  by_cases c7 : T.td.state = TSTATE_ILLEGAL
  · rw [if_pos c7] at h
    by_cases c8 : schar c ≥ 0x40
    · rw [if_pos c8] at h
      cases h
      exact inv_of_same_normal T.td _ _ hi2 (same_parms_refl _) rfl rfl rfl
    · rw [if_neg c8] at h
      cases h
      exact hi2
  · rw [if_neg c7] at h
    cases h
    exact hi2

theorem feed_inv (bs : List Nat) : ∀ (t t1 : Term), feed t bs = some t1 →
    parms_in_bounds t.td → parms_in_bounds t1.td := by
  induction bs with
  | nil =>
    intro t t1 h hi
    simp only [feed, Option.some.injEq] at h
    rw [← h]; exact hi
  | cons b bs ih =>
    intro t t1 h hi
    simp only [feed] at h
    cases hp : xansiterm_putchar t b with
    | none => rw [hp] at h; simp at h
    | some u =>
      rw [hp] at h
      simp only [Option.some_bind] at h
      exact ih u t1 h (putchar_inv _ _ _ hp hi)

theorem init_inv (hw : Xosera) (t0 : Term) (h : xansiterm_init hw = some t0) :
    parms_in_bounds t0.td := by
  unfold xansiterm_init at h
  have e := reset_same _ _ h
  exact inv_of_same_normal zero_data _ _ ⟨by decide, by decide, fun _ => by decide⟩ e rfl rfl rfl

/-- In every reachable state the parameter storage is within bounds. -/
theorem reachable_inv (t : Term) (hr : Reachable t) : parms_in_bounds t.td := by
  obtain ⟨hw, t0, bytes, h0, _, _, hf⟩ := hr
  exact feed_inv bytes t0 t hf (init_inv hw t0 h0)

theorem mem_ite_nil {α : Type} (c : Prop) [Decidable c] (l : List α) (p : α)
    (h : p ∈ (if c then l else [])) : c ∧ p ∈ l := by
  split at h
  · rename_i hc; exact ⟨hc, h⟩
  · simp at h

/-- The reads of the `case 68` are look-ahead reads below `num_parms`, none of
them of slot 0. -/
theorem rosco_reads_lt (t : Term) (i : Nat) (p : Nat × Bool) (hp : p ∈ sgr_rosco_reads t i) :
    1 ≤ p.1 ∧ p.1 < t.td.num_parms := by
  unfold sgr_rosco_reads at hp
  dsimp only at hp
  by_cases c1 : i + 3 < t.td.num_parms
  · rw [if_pos c1] at hp
    rcases List.mem_append.mp hp with h | h
    · simp only [List.mem_cons, List.mem_singleton, List.not_mem_nil, or_false] at h
      rcases h with h | h | h <;> (rw [h]; dsimp only; omega)
    · obtain ⟨_, h2⟩ := mem_ite_nil _ _ _ h
      obtain ⟨c3, h3⟩ := mem_ite_nil _ _ _ h2
      simp only [List.mem_cons, List.mem_singleton, List.not_mem_nil, or_false] at h3
      rcases h3 with h3 | h3 <;> (rw [h3]; dsimp only; omega)
  · rw [if_neg c1] at hp
    simp at hp

/-- The reads of one pass of the SGR loop are below `num_parms`, and the
look-ahead reads are not of slot 0. -/
theorem step_reads_lt (t : Term) (i : Nat) (hi : i < t.td.num_parms) (p : Nat × Bool)
    (hp : p ∈ sgr_step_reads t i) :
    p.1 < t.td.num_parms ∧ (p.2 = true → 1 ≤ p.1) := by
  unfold sgr_step_reads at hp
  dsimp only at hp
  rcases List.mem_cons.mp hp with h | h
  · rw [h]; exact ⟨hi, fun h0 => Bool.noConfusion h0⟩
  rcases List.mem_append.mp h with h | h
  · obtain ⟨_, h2⟩ := mem_ite_nil _ _ _ h
    by_cases c1 : i + 2 ≥ t.td.num_parms
    · rw [if_pos c1] at h2; simp at h2
    rw [if_neg c1] at h2
    by_cases c2 : arr_get t.td.csi_parms (i + 1) ≠ 5
    · rw [if_pos c2] at h2
      simp only [List.mem_singleton] at h2
      rw [h2]; dsimp only; exact ⟨by omega, fun _ => by omega⟩
    · rw [if_neg c2] at h2
      simp only [List.mem_cons, List.mem_singleton, List.not_mem_nil, or_false] at h2
      rcases h2 with h2 | h2 <;> (rw [h2]; dsimp only; exact ⟨by omega, fun _ => by omega⟩)
  · obtain ⟨_, h2⟩ := mem_ite_nil _ _ _ h
    have := rosco_reads_lt _ _ _ h2
    exact ⟨this.2, fun _ => this.1⟩

theorem sgr_step_num_parms (t : Term) (i : Nat) :
    (sgr_step t i).1.td.num_parms = t.td.num_parms := by
  rw [sgr_step_frame t i]; rfl

/-- The reads of the SGR loop are below `num_parms`, and the look-ahead reads
are not of slot 0. -/
theorem loop_reads_lt (fuel : Nat) : ∀ (i : Nat) (t : Term) (p : Nat × Bool),
    p ∈ sgr_loop_reads fuel i t → p.1 < t.td.num_parms ∧ (p.2 = true → 1 ≤ p.1) := by
  induction fuel with
  | zero =>
    intro i t p hp
    simp [sgr_loop_reads] at hp
  | succ n ih =>
    intro i t p hp
    unfold sgr_loop_reads at hp
    by_cases c : i < t.td.num_parms
    · rw [if_pos c] at hp
      dsimp only at hp
      rcases List.mem_append.mp hp with h | h
      · exact step_reads_lt t i c p h
      · have := ih _ _ p h
        rw [sgr_step_num_parms] at this
        exact this
    · rw [if_neg c] at hp
      simp at hp

/-- The reads of `csi_parms` by the SGR command: every index is below the
parameter count in force (`num_parms`, or 1 when it was 0), and every
look-ahead index is below `num_parms` itself. -/
theorem sgr_reads_lt (t : Term) (p : Nat × Bool) (hp : p ∈ xansi_sgr_reads t) :
    p.1 < (if t.td.num_parms = 0 then 1 else t.td.num_parms) ∧
    (p.2 = true → p.1 < t.td.num_parms) := by
  unfold xansi_sgr_reads at hp
  dsimp only at hp
  by_cases c : t.td.num_parms = 0
  · rw [if_pos c]
    simp only [c, if_true] at hp
    have := loop_reads_lt _ _ _ p hp
    dsimp only at this
    exact ⟨this.1, fun h => by have := this.2 h; omega⟩
  · rw [if_neg c]
    simp only [c, if_false] at hp
    have := loop_reads_lt _ _ _ p hp
    exact ⟨this.1, fun _ => this.1⟩

/-- The slot `xansi_parse_csi` accesses for a digit is below the parameter
count in force (`num_parms`, or 1 when it was 0). -/
theorem parse_csi_index_lt (t : Term) (c j : Nat) (h : parse_csi_index t c = some j) :
    j < (if t.td.num_parms = 0 then 1 else t.td.num_parms) := by
  unfold parse_csi_index at h
  dsimp only at h
  by_cases c1 : schar c ≤ 0x20 ∨ c = 0x7f
  · rw [if_pos c1] at h; cases h
  rw [if_neg c1] at h
  by_cases c2 : u8 (c &&& 0xf0) = 0x20
  · rw [if_pos c2] at h; cases h
  rw [if_neg c2] at h
  by_cases c3 : u8 (c &&& 0xf0) = 0x30
  · rw [if_pos c3] at h
    by_cases c4 : sub8 c 0x30 ≤ 9
    · rw [if_pos c4] at h
      cases h
      split <;> omega
    · rw [if_neg c4] at h; cases h
  · rw [if_neg c3] at h; cases h

/-- The slot named by `parse_csi_index` is the one `xansi_parse_csi` writes:
for a digit the call returns and the parameter values differ from those before
in that slot only. -/
theorem parse_csi_index_spec (t : Term) (c j : Nat) (h : parse_csi_index t c = some j) :
    ∃ v t1, xansi_parse_csi t c = some t1 ∧ t1.td.csi_parms = arr_set t.td.csi_parms j v := by
  unfold parse_csi_index at h
  dsimp only at h
  unfold xansi_parse_csi
  dsimp only
  by_cases c1 : schar c ≤ 0x20 ∨ c = 0x7f
  · rw [if_pos c1] at h; cases h
  rw [if_neg c1] at h ⊢
  by_cases c2 : u8 (c &&& 0xf0) = 0x20
  · rw [if_pos c2] at h; cases h
  rw [if_neg c2] at h ⊢
  by_cases c3 : u8 (c &&& 0xf0) = 0x30
  · rw [if_pos c3] at h ⊢
    by_cases c4 : sub8 c 0x30 ≤ 9
    · rw [if_pos c4] at h ⊢
      cases h
      exact ⟨_, _, rfl, rfl⟩
    · rw [if_neg c4] at h; cases h
  · rw [if_neg c3] at h; cases h

/-- C40: in every state reachable from `xansiterm_init` by any byte sequence,
`csi_parms` has its 16 slots, `num_parms` is at most 16, and below 16 whenever
the state is CSI; and for that terminal as `xansiterm_putchar` hands it on
(any terminal `u` with the same `num_parms`): the slot `xansi_parse_csi` reads
and writes for a digit is below 16 (and is the slot the call writes), every
read of `csi_parms` by the SGR command is of a slot below 16, and every
look-ahead read (of `38;5;n`, `48;5;n` and the `68` sub-commands) is of a slot
below `num_parms`. -/
theorem C40_parameter_storage_in_bounds (t : Term) (hr : Reachable t) :
    t.td.csi_parms.length = 16 ∧ t.td.num_parms ≤ 16 ∧
    (t.td.state = TSTATE_CSI → t.td.num_parms < 16) ∧
    (∀ u : Term, u.td.num_parms = t.td.num_parms →
      (∀ c j, parse_csi_index u c = some j →
        j < 16 ∧ ∃ v t1, xansi_parse_csi u c = some t1 ∧
          t1.td.csi_parms = arr_set u.td.csi_parms j v) ∧
      (∀ p ∈ xansi_sgr_reads u, p.1 < 16 ∧ (p.2 = true → p.1 < t.td.num_parms))) := by
  obtain ⟨h1, h2, h3⟩ := reachable_inv t hr
  unfold MAX_CSI_PARMS at h1 h2 h3
  refine ⟨h1, h2, h3, ?_⟩
  intro u hu
  refine ⟨?_, ?_⟩
  · intro c j hj
    have hlt := parse_csi_index_lt u c j hj
    rw [hu] at hlt
    refine ⟨?_, parse_csi_index_spec u c j hj⟩
    split at hlt <;> omega
  · intro p hp
    have hlt := sgr_reads_lt u p hp
    rw [hu] at hlt
    refine ⟨?_, hlt.2⟩
    have := hlt.1
    split at this <;> omega

theorem demo_parsing_reachable : Reachable demo_parsing := by
  have hs : (boot (adapter 640 480)
      [0x1B, 0x5B, 0x31, 0x3B, 0x33, 0x38, 0x3B, 0x35, 0x3B, 0x39]).isSome = true := by
    decide!
  obtain ⟨v, hv⟩ := Option.isSome_iff_exists.mp hs
  have e : demo_parsing = v := by
    unfold demo_parsing; rw [hv]; rfl
  rw [e]
  exact boot_reachable _ _ v 80 30 (by decide) (by decide) (by decide!) hv

/-- C40 at a concrete input: the terminal after `ESC [ 1 ; 3 8 ; 5 ; 9`. -/
theorem C40_parameter_storage_in_bounds_witness :
    Reachable demo_parsing ∧
    demo_parsing.td.csi_parms.length = 16 ∧ demo_parsing.td.num_parms ≤ 16 ∧
    (demo_parsing.td.state = TSTATE_CSI → demo_parsing.td.num_parms < 16) ∧
    (∀ u : Term, u.td.num_parms = demo_parsing.td.num_parms →
      (∀ c j, parse_csi_index u c = some j →
        j < 16 ∧ ∃ v t1, xansi_parse_csi u c = some t1 ∧
          t1.td.csi_parms = arr_set u.td.csi_parms j v) ∧
      (∀ p ∈ xansi_sgr_reads u,
        p.1 < 16 ∧ (p.2 = true → p.1 < demo_parsing.td.num_parms))) :=
  ⟨demo_parsing_reachable, C40_parameter_storage_in_bounds demo_parsing demo_parsing_reachable⟩

/-- The traces at that input: the digit that follows goes to slot 3, and the
SGR command reads slots 0 and 1, then looks ahead at slots 2 and 3. -/
theorem demo_parsing_reads :
    (demo_parsing.td.state, demo_parsing.td.num_parms) = (TSTATE_CSI, 4) ∧
    parse_csi_index demo_parsing 0x37 = some 3 ∧
    xansi_sgr_reads demo_parsing = [(0, false), (1, false), (2, true), (3, true)] := by
  decide!

end Xansi
